import Mathlib

/-!
# xgps: transform operations and track segmentation

A shallow embedding of `gpsDiscard`, the keep command of `main`, `gpsSort` and
`gpsMerge` from `src/gpstool.c`, of `getGpTracks`, of the reader `readGpFile`
with the functions it calls and of the settings block and the Duration column
of `writeGpFile` from `src/gputil.c`, of the string helpers of
`src/mystring.c`, with the data model of `gputil.h` as it is used by
`gpstool.c`, `gputil.c` and `Gpsmodule.c`.

Conventions of the embedding:

* a C string is the list of its bytes before the terminating NUL
  (`CString`); a byte is a natural number, and a well formed string holds no
  byte `0`;
* an array with its element count (`waypt`/`nwaypts`, `route`/`nroutes`,
  `trkpt`/`ntrkpts`, `leg`/`npoints`) is a list, the count being its length;
* `int`, `long` and `time_t` values are integers; an `int` that the code
  computes from numbers written in a file (the route numbers and the shift of
  the time zone in `gpsMerge`, a value read with `%d`, a `long` cast to `int`)
  is held to 32 bits in two's complement by `castInt`, which is what the
  platform yields where C leaves signed overflow undefined; the counters of
  lines and of array elements, and the sums with them, stay in range; the
  `char` counter of the duplicate-ID loop is a byte, incremented modulo `256`;
* `double` and `float` values are rationals: the code copies and compares
  them, and computes with them only in the unit conversion of `gpsMerge` and
  in the speed and mean coordinate of `getGpTracks`; not-a-number and the
  infinities are not in the data model;
* the input of the reader is the list of the lines of the stream; the
  conversions of the C library (`strtod`, `strptime`, `mktime`) are
  parameters of the reader, `strtod` with the contract the proofs rely on: on
  a decimal numeral it returns the value rounded to a `double`, by a rounding
  that is monotone and exact on the integers up to `2^53`;
* where the C code would read an object it never wrote or hand a null pointer
  to the C library, the embedding answers `undef`; the fields of a line are
  texts of any length, the embedding describes the executions in which they
  fit the arrays of `MAX_FIELD_LENGTH` characters that hold them.
-/

namespace XGps

/-! ## Data model -/

/-- The bytes of a C string, terminating NUL excluded. -/
abbrev CString := List Nat

/-- Bytes of a Lean string literal, to write C strings readably. -/
def cstr (s : String) : CString := s.toList.map Char.toNat

/-- Structure `GpCoord`: latitude and longitude. -/
structure GpCoord where
  lat : Rat
  lon : Rat
deriving DecidableEq, Repr

/-- Structure `GpWaypt`. -/
structure GpWaypt where
  ID : CString
  coord : GpCoord
  symbol : CString
  textChoice : Nat
  textPlace : Int
  comment : CString
deriving DecidableEq, Repr

/-- Structure `GpRoute`; `npoints` is `leg.length`. A leg is an index into the
waypoint array of the file. -/
structure GpRoute where
  number : Int
  comment : CString
  leg : List Nat
deriving DecidableEq, Repr

/-- Structure `GpTrkpt`; `comment` is a null pointer unless the point starts a
segment. -/
structure GpTrkpt where
  coord : GpCoord
  dateTime : Int
  segFlag : Bool
  duration : Int
  dist : Rat
  speed : Rat
  comment : Option CString
deriving DecidableEq, Repr

/-- Structure `GpFile`; `nwaypts`, `nroutes` and `ntrkpts` are the lengths of
the three sequences. -/
structure GpFile where
  dateFormat : CString
  timeZone : Int
  unitHorz : Nat
  unitTime : Nat
  waypt : List GpWaypt
  route : List GpRoute
  trkpt : List GpTrkpt
deriving DecidableEq, Repr

/-- Count `nwaypts` as the `int` the code holds. -/
def GpFile.nwaypts (f : GpFile) : Int := f.waypt.length

/-- Count `nroutes` as the `int` the code holds. -/
def GpFile.nroutes (f : GpFile) : Int := f.route.length

/-- Count `ntrkpts` as the `int` the code holds. -/
def GpFile.ntrkpts (f : GpFile) : Int := f.trkpt.length

/-- The `errorCode` enumeration of `gpstool.c`. -/
inductive errorCode where
  | MISSING
  | EXTRA
  | COMPONENT
  | UNKNOWN
  | HELP
  | WRITE
  | EMPTYFILE
  | SORT
deriving DecidableEq, Repr

/-- Exit status `EXIT_SUCCESS`. -/
def EXIT_SUCCESS : Int := 0

/-- Exit status `EXIT_FAILURE`. -/
def EXIT_FAILURE : Int := 1

/-- What a command leaves behind: the value it returns, the error it reported
through `disperr` (if any) and the file model. -/
structure CmdResult where
  status : Int
  err : Option errorCode
  file : GpFile
deriving DecidableEq, Repr

/-! ## Machine integers -/

/-- The value of an `int`: the cast `(int)` of a `long`, and the result of
`int` arithmetic on the platform, is the value modulo `2^32` as a signed
32-bit integer. -/
def castInt (v : Int) : Int := (v + 2147483648) % 4294967296 - 2147483648

/-! ## String primitives -/

/-- The C library `strcmp` on the buffers `s, NUL` and `t, NUL`: the
difference of the first pair of bytes that differ, the comparison ending at a
NUL byte common to both. -/
def strcmp : CString → CString → Int
  | [], [] => 0
  | [], b :: _ => 0 - (b : Int)
  | a :: _, [] => (a : Int) - 0
  | a :: s, b :: t =>
    if a = b then (if a = 0 then 0 else strcmp s t) else (a : Int) - (b : Int)

/-- A well formed C string has no NUL byte inside. -/
def nulFree (s : CString) : Prop := ∀ b ∈ s, b ≠ 0

instance (s : CString) : Decidable (nulFree s) := by
  unfold nulFree; infer_instance

/-! ## gpsDiscard -/

/-- Byte of the letter `w`. -/
def chW : Nat := 119
/-- Byte of the letter `r`. -/
def chR : Nat := 114
/-- Byte of the letter `t`. -/
def chT : Nat := 116

/-- The scanning loop of `gpsDiscard` over `which`: the three local counters
`nwaypts`, `nroutes`, `ntrkpts`, set to `-1` for a named component; `none` when
a byte is none of `w`, `r`, `t` (the `disperr(COMPONENT)` return). -/
def discardScan : CString → Int × Int × Int → Option (Int × Int × Int)
  | [], s => some s
  | c :: cs, (nwaypts, nroutes, ntrkpts) =>
    if c = chW then discardScan cs (-1, -1, ntrkpts)
    else if c = chR then discardScan cs (nwaypts, -1, ntrkpts)
    else if c = chT then discardScan cs (nwaypts, nroutes, -1)
    else none

/-- Function `gpsDiscard` of `gpstool.c`. -/
def gpsDiscard (filep : GpFile) (which : CString) : CmdResult :=
  match discardScan which (filep.nwaypts, filep.nroutes, filep.ntrkpts) with
  | none => ⟨EXIT_FAILURE, some errorCode.COMPONENT, filep⟩
  | some (nwaypts, nroutes, ntrkpts) =>
    if nwaypts ≤ 0 ∧ nroutes ≤ 0 ∧ ntrkpts ≤ 0 then
      ⟨EXIT_SUCCESS, some errorCode.EMPTYFILE, filep⟩
    else
      let f1 : GpFile := if nwaypts = -1 then { filep with waypt := [] } else filep
      let f2 : GpFile := if nroutes = -1 then { f1 with route := [] } else f1
      let f3 : GpFile := if ntrkpts = -1 then { f2 with trkpt := [] } else f2
      ⟨EXIT_SUCCESS, none, f3⟩

/-! ## The keep command of `main` -/

/-- The loop of `case 'k'` over `buf`: `components` starts at `0x7` and loses
the bits of the kept components (`~0x4`, `~0x6`, `~0x1` on a `char`); `none`
when a byte is none of `w`, `r`, `t`. -/
def keepScan : CString → Nat → Option Nat
  | [], components => some components
  | c :: cs, components =>
    if c = chW then keepScan cs (components &&& (0xFF ^^^ 0x4))
    else if c = chR then keepScan cs (components &&& (0xFF ^^^ 0x6))
    else if c = chT then keepScan cs (components &&& (0xFF ^^^ 0x1))
    else none

/-- The string `main` writes back into `buf` from the bits of `components`. -/
def keepBuf (components : Nat) : CString :=
  (if components &&& 0x4 = 0x4 then [chW] else []) ++
  (if components &&& 0x2 = 0x2 then [chR] else []) ++
  (if components &&& 0x1 = 0x1 then [chT] else [])

/-- The keep command: `case 'k'` of `main`, falling through to `case 'd'`. -/
def keepCommand (filep : GpFile) (buf : CString) : CmdResult :=
  match keepScan buf 0x7 with
  | none => ⟨EXIT_FAILURE, some errorCode.COMPONENT, filep⟩
  | some components => gpsDiscard filep (keepBuf components)

/-! ## gpsSort -/

/-- Comparison function `compGpWaypt` given to `qsort`. -/
def compGpWaypt (wp1 wp2 : GpWaypt) : Int := strcmp wp1.ID wp2.ID

/-- What the C standard requires of a comparison function handed to `qsort`:
the signs of `cmp a b` and `cmp b a` are opposite and the order is
transitive. -/
structure ConsistentCmp (cmp : GpWaypt → GpWaypt → Int) : Prop where
  flip : ∀ a b, cmp a b < 0 ↔ 0 < cmp b a
  trans : ∀ a b c, cmp a b ≤ 0 → cmp b c ≤ 0 → cmp a c ≤ 0

/-- The C library `qsort` on the waypoint array, by its contract in the C
standard: the array is rearranged (a permutation) and, for a consistent
comparison function, ends in ascending order; the order of elements that
compare equal is unspecified, so every function with this contract is a
possible `qsort`. -/
structure Qsort where
  run : (GpWaypt → GpWaypt → Int) → List GpWaypt → List GpWaypt
  perm : ∀ cmp l, (run cmp l).Perm l
  sorted : ∀ cmp l, ConsistentCmp cmp → (run cmp l).Pairwise (fun a b => cmp a b ≤ 0)

/-- Insertion of one element into a sorted list, for `insertionSortBy`. -/
def insertBy (cmp : GpWaypt → GpWaypt → Int) (a : GpWaypt) : List GpWaypt → List GpWaypt
  | [] => [a]
  | b :: l => if cmp a b ≤ 0 then a :: b :: l else b :: insertBy cmp a l

/-- Insertion sort, one concrete `qsort`. -/
def insertionSortBy (cmp : GpWaypt → GpWaypt → Int) : List GpWaypt → List GpWaypt
  | [] => []
  | a :: l => insertBy cmp a (insertionSortBy cmp l)

/-- The inner `k` loop of `gpsSort`: the index of the first waypoint whose ID
compares equal to `legID`, counting from `k`. -/
def findID (legID : CString) : List GpWaypt → Nat → Option Nat
  | [], _ => none
  | w :: ws, k => if strcmp legID w.ID = 0 then some k else findID legID ws (k + 1)

/-- The first loop of `gpsSort` for one route: `legIDs[i][j]`, the ID of the
waypoint each leg designates. A leg outside the waypoint array is an out of
bounds read in C; the embedding records no ID for it. -/
def legIDsOf (waypt : List GpWaypt) (rp : GpRoute) : List (Option CString) :=
  rp.leg.map (fun l => (waypt[l]?).map GpWaypt.ID)

/-- The last loop of `gpsSort` for one leg: the leg becomes the first index
whose ID matches and stays as it is when the `k` loop ends without a match. -/
def resolveLeg (waypt : List GpWaypt) (leg : Nat) (legID : Option CString) : Nat :=
  match legID with
  | none => leg
  | some id => (findID id waypt 0).getD leg

/-- Function `gpsSort` of `gpstool.c`, over a `qsort`. -/
def gpsSort (q : Qsort) (filep : GpFile) : CmdResult :=
  let legIDs := filep.route.map (legIDsOf filep.waypt)
  let waypt := q.run compGpWaypt filep.waypt
  let route := List.zipWith
    (fun rp ids => { rp with leg := List.zipWith (resolveLeg waypt) rp.leg ids })
    filep.route legIDs
  ⟨EXIT_SUCCESS, none, { filep with waypt := waypt, route := route }⟩

/-! ## gpsMerge -/

/-- Why a run of `gpsMerge` has no result: `emptyID` is the write to
`ID[strlen(ID) - 1]` of an empty ID (outside the buffer, undefined in C);
`fuel` is the step budget of the embedding running out. -/
inductive Fault where
  | emptyID
  | fuel
deriving DecidableEq, Repr

/-- Outcome of the duplicate-ID loop and of `gpsMerge`. -/
inductive Outcome (α : Type) where
  | ok (a : α)
  | fault (e : Fault)
deriving DecidableEq, Repr

/-- The first loop over the routes of file B: every leg is increased by
`filep->nwaypts`. -/
def offsetLegs (nwaypts : Nat) (routes : List GpRoute) : List GpRoute :=
  routes.map (fun rp => { rp with leg := rp.leg.map (fun l => l + nwaypts) })

/-- The second loop: `b_start` becomes the least route number of file B when
that is below `1000`. -/
def bStartMin (routesB : List GpRoute) (b_start : Int) : Int :=
  routesB.foldl (fun b rp => if rp.number < b then rp.number else b) b_start

/-- The third loop, over the routes of file A: `b_start` is moved into the
hundred-block after `block` whenever `b_start <= block`. C division and
remainder truncate towards zero; `b_start` is an `int`, and so is the value of
`(b_start % 100) + ((block/100) + 1) * 100`. -/
def bStartBlock (routesA : List GpRoute) (b_start : Int) : Int :=
  routesA.foldl
    (fun b rp =>
      if b ≤ rp.number then castInt (Int.tmod b 100 + (Int.tdiv rp.number 100 + 1) * 100)
      else b)
    b_start

/-- The fourth loop: the routes of file B are numbered `b_start++`, an `int`
increment. -/
def renumber : List GpRoute → Int → List GpRoute
  | [], _ => []
  | rp :: rps, b_start => { rp with number := b_start } :: renumber rps (castInt (b_start + 1))

/-- The route block of `gpsMerge` (`if (filepB.nroutes > 0)`). -/
def mergeRoutes (filep filepB : GpFile) : List GpRoute :=
  if filepB.nroutes > 0 then
    let routesB := offsetLegs filep.waypt.length filepB.route
    let b_start := bStartBlock filep.route (bStartMin routesB 1000)
    filep.route ++ renumber routesB b_start
  else filep.route

/-- The running maximum of `strlen` of one field over the combined array. -/
def maxLen (field : GpWaypt → CString) (waypt : List GpWaypt) : Nat :=
  waypt.foldl (fun m w => if (field w).length > m then (field w).length else m) 0

/-- The call `sprintf(dst, "%-*s", len, buf)`: left-justified, padded with
spaces up to the width `len`. -/
def padTo (len : Nat) (s : CString) : CString := s ++ List.replicate (len - s.length) 32

/-- The resize loop: ID and symbol of every waypoint are padded. -/
def padWaypts (id_len sym_len : Nat) (waypt : List GpWaypt) : List GpWaypt :=
  waypt.map (fun w => { w with ID := padTo id_len w.ID, symbol := padTo sym_len w.symbol })

/-- Read of `filep->waypt[k].ID`. -/
def idAt : List GpWaypt → Nat → CString
  | [], _ => []
  | w :: _, 0 => w.ID
  | _ :: ws, k + 1 => idAt ws k

/-- Write of `filep->waypt[k].ID`. -/
def setIdAt : List GpWaypt → Nat → CString → List GpWaypt
  | [], _, _ => []
  | w :: ws, 0, s => { w with ID := s } :: ws
  | w :: ws, k + 1, s => w :: setIdAt ws k s

/-- The assignment `ID[strlen(ID) - 1] = n`: on an empty ID the index is out
of the buffer (`none`); a NUL byte written over the last character ends the
string one character earlier; any other byte replaces the last character. -/
def putLast (s : CString) (n : Nat) : Option CString :=
  if s = [] then none
  else if n = 0 then some s.dropLast
  else some (s.dropLast ++ [n])

/-- The inner `j` loop of the duplicate-ID block for waypoint `i`, one loop
iteration per unit of fuel: `j` is the loop variable, `n` the `char` counter.
After a rewrite the body sets `j = 0` and the loop increment makes it `1`. -/
def dedupInner (i total : Nat) : Nat → Nat → Nat → List GpWaypt → Outcome (List GpWaypt)
  | 0, _, _, _ => Outcome.fault Fault.fuel
  | fuel + 1, j, n, waypt =>
    if j < total then
      if i = j then dedupInner i total fuel (j + 1) n waypt
      else if strcmp (idAt waypt i) (idAt waypt j) = 0 then
        match putLast (idAt waypt i) n with
        | none => Outcome.fault Fault.emptyID
        | some s => dedupInner i total fuel (0 + 1) ((n + 1) % 256) (setIdAt waypt i s)
      else dedupInner i total fuel (j + 1) n waypt
    else Outcome.ok waypt

/-- The outer `i` loop of the duplicate-ID block over the appended waypoints,
`n` starting at the byte of `0` for each. -/
def dedupOuter (fuel total : Nat) : List Nat → List GpWaypt → Outcome (List GpWaypt)
  | [], waypt => Outcome.ok waypt
  | i :: is, waypt =>
    match dedupInner i total fuel 0 48 waypt with
    | Outcome.ok waypt1 => dedupOuter fuel total is waypt1
    | Outcome.fault e => Outcome.fault e

/-- Step budget given to each run of the inner loop: every rewrite either
raises the counter `n` towards its wrap or shortens the ID, and at most `total`
iterations separate two rewrites. -/
def dedupFuel (id_len total : Nat) : Nat := (id_len + 1) * 256 * (total + 1)

/-- The waypoint block of `gpsMerge` (`if (filepB.nwaypts > 0)`). -/
def mergeWaypts (filep filepB : GpFile) : Outcome (List GpWaypt) :=
  if filepB.nwaypts > 0 then
    let all := filep.waypt ++ filepB.waypt
    let id_len := maxLen GpWaypt.ID all
    let sym_len := maxLen GpWaypt.symbol all
    let padded := padWaypts id_len sym_len all
    dedupOuter (dedupFuel id_len all.length) all.length
      (List.range' filep.waypt.length filepB.waypt.length) padded
  else Outcome.ok filep.waypt

/-- The first `switch` of the unit conversion: the factor from the unit of
file B to nautical miles (`case 'K'` falls through to `'M'`, `'S'` to `'F'`). -/
def factToNm (unitHorz : Nat) (dist_fact : Rat) : Rat :=
  if unitHorz = 75 then dist_fact * 1000 / 1852
  else if unitHorz = 77 then dist_fact / 1852
  else if unitHorz = 83 then dist_fact * 5280 / (2315000 / 381)
  else if unitHorz = 70 then dist_fact / (2315000 / 381)
  else dist_fact

/-- The second `switch`: the factor from nautical miles to the unit of file
A. -/
def factFromNm (unitHorz : Nat) (dist_fact : Rat) : Rat :=
  if unitHorz = 75 then dist_fact / 1000 * 1852
  else if unitHorz = 77 then dist_fact * 1852
  else if unitHorz = 83 then dist_fact / 5280 * (2315000 / 381)
  else if unitHorz = 70 then dist_fact * (2315000 / 381)
  else dist_fact

/-- The trackpoint block of `gpsMerge` (`if (filepB.ntrkpts > 0)`). The
difference `dif` of the time zones is an `int` and so is the product
`dif * 3600` that is added to the `time_t` of each trackpoint. -/
def mergeTrkpts (filep filepB : GpFile) : List GpTrkpt :=
  if filepB.ntrkpts > 0 then
    let shifted :=
      if filepB.timeZone ≠ filep.timeZone then
        filepB.trkpt.map (fun tp =>
          { tp with dateTime :=
              tp.dateTime + castInt (castInt (filep.timeZone - filepB.timeZone) * 3600) })
      else filepB.trkpt
    let converted :=
      if filepB.unitHorz ≠ filep.unitHorz then
        let dist_fact := factFromNm filep.unitHorz (factToNm filepB.unitHorz 1)
        let speed_fact1 := if filepB.unitTime = 72 then dist_fact / 3600 else dist_fact
        let speed_fact := if filep.unitTime = 72 then speed_fact1 * 3600 else speed_fact1
        shifted.map (fun tp =>
          { tp with dist := tp.dist * dist_fact, speed := tp.speed * speed_fact })
      else shifted
    filep.trkpt ++ converted
  else filep.trkpt

/-- Function `gpsMerge` of `gpstool.c` once file B has been read: the route,
waypoint and trackpoint blocks in the order of the source. -/
def gpsMerge (filep filepB : GpFile) : Outcome GpFile :=
  let route := mergeRoutes filep filepB
  match mergeWaypts filep filepB with
  | Outcome.fault e => Outcome.fault e
  | Outcome.ok waypt =>
    Outcome.ok { filep with route := route, waypt := waypt, trkpt := mergeTrkpts filep filepB }

/-! ## getGpTracks -/

/-- Structure `GpTrack`. The fields written when a track is closed are `none`
until the code assigns them: `realloc` leaves a new element indeterminate. -/
structure GpTrack where
  seqno : Int
  startTrk : Int
  endTrk : Option Int
  duration : Option Int
  dist : Option Rat
  speed : Option Rat
  meanCoord : Option GpCoord
  NEcorner : Option GpCoord
  SWcorner : Option GpCoord
deriving DecidableEq, Repr

/-- The four comparisons that widen the running corners `NE`, `SW` by the
coordinate of the current point. -/
def growBox (NE SW c : GpCoord) : GpCoord × GpCoord :=
  let NE1 : GpCoord := if c.lat > NE.lat then { NE with lat := c.lat } else NE
  let SW1 : GpCoord := if c.lat < SW.lat then { SW with lat := c.lat } else SW
  let NE2 : GpCoord := if c.lon > NE1.lon then { NE1 with lon := c.lon } else NE1
  let SW2 : GpCoord := if c.lon < SW1.lon then { SW1 with lon := c.lon } else SW1
  (NE2, SW2)

/-- The assignments of the `end of segment` block to one track, from the
closing point `prev_tp` and the running corners. The speed is the quotient of
the distance by the duration; for a duration of zero the code stores an
infinity or a not-a-number, which the rationals do not have (the quotient is
`0` here), and what is proved of the speed is proved for a duration other than
zero. -/
def closeTrack (unitTime : Nat) (prev_tp : GpTrkpt) (NE SW : GpCoord) (t : GpTrack) : GpTrack :=
  { t with
    endTrk := some prev_tp.dateTime
    duration := some prev_tp.duration
    dist := some prev_tp.dist
    speed := some (if unitTime = 72 then prev_tp.dist / (prev_tp.duration : Rat) * 3600
                   else prev_tp.dist / (prev_tp.duration : Rat))
    meanCoord := some ⟨(NE.lat + SW.lat) / 2, (NE.lon + SW.lon) / 2⟩
    NEcorner := some NE
    SWcorner := some SW }

/-- The `end of segment` block writes through `*tp + n_tracks - 1`, the last
track; with no track yet that is index `-1` of a null array (`none`). -/
def closeLast (unitTime : Nat) (prev_tp : GpTrkpt) (NE SW : GpCoord) :
    List GpTrack → Option (List GpTrack)
  | [] => none
  | [t] => some [closeTrack unitTime prev_tp NE SW t]
  | t :: t1 :: ts => (closeLast unitTime prev_tp NE SW (t1 :: ts)).map (fun l => t :: l)

/-- The `start of new segment` block: the new last track, `seqno` and
`startTrk` assigned. -/
def openTrack (i : Int) (cur_tp : GpTrkpt) : GpTrack :=
  ⟨i + 1, cur_tp.dateTime, none, none, none, none, none, none, none⟩

/-- The loop of `getGpTracks` from index `i` on: the list holds `trkpt[i]`
and the points after it, `before` is `trkpt[i - 1]` (absent at `i = 0`), `tp`
the tracks so far (`n_tracks` is its length), `NE` and `SW` the running
corners. `none` is an access outside an array. -/
def tracksLoop (unitTime : Nat) (ntrkpts : Int) :
    List GpTrkpt → Int → Option GpTrkpt → List GpTrack → GpCoord → GpCoord →
    Option (List GpTrack)
  | [], _, _, tp, _, _ => some tp
  | cur_tp :: rest, i, before, tp, NE, SW =>
    let box : GpCoord × GpCoord :=
      if cur_tp.segFlag = false ∨ tp.length = 0 then growBox NE SW cur_tp.coord else (NE, SW)
    let closed : Option (List GpTrack) :=
      if (cur_tp.segFlag = true ∧ tp.length > 0) ∨ i = ntrkpts - 1 then
        match (if cur_tp.segFlag = true then before else some cur_tp) with
        | none => none
        | some prev_tp => closeLast unitTime prev_tp box.1 box.2 tp
      else some tp
    match closed with
    | none => none
    | some tp1 =>
      if cur_tp.segFlag = true then
        tracksLoop unitTime ntrkpts rest (i + 1) (some cur_tp)
          (tp1 ++ [openTrack i cur_tp]) cur_tp.coord cur_tp.coord
      else
        tracksLoop unitTime ntrkpts rest (i + 1) (some cur_tp) tp1 box.1 box.2

/-- Function `getGpTracks` of `gputil.c`: the track array (`n_tracks` is its
length), or `none` when the code accesses track or trackpoint index `-1`. -/
def getGpTracks (filep : GpFile) : Option (List GpTrack) :=
  tracksLoop filep.unitTime filep.ntrkpts filep.trkpt 0 none [] ⟨-91, -181⟩ ⟨91, 181⟩

/-! ## The Duration column: `writeGpFile` and `scanGpTrkpt` -/

/-- The `GpError` codes of `gputil.h`, in the order of the table `codes` of
`gpstool.h`. -/
inductive GpError where
  | OK
  | IOERR
  | UNKREC
  | BADSEP
  | FILTYP
  | DATUM
  | COORD
  | NOFORM
  | FIELD
  | VALUE
  | DUPRT
  | UNKWPT
deriving DecidableEq, Repr

deriving instance DecidableEq for Except

/-- The decimal digits of a natural number, as bytes. -/
def decDigits (n : Nat) : CString := (Nat.toDigits 10 n).map Char.toNat

/-- The conversion `%02d` of `printf`: at least two characters, padded with
zeros on the left, the sign of a negative value counting as one. -/
def fmt02d (v : Int) : CString :=
  if v < 0 then 45 :: decDigits v.natAbs
  else if v < 10 then 48 :: decDigits v.natAbs
  else decDigits v.natAbs

/-- The duration text of a trackpoint line in `writeGpFile`:
`"%02d:%02d:%02d"` of `(int)duration / 3600 % 60`, `(int)duration / 60 % 60`
and `(int)duration % 60`, with the truncating division of C. -/
def writeDuration (duration : Int) : CString :=
  fmt02d (Int.tmod (Int.tdiv (castInt duration) 3600) 60) ++ [58] ++
  fmt02d (Int.tmod (Int.tdiv (castInt duration) 60) 60) ++ [58] ++
  fmt02d (Int.tmod (castInt duration) 60)

/-- White space for `sscanf`: space, tab, newline, vertical tab, form feed,
carriage return. -/
def isSpaceByte (c : Nat) : Bool := c = 32 || (9 ≤ c && c ≤ 13)

/-- A decimal digit. -/
def isDigitByte (c : Nat) : Bool := 48 ≤ c && c ≤ 57

/-- The conversion `%d` of `sscanf`: white space is skipped, then an optional
sign and at least one digit are read; the value and the rest of the input, or
`none` when no digit is found. The number is converted as by `strtol`, held to
the range of `long`, and stored in an `int`: a number outside the range of
`int`, undefined in C, leaves its low 32 bits, as the C library of the platform
does. -/
def scanD (s : CString) : Option (Int × CString) :=
  let s1 := s.dropWhile isSpaceByte
  let neg : Bool := s1.head? = some 45
  let s2 := if s1.head? = some 45 ∨ s1.head? = some 43 then s1.tail else s1
  let ds := s2.takeWhile isDigitByte
  if ds = [] then none
  else
    let v : Int := ds.foldl (fun a c => 10 * a + ((c : Int) - 48)) 0
    let w : Int := if neg then -v else v
    some (castInt (max (-9223372036854775808) (min w 9223372036854775807)),
      s2.dropWhile isDigitByte)

/-- The call `sscanf(field, "%d:%d:%d", &h, &m, &s)`: the three values when it
returns 3, `none` otherwise. -/
def sscanfHMS (field : CString) : Option (Int × Int × Int) :=
  match scanD field with
  | none => none
  | some (h, r1) =>
    match r1 with
    | 58 :: r2 =>
      match scanD r2 with
      | none => none
      | some (m, r3) =>
        match r3 with
        | 58 :: r4 =>
          match scanD r4 with
          | none => none
          | some (sec, _) => some (h, m, sec)
        | _ => none
    | _ => none

/-- The `DUR` branch of `scanGpTrkpt`: the duration decoded from a field of
the form `H:M:S`, or the error `VALUE`. -/
def scanDuration (field : CString) : Except GpError Int :=
  match sscanfHMS field with
  | none => Except.error GpError.VALUE
  | some (h, m, sec) =>
    if h ≥ 24 ∨ h < 0 then Except.error GpError.VALUE
    else if m ≥ 60 ∨ m < 0 then Except.error GpError.VALUE
    else if sec ≥ 60 ∨ sec < 0 then Except.error GpError.VALUE
    else Except.ok (h * 60 * 60 + m * 60 + sec)

/-! ## The reader: text primitives of `mystring.c` and of the C library -/

/-- The outcome of a decoding step: a value, an error code of `gputil.h`, or
`undef` where the C code reads an object that was never written or passes a
null pointer to the C library. -/
inductive Parse (α : Type) where
  | ok (a : α)
  | err (e : GpError)
  | undef
deriving DecidableEq, Repr

/-- The macro `SPACE` of `gputil.c`: space and tab. -/
def SPACE : CString := [32, 9]

/-- The character at a pointer into a string: the byte there, the terminating
NUL at the end. -/
def peek (s : CString) : Nat := s.headD 0

/-- The array `buf` of `readGpFile` as the bytes it holds from its start on,
NUL bytes included; beyond the bytes listed the array holds the zeros that
`memset` wrote. -/
abbrev Buffer := List Nat

/-- The byte `buf[pos]`. -/
def byteAt (buf : Buffer) (pos : Nat) : Nat := buf.getD pos 0

/-- The C string at `buf + pos`: the bytes from there up to the next NUL. -/
def strAt (buf : Buffer) (pos : Nat) : CString :=
  (buf.drop pos).takeWhile (fun c => decide (c ≠ 0))

/-- Function `chrset` of `mystring.c`: is `c` one of the characters of `set`.
The loop runs over the characters before the NUL of `set`. -/
def chrset (c : Nat) (set : CString) : Bool := decide (c ∈ set)

/-- The C library `strspn`: the length of the leading run of characters that
are in `set`. -/
def strspn (s set : CString) : Nat := (s.takeWhile (fun c => decide (c ∈ set))).length

/-- The C library `strcspn`: the length of the leading run of characters that
are not in `set`. -/
def strcspn (s set : CString) : Nat := (s.takeWhile (fun c => !decide (c ∈ set))).length

/-- The C library `tolower` in the C locale. -/
def tolower (c : Nat) : Nat := if 65 ≤ c ∧ c ≤ 90 then c + 32 else c

/-- Function `str_tolower` of `mystring.c`. -/
def str_tolower (str : CString) : CString := str.map tolower

/-- Function `strcmp_ic` of `mystring.c`: `strcmp` of the lower-cased copies. -/
def strcmp_ic (str1 str2 : CString) : Int := strcmp (str_tolower str1) (str_tolower str2)

/-- Function `strstr_ic` of `mystring.c`, as the test `!= NULL` of its result:
the lower-cased `str2` occurs in the lower-cased `str1`. -/
def strstr_ic (str1 str2 : CString) : Bool :=
  (str_tolower str1).tails.any (fun t => (str_tolower str2).isPrefixOf t)

/-- Function `strbeg_ic` of `mystring.c`: `str1` is at least as long as `str2`
and agrees with it, ignoring case, on the length of `str2`. -/
def strbeg_ic (str1 str2 : CString) : Bool :=
  if str1.length < str2.length then false
  else (List.range str2.length).all (fun i => tolower (str1.getD i 0) = tolower (str2.getD i 0))

/-- One call of the C library `strtok` on the text `s` that is still to be
scanned: leading delimiters are skipped; `none` (a null pointer) when nothing
is left, else the token and the text after the delimiter that ended it. -/
def strtok (delim s : CString) : Option (CString × CString) :=
  let s1 := s.drop (strspn s delim)
  if s1 = [] then none
  else some (s1.take (strcspn s1 delim), (s1.drop (strcspn s1 delim)).tail)

/-- All the tokens that `strtok(str, delim)` followed by `strtok(NULL, delim)`
until the null pointer return: the maximal runs of characters not in `delim`;
`cur` is the token being read. -/
def strtokAll (delim : CString) : CString → CString → List CString
  | [], cur => if cur = [] then [] else [cur]
  | c :: cs, cur =>
    if c ∈ delim then (if cur = [] then strtokAll delim cs [] else cur :: strtokAll delim cs [])
    else strtokAll delim cs (cur ++ [c])

/-- Function `str_count_toks` of `mystring.c`. -/
def str_count_toks (str delim : CString) : Int := (strtokAll delim str []).length

/-- The C library `strtol` in base 10 on a 64-bit `long`: white space is
skipped, then an optional sign and the digits are read; the value, held to the
range of `long`, and the text at the end pointer. Without a digit the value is
`0` and the end pointer is the start. -/
def strtol (s : CString) : Int × CString :=
  let s1 := s.dropWhile isSpaceByte
  let neg : Bool := s1.head? = some 45
  let s2 := if s1.head? = some 45 ∨ s1.head? = some 43 then s1.tail else s1
  let ds := s2.takeWhile isDigitByte
  if ds = [] then (0, s)
  else
    let v : Int := ds.foldl (fun a c => 10 * a + ((c : Int) - 48)) 0
    let w : Int := if neg then -v else v
    (max (-9223372036854775808) (min w 9223372036854775807), s2.dropWhile isDigitByte)

/-- The broken-down time `struct tm` of the C library. -/
structure Tm where
  tm_sec : Int
  tm_min : Int
  tm_hour : Int
  tm_mday : Int
  tm_mon : Int
  tm_year : Int
  tm_isdst : Int
deriving DecidableEq, Repr

/-- The natural number written by a run of decimal digits. -/
def digitsValue (ds : CString) : Nat := ds.foldl (fun a c => 10 * a + (c - 48)) 0

/-- The number written by the decimal numeral `ip.fp`. -/
def decimalValue (ip fp : CString) : Rat :=
  (digitsValue ip : Rat) + (digitsValue fp : Rat) / (10 : Rat) ^ fp.length

/-- The functions of the C library that turn text into numbers and times, as
the reader uses them. `toDouble` is the rounding of a real number to the
`double` that stands for it: it is monotone and leaves the integers up to
`2^53` as they are (a number beyond the largest `double` is rounded to a value
above every `double`, the data model having no infinity). `strtod` gives the
value and the text at the end pointer; it is known through what the C standard
promises for a plain decimal numeral with an optional sign: the whole text is
converted, to the rounded value of the number it writes, with its sign. What
`strtod` makes of any other text (an exponent, a hexadecimal number) is not
fixed here; its value is a number in every case, so that a text which the C
library converts to a not-a-number (`nan`) has no counterpart in the
embedding. `strptime` gives the broken-down time and the text at its
result, or `none` for a null pointer; `mktime` gives the timestamp, `-1` for a
failure. -/
structure Libc where
  toDouble : Rat → Rat
  strtod : CString → Rat × CString
  strptime : CString → CString → Option (Tm × CString)
  mktime : Tm → Int
  toDouble_mono : ∀ a b : Rat, a ≤ b → toDouble a ≤ toDouble b
  toDouble_int : ∀ n : Int, -9007199254740992 ≤ n → n ≤ 9007199254740992 →
    toDouble (n : Rat) = (n : Rat)
  strtod_decimal : ∀ (sign ip fp : CString), (sign = [] ∨ sign = [43] ∨ sign = [45]) →
    ip ≠ [] → (∀ c ∈ ip, isDigitByte c = true) → (∀ c ∈ fp, isDigitByte c = true) →
    strtod (sign ++ ip ++ 46 :: fp) =
      ((if sign = [45] then -1 else 1) * toDouble (decimalValue ip fp), [])
  strtod_integer : ∀ (sign ip : CString), (sign = [] ∨ sign = [43] ∨ sign = [45]) →
    ip ≠ [] → (∀ c ∈ ip, isDigitByte c = true) →
    strtod (sign ++ ip) =
      ((if sign = [45] then -1 else 1) * toDouble (digitsValue ip : Rat), [])

/-! ## The reader: column definitions and columns of a line -/

/-- The enumeration `GpFieldType` of `gputil.c`: the column types of an F
line. -/
inductive GpFieldType where
  | ID
  | LAT
  | LON
  | ALT
  | SYM
  | TXCHO
  | TXPLA
  | COMMENT
  | DATE
  | TIME
  | SEGFLAG
  | DUR
  | SECONDS
  | DIST
  | SPEED
  | OTHER
deriving DecidableEq, Repr

/-- Structure `GpFieldHeader`: the type of a column and its width, `0` for a
width that is not set and `-1` for the rest of the line. -/
structure GpFieldHeader where
  type : GpFieldType
  len : Int
deriving DecidableEq, Repr

/-- The chain of tests in the loop of `parseGpFieldDef`: type and width of the
column named by the token `p`. -/
def fieldHeader (p : CString) : GpFieldHeader :=
  if strbeg_ic p (cstr "ID") = true then ⟨GpFieldType.ID, p.length⟩
  else if strcmp_ic p (cstr "Latitude") = 0 then ⟨GpFieldType.LAT, 0⟩
  else if strcmp_ic p (cstr "Longitude") = 0 then ⟨GpFieldType.LON, 0⟩
  else if strbeg_ic p (cstr "Alt") = true then ⟨GpFieldType.ALT, 0⟩
  else if strbeg_ic p (cstr "Symbol") = true then ⟨GpFieldType.SYM, p.length⟩
  else if strcmp_ic p (cstr "T") = 0 then ⟨GpFieldType.TXCHO, 1⟩
  else if strcmp_ic p (cstr "O") = 0 then ⟨GpFieldType.TXPLA, 0⟩
  else if strcmp_ic p (cstr "Comment") = 0 then ⟨GpFieldType.COMMENT, -1⟩
  else if strcmp_ic p (cstr "Date") = 0 then ⟨GpFieldType.DATE, 0⟩
  else if strcmp_ic p (cstr "Time") = 0 then ⟨GpFieldType.TIME, 0⟩
  else if strcmp_ic p (cstr "S") = 0 then ⟨GpFieldType.SEGFLAG, 1⟩
  else if strcmp_ic p (cstr "Duration") = 0 then ⟨GpFieldType.DUR, 0⟩
  else if strcmp_ic p (cstr "seconds") = 0 then ⟨GpFieldType.SECONDS, 0⟩
  else if strcmp_ic p (cstr "km") = 0 ∨ strcmp_ic p (cstr "m") = 0 ∨
      strcmp_ic p (cstr "miles") = 0 ∨ strcmp_ic p (cstr "ft") = 0 ∨
      strcmp_ic p (cstr "nm") = 0 then ⟨GpFieldType.DIST, 0⟩
  else if strcmp_ic p (cstr "km/h") = 0 ∨ strcmp_ic p (cstr "m/s") = 0 ∨
      strcmp_ic p (cstr "mph") = 0 ∨ strcmp_ic p (cstr "ft/s") = 0 ∨
      strcmp_ic p (cstr "knots") = 0 then ⟨GpFieldType.SPEED, 0⟩
  else ⟨GpFieldType.OTHER, 0⟩

/-- The loop of `parseGpFieldDef` over the tokens that follow the first one:
`head` holds the columns read so far. An altitude column ends its turn with
`continue`; every other column is compared with the columns before it and a
column type met twice is the error `FIELD`. -/
def parseGpFieldDefLoop : List CString → List GpFieldHeader → Parse (List GpFieldHeader)
  | [], head => Parse.ok head
  | p :: ps, head =>
    if (fieldHeader p).type = GpFieldType.ALT then
      parseGpFieldDefLoop ps (head ++ [fieldHeader p])
    else if head.any (fun g => decide (g.type = (fieldHeader p).type)) = true then
      Parse.err GpError.FIELD
    else parseGpFieldDefLoop ps (head ++ [fieldHeader p])

/-- Function `parseGpFieldDef` of `gputil.c`: the first token of the F line
(its tag) is dropped, the others name the columns. -/
def parseGpFieldDef (fieldDef : CString) : Parse (List GpFieldHeader) :=
  parseGpFieldDefLoop (strtokAll SPACE fieldDef []).tail []

/-- The conversion `"%-*.*s"` of `sprintf` with width and precision `len`: the
first `len` characters of the text, padded with spaces on the right to the
width `len`. -/
def fmtField (len : Nat) (start : CString) : CString :=
  start.take len ++ List.replicate (len - (start.take len).length) 32

/-- The loop of `parseGpLine`: `pos` is the offset of the pointer `start` in
`buf` (the pointer can pass the NUL that ends the line, and the bytes read
there are those the array holds), `results` the fields written so far. A
segment flag `1` returns at once, the fields of the later columns are not
written. After the last column only spaces and tabs may remain before the end
of the line. -/
def parseGpLineLoop (buf : Buffer) :
    List GpFieldHeader → Nat → List CString → Parse (List CString)
  | [], pos, results =>
    if (strAt buf 0).length > pos + strspn (strAt buf pos) SPACE then Parse.err GpError.FIELD
    else Parse.ok results
  | h :: hs, pos, results =>
    if h.type ≠ GpFieldType.COMMENT ∧ chrset (byteAt buf pos) SPACE = false then
      Parse.err GpError.FIELD
    else
      let pos1 := pos + strspn (strAt buf pos) SPACE
      if h.type = GpFieldType.SEGFLAG then
        if byteAt buf (pos1 + 1) ≠ 0 ∧ chrset (byteAt buf (pos1 + 1)) SPACE = false then
          Parse.err GpError.VALUE
        else if byteAt buf pos1 = 49 then Parse.ok (results ++ [strAt buf (pos1 + 2)])
        else if byteAt buf pos1 = 48 then
          parseGpLineLoop buf hs (pos1 + 1) (results ++ [fmtField 1 (strAt buf pos1)])
        else Parse.err GpError.VALUE
      else
        let len : Nat :=
          if h.len = 0 then strcspn (strAt buf pos1) SPACE
          else if h.len = -1 then (strAt buf pos1).length
          else h.len.toNat
        parseGpLineLoop buf hs (pos1 + len) (results ++ [fmtField len (strAt buf pos1)])

/-- Function `parseGpLine` of `gputil.c`: the columns are read from the second
character of the line on. Fields are texts of any length (the code holds them
in arrays of `MAX_FIELD_LENGTH` characters). -/
def parseGpLine (buf : Buffer) (head : List GpFieldHeader) : Parse (List CString) :=
  parseGpLineLoop buf head 1 []

/-- The first assignment of `parseGpCoords`: a leading `pos` becomes `+`, a
leading `neg` becomes `-`. -/
def hemiSign (pos neg : Nat) (s : CString) : CString :=
  if peek s = pos then 43 :: s.tail else if peek s = neg then 45 :: s.tail else s

/-- Function `parseGpCoords` of `gputil.c`. -/
def parseGpCoords (L : Libc) (lat lon : CString) : Parse GpCoord :=
  if peek (L.strtod (hemiSign 78 83 lat)).2 ≠ 0 ∨ (L.strtod (hemiSign 78 83 lat)).1 > 90 ∨
      (L.strtod (hemiSign 78 83 lat)).1 < -90 then Parse.err GpError.VALUE
  else if peek (L.strtod (hemiSign 69 87 lon)).2 ≠ 0 ∨ (L.strtod (hemiSign 69 87 lon)).1 > 180 ∨
      (L.strtod (hemiSign 69 87 lon)).1 < -180 then Parse.err GpError.VALUE
  else Parse.ok ⟨(L.strtod (hemiSign 78 83 lat)).1, (L.strtod (hemiSign 69 87 lon)).1⟩

/-! ## The reader: waypoints, routes, legs and trackpoints -/

/-- The local variables of `scanGpWaypt` that its loop assigns: the pointers
`id`, `lat`, `lon`, `symbol`, `comment` (`none` for a null pointer) and the
two text settings of the waypoint. -/
structure WayptVars where
  id : Option CString
  lat : Option CString
  lon : Option CString
  symbol : Option CString
  comment : Option CString
  textChoice : Nat
  textPlace : Int
deriving DecidableEq, Repr

/-- The table `textPlace` of `scanGpWaypt`. -/
def textPlaceNames : List CString :=
  [cstr "N", cstr "NE", cstr "E", cstr "SE", cstr "S", cstr "SW", cstr "W", cstr "NW"]

/-- The loop of `scanGpWaypt` over the columns and their fields. -/
def scanGpWayptLoop : List GpFieldHeader → List CString → WayptVars → Parse WayptVars
  | [], _, v => Parse.ok v
  | h :: hs, fs, v =>
    match h.type with
    | GpFieldType.ALT => scanGpWayptLoop hs fs.tail v
    | GpFieldType.ID =>
      match fs with
      | [] => Parse.undef
      | f :: fs1 => scanGpWayptLoop hs fs1 { v with id := some f }
    | GpFieldType.LAT =>
      match fs with
      | [] => Parse.undef
      | f :: fs1 => scanGpWayptLoop hs fs1 { v with lat := some f }
    | GpFieldType.LON =>
      match fs with
      | [] => Parse.undef
      | f :: fs1 => scanGpWayptLoop hs fs1 { v with lon := some f }
    | GpFieldType.SYM =>
      match fs with
      | [] => Parse.undef
      | f :: fs1 => scanGpWayptLoop hs fs1 { v with symbol := some f }
    | GpFieldType.COMMENT =>
      match fs with
      | [] => Parse.undef
      | f :: fs1 => scanGpWayptLoop hs fs1 { v with comment := some f }
    | GpFieldType.TXCHO =>
      match fs with
      | [] => Parse.undef
      | f :: fs1 =>
        if chrset (peek f) (cstr "-IC&+^") = true then
          scanGpWayptLoop hs fs1 { v with textChoice := peek f }
        else Parse.err GpError.VALUE
    | GpFieldType.TXPLA =>
      match fs with
      | [] => Parse.undef
      | f :: fs1 =>
        match textPlaceNames.findIdx? (fun name => decide (strcmp name f = 0)) with
        | none => Parse.err GpError.VALUE
        | some j => scanGpWayptLoop hs fs1 { v with textPlace := (j : Int) }
    | _ => Parse.err GpError.FIELD

/-- Function `scanGpWaypt` of `gputil.c`. -/
def scanGpWaypt (L : Libc) (buff : Buffer) (fieldDef : CString) : Parse GpWaypt :=
  if strspn (strAt buff 1) SPACE = (strAt buff 1).length then Parse.err GpError.FIELD
  else
    match parseGpFieldDef fieldDef with
    | Parse.err e => Parse.err e
    | Parse.undef => Parse.undef
    | Parse.ok head =>
      match parseGpLine buff head with
      | Parse.err e => Parse.err e
      | Parse.undef => Parse.undef
      | Parse.ok fields =>
        match scanGpWayptLoop head fields ⟨none, none, none, none, none, 73, 2⟩ with
        | Parse.err e => Parse.err e
        | Parse.undef => Parse.undef
        | Parse.ok v =>
          match v.id, v.lat, v.lon with
          | some id, some lat, some lon =>
            match parseGpCoords L lat lon with
            | Parse.ok coord =>
              Parse.ok ⟨id, coord, v.symbol.getD [], v.textChoice, v.textPlace, v.comment.getD []⟩
            | Parse.err _ => Parse.err GpError.VALUE
            | Parse.undef => Parse.undef
          | _, _, _ => Parse.err GpError.FIELD

/-- Function `scanGpRoute` of `gputil.c`: the route number is the `long` of
`strtol` cast to `int`; the comment starts after the spaces that follow the
number. -/
def scanGpRoute (buff : Buffer) : Parse GpRoute :=
  if strspn (strAt buff 1) SPACE = (strAt buff 1).length then Parse.err GpError.FIELD
  else if castInt (strtol (strAt buff 1)).1 < 0 ∨ (strtol (strAt buff 1)).2 = strAt buff 1 then
    Parse.err GpError.VALUE
  else if peek (strtol (strAt buff 1)).2 ≠ 0 ∧
      chrset (peek (strtol (strAt buff 1)).2) SPACE = false then
    Parse.err GpError.VALUE
  else
    Parse.ok ⟨castInt (strtol (strAt buff 1)).1,
      (strtol (strAt buff 1)).2.drop (strspn (strtol (strAt buff 1)).2 SPACE), []⟩

/-- The first loop of `scanGpLeg`: the field of the first `ID` column. -/
def firstIDField : List GpFieldHeader → List CString → Parse (Option CString)
  | [], _ => Parse.ok none
  | h :: hs, fs =>
    if h.type = GpFieldType.ID then
      match fs with
      | [] => Parse.undef
      | f :: _ => Parse.ok (some f)
    else firstIDField hs fs.tail

/-- The second loop of `scanGpLeg`: the first index `i`, counted from `i0`,
of a waypoint whose ID compares equal to `id`. -/
def findLeg (id : CString) : List GpWaypt → Nat → Option Nat
  | [], _ => none
  | w :: ws, i0 => if strcmp w.ID id = 0 then some i0 else findLeg id ws (i0 + 1)

/-- Function `scanGpLeg` of `gputil.c`: the index it stores in the last leg of
the route. -/
def scanGpLeg (buff : Buffer) (fieldDef : CString) (wp : List GpWaypt) : Parse Nat :=
  if strspn (strAt buff 1) SPACE = (strAt buff 1).length then Parse.err GpError.FIELD
  else
    match parseGpFieldDef fieldDef with
    | Parse.err e => Parse.err e
    | Parse.undef => Parse.undef
    | Parse.ok head =>
      match parseGpLine buff head with
      | Parse.err e => Parse.err e
      | Parse.undef => Parse.undef
      | Parse.ok fields =>
        match firstIDField head fields with
        | Parse.err e => Parse.err e
        | Parse.undef => Parse.undef
        | Parse.ok none => Parse.err GpError.FIELD
        | Parse.ok (some id) =>
          match findLeg id wp 0 with
          | some i => Parse.ok i
          | none => Parse.err GpError.UNKWPT

/-- The local variables of `scanGpTrkpt` that its loop assigns, with the
trackpoint under construction. -/
structure TrkptVars where
  lat : Option CString
  lon : Option CString
  comment : Option CString
  dateBuf : CString
  dateFormBuf : CString
  validFields : Int
  tp : GpTrkpt
deriving DecidableEq, Repr

/-- The loop of `scanGpTrkpt` over the columns and their fields. An altitude
column is passed with `continue`, a segment start leaves the loop with
`break`; every other accepted column counts as a valid field. -/
def scanGpTrkptLoop (L : Libc) (dateFormat : CString) :
    List GpFieldHeader → List CString → TrkptVars → Parse TrkptVars
  | [], _, v => Parse.ok v
  | h :: hs, fs, v =>
    match h.type with
    | GpFieldType.ALT => scanGpTrkptLoop L dateFormat hs fs.tail v
    | GpFieldType.LAT =>
      match fs with
      | [] => Parse.undef
      | f :: fs1 =>
        scanGpTrkptLoop L dateFormat hs fs1
          { v with lat := some f, validFields := v.validFields + 1 }
    | GpFieldType.LON =>
      match fs with
      | [] => Parse.undef
      | f :: fs1 =>
        scanGpTrkptLoop L dateFormat hs fs1
          { v with lon := some f, validFields := v.validFields + 1 }
    | GpFieldType.DATE =>
      match fs with
      | [] => Parse.undef
      | f :: fs1 =>
        scanGpTrkptLoop L dateFormat hs fs1
          { v with dateBuf := v.dateBuf ++ f, dateFormBuf := v.dateFormBuf ++ dateFormat,
                   validFields := v.validFields + 1 }
    | GpFieldType.TIME =>
      match fs with
      | [] => Parse.undef
      | f :: fs1 =>
        scanGpTrkptLoop L dateFormat hs fs1
          { v with dateBuf := v.dateBuf ++ f, dateFormBuf := v.dateFormBuf ++ cstr " %H:%M:%S ",
                   validFields := v.validFields + 1 }
    | GpFieldType.SEGFLAG =>
      match fs with
      | [] => Parse.undef
      | f :: fs1 =>
        if strcmp f (cstr "0") = 0 then
          scanGpTrkptLoop L dateFormat hs fs1
            { v with tp := { v.tp with segFlag := false }, validFields := v.validFields + 1 }
        else Parse.ok { v with comment := some f, tp := { v.tp with segFlag := true } }
    | GpFieldType.SECONDS =>
      match fs with
      | [] => Parse.undef
      | f :: fs1 =>
        if peek (strtol f).2 ≠ 0 then Parse.err GpError.VALUE
        else
          scanGpTrkptLoop L dateFormat hs fs1
            { v with tp := { v.tp with duration := (strtol f).1 },
                     validFields := v.validFields + 1 }
    | GpFieldType.DUR =>
      match fs with
      | [] => Parse.undef
      | f :: fs1 =>
        match scanDuration f with
        | Except.error e => Parse.err e
        | Except.ok d =>
          scanGpTrkptLoop L dateFormat hs fs1
            { v with tp := { v.tp with duration := d }, validFields := v.validFields + 1 }
    | GpFieldType.DIST =>
      match fs with
      | [] => Parse.undef
      | f :: fs1 =>
        if peek (L.strtod f).2 ≠ 0 then Parse.err GpError.VALUE
        else
          scanGpTrkptLoop L dateFormat hs fs1
            { v with tp := { v.tp with dist := (L.strtod f).1 },
                     validFields := v.validFields + 1 }
    | GpFieldType.SPEED =>
      match fs with
      | [] => Parse.undef
      | f :: fs1 =>
        if peek (L.strtod f).2 ≠ 0 then Parse.err GpError.VALUE
        else
          scanGpTrkptLoop L dateFormat hs fs1
            { v with tp := { v.tp with speed := (L.strtod f).1 },
                     validFields := v.validFields + 1 }
    | _ => Parse.err GpError.FIELD

/-- Function `scanGpTrkpt` of `gputil.c`. The trackpoint starts as the zeros
of `memset`; the date and time fields are joined and handed to `strptime`
with the joined formats, and `mktime` of the result (with `tm_isdst = -1`) is
the timestamp. -/
def scanGpTrkpt (L : Libc) (buff : Buffer) (fieldDef dateFormat : CString) : Parse GpTrkpt :=
  match parseGpFieldDef fieldDef with
  | Parse.err e => Parse.err e
  | Parse.undef => Parse.undef
  | Parse.ok head =>
    match parseGpLine buff head with
    | Parse.err e => Parse.err e
    | Parse.undef => Parse.undef
    | Parse.ok fields =>
      match scanGpTrkptLoop L dateFormat head fields
          ⟨none, none, none, [], [], 0, ⟨⟨0, 0⟩, 0, false, 0, 0, 0, none⟩⟩ with
      | Parse.err e => Parse.err e
      | Parse.undef => Parse.undef
      | Parse.ok v =>
        if v.tp.segFlag = false ∧ v.validFields < 8 then Parse.err GpError.FIELD
        else
          let coord : Parse GpCoord :=
            match v.lat, v.lon with
            | some lat, some lon => parseGpCoords L lat lon
            | _, _ => Parse.ok v.tp.coord
          match coord with
          | Parse.err _ => Parse.err GpError.VALUE
          | Parse.undef => Parse.undef
          | Parse.ok c =>
            match L.strptime v.dateBuf v.dateFormBuf with
            | none => Parse.err GpError.VALUE
            | some (tm, p) =>
              if peek p ≠ 0 then Parse.err GpError.VALUE
              else if L.mktime { tm with tm_isdst := -1 } = -1 then Parse.err GpError.VALUE
              else
                Parse.ok { v.tp with coord := c, dateTime := L.mktime { tm with tm_isdst := -1 },
                                     comment := v.comment }

/-- The variables of `scanGpTrkpt` when its loop starts: null pointers, empty
date buffers, no valid field, and the trackpoint that `memset` has zeroed. -/
def trkptVars0 : TrkptVars := ⟨none, none, none, [], [], 0, ⟨⟨0, 0⟩, 0, false, 0, 0, 0, none⟩⟩

/-! ## The reader: `readGpFile` -/

/-- The macros `GP_DATEFORMAT`, `GP_TIMEZONE`, `GP_UNITHORZ` and `GP_UNITTIME`
of `gputil.h`, the settings of a file before any S line is read. -/
structure GpDefaults where
  dateFormat : CString
  timeZone : Int
  unitHorz : Nat
  unitTime : Nat
deriving DecidableEq, Repr

/-- Structure `GpStatus`: the code and the line number `readGpFile` returns. -/
structure GpStatus where
  lineno : Int
  code : GpError
deriving DecidableEq, Repr

/-- The letter `strptime` uses for the token `p` of a DateFormat setting. -/
def dateCode (p : CString) : Option Nat :=
  if strcmp p (cstr "dd") = 0 then some 100
  else if strcmp p (cstr "mm") = 0 then some 109
  else if strcmp p (cstr "mmm") = 0 then some 98
  else if strcmp p (cstr "yy") = 0 then some 121
  else if strcmp p (cstr "yyyy") = 0 then some 89
  else none

/-- The loop of the DateFormat setting: `j` tokens are cut at `/` from the
text that `strtok` has still to scan; `none` when a token is missing or is
none of the five names. -/
def dateCodes : Nat → CString → Option (List Nat)
  | 0, _ => some []
  | j + 1, rest =>
    match strtok [47] rest with
    | none => none
    | some (p, rest1) =>
      match dateCode p with
      | none => none
      | some c =>
        match dateCodes j rest1 with
        | none => none
        | some cs => some (c :: cs)

/-- The call `sscanf(text, "%d:%d", &timeZone, &m)`: the first value when the
call returns 2. -/
def sscanfTimeZone (text : CString) : Option Int :=
  match scanD text with
  | none => none
  | some (tz, r1) =>
    match r1 with
    | 58 :: r2 =>
      match scanD r2 with
      | none => none
      | some _ => some tz
    | _ => none

/-- The S line of `readGpFile`: the setting named by the first token, cut at
space, tab or `=`, is decoded from the rest of the line; a name that is none
of the three is passed over. The conversion `%[MKFNS]` stores a run of unit
letters at `unitHorz`, whose first letter is the unit. -/
def readSetting (buf : CString) (f : GpFile) : Parse GpFile :=
  match strtok (cstr " \t=") (buf.drop 1) with
  | none => Parse.undef
  | some (setting, rest) =>
    if strcmp_ic setting (cstr "DateFormat") = 0 then
      match dateCodes 3 rest with
      | some [c0, c1, c2] => Parse.ok { f with dateFormat := [37, c0, 47, 37, c1, 47, 37, c2] }
      | _ => Parse.err GpError.VALUE
    else if strcmp_ic setting (cstr "TimeZone") = 0 then
      match strtok [] rest with
      | none => Parse.undef
      | some (text, _) =>
        match sscanfTimeZone text with
        | none => Parse.err GpError.VALUE
        | some tz => Parse.ok { f with timeZone := tz }
    else if strcmp_ic setting (cstr "Units") = 0 then
      match strtok [] rest with
      | none => Parse.undef
      | some (text, _) =>
        if strspn text (cstr "MKFNS") = 0 then Parse.err GpError.VALUE
        else if chrset (peek text) (cstr "FM") = true then
          Parse.ok { f with unitHorz := peek text, unitTime := 83 }
        else if chrset (peek text) (cstr "KNS") = true then
          Parse.ok { f with unitHorz := peek text, unitTime := 72 }
        else Parse.ok { f with unitHorz := peek text }
    else Parse.ok f

/-- The variables of `readGpFile` that live across the lines: the last F line,
the inside-route flag and the file model. -/
structure ReadState where
  fieldDef : CString
  isRoute : Bool
  file : GpFile
deriving DecidableEq, Repr

/-- What one turn of the loop of `readGpFile` does: go on to the next line
with a new state, stop with an error code (by `break` or by `return`, the
file model being freed), or undefined behaviour. -/
inductive LineResult where
  | next (st : ReadState)
  | stop (code : GpError)
  | undef
deriving DecidableEq, Repr

/-- A leg appended to the last route of the sequence. -/
def addLeg (route : List GpRoute) (i : Nat) : List GpRoute :=
  match route.getLast? with
  | none => route
  | some rp => route.dropLast ++ [{ rp with leg := rp.leg ++ [i] }]

/-- The buffer of `readGpFile` once the end-of-line character is removed: the
line and its newline, the first newline or carriage return replaced by NUL.
What follows that character (the newline of a line that ends with a carriage
return and a newline) stays in the array. -/
def stripEOL (line : CString) : Buffer :=
  (line ++ [10]).take (strcspn (line ++ [10]) (cstr "\n\r")) ++
    0 :: (line ++ [10]).drop (strcspn (line ++ [10]) (cstr "\n\r") + 1)

/-- The test `isRoute == true && chrset(code, "FW") == false` of `readGpFile`
and the assignment it guards: the inside-route flag after a line with the tag
`code` has passed the tests of its first two characters. -/
def routeFlag (isRoute : Bool) (code : Nat) : Bool :=
  if isRoute = true ∧ chrset code (cstr "FW") = false then false else isRoute

/-- The chain of tests on the tag in the loop of `readGpFile`: `code` is the
tag of the line, `buf` the buffer without the end-of-line character of the
line, `isRoute` the inside-route flag once `routeFlag` has been applied. -/
def readRecord (L : Libc) (st : ReadState) (code : Nat) (buf : Buffer) (isRoute : Bool) :
    LineResult :=
  if code = 73 then
    match strtok SPACE (strAt buf 1) with
    | none => LineResult.undef
    | some (p, _) =>
      if strcmp_ic p (cstr "GPSU") ≠ 0 then LineResult.stop GpError.FILTYP
      else LineResult.next { st with isRoute := isRoute }
  else if code = 77 then
    if strstr_ic (strAt buf 0) (cstr "WGS 84") = false then LineResult.stop GpError.DATUM
    else LineResult.next { st with isRoute := isRoute }
  else if code = 85 then
    if strstr_ic (strAt buf 0) (cstr "LAT LON DEG") = false then LineResult.stop GpError.COORD
    else LineResult.next { st with isRoute := isRoute }
  else if code = 70 then
    LineResult.next { st with fieldDef := strAt buf 0, isRoute := isRoute }
  else if code = 83 then
    match readSetting (strAt buf 0) st.file with
    | Parse.undef => LineResult.undef
    | Parse.err e => LineResult.stop e
    | Parse.ok f => LineResult.next { st with isRoute := isRoute, file := f }
  else if chrset code (cstr "WT") = true ∧ st.fieldDef.length = 0 then
    LineResult.stop GpError.NOFORM
  else if code = 87 ∧ isRoute = true then
    match scanGpLeg buf st.fieldDef st.file.waypt with
    | Parse.undef => LineResult.undef
    | Parse.err e => LineResult.stop e
    | Parse.ok i =>
      LineResult.next
        { st with isRoute := isRoute, file := { st.file with route := addLeg st.file.route i } }
  else if code = 87 ∧ isRoute = false then
    match scanGpWaypt L buf st.fieldDef with
    | Parse.undef => LineResult.undef
    | Parse.err e => LineResult.stop e
    | Parse.ok wp =>
      LineResult.next
        { st with isRoute := isRoute, file := { st.file with waypt := st.file.waypt ++ [wp] } }
  else if code = 82 then
    match scanGpRoute buf with
    | Parse.undef => LineResult.undef
    | Parse.err e => LineResult.stop e
    | Parse.ok rp =>
      if st.file.route.any (fun r => decide (r.number = rp.number)) = true then
        LineResult.stop GpError.DUPRT
      else
        LineResult.next
          { st with isRoute := true, file := { st.file with route := st.file.route ++ [rp] } }
  else if code = 84 then
    match scanGpTrkpt L buf st.fieldDef st.file.dateFormat with
    | Parse.undef => LineResult.undef
    | Parse.err e => LineResult.stop e
    | Parse.ok tp =>
      LineResult.next
        { st with isRoute := isRoute, file := { st.file with trkpt := st.file.trkpt ++ [tp] } }
  else LineResult.next { st with isRoute := isRoute }

/-- The body of the loop of `readGpFile` for the line `line` (the text before
the newline): `fgets` fills the buffer with the line and its newline; the
first two characters are tested, the end-of-line character is removed, the
inside-route flag is updated and the line is decoded by its tag. -/
def readLine (L : Libc) (st : ReadState) (line : CString) : LineResult :=
  if chrset (peek (line ++ [10])) (cstr "CAH\n\r") = true then LineResult.next st
  else if chrset (peek (line ++ [10])) (cstr "ISMUFWRT") = false then
    LineResult.stop GpError.UNKREC
  else if peek ((line ++ [10]).drop 1) ≠ 32 then LineResult.stop GpError.BADSEP
  else
    readRecord L st (peek (line ++ [10])) (stripEOL line)
      (routeFlag st.isRoute (peek (line ++ [10])))

/-- The state of the loop of `readGpFile` after the lines `lines`, when every
one of them lets the loop go on. -/
def readLines (L : Libc) : List CString → ReadState → Option ReadState
  | [], st => some st
  | line :: rest, st =>
    match readLine L st line with
    | LineResult.next st1 => readLines L rest st1
    | _ => none

/-- What `readGpFile` leaves behind: the status it returns and the file model,
`none` after `freeGpFile`; or undefined behaviour. -/
inductive ReadResult where
  | done (status : GpStatus) (file : Option GpFile)
  | undef
deriving DecidableEq, Repr

/-- The loop of `readGpFile`: `lineno` counts every line that `fgets` reads,
the lines passed over with `continue` included. -/
def readLoop (L : Libc) : List CString → Int → ReadState → ReadResult
  | [], lineno, st => ReadResult.done ⟨lineno, GpError.OK⟩ (some st.file)
  | line :: rest, lineno, st =>
    match readLine L st line with
    | LineResult.next st1 => readLoop L rest (lineno + 1) st1
    | LineResult.stop code => ReadResult.done ⟨lineno, code⟩ none
    | LineResult.undef => ReadResult.undef

/-- The state in which the loop of `readGpFile` starts: no F line, outside a
route, a file with the default settings and no data. -/
def initialState (D : GpDefaults) : ReadState :=
  ⟨[], false, ⟨D.dateFormat, D.timeZone, D.unitHorz, D.unitTime, [], [], []⟩⟩

/-- Function `readGpFile` of `gputil.c` on a stream that holds the lines
`lines`, each shorter than the buffer and ended by a newline, and that is read
without an I/O error. -/
def readGpFile (L : Libc) (D : GpDefaults) (lines : List CString) : ReadResult :=
  readLoop L lines 1 (initialState D)

/-! ## The writer: the settings block of `writeGpFile` -/

/-- The call `sscanf(dateFormat, "%%%*c/%%%c/%%%c", buf, buf + 1)` on the
zeroed buffer: the two characters it leaves in `buf[0]` and `buf[1]`. -/
def sscanfDateCodes (dateFormat : CString) : Nat × Nat :=
  match dateFormat with
  | 37 :: _ :: 47 :: 37 :: b0 :: rest =>
    match rest with
    | 47 :: 37 :: b1 :: _ => (b0, b1)
    | _ => (b0, 0)
  | _ => (0, 0)

/-- The conversion `%+d` of `printf`. -/
def fmtPlusD (v : Int) : CString := (if v < 0 then 45 else 43) :: decDigits v.natAbs

/-- The three S lines `writeGpFile` prints, without their newlines. -/
def writeSettings (f : GpFile) : List CString :=
  [cstr "S DateFormat=dd/" ++
      (if (sscanfDateCodes f.dateFormat).1 = 109 then cstr "mm" else cstr "mmm") ++ [47] ++
      (if (sscanfDateCodes f.dateFormat).2 = 121 then cstr "yy" else cstr "yyyy"),
   cstr "S Timezone=" ++ fmtPlusD f.timeZone ++ cstr ":00",
   cstr "S Units=" ++ [f.unitHorz]]

/-! ## The words of the specification, for comparison with the code -/

/-- A component string made only of the letters `w`, `r`, `t`. -/
def validComponents (which : CString) : Prop := ∀ c ∈ which, c = chW ∨ c = chR ∨ c = chT

instance (which : CString) : Decidable (validComponents which) := by
  unfold validComponents; infer_instance

/-- The specification of Discard: the named components are emptied, and
discarding waypoints implies discarding routes; settings are left alone. -/
def discardEffect (f : GpFile) (which : CString) : GpFile :=
  { f with
    waypt := if chW ∈ which then [] else f.waypt
    route := if chW ∈ which ∨ chR ∈ which then [] else f.route
    trkpt := if chT ∈ which then [] else f.trkpt }

/-- The specification of Keep: the components to discard are those outside
the closure of the kept ones, where keeping routes implies keeping
waypoints. -/
def keepComplement (c : CString) : CString :=
  (if chW ∈ c ∨ chR ∈ c then [] else [chW]) ++
  (if chR ∈ c then [] else [chR]) ++
  (if chT ∈ c then [] else [chT])

/-- What a waypoint carries besides its two padded text fields: coordinate,
textChoice, textPlace and comment. -/
def GpWaypt.payload (w : GpWaypt) : GpCoord × Nat × Int × CString :=
  (w.coord, w.textChoice, w.textPlace, w.comment)

/-- Every leg of every route is an index into the waypoint sequence. -/
def legsValid (route : List GpRoute) (nwaypts : Nat) : Prop :=
  ∀ rp ∈ route, ∀ l ∈ rp.leg, l < nwaypts

instance (route : List GpRoute) (nwaypts : Nat) : Decidable (legsValid route nwaypts) := by
  unfold legsValid; infer_instance

/-- The specification's length of a horizontal unit in nautical miles:
`K` kilometres, `M` metres, `S` statute miles, `F` feet, with `1 nm = 1852 m
= 2315000/381 ft` and `1 mile = 5280 ft`; `N` is the basis (as is, for the
code, any other byte). -/
def unitInNm (unitHorz : Nat) : Rat :=
  if unitHorz = 75 then 1000 / 1852
  else if unitHorz = 77 then 1 / 1852
  else if unitHorz = 83 then 5280 / (2315000 / 381)
  else if unitHorz = 70 then 1 / (2315000 / 381)
  else 1

/-- The running corners after the points `pts`, starting from `NE`, `SW`. -/
def boxOver (NE SW : GpCoord) (pts : List GpTrkpt) : GpCoord × GpCoord :=
  pts.foldl (fun box p => growBox box.1 box.2 p.coord) (NE, SW)

/-- The closing point of the track that starts at `s` and continues with the
points `plains`: the last of them. -/
def closingPoint (s : GpTrkpt) (plains : List GpTrkpt) : GpTrkpt := (plains.getLast?).getD s

/-- The tracks of a sequence in which a track is open: `o` is the open track,
`b` the last point seen, `NE`, `SW` the corners so far; every segment start
closes the open track at the point before it and opens the next one, the end
of the sequence closes the last one. -/
def runOpen (unitTime : Nat) :
    List GpTrkpt → Int → GpTrkpt → GpTrack → GpCoord → GpCoord → List GpTrack
  | [], _, b, o, NE, SW => [closeTrack unitTime b NE SW o]
  | p :: ps, i, b, o, NE, SW =>
    if p.segFlag = true then
      closeTrack unitTime b NE SW o ::
        runOpen unitTime ps (i + 1) p (openTrack i p) p.coord p.coord
    else
      runOpen unitTime ps (i + 1) p o (growBox NE SW p.coord).1 (growBox NE SW p.coord).2

/-- A way to cut a trackpoint sequence at one track: the points before, the
segment start `s`, the points of the track after `s` (none of them a segment
start) and the rest, which is empty or begins with the next segment start. -/
def IsSegment (trkpt pre : List GpTrkpt) (s : GpTrkpt) (plains post : List GpTrkpt) : Prop :=
  trkpt = pre ++ s :: plains ++ post ∧ s.segFlag = true ∧
  (∀ p ∈ plains, p.segFlag = false) ∧ (post.head?).map GpTrkpt.segFlag ≠ some false

/-- A track that has been closed (its duration is assigned) was closed at a
point `p` of the sequence: end timestamp, duration and distance are those of
`p`, and the speed is the distance over the duration, times 3600 when the
time unit is `H`. -/
def ClosedAt (unitTime : Nat) (trkpt : List GpTrkpt) (t : GpTrack) : Prop :=
  ∀ d : Int, t.duration = some d → ∃ p ∈ trkpt, p.duration = d ∧
    t.endTrk = some p.dateTime ∧ t.dist = some p.dist ∧
    t.speed = some (if unitTime = 72 then p.dist / (d : Rat) * 3600 else p.dist / (d : Rat))

/-- A file model with no waypoint, no route and no trackpoint. -/
def GpFile.isEmpty (f : GpFile) : Prop := f.waypt = [] ∧ f.route = [] ∧ f.trkpt = []

instance (f : GpFile) : Decidable f.isEmpty := by
  unfold GpFile.isEmpty; infer_instance

/-- The legs of a reader state: each is an index of a waypoint, the first one
with an ID that compares equal to the ID at that index. -/
def LegsFirst (st : ReadState) : Prop :=
  ∀ rp ∈ st.file.route, ∀ l ∈ rp.leg, l < st.file.waypt.length ∧
    ∀ (k : Nat) (v w : GpWaypt), k < l → st.file.waypt[k]? = some v →
      st.file.waypt[l]? = some w → strcmp v.ID w.ID ≠ 0

/-- The specification's complete decimal number: digits, or digits followed
by a point and by digits (possibly none), and nothing else; its value. -/
def decimalNumeral (r : CString) : Option Rat :=
  match r.dropWhile isDigitByte with
  | [] => if r = [] then none else some (digitsValue r : Rat)
  | 46 :: fp =>
    if r.takeWhile isDigitByte ≠ [] ∧ fp.all isDigitByte = true then
      some (decimalValue (r.takeWhile isDigitByte) fp)
    else none
  | _ :: _ => none

/-- The column types that the loop of `scanGpTrkpt` counts as valid fields:
every type it decodes, the altitude excepted. -/
def countsAsField (t : GpFieldType) : Bool :=
  decide (t ∈ [GpFieldType.LAT, GpFieldType.LON, GpFieldType.DATE, GpFieldType.TIME,
    GpFieldType.SEGFLAG, GpFieldType.DUR, GpFieldType.SECONDS, GpFieldType.DIST,
    GpFieldType.SPEED])

/-- The number of columns of a schema that count as valid fields. -/
def countedColumns (head : List GpFieldHeader) : Nat :=
  (head.filter (fun h => countsAsField h.type)).length

/-- The fields of a line taken with their columns, in order: the field of a
column with a set width, other than a segment flag, has that width. -/
def idWidths : List GpFieldHeader → List CString → Prop
  | h :: hs, f :: fs =>
    (h.type ≠ GpFieldType.SEGFLAG → 0 < h.len → (f.length : Int) = h.len) ∧ idWidths hs fs
  | _, _ => True

/-! ## Examples used by the theorems below -/

/-- A waypoint with the given ID and no other data. -/
def wpt (id : CString) : GpWaypt := ⟨id, ⟨0, 0⟩, [], 73, 2, []⟩

/-- A file with the given waypoints and routes and nothing else. -/
def fileOf (waypt : List GpWaypt) (route : List GpRoute) : GpFile :=
  ⟨[], 0, 77, 83, waypt, route, []⟩

/-- A trackpoint with the given flag, position and values. -/
def tpt (segFlag : Bool) (lat lon : Rat) (dateTime duration : Int) (dist : Rat) : GpTrkpt :=
  ⟨⟨lat, lon⟩, dateTime, segFlag, duration, dist, 0, if segFlag then some [] else none⟩

/-- A file with the given trackpoints, in kilometres and hours. -/
def trackFile (trkpt : List GpTrkpt) : GpFile := ⟨[], 0, 75, 72, [], [], trkpt⟩

/-- A receiver with 209 waypoints of two-character IDs: `!!`, then `A`
followed by each byte from 48 (the character `0`) to 255. -/
def rcv209 : List GpWaypt := wpt [33, 33] :: (List.range' 48 208).map (fun b => wpt [65, b])

/-- Insertion sort as a `qsort`: it meets the contract. -/
def insertionQsort : Qsort where
  run := insertionSortBy
  perm := by
    intro cmp l
    have hins : ∀ (a : GpWaypt) (l : List GpWaypt), (insertBy cmp a l).Perm (a :: l) := by
      intro a l
      induction l with
      | nil => exact List.Perm.refl _
      | cons b l ih =>
        unfold insertBy
        split
        · exact List.Perm.refl _
        · exact (List.Perm.cons b ih).trans (List.Perm.swap a b l)
    induction l with
    | nil => exact List.Perm.refl _
    | cons a l ih => exact (hins a _).trans (List.Perm.cons a ih)
  sorted := by
    intro cmp l hc
    have hins : ∀ (a : GpWaypt) (l : List GpWaypt),
        l.Pairwise (fun x y => cmp x y ≤ 0) →
        (insertBy cmp a l).Pairwise (fun x y => cmp x y ≤ 0) := by
      intro a l
      induction l with
      | nil => intro _; simp [insertBy]
      | cons b l ih =>
        intro hl
        have hb : ∀ y ∈ l, cmp b y ≤ 0 := fun y hy => List.rel_of_pairwise_cons hl hy
        have hl1 := List.Pairwise.of_cons hl
        unfold insertBy
        split
        · rename_i hab
          refine List.Pairwise.cons ?_ hl
          intro y hy
          rcases List.mem_cons.mp hy with rfl | hy
          · exact hab
          · exact hc.trans a b y hab (hb y hy)
        · rename_i hab
          have hba : cmp b a ≤ 0 := by
            have h1 : 0 < cmp a b := by omega
            have h2 := (hc.flip b a).mpr h1
            omega
          refine List.Pairwise.cons ?_ (ih hl1)
          intro y hy
          have hperm : (insertBy cmp a l).Perm (a :: l) := by
            clear ih hl hb hl1 hy
            induction l with
            | nil => exact List.Perm.refl _
            | cons c l ih2 =>
              unfold insertBy
              split
              · exact List.Perm.refl _
              · exact (List.Perm.cons c ih2).trans (List.Perm.swap a c l)
          rcases List.mem_cons.mp (hperm.subset hy) with rfl | hy1
          · exact hba
          · exact hb y hy1
    induction l with
    | nil => simp [insertionSortBy]
    | cons a l ih => exact hins a _ ih

/-- The digits and the optional point of a decimal conversion that rounds
with `rnd`: `s2` is the text after the sign, `s` the whole text, `sgn` the
sign. Without a digit nothing is converted and the end pointer is the start of
the text. -/
def decimalBody (rnd : Rat → Rat) (sgn : Rat) (s s2 : CString) : Rat × CString :=
  match s2.dropWhile isDigitByte with
  | 46 :: r1 =>
    if s2.takeWhile isDigitByte = [] ∧ r1.takeWhile isDigitByte = [] then (0, s)
    else (sgn * rnd (decimalValue (s2.takeWhile isDigitByte) (r1.takeWhile isDigitByte)),
          r1.dropWhile isDigitByte)
  | r => if s2.takeWhile isDigitByte = [] then (0, s)
    else (sgn * rnd (digitsValue (s2.takeWhile isDigitByte) : Rat), r)

/-- The numeric conversion `strtod` for decimal text, rounding with `rnd`:
white space, an optional sign, digits with an optional point; nothing else is
converted. -/
def decimalStrtod (rnd : Rat → Rat) (s : CString) : Rat × CString :=
  decimalBody rnd (if (s.dropWhile isSpaceByte).head? = some 45 then -1 else 1) s
    (if (s.dropWhile isSpaceByte).head? = some 45 ∨ (s.dropWhile isSpaceByte).head? = some 43
      then (s.dropWhile isSpaceByte).tail else s.dropWhile isSpaceByte)

/-- The C library made of the decimal conversion with the rounding `rnd`, which
is monotone and exact on the integers: it meets the contract of `strtod`; no
example reads a date, and none is converted. -/
def libcOf (rnd : Rat → Rat) (hmono : ∀ a b : Rat, a ≤ b → rnd a ≤ rnd b)
    (hint : ∀ n : Int, rnd (n : Rat) = (n : Rat)) : Libc where
  toDouble := rnd
  strtod := decimalStrtod rnd
  strptime := fun _ _ => none
  mktime := fun _ => -1
  toDouble_mono := hmono
  toDouble_int := fun n _ _ => hint n
  strtod_decimal := by
    intro sign ip fp hs hip hdi hdf
    have htw : ∀ (l r : CString), (∀ c ∈ l, isDigitByte c = true) →
        (∀ x r1, r = x :: r1 → isDigitByte x = false) →
        (l ++ r).takeWhile isDigitByte = l ∧ (l ++ r).dropWhile isDigitByte = r := by
      intro l r hl hr
      induction l with
      | nil =>
        cases r with
        | nil => exact ⟨rfl, rfl⟩
        | cons x r =>
          have hx : isDigitByte x = false := hr x r rfl
          rw [List.nil_append, List.takeWhile_cons_of_neg (by simp [hx]),
            List.dropWhile_cons_of_neg (by simp [hx])]
          exact ⟨rfl, rfl⟩
      | cons a l ih =>
        have ha := hl a (List.mem_cons_self a l)
        have := ih (fun c hc => hl c (List.mem_cons_of_mem a hc))
        rw [List.cons_append, List.takeWhile_cons_of_pos ha, List.dropWhile_cons_of_pos ha,
          this.1, this.2]
        exact ⟨rfl, rfl⟩
    have h1 := htw ip (46 :: fp) hdi (by
      intro x r1 h
      have : x = 46 := ((List.cons.injEq _ _ _ _).mp h.symm).1
      rw [this]; decide)
    have h2 := htw fp [] hdf (by intro x r1 h; cases h)
    rw [List.append_nil] at h2
    have hb : ∀ (sgn : Rat) (s : CString),
        decimalBody rnd sgn s (ip ++ 46 :: fp) = (sgn * rnd (decimalValue ip fp), []) := by
      intro sgn s
      unfold decimalBody
      rw [h1.2]
      show (if List.takeWhile isDigitByte (ip ++ 46 :: fp) = [] ∧
          List.takeWhile isDigitByte fp = [] then (0, s)
        else (sgn * rnd (decimalValue (List.takeWhile isDigitByte (ip ++ 46 :: fp))
          (List.takeWhile isDigitByte fp)), List.dropWhile isDigitByte fp)) = _
      rw [h1.1, h2.1, h2.2, if_neg (fun h => hip h.1)]
    obtain ⟨d, ip1, hd⟩ := List.exists_cons_of_ne_nil hip
    have hdd : isDigitByte d = true := hdi d (by rw [hd]; exact List.mem_cons_self d ip1)
    have hd1 : isSpaceByte d = false ∧ d ≠ 45 ∧ d ≠ 43 := by
      unfold isDigitByte at hdd
      unfold isSpaceByte
      simp only [Bool.and_eq_true, decide_eq_true_eq] at hdd
      refine ⟨?_, by omega, by omega⟩
      simp only [Bool.or_eq_false_iff, decide_eq_false_iff_not, Bool.and_eq_false_iff]
      omega
    show decimalStrtod rnd (sign ++ ip ++ 46 :: fp) = _
    rcases hs with rfl | rfl | rfl
    · unfold decimalStrtod
      have e : ([] ++ ip ++ 46 :: fp : CString) = d :: (ip1 ++ 46 :: fp) := by rw [hd]; rfl
      rw [e, List.dropWhile_cons_of_neg (by simp [hd1.1])]
      simp only [List.head?_cons, Option.some.injEq, hd1.2.1, hd1.2.2, or_self, if_false]
      rw [← e, List.nil_append, hb]
      simp
    · unfold decimalStrtod
      have e : ([43] ++ ip ++ 46 :: fp : CString) = 43 :: (ip ++ 46 :: fp) := rfl
      rw [e, List.dropWhile_cons_of_neg (by decide)]
      simp only [List.head?_cons, Option.some.injEq, List.tail_cons]
      rw [if_neg (by decide), if_pos (by decide), hb]
      simp
    · unfold decimalStrtod
      have e : ([45] ++ ip ++ 46 :: fp : CString) = 45 :: (ip ++ 46 :: fp) := rfl
      rw [e, List.dropWhile_cons_of_neg (by decide)]
      simp only [List.head?_cons, Option.some.injEq, List.tail_cons]
      rw [if_pos (by decide), if_pos (by decide), hb]
  strtod_integer := by
    intro sign ip hs hip hdi
    have htw : ∀ (l : CString), (∀ c ∈ l, isDigitByte c = true) →
        l.takeWhile isDigitByte = l ∧ l.dropWhile isDigitByte = [] := by
      intro l hl
      induction l with
      | nil => exact ⟨rfl, rfl⟩
      | cons a l ih =>
        have ha := hl a (List.mem_cons_self a l)
        have := ih (fun c hc => hl c (List.mem_cons_of_mem a hc))
        rw [List.takeWhile_cons_of_pos ha, List.dropWhile_cons_of_pos ha, this.1, this.2]
        exact ⟨rfl, rfl⟩
    have h1 := htw ip hdi
    have hb : ∀ (sgn : Rat) (s : CString),
        decimalBody rnd sgn s ip = (sgn * rnd (digitsValue ip : Rat), []) := by
      intro sgn s
      unfold decimalBody
      rw [h1.2]
      show (if List.takeWhile isDigitByte ip = [] then (0, s)
        else (sgn * rnd (digitsValue (List.takeWhile isDigitByte ip) : Rat), [])) = _
      rw [h1.1, if_neg hip]
    obtain ⟨d, ip1, hd⟩ := List.exists_cons_of_ne_nil hip
    have hdd : isDigitByte d = true := hdi d (by rw [hd]; exact List.mem_cons_self d ip1)
    have hd1 : isSpaceByte d = false ∧ d ≠ 45 ∧ d ≠ 43 := by
      unfold isDigitByte at hdd
      unfold isSpaceByte
      simp only [Bool.and_eq_true, decide_eq_true_eq] at hdd
      refine ⟨?_, by omega, by omega⟩
      simp only [Bool.or_eq_false_iff, decide_eq_false_iff_not, Bool.and_eq_false_iff]
      omega
    show decimalStrtod rnd (sign ++ ip) = _
    rcases hs with rfl | rfl | rfl
    · unfold decimalStrtod
      have e : ([] ++ ip : CString) = d :: ip1 := by rw [hd]; rfl
      rw [e, List.dropWhile_cons_of_neg (by simp [hd1.1])]
      simp only [List.head?_cons, Option.some.injEq, hd1.2.1, hd1.2.2, or_self, if_false]
      rw [← e, List.nil_append, hb]
      simp
    · unfold decimalStrtod
      have e : ([43] ++ ip : CString) = 43 :: ip := rfl
      rw [e, List.dropWhile_cons_of_neg (by decide)]
      simp only [List.head?_cons, Option.some.injEq, List.tail_cons]
      rw [if_neg (by decide), if_pos (by decide), hb]
      simp
    · unfold decimalStrtod
      have e : ([45] ++ ip : CString) = 45 :: ip := rfl
      rw [e, List.dropWhile_cons_of_neg (by decide)]
      simp only [List.head?_cons, Option.some.injEq, List.tail_cons]
      rw [if_pos (by decide), if_pos (by decide), hb]

/-- A C library for the examples, with the decimal conversion that does not
round: every numeral of the examples that it converts writes a `double`, and
the conversion to `double` returns the same value. -/
def decimalLibc : Libc := libcOf (fun v => v) (fun _ _ h => h) (fun _ => rfl)

/-- Rounding to the nearest multiple of `2^-46`, the spacing of the `double`
values from 64 to 128. -/
def toGrid (v : Rat) : Rat :=
  ((Int.floor (v * 70368744177664 + 1 / 2) : Int) : Rat) / 70368744177664

/-- A C library whose conversion rounds to the multiples of `2^-46`: for a
numeral from 64 to 128 that is no tie it returns what the conversion to
`double` returns. -/
def gridLibc : Libc :=
  libcOf toGrid
    (by
      intro a b h
      unfold toGrid
      apply div_le_div_of_nonneg_right _ (by norm_num)
      exact_mod_cast Int.floor_le_floor (by linarith))
    (by
      intro n
      unfold toGrid
      have h : Int.floor ((n : Rat) * 70368744177664 + 1 / 2) = n * 70368744177664 := by
        rw [Int.floor_eq_iff]
        constructor
        · push_cast
          linarith
        · push_cast
          linarith
      rw [h]
      push_cast
      field_simp)

/-- Default settings for the examples. -/
def exampleDefaults : GpDefaults := ⟨cstr "%d/%m/%Y", 0, 77, 83⟩

/-- A receiver with one waypoint, one route and one trackpoint, in kilometres
and hours. -/
def mergeA : GpFile :=
  ⟨cstr "%d/%m/%Y", 0, 75, 72, [wpt (cstr "HOME")], [⟨1, cstr "r", [0]⟩],
    [tpt true 1 2 100 0 0]⟩

/-- An incoming file in metres and seconds, one hour east of `mergeA`, whose
first waypoint has the ID of the receiver. -/
def mergeB : GpFile :=
  ⟨cstr "%m/%d/%Y", 1, 77, 83, [wpt (cstr "HOME"), wpt (cstr "B")], [⟨1, cstr "s", [1, 0]⟩],
    [tpt true 3 4 200 0 0, tpt false 3 5 260 60 1000]⟩

/-- The ID an appended waypoint of the example `dupState` holds once its ID is
one character long and the counter has been written `t` times more: `A`, then
the byte `t`, and the empty ID when the counter has wrapped a second time. -/
def stageID (t : Nat) : CString := if t = 0 then [65] else if t < 256 then [t] else []

/-- The ID with which the duplicate-ID loop leaves the `k`-th waypoint of the
example `dupState`. -/
def finalID (k : Nat) : CString :=
  if k = 0 then [65] else if k < 65 then [k] else if k < 255 then [k + 1] else []

/-- The number of one-character IDs the `k`-th appended waypoint of the
example goes through before it collides no more. -/
def stopStage (k : Nat) : Nat := if k = 0 then 0 else if k < 65 then k else min (k + 1) 256

/-- The appended waypoint whose final ID is the first to equal `stageID t`. -/
def partnerOf (t : Nat) : Nat := if t = 0 ∨ t = 65 then 0 else if t < 65 then t else t - 1

/-- The appended waypoints of the example that the loop has dealt with. -/
def dupFinals (k : Nat) : List GpWaypt := (List.range k).map (fun u => wpt (finalID u))

/-- The combined array of the example while the duplicate-ID loop deals with
the `k`-th appended waypoint: the receiver `rcv209`, the `k` waypoints already
dealt with, the current waypoint with the ID `c`, and the waypoints to come,
each with the ID `A0`; 466 waypoints in all. -/
def dupState (k : Nat) (c : CString) : List GpWaypt :=
  (rcv209 ++ dupFinals k) ++ wpt c :: List.replicate (256 - k) (wpt [65, 48])

/-- An incoming file of 257 waypoints that all have the ID `A0`. -/
def inc257 : List GpWaypt := List.replicate 257 (wpt [65, 48])

/-! ## Facts about `strcmp` -/

theorem strcmp_self (s : CString) : strcmp s s = 0 := by
  induction s with
  | nil => rfl
  | cons a s ih => simp [strcmp, ih]

theorem strcmp_flip (s t : CString) : strcmp s t = - strcmp t s := by
  induction s generalizing t with
  | nil => cases t <;> simp [strcmp]
  | cons a s ih =>
    cases t with
    | nil => simp [strcmp]
    | cons b t =>
      simp only [strcmp]
      by_cases hab : a = b
      · subst hab
        by_cases h0 : a = 0
        · simp [h0]
        · simp [h0, ih t]
      · have hba : ¬ b = a := fun h => hab h.symm
        simp [hab, hba]

theorem strcmp_nil_le (t : CString) : strcmp [] t ≤ 0 := by
  cases t <;> simp [strcmp]

theorem strcmp_trans (a b c : CString) :
    strcmp a b ≤ 0 → strcmp b c ≤ 0 → strcmp a c ≤ 0 := by
  induction a generalizing b c with
  | nil => intro _ _; exact strcmp_nil_le c
  | cons x a ih =>
    cases b with
    | nil =>
      cases c with
      | nil => intro h _; exact h
      | cons z c =>
        simp only [strcmp]
        intro h _
        split_ifs <;> omega
    | cons y b =>
      cases c with
      | nil =>
        simp only [strcmp]
        intro h1 h2
        split_ifs at h1 <;> omega
      | cons z c =>
        simp only [strcmp]
        intro h1 h2
        by_cases hxy : x = y
        · subst hxy
          by_cases hxz : x = z
          · subst hxz
            by_cases h0 : x = 0
            · simp [h0]
            · simp only [if_true, h0, if_false] at h1 h2 ⊢
              exact ih b c h1 h2
          · simpa [hxz] using h2
        · by_cases hyz : y = z
          · subst hyz
            simpa [hxy] using h1
          · simp only [hxy, hyz, if_false] at h1 h2
            split_ifs <;> omega

theorem strcmp_eq_zero (s t : CString) (hs : nulFree s) (ht : nulFree t)
    (h : strcmp s t = 0) : s = t := by
  induction s generalizing t with
  | nil =>
    cases t with
    | nil => rfl
    | cons b t =>
      have hb : b ≠ 0 := ht b (List.mem_cons_self _ _)
      simp [strcmp] at h
      omega
  | cons a s ih =>
    have ha : a ≠ 0 := hs a (List.mem_cons_self _ _)
    cases t with
    | nil =>
      simp [strcmp] at h
      omega
    | cons b t =>
      simp only [strcmp] at h
      by_cases hab : a = b
      · subst hab
        simp only [if_true, ha, if_false] at h
        have := ih t (fun x hx => hs x (List.mem_cons_of_mem _ hx))
          (fun x hx => ht x (List.mem_cons_of_mem _ hx)) h
        rw [this]
      · simp only [hab, if_false] at h
        omega

theorem compGpWaypt_consistent : ConsistentCmp compGpWaypt where
  flip := by
    intro a b
    unfold compGpWaypt
    rw [strcmp_flip a.ID b.ID]
    omega
  trans := by
    intro a b c
    exact strcmp_trans a.ID b.ID c.ID

/-! ## gpsSort: order of the waypoints and repair of the legs -/

theorem zipWith_map_self {α β γ : Type} (f : α → β → γ) (g : α → β) (l : List α) :
    List.zipWith f l (l.map g) = l.map (fun x => f x (g x)) := by
  induction l with
  | nil => rfl
  | cons a l ih => simp [List.zipWith, ih]

theorem gpsSort_waypt (q : Qsort) (f : GpFile) :
    (gpsSort q f).file.waypt = q.run compGpWaypt f.waypt := rfl

theorem gpsSort_route (q : Qsort) (f : GpFile) :
    (gpsSort q f).file.route = f.route.map (fun rp =>
      { rp with leg := rp.leg.map (fun l =>
          resolveLeg (q.run compGpWaypt f.waypt) l ((f.waypt[l]?).map GpWaypt.ID)) }) := by
  simp only [gpsSort, legIDsOf, zipWith_map_self]

theorem findID_some (id : CString) (ws : List GpWaypt) (k0 k : Nat)
    (h : findID id ws k0 = some k) :
    k0 ≤ k ∧ ∃ w, ws[k - k0]? = some w ∧ strcmp id w.ID = 0 := by
  induction ws generalizing k0 with
  | nil => simp [findID] at h
  | cons w ws ih =>
    unfold findID at h
    split at h
    · rename_i hw
      have hk : k0 = k := by simpa using h
      subst hk
      exact ⟨le_refl _, w, by simp, hw⟩
    · obtain ⟨hle, w1, hw1, hs⟩ := ih (k0 + 1) h
      refine ⟨by omega, w1, ?_, hs⟩
      have hk : k - k0 = (k - (k0 + 1)) + 1 := by omega
      rw [hk]
      simpa using hw1

theorem findID_isSome (id : CString) (ws : List GpWaypt) (k0 : Nat)
    (h : ∃ w ∈ ws, strcmp id w.ID = 0) : ∃ k, findID id ws k0 = some k := by
  induction ws generalizing k0 with
  | nil => simp at h
  | cons w ws ih =>
    unfold findID
    split
    · exact ⟨k0, rfl⟩
    · rename_i hw
      obtain ⟨w1, hmem, hs⟩ := h
      rcases List.mem_cons.mp hmem with rfl | hmem1
      · exact absurd hs hw
      · exact ih (k0 + 1) ⟨w1, hmem1, hs⟩

theorem eq_of_ID_eq (ws : List GpWaypt) (hnd : (ws.map GpWaypt.ID).Nodup)
    (a b : GpWaypt) (ha : a ∈ ws) (hb : b ∈ ws) (h : a.ID = b.ID) : a = b :=
  List.inj_on_of_nodup_map hnd ha hb h

/-- The leg repair of `gpsSort` on one leg: with NUL-free, pairwise distinct IDs
a valid leg `l` becomes a valid index that holds the waypoint `l` held. -/
theorem resolveLeg_same (q : Qsort) (ws : List GpWaypt)
    (hnul : ∀ w ∈ ws, nulFree w.ID) (hnd : (ws.map GpWaypt.ID).Nodup)
    (l : Nat) (hl : l < ws.length) :
    resolveLeg (q.run compGpWaypt ws) l ((ws[l]?).map GpWaypt.ID) < (q.run compGpWaypt ws).length ∧
    (q.run compGpWaypt ws)[resolveLeg (q.run compGpWaypt ws) l ((ws[l]?).map GpWaypt.ID)]?
      = ws[l]? := by
  have hperm := q.perm compGpWaypt ws
  have hget : ws[l]? = some ws[l] := List.getElem?_eq_getElem hl
  have hmem : ws[l] ∈ ws := List.getElem_mem hl
  have hmem2 : ws[l] ∈ q.run compGpWaypt ws := hperm.symm.subset hmem
  obtain ⟨k, hk⟩ := findID_isSome (ws[l]).ID (q.run compGpWaypt ws) 0
    ⟨ws[l], hmem2, strcmp_self _⟩
  obtain ⟨_, w, hw, hs⟩ := findID_some _ _ _ _ hk
  have hres : resolveLeg (q.run compGpWaypt ws) l ((ws[l]?).map GpWaypt.ID) = k := by
    rw [hget]
    simp [resolveLeg, hk]
  rw [hres, hget]
  simp only [Nat.sub_zero] at hw
  have hwmem : w ∈ ws := hperm.subset (List.getElem?_mem hw)
  have hid : (ws[l]).ID = w.ID :=
    strcmp_eq_zero _ _ (hnul _ hmem) (hnul _ hwmem) hs
  have hww : ws[l] = w := eq_of_ID_eq ws hnd _ _ hmem hwmem hid
  refine ⟨?_, by rw [hw, hww]⟩
  by_contra hge
  rw [List.getElem?_eq_none (by omega)] at hw
  exact Option.noConfusion hw

/-- Claim C1. After `gpsSort` the waypoints are in non-decreasing order of ID
under `strcmp`, the comparison of `compGpWaypt`: for every file model and every
`qsort`, each waypoint compares less than or equal to every waypoint after it
(for all `i < j`, `strcmp ID[i] ID[j] <= 0`). -/
theorem gpsSort_sorted (q : Qsort) (f : GpFile) :
    (gpsSort q f).file.waypt.Pairwise (fun a b => strcmp a.ID b.ID ≤ 0) := by
  rw [gpsSort_waypt]
  exact q.sorted compGpWaypt f.waypt compGpWaypt_consistent

/-- Claim C2. When the waypoint IDs are NUL-free and pairwise distinct and every
leg is a valid index, `gpsSort` keeps the number of routes and of legs, and leg
`j` of route `i` is afterwards a valid index that designates the very waypoint
(ID, coordinate, symbol, comment and all) it designated before the sort. -/
theorem gpsSort_legs_resolve (q : Qsort) (f : GpFile)
    (hnul : ∀ w ∈ f.waypt, nulFree w.ID)
    (hnd : (f.waypt.map GpWaypt.ID).Nodup)
    (hlegs : ∀ rp ∈ f.route, ∀ l ∈ rp.leg, l < f.waypt.length) :
    (gpsSort q f).file.route.length = f.route.length ∧
    ∀ (i : Nat) (rp rp1 : GpRoute), f.route[i]? = some rp →
      (gpsSort q f).file.route[i]? = some rp1 →
      rp1.leg.length = rp.leg.length ∧
      ∀ (j l l1 : Nat), rp.leg[j]? = some l → rp1.leg[j]? = some l1 →
        l1 < (gpsSort q f).file.waypt.length ∧
        (gpsSort q f).file.waypt[l1]? = f.waypt[l]? := by
  rw [gpsSort_route, gpsSort_waypt]
  refine ⟨by simp, ?_⟩
  intro i rp rp1 hrp hrp1
  rw [List.getElem?_map, hrp] at hrp1
  simp only [Option.map_some'] at hrp1
  have hrp1 := Option.some.inj hrp1
  subst hrp1
  refine ⟨by simp, ?_⟩
  intro j l l1 hl hl1
  simp only [List.getElem?_map, hl, Option.map_some'] at hl1
  have hl1 := Option.some.inj hl1
  have hlt : l < f.waypt.length :=
    hlegs rp (List.getElem?_mem hrp) l (List.getElem?_mem hl)
  have := resolveLeg_same q f.waypt hnul hnd l hlt
  rw [← hl1]
  simpa using this

/-- A concrete file: three waypoints out of order and a route over them. -/
theorem gpsSort_example :
    (gpsSort insertionQsort
      (fileOf [wpt (cstr "CC"), wpt (cstr "AA"), wpt (cstr "BB")] [⟨1, [], [0, 2, 1]⟩])).file
    = fileOf [wpt (cstr "AA"), wpt (cstr "BB"), wpt (cstr "CC")] [⟨1, [], [2, 1, 0]⟩] := by
  decide

theorem gpsSort_legs_resolve_witness :
    (∀ w ∈ (fileOf [wpt (cstr "CC"), wpt (cstr "AA"), wpt (cstr "BB")]
        [⟨1, [], [0, 2, 1]⟩]).waypt, nulFree w.ID) ∧
    ((fileOf [wpt (cstr "CC"), wpt (cstr "AA"), wpt (cstr "BB")]
        [⟨1, [], [0, 2, 1]⟩]).waypt.map GpWaypt.ID).Nodup ∧
    (∀ rp ∈ (fileOf [wpt (cstr "CC"), wpt (cstr "AA"), wpt (cstr "BB")]
        [⟨1, [], [0, 2, 1]⟩]).route, ∀ l ∈ rp.leg, l < 3) ∧
    (gpsSort insertionQsort (fileOf [wpt (cstr "CC"), wpt (cstr "AA"), wpt (cstr "BB")]
        [⟨1, [], [0, 2, 1]⟩])).file.route.length = 1 :=
  ⟨by decide, by decide, by decide,
   (gpsSort_legs_resolve insertionQsort
      (fileOf [wpt (cstr "CC"), wpt (cstr "AA"), wpt (cstr "BB")] [⟨1, [], [0, 2, 1]⟩])
      (by decide) (by decide) (by decide)).1⟩

/-! ## gpsDiscard and the keep command -/

theorem discardScan_valid (which : CString) (h : validComponents which) (a b c : Int) :
    discardScan which (a, b, c) =
      some (if chW ∈ which then -1 else a,
            if chW ∈ which ∨ chR ∈ which then -1 else b,
            if chT ∈ which then -1 else c) := by
  induction which generalizing a b c with
  | nil => simp [discardScan]
  | cons x xs ih =>
    have hxs : validComponents xs := fun y hy => h y (List.mem_cons_of_mem _ hy)
    have e1 : chR ≠ chW := by decide
    have e2 : chW ≠ chR := by decide
    have e3 : chT ≠ chW := by decide
    have e4 : chT ≠ chR := by decide
    have e5 : chW ≠ chT := by decide
    have e6 : chR ≠ chT := by decide
    rcases h x (List.mem_cons_self _ _) with hx | hx | hx
    · subst hx
      simp only [discardScan, if_true, ih hxs]
      simp [e3]
    · subst hx
      simp only [discardScan, e1, if_false, if_true, ih hxs]
      by_cases hw : chW ∈ xs <;> simp [hw, e2, e4]
    · subst hx
      simp only [discardScan, e3, e4, if_false, if_true, ih hxs]
      by_cases ht : chT ∈ xs <;> simp [ht, e5, e6]

theorem discardScan_invalid (which : CString) (h : ¬ validComponents which) (s : Int × Int × Int) :
    discardScan which s = none := by
  induction which generalizing s with
  | nil => exact absurd (fun c hc => absurd hc (List.not_mem_nil c)) h
  | cons x xs ih =>
    obtain ⟨a, b, c⟩ := s
    by_cases hx : x = chW ∨ x = chR ∨ x = chT
    · have hxs : ¬ validComponents xs := by
        intro hv
        apply h
        intro y hy
        rcases List.mem_cons.mp hy with rfl | hy
        · exact hx
        · exact hv y hy
      unfold discardScan
      split_ifs <;> first | exact ih hxs _ | rfl
    · have h1 : ¬ x = chW := fun e => hx (Or.inl e)
      have h2 : ¬ x = chR := fun e => hx (Or.inr (Or.inl e))
      have h3 : ¬ x = chT := fun e => hx (Or.inr (Or.inr e))
      simp [discardScan, h1, h2, h3]

theorem length_le_zero_iff {α : Type} (l : List α) : ((l.length : Int) ≤ 0) ↔ l = [] := by
  cases l with
  | nil => simp
  | cons a l =>
    simp only [List.length_cons, Nat.cast_add, Nat.cast_one]
    constructor
    · intro h; omega
    · intro h; exact absurd h (List.cons_ne_nil a l)

theorem length_ne_neg_one {α : Type} (l : List α) : ¬ ((l.length : Int) = -1) := by
  omega

/-- On a valid component string `gpsDiscard` either declines, when the
specified result is empty, or returns the specified result. -/
theorem gpsDiscard_valid (f : GpFile) (which : CString) (h : validComponents which) :
    gpsDiscard f which =
      if (discardEffect f which).isEmpty then ⟨EXIT_SUCCESS, some errorCode.EMPTYFILE, f⟩
      else ⟨EXIT_SUCCESS, none, discardEffect f which⟩ := by
  obtain ⟨df, tz, uh, ut, ws, rs, ts⟩ := f
  simp only [gpsDiscard, discardScan_valid which h, GpFile.nwaypts, GpFile.nroutes,
    GpFile.ntrkpts, discardEffect, GpFile.isEmpty]
  by_cases hw : chW ∈ which <;> by_cases hr : chR ∈ which <;> by_cases ht : chT ∈ which <;>
    simp [hw, hr, ht, length_le_zero_iff, length_ne_neg_one]

/-- Claim C3. For a component string over `w`, `r`, `t`, `gpsDiscard` declines
(returns `EXIT_SUCCESS`, reports `EMPTYFILE`, leaves the file as it was) exactly
when the model the discard would produce has no waypoint, no route and no
trackpoint; the empty-file report occurs in no other case; and `wrt` is
declined on every file, the file being left unmodified. -/
theorem gpsDiscard_declines_iff (f : GpFile) (which : CString) (h : validComponents which) :
    (gpsDiscard f which = ⟨EXIT_SUCCESS, some errorCode.EMPTYFILE, f⟩ ↔
      (discardEffect f which).isEmpty) ∧
    ((gpsDiscard f which).err = some errorCode.EMPTYFILE ↔ (discardEffect f which).isEmpty) ∧
    gpsDiscard f (cstr "wrt") = ⟨EXIT_SUCCESS, some errorCode.EMPTYFILE, f⟩ := by
  refine ⟨?_, ?_, ?_⟩
  · rw [gpsDiscard_valid f which h]
    by_cases he : (discardEffect f which).isEmpty <;> simp [he]
  · rw [gpsDiscard_valid f which h]
    by_cases he : (discardEffect f which).isEmpty <;> simp [he]
  · have hv : validComponents (cstr "wrt") := by decide
    rw [gpsDiscard_valid f (cstr "wrt") hv]
    have he : (discardEffect f (cstr "wrt")).isEmpty := by
      have h1 : chW ∈ cstr "wrt" := by decide
      have h2 : chT ∈ cstr "wrt" := by decide
      simp [discardEffect, GpFile.isEmpty, h1, h2]
    simp [he]

theorem gpsDiscard_declines_iff_witness :
    validComponents (cstr "w") ∧
    ((gpsDiscard (fileOf [wpt (cstr "AA")] [⟨1, [], [0]⟩]) (cstr "w")).err
        = some errorCode.EMPTYFILE ↔
      (discardEffect (fileOf [wpt (cstr "AA")] [⟨1, [], [0]⟩]) (cstr "w")).isEmpty) :=
  ⟨by decide,
   (gpsDiscard_declines_iff (fileOf [wpt (cstr "AA")] [⟨1, [], [0]⟩]) (cstr "w")
      (by decide)).2.1⟩

/-- Claim C4. When `gpsDiscard` gets a string over `w`, `r`, `t` and does not
decline, it returns `EXIT_SUCCESS` with: no waypoints and no routes if `w`
occurs, no routes if `r` occurs, no trackpoints if `t` occurs; waypoints
unchanged without `w`, routes unchanged without `w` and `r`, trackpoints
unchanged without `t`; `dateFormat`, `timeZone` and the units unchanged; and
legs that were valid indices are valid indices of the result (no route leg is
left pointing at a removed waypoint). -/
theorem gpsDiscard_frame (f : GpFile) (which : CString) (h : validComponents which)
    (hnd : (gpsDiscard f which).err ≠ some errorCode.EMPTYFILE) :
    (gpsDiscard f which).status = EXIT_SUCCESS ∧
    (gpsDiscard f which).err = none ∧
    (chW ∈ which → (gpsDiscard f which).file.waypt = [] ∧ (gpsDiscard f which).file.route = []) ∧
    (chR ∈ which → (gpsDiscard f which).file.route = []) ∧
    (chT ∈ which → (gpsDiscard f which).file.trkpt = []) ∧
    (chW ∉ which → (gpsDiscard f which).file.waypt = f.waypt) ∧
    (chW ∉ which → chR ∉ which → (gpsDiscard f which).file.route = f.route) ∧
    (chT ∉ which → (gpsDiscard f which).file.trkpt = f.trkpt) ∧
    (gpsDiscard f which).file.dateFormat = f.dateFormat ∧
    (gpsDiscard f which).file.timeZone = f.timeZone ∧
    (gpsDiscard f which).file.unitHorz = f.unitHorz ∧
    (gpsDiscard f which).file.unitTime = f.unitTime ∧
    ((∀ rp ∈ f.route, ∀ l ∈ rp.leg, l < f.waypt.length) →
      ∀ rp ∈ (gpsDiscard f which).file.route, ∀ l ∈ rp.leg,
        l < (gpsDiscard f which).file.waypt.length) := by
  rw [gpsDiscard_valid f which h] at hnd ⊢
  by_cases he : (discardEffect f which).isEmpty
  · simp [he] at hnd
  · rw [if_neg he]
    simp only [discardEffect]
    refine ⟨trivial, trivial, ?_, ?_, ?_, ?_, ?_, ?_, trivial, trivial, trivial, trivial, ?_⟩
    · intro hw; simp [hw]
    · intro hr; simp [hr]
    · intro ht; simp [ht]
    · intro hw; simp [hw]
    · intro hw hr; simp [hw, hr]
    · intro ht; simp [ht]
    · intro hl rp hrp l hlm
      by_cases hw : chW ∈ which
      · simp [hw] at hrp
      · by_cases hr : chR ∈ which
        · simp [hr] at hrp
        · simp only [hw, hr, or_self, if_false] at hrp ⊢
          exact hl rp hrp l hlm

theorem gpsDiscard_frame_witness :
    validComponents (cstr "t") ∧
    (gpsDiscard (fileOf [wpt (cstr "AA")] [⟨1, [], [0]⟩]) (cstr "t")).err
      ≠ some errorCode.EMPTYFILE ∧
    (gpsDiscard (fileOf [wpt (cstr "AA")] [⟨1, [], [0]⟩]) (cstr "t")).status = EXIT_SUCCESS :=
  ⟨by decide, by decide,
   (gpsDiscard_frame (fileOf [wpt (cstr "AA")] [⟨1, [], [0]⟩]) (cstr "t")
      (by decide) (by decide)).1⟩

/-- Claim C5. A component string with any byte other than `w`, `r`, `t`, at
any position, makes `gpsDiscard` return `EXIT_FAILURE` with the
unrecognized-component error, the model being left unchanged. -/
theorem gpsDiscard_unknown_component (f : GpFile) (which : CString)
    (h : ∃ c ∈ which, c ≠ chW ∧ c ≠ chR ∧ c ≠ chT) :
    gpsDiscard f which = ⟨EXIT_FAILURE, some errorCode.COMPONENT, f⟩ := by
  have hv : ¬ validComponents which := by
    intro hv
    obtain ⟨c, hc, h1, h2, h3⟩ := h
    rcases hv c hc with e | e | e
    · exact h1 e
    · exact h2 e
    · exact h3 e
  simp [gpsDiscard, discardScan_invalid which hv]

theorem gpsDiscard_unknown_component_witness :
    (∃ c ∈ cstr "wtx", c ≠ chW ∧ c ≠ chR ∧ c ≠ chT) ∧
    gpsDiscard (fileOf [wpt (cstr "AA")] []) (cstr "wtx")
      = ⟨EXIT_FAILURE, some errorCode.COMPONENT, fileOf [wpt (cstr "AA")] []⟩ :=
  ⟨by decide, gpsDiscard_unknown_component (fileOf [wpt (cstr "AA")] []) (cstr "wtx") (by decide)⟩

theorem keepScan_invalid (c : CString) (h : ¬ validComponents c) (x : Nat) :
    keepScan c x = none := by
  induction c generalizing x with
  | nil => exact absurd (fun c hc => absurd hc (List.not_mem_nil c)) h
  | cons y ys ih =>
    by_cases hy : y = chW ∨ y = chR ∨ y = chT
    · have hys : ¬ validComponents ys := by
        intro hv
        apply h
        intro z hz
        rcases List.mem_cons.mp hz with rfl | hz
        · exact hy
        · exact hv z hz
      unfold keepScan
      split_ifs <;> first | exact ih hys _ | rfl
    · have h1 : ¬ y = chW := fun e => hy (Or.inl e)
      have h2 : ¬ y = chR := fun e => hy (Or.inr (Or.inl e))
      have h3 : ¬ y = chT := fun e => hy (Or.inr (Or.inr e))
      simp [keepScan, h1, h2, h3]

/-- The bits of `components` after the loop of the keep command: a bit stays
set exactly when it was set and no letter of the string cleared it. -/
theorem keepScan_valid (c : CString) (h : validComponents c) (x : Nat) (hx : x < 8) :
    ∃ y, keepScan c x = some y ∧ y < 8 ∧
      (y &&& 0x4 = 0x4 ↔ (x &&& 0x4 = 0x4 ∧ chW ∉ c ∧ chR ∉ c)) ∧
      (y &&& 0x2 = 0x2 ↔ (x &&& 0x2 = 0x2 ∧ chR ∉ c)) ∧
      (y &&& 0x1 = 0x1 ↔ (x &&& 0x1 = 0x1 ∧ chT ∉ c)) := by
  induction c generalizing x with
  | nil => exact ⟨x, rfl, hx, by simp, by simp, by simp⟩
  | cons z zs ih =>
    have hzs : validComponents zs := fun y hy => h y (List.mem_cons_of_mem _ hy)
    have e1 : chR ≠ chW := by decide
    have e2 : chW ≠ chR := by decide
    have e3 : chT ≠ chW := by decide
    have e4 : chT ≠ chR := by decide
    have e5 : chW ≠ chT := by decide
    have e6 : chR ≠ chT := by decide
    have kW : ∀ x, x < 8 → (x &&& 251 < 8 ∧
        ¬ ((x &&& 251) &&& 0x4 = 0x4) ∧
        ((x &&& 251) &&& 0x2 = 0x2 ↔ x &&& 0x2 = 0x2) ∧
        ((x &&& 251) &&& 0x1 = 0x1 ↔ x &&& 0x1 = 0x1)) := by decide
    have kR : ∀ x, x < 8 → (x &&& 249 < 8 ∧
        ¬ ((x &&& 249) &&& 0x4 = 0x4) ∧
        ¬ ((x &&& 249) &&& 0x2 = 0x2) ∧
        ((x &&& 249) &&& 0x1 = 0x1 ↔ x &&& 0x1 = 0x1)) := by decide
    have kT : ∀ x, x < 8 → (x &&& 254 < 8 ∧
        ((x &&& 254) &&& 0x4 = 0x4 ↔ x &&& 0x4 = 0x4) ∧
        ((x &&& 254) &&& 0x2 = 0x2 ↔ x &&& 0x2 = 0x2) ∧
        ¬ ((x &&& 254) &&& 0x1 = 0x1)) := by decide
    rcases h z (List.mem_cons_self _ _) with hz | hz | hz
    · subst hz
      obtain ⟨k1, k2, k3, k4⟩ := kW x hx
      obtain ⟨y, hy, hy8, b4, b2, b1⟩ := ih hzs _ k1
      refine ⟨y, by simp [keepScan, hy], hy8, ?_, ?_, ?_⟩
      · rw [b4]; simp [k2]
      · rw [b2, k3]; simp [e1]
      · rw [b1, k4]; simp [e3]
    · subst hz
      obtain ⟨k1, k2, k3, k4⟩ := kR x hx
      obtain ⟨y, hy, hy8, b4, b2, b1⟩ := ih hzs _ k1
      refine ⟨y, by simp [keepScan, e1, hy], hy8, ?_, ?_, ?_⟩
      · rw [b4]; simp [k2]
      · rw [b2]; simp [k3]
      · rw [b1, k4]; simp [e4]
    · subst hz
      obtain ⟨k1, k2, k3, k4⟩ := kT x hx
      obtain ⟨y, hy, hy8, b4, b2, b1⟩ := ih hzs _ k1
      refine ⟨y, by simp [keepScan, e3, e4, hy], hy8, ?_, ?_, ?_⟩
      · rw [b4, k2]; simp [e5, e6]
      · rw [b2, k3]; simp [e6]
      · rw [b1]; simp [k4]

/-- Claim C6. The keep command is the discard of the complement: for a string
`c` over `w`, `r`, `t` it behaves as `gpsDiscard` on the components outside
the closure of `c` (keeping routes keeps waypoints), so keep `w` is discard
`rt`, keep `r` is discard `t`, keep `t` is discard `wr`, and keep `rt` leaves
the file as it is; a string with any other byte gives `EXIT_FAILURE` with the
component error and the model untouched. -/
theorem keepCommand_complement (f : GpFile) (c : CString) :
    (validComponents c → keepCommand f c = gpsDiscard f (keepComplement c)) ∧
    (¬ validComponents c → keepCommand f c = ⟨EXIT_FAILURE, some errorCode.COMPONENT, f⟩) ∧
    keepCommand f (cstr "w") = gpsDiscard f (cstr "rt") ∧
    keepCommand f (cstr "r") = gpsDiscard f (cstr "t") ∧
    keepCommand f (cstr "t") = gpsDiscard f (cstr "wr") ∧
    keepCommand f (cstr "rt") = gpsDiscard f [] ∧
    (keepCommand f (cstr "rt")).file = f := by
  have main : ∀ c, validComponents c → keepCommand f c = gpsDiscard f (keepComplement c) := by
    intro c hv
    obtain ⟨y, hy, _, b4, b2, b1⟩ := keepScan_valid c hv 7 (by decide)
    have h4 : (7 &&& 0x4 = 0x4) := by decide
    have h2 : (7 &&& 0x2 = 0x2) := by decide
    have h1 : (7 &&& 0x1 = 0x1) := by decide
    simp only [h4, h2, h1, true_and] at b4 b2 b1
    have hbuf : keepBuf y = keepComplement c := by
      unfold keepBuf keepComplement
      by_cases hw : chW ∈ c <;> by_cases hr : chR ∈ c <;> by_cases ht : chT ∈ c <;>
        simp [hw, hr, ht] at b4 b2 b1 ⊢ <;> simp [b4, b2, b1]
    simp [keepCommand, hy, hbuf]
  refine ⟨main c, ?_, ?_, ?_, ?_, ?_, ?_⟩
  · intro hv
    simp [keepCommand, keepScan_invalid c hv]
  · exact main (cstr "w") (by decide)
  · exact main (cstr "r") (by decide)
  · exact main (cstr "t") (by decide)
  · exact main (cstr "rt") (by decide)
  · rw [main (cstr "rt") (by decide)]
    have hk : keepComplement (cstr "rt") = [] := by decide
    rw [hk, gpsDiscard_valid f [] (by decide)]
    have he : discardEffect f [] = f := by simp [discardEffect]
    rw [he]
    by_cases hf : f.isEmpty <;> simp [hf]

theorem keepCommand_complement_witness :
    validComponents (cstr "tw") ∧
    keepCommand (fileOf [wpt (cstr "AA")] [⟨1, [], [0]⟩]) (cstr "tw")
      = gpsDiscard (fileOf [wpt (cstr "AA")] [⟨1, [], [0]⟩]) (cstr "r") :=
  ⟨by decide,
   (keepCommand_complement (fileOf [wpt (cstr "AA")] [⟨1, [], [0]⟩]) (cstr "tw")).1 (by decide)⟩

/-! ## gpsMerge: routes -/

theorem renumber_length (rs : List GpRoute) (b : Int) : (renumber rs b).length = rs.length := by
  induction rs generalizing b with
  | nil => rfl
  | cons r rs ih => simp [renumber, ih]

/-- An integer in the range of `int` is its own value as an `int`. -/
theorem castInt_of_range (x : Int) (h1 : -2147483648 ≤ x) (h2 : x ≤ 2147483647) :
    castInt x = x := by
  unfold castInt
  omega

/-- The number of the route at position `i` is the start after `i` increments
of an `int`. -/
theorem renumber_getElem? (rs : List GpRoute) (b : Int) (i : Nat) :
    (renumber rs b)[i]? =
      (rs[i]?).map (fun r => { r with number := (fun x => castInt (x + 1))^[i] b }) := by
  induction rs generalizing b i with
  | nil => simp [renumber]
  | cons r rs ih =>
    cases i with
    | zero => simp [renumber]
    | succ i =>
      simp only [renumber, List.getElem?_cons_succ, ih, Function.iterate_succ_apply]

/-- As long as the range of `int` is not left, `i` increments add `i`. -/
theorem iterate_castInt (i : Nat) : ∀ b : Int, -2147483648 ≤ b → b + i ≤ 2147483647 →
    (fun x => castInt (x + 1))^[i] b = b + i := by
  induction i with
  | zero =>
    intro b _ _
    simp
  | succ i ih =>
    intro b h1 h2
    have hc : castInt (b + 1) = b + 1 := castInt_of_range _ (by omega) (by push_cast at h2; omega)
    rw [Function.iterate_succ_apply, hc, ih (b + 1) (by omega) (by push_cast at h2 ⊢; omega)]
    push_cast
    ring

/-- The numbers given to the routes of file B are consecutive when the last of
them is in the range of `int`. -/
theorem renumber_numbers (rs : List GpRoute) (b : Int) (h1 : -2147483648 ≤ b)
    (h2 : b + rs.length ≤ 2147483648) :
    (renumber rs b).map GpRoute.number =
      (List.range rs.length).map (fun (i : Nat) => b + (i : Int)) := by
  apply List.ext_getElem?
  intro i
  simp only [List.getElem?_map, renumber_getElem?]
  by_cases hi : i < rs.length
  · have hit := iterate_castInt i b h1 (by omega)
    simp [List.getElem?_eq_getElem hi, List.getElem?_range hi, hit]
  · have h1 : rs[i]? = none := List.getElem?_eq_none (by omega)
    have h2 : (List.range rs.length)[i]? = none :=
      List.getElem?_eq_none (by simp; omega)
    simp [h1, h2]

/-- The route block in one formula, empty incoming route list included. -/
theorem mergeRoutes_eq (A B : GpFile) :
    mergeRoutes A B = A.route ++ renumber (offsetLegs A.waypt.length B.route)
      (bStartBlock A.route (bStartMin (offsetLegs A.waypt.length B.route) 1000)) := by
  unfold mergeRoutes
  by_cases h : B.nroutes > 0
  · simp [h]
  · have hB : B.route = [] := by
      cases hr : B.route with
      | nil => rfl
      | cons r rs =>
        exfalso
        apply h
        simp [GpFile.nroutes, hr]
    simp [h, hB, offsetLegs, renumber]

theorem bStartMin_nonneg (rs : List GpRoute) (b : Int) (hb : 0 ≤ b)
    (h : ∀ rp ∈ rs, 0 ≤ rp.number) : 0 ≤ bStartMin rs b := by
  induction rs generalizing b with
  | nil => exact hb
  | cons r rs ih =>
    have hr : 0 ≤ r.number := h r (List.mem_cons_self _ _)
    have hrs : ∀ rp ∈ rs, 0 ≤ rp.number := fun rp hrp => h rp (List.mem_cons_of_mem _ hrp)
    simp only [bStartMin, List.foldl_cons]
    split
    · exact ih _ hr hrs
    · exact ih _ hb hrs

/-- After the loop over the routes of file A, `b_start` is above every route
number of file A and not above the bound `M`, provided that `M` is in the
range of `int`, the start is at most `M` and every route number of file A is
at most `M - 199`, so that no hundred-block leaves the range of `int`. -/
theorem bStartBlock_above (rs : List GpRoute) (b M : Int) (hb : 0 ≤ b) (hbM : b ≤ M)
    (hM : M ≤ 2147483647) (hrs : ∀ rp ∈ rs, rp.number + 199 ≤ M) :
    b ≤ bStartBlock rs b ∧ bStartBlock rs b ≤ M ∧ ∀ rp ∈ rs, rp.number < bStartBlock rs b := by
  induction rs generalizing b with
  | nil => exact ⟨le_refl _, hbM, fun rp hrp => absurd hrp (List.not_mem_nil rp)⟩
  | cons r rs ih =>
    have hrM : r.number + 199 ≤ M := hrs r (List.mem_cons_self _ _)
    have hrs1 : ∀ rp ∈ rs, rp.number + 199 ≤ M :=
      fun rp hrp => hrs rp (List.mem_cons_of_mem _ hrp)
    simp only [bStartBlock, List.foldl_cons]
    by_cases hle : b ≤ r.number
    · simp only [hle, if_true]
      have hr : 0 ≤ r.number := le_trans hb hle
      rw [Int.tmod_eq_emod hb (by decide), Int.tdiv_eq_ediv hr (by decide)]
      have hc : castInt (b % 100 + (r.number / 100 + 1) * 100) =
          b % 100 + (r.number / 100 + 1) * 100 := castInt_of_range _ (by omega) (by omega)
      rw [hc]
      obtain ⟨h1, h2, h3⟩ := ih (b % 100 + (r.number / 100 + 1) * 100) (by omega) (by omega) hrs1
      refine ⟨by unfold bStartBlock at h1; omega, h2, ?_⟩
      intro rp hrp
      rcases List.mem_cons.mp hrp with rfl | hrp
      · unfold bStartBlock at h1; omega
      · exact h3 rp hrp
    · simp only [hle, if_false]
      obtain ⟨h1, h2, h3⟩ := ih b hb hbM hrs1
      refine ⟨h1, h2, ?_⟩
      intro rp hrp
      rcases List.mem_cons.mp hrp with rfl | hrp
      · unfold bStartBlock at h1; omega
      · exact h3 rp hrp

theorem bStartMin_le (rs : List GpRoute) (b : Int) : bStartMin rs b ≤ b := by
  induction rs generalizing b with
  | nil => exact le_refl _
  | cons r rs ih =>
    simp only [bStartMin, List.foldl_cons]
    split
    · rename_i h
      exact le_trans (ih _) (le_of_lt h)
    · exact ih _

theorem offsetLegs_number (n : Nat) (rs : List GpRoute) :
    ∀ rp ∈ offsetLegs n rs, ∃ r ∈ rs, rp.number = r.number := by
  intro rp hrp
  simp only [offsetLegs, List.mem_map] at hrp
  obtain ⟨r, hr, rfl⟩ := hrp
  exact ⟨r, hr, rfl⟩

/-! ## gpsMerge: waypoints -/

theorem setIdAt_payload (ws : List GpWaypt) (k : Nat) (id : CString) :
    (setIdAt ws k id).map GpWaypt.payload = ws.map GpWaypt.payload := by
  induction ws generalizing k with
  | nil => rfl
  | cons w ws ih =>
    cases k with
    | zero => simp [setIdAt, GpWaypt.payload]
    | succ k => simp [setIdAt, ih]

theorem padWaypts_payload (a b : Nat) (ws : List GpWaypt) :
    (padWaypts a b ws).map GpWaypt.payload = ws.map GpWaypt.payload := by
  simp [padWaypts, GpWaypt.payload, Function.comp]

theorem dedupInner_payload (i total fuel j n : Nat) (ws W : List GpWaypt)
    (h : dedupInner i total fuel j n ws = Outcome.ok W) :
    W.map GpWaypt.payload = ws.map GpWaypt.payload := by
  induction fuel generalizing j n ws with
  | zero => simp [dedupInner] at h
  | succ fuel ih =>
    unfold dedupInner at h
    split at h
    · split at h
      · exact ih _ _ _ h
      · split at h
        · split at h
          · exact Outcome.noConfusion h
          · rw [ih _ _ _ h, setIdAt_payload]
        · exact ih _ _ _ h
    · have := Outcome.ok.inj h
      rw [this]

theorem dedupOuter_payload (fuel total : Nat) (is : List Nat) (ws W : List GpWaypt)
    (h : dedupOuter fuel total is ws = Outcome.ok W) :
    W.map GpWaypt.payload = ws.map GpWaypt.payload := by
  induction is generalizing ws with
  | nil =>
    have := Outcome.ok.inj h
    rw [this]
  | cons i is ih =>
    unfold dedupOuter at h
    split at h
    · rename_i w1 hw1
      rw [ih _ h, dedupInner_payload _ _ _ _ _ _ _ hw1]
    · exact Outcome.noConfusion h

/-- The waypoint block appends: the result has the waypoints of both files in
order, each with its coordinate, textChoice, textPlace and comment. -/
theorem mergeWaypts_payload (A B : GpFile) (W : List GpWaypt)
    (h : mergeWaypts A B = Outcome.ok W) :
    W.map GpWaypt.payload = (A.waypt ++ B.waypt).map GpWaypt.payload := by
  unfold mergeWaypts at h
  split at h
  · rw [dedupOuter_payload _ _ _ _ _ h, padWaypts_payload]
  · rename_i hB
    have hB0 : B.waypt = [] := by
      cases hw : B.waypt with
      | nil => rfl
      | cons w ws =>
        exfalso
        apply hB
        simp [GpFile.nwaypts, hw]
    have := Outcome.ok.inj h
    rw [← this, hB0]
    simp

theorem gpsMerge_ok (A B C : GpFile) (h : gpsMerge A B = Outcome.ok C) :
    C.route = mergeRoutes A B ∧ mergeWaypts A B = Outcome.ok C.waypt ∧
    C.trkpt = mergeTrkpts A B ∧ C.dateFormat = A.dateFormat ∧ C.timeZone = A.timeZone ∧
    C.unitHorz = A.unitHorz ∧ C.unitTime = A.unitTime := by
  unfold gpsMerge at h
  split at h
  · exact Outcome.noConfusion h
  · rename_i W hW
    have := Outcome.ok.inj h
    subst this
    exact ⟨rfl, hW, rfl, rfl, rfl, rfl, rfl⟩

theorem mergeWaypts_length (A B : GpFile) (W : List GpWaypt)
    (h : mergeWaypts A B = Outcome.ok W) : W.length = A.waypt.length + B.waypt.length := by
  have := congrArg List.length (mergeWaypts_payload A B W h)
  simpa using this

theorem mergeWaypts_getElem? (A B : GpFile) (W : List GpWaypt)
    (h : mergeWaypts A B = Outcome.ok W) (k : Nat) :
    (W[k]?).map GpWaypt.payload = ((A.waypt ++ B.waypt)[k]?).map GpWaypt.payload := by
  have := congrArg (fun l => l[k]?) (mergeWaypts_payload A B W h)
  simp only [List.getElem?_map] at this
  exact this

theorem renumber_mem (rs : List GpRoute) (b : Int) (rp : GpRoute) (h : rp ∈ renumber rs b) :
    ∃ r ∈ rs, rp.leg = r.leg ∧ rp.comment = r.comment := by
  induction rs generalizing b with
  | nil => simp [renumber] at h
  | cons r rs ih =>
    simp only [renumber, List.mem_cons] at h
    rcases h with rfl | h
    · exact ⟨r, List.mem_cons_self _ _, rfl, rfl⟩
    · obtain ⟨r1, hr1, hl, hc⟩ := ih _ h
      exact ⟨r1, List.mem_cons_of_mem _ hr1, hl, hc⟩

/-- Claim C7. If every leg of the receiver and of the incoming file is a valid
index into its own waypoints, then in the merged file: the receiver's routes
(legs included) are an unchanged prefix of the routes; incoming route `i` sits
at position `nroutes + i` with every leg increased by the receiver's pre-merge
waypoint count; each such leg designates the incoming waypoint it designated,
found at its new position with the same coordinate, textChoice, textPlace and
comment; and every leg of every route is a valid index into the combined
waypoints. -/
theorem gpsMerge_legs (A B C : GpFile)
    (hA : legsValid A.route A.waypt.length) (hB : legsValid B.route B.waypt.length)
    (hm : gpsMerge A B = Outcome.ok C) :
    C.route.length = A.route.length + B.route.length ∧
    C.waypt.length = A.waypt.length + B.waypt.length ∧
    (∀ (i : Nat) (rp : GpRoute), A.route[i]? = some rp → C.route[i]? = some rp) ∧
    (∀ (i : Nat) (rpB : GpRoute), B.route[i]? = some rpB →
      ∃ rpC, C.route[A.route.length + i]? = some rpC ∧
        rpC.leg = rpB.leg.map (fun l => l + A.waypt.length) ∧
        ∀ l ∈ rpB.leg, ∃ wB wC, B.waypt[l]? = some wB ∧
          C.waypt[l + A.waypt.length]? = some wC ∧
          wC.coord = wB.coord ∧ wC.textChoice = wB.textChoice ∧
          wC.textPlace = wB.textPlace ∧ wC.comment = wB.comment) ∧
    legsValid C.route C.waypt.length := by
  obtain ⟨hroute, hwaypt, _⟩ := gpsMerge_ok A B C hm
  rw [mergeRoutes_eq] at hroute
  have hlen := mergeWaypts_length A B C.waypt hwaypt
  refine ⟨?_, hlen, ?_, ?_, ?_⟩
  · rw [hroute]
    simp [renumber_length, offsetLegs]
  · intro i rp hrp
    have hi : i < A.route.length := by
      by_contra hge
      rw [List.getElem?_eq_none (by omega)] at hrp
      exact Option.noConfusion hrp
    rw [hroute, List.getElem?_append_left hi]
    exact hrp
  · intro i rpB hrpB
    have hget : C.route[A.route.length + i]? =
        some { number := (fun x => castInt (x + 1))^[i]
                 (bStartBlock A.route (bStartMin (offsetLegs A.waypt.length B.route) 1000))
               comment := rpB.comment
               leg := rpB.leg.map (fun l => l + A.waypt.length) } := by
      rw [hroute, List.getElem?_append_right (by omega)]
      simp [renumber_getElem?, offsetLegs, hrpB]
    refine ⟨_, hget, rfl, ?_⟩
    intro l hl
    have hlt : l < B.waypt.length := hB rpB (List.getElem?_mem hrpB) l hl
    have hwB : B.waypt[l]? = some B.waypt[l] := List.getElem?_eq_getElem hlt
    have hcat : (A.waypt ++ B.waypt)[l + A.waypt.length]? = some B.waypt[l] := by
      rw [List.getElem?_append_right (by omega)]
      simp
    have hp := mergeWaypts_getElem? A B C.waypt hwaypt (l + A.waypt.length)
    rw [hcat] at hp
    cases hC : C.waypt[l + A.waypt.length]? with
    | none => rw [hC] at hp; exact Option.noConfusion hp
    | some wC =>
      rw [hC] at hp
      simp only [Option.map_some', Option.some.injEq, GpWaypt.payload, Prod.mk.injEq] at hp
      exact ⟨B.waypt[l], wC, hwB, rfl, hp.1, hp.2.1, hp.2.2.1, hp.2.2.2⟩
  · intro rp hrp l hl
    rw [hroute] at hrp
    rw [hlen]
    rcases List.mem_append.mp hrp with hrpA | hrpB
    · have := hA rp hrpA l hl
      omega
    · obtain ⟨r, hr, hleg, _⟩ := renumber_mem _ _ _ hrpB
      simp only [offsetLegs, List.mem_map] at hr
      obtain ⟨r0, hr0, rfl⟩ := hr
      rw [hleg] at hl
      simp only [List.mem_map] at hl
      obtain ⟨l0, hl0, rfl⟩ := hl
      have := hB r0 hr0 l0 hl0
      omega

theorem gpsMerge_legs_witness :
    legsValid (fileOf [wpt (cstr "AA")] [⟨1, [], [0]⟩]).route 1 ∧
    legsValid (fileOf [wpt (cstr "BB")] [⟨1, [], [0]⟩]).route 1 ∧
    gpsMerge (fileOf [wpt (cstr "AA")] [⟨1, [], [0]⟩]) (fileOf [wpt (cstr "BB")] [⟨1, [], [0]⟩])
      = Outcome.ok
          (fileOf [wpt (cstr "AA"), wpt (cstr "BB")] [⟨1, [], [0]⟩, ⟨101, [], [1]⟩]) ∧
    legsValid
      (fileOf [wpt (cstr "AA"), wpt (cstr "BB")] [⟨1, [], [0]⟩, ⟨101, [], [1]⟩]).route
      (fileOf [wpt (cstr "AA"), wpt (cstr "BB")] [⟨1, [], [0]⟩, ⟨101, [], [1]⟩]).waypt.length :=
  ⟨by decide, by decide, by decide,
   (gpsMerge_legs (fileOf [wpt (cstr "AA")] [⟨1, [], [0]⟩])
      (fileOf [wpt (cstr "BB")] [⟨1, [], [0]⟩])
      (fileOf [wpt (cstr "AA"), wpt (cstr "BB")] [⟨1, [], [0]⟩, ⟨101, [], [1]⟩])
      (by decide) (by decide) (by decide)).2.2.2.2⟩

/-- Route numbers that stay in the range of `int`. If the route numbers of the
receiver are non-negative and pairwise distinct, those of the incoming file
non-negative, and no number that the renumbering computes leaves the range of
`int` (`1000` and every route number of the receiver increased by `199`, plus
the number of incoming routes, are at most `2147483647`), then after `gpsMerge`
the route numbers of the combined sequence are pairwise distinct: they are the
numbers of the receiver followed by the consecutive numbers `b`, `b + 1`, ...
for the incoming routes, with `b` strictly above every route number of the
receiver. -/
theorem gpsMerge_route_numbers_in_range (A B C : GpFile)
    (hAd : (A.route.map GpRoute.number).Nodup)
    (hB0 : ∀ rp ∈ B.route, 0 ≤ rp.number)
    (hBn : 1000 + (B.route.length : Int) ≤ 2147483647)
    (hAn : ∀ rp ∈ A.route, rp.number + 199 + (B.route.length : Int) ≤ 2147483647)
    (hm : gpsMerge A B = Outcome.ok C) :
    (C.route.map GpRoute.number).Nodup ∧
    ∃ b : Int,
      C.route.map GpRoute.number =
        A.route.map GpRoute.number ++
          (List.range B.route.length).map (fun (i : Nat) => b + (i : Int)) ∧
      ∀ rp ∈ A.route, rp.number < b := by
  obtain ⟨hroute, _⟩ := gpsMerge_ok A B C hm
  rw [mergeRoutes_eq] at hroute
  have hmin : 0 ≤ bStartMin (offsetLegs A.waypt.length B.route) 1000 := by
    apply bStartMin_nonneg _ _ (by decide)
    intro rp hrp
    obtain ⟨r, hr, he⟩ := offsetLegs_number _ _ rp hrp
    rw [he]
    exact hB0 r hr
  have hmax := bStartMin_le (offsetLegs A.waypt.length B.route) 1000
  obtain ⟨hge, hle, hgt⟩ := bStartBlock_above A.route _ (2147483647 - (B.route.length : Int))
    hmin (by omega) (by omega) (fun rp hrp => by have := hAn rp hrp; omega)
  have hnum : C.route.map GpRoute.number =
      A.route.map GpRoute.number ++ (List.range B.route.length).map (fun (i : Nat) =>
        bStartBlock A.route (bStartMin (offsetLegs A.waypt.length B.route) 1000) + (i : Int)) := by
    have hlen : (offsetLegs A.waypt.length B.route).length = B.route.length := by
      simp [offsetLegs]
    rw [hroute, List.map_append, renumber_numbers _ _ (by omega) (by rw [hlen]; omega), hlen]
  refine ⟨?_, _, hnum, hgt⟩
  rw [hnum, List.nodup_append]
  refine ⟨hAd, ?_, ?_⟩
  · apply List.Nodup.map _ (List.nodup_range _)
    intro i j hij
    simp only at hij
    omega
  · intro x hxA hxB
    simp only [List.mem_map] at hxA hxB
    obtain ⟨rp, hrp, rfl⟩ := hxA
    obtain ⟨i, _, hi⟩ := hxB
    have := hgt rp hrp
    omega

/-- Claim C8, evaluated on the code. The receiver holds the routes 9,
2147483600 and 3, non-negative and pairwise distinct, the incoming file the
route 5. `b_start` is 5, then 105 after route 9; for route 2147483600 the
`int` value of `(b_start % 100) + ((block/100) + 1) * 100` is beyond
`INT_MAX` and comes out as -2147483591; for route 3 it becomes
`-91 + 100 = 9`. The incoming route is numbered 9, the number of the first
route of the receiver: the numbers of the merged file are not pairwise
distinct. With the receiver routes 3 and 2147483600 the incoming route is
numbered -2147483591, below every route number of the receiver. The line
`R 2147483600` of a file is read as a route with that number. -/
theorem gpsMerge_route_number_repeated :
    gpsMerge (fileOf [] [⟨9, [], []⟩, ⟨2147483600, [], []⟩, ⟨3, [], []⟩])
        (fileOf [] [⟨5, [], []⟩])
      = Outcome.ok
          (fileOf [] [⟨9, [], []⟩, ⟨2147483600, [], []⟩, ⟨3, [], []⟩, ⟨9, [], []⟩]) ∧
    ¬ ((fileOf [] [⟨9, [], []⟩, ⟨2147483600, [], []⟩, ⟨3, [], []⟩, ⟨9, [], []⟩]).route.map
        GpRoute.number).Nodup ∧
    gpsMerge (fileOf [] [⟨3, [], []⟩, ⟨2147483600, [], []⟩]) (fileOf [] [⟨5, [], []⟩])
      = Outcome.ok
          (fileOf [] [⟨3, [], []⟩, ⟨2147483600, [], []⟩, ⟨-2147483591, [], []⟩]) ∧
    scanGpRoute (stripEOL (cstr "R 2147483600")) = Parse.ok ⟨2147483600, [], []⟩ := by
  decide

/-! ## gpsMerge: the step budget of the duplicate-ID loop is never exhausted -/

theorem idAt_setIdAt (ws : List GpWaypt) (i k : Nat) (id : CString) :
    idAt (setIdAt ws i id) k = if k = i ∧ i < ws.length then id else idAt ws k := by
  induction ws generalizing i k with
  | nil => simp [setIdAt, idAt]
  | cons w ws ih =>
    cases i with
    | zero =>
      cases k with
      | zero => simp [setIdAt, idAt]
      | succ k => simp [setIdAt, idAt]
    | succ i =>
      cases k with
      | zero => simp [setIdAt, idAt]
      | succ k => simp [setIdAt, idAt, ih]

theorem idAt_of_ge (ws : List GpWaypt) (i : Nat) (h : ws.length ≤ i) : idAt ws i = [] := by
  induction ws generalizing i with
  | nil => cases i <;> rfl
  | cons w ws ih =>
    cases i with
    | zero => simp at h
    | succ i =>
      simp only [idAt]
      apply ih
      simp only [List.length_cons] at h
      omega

theorem putLast_length (id s : CString) (n : Nat) (h : putLast id n = some s) :
    id ≠ [] ∧ s.length = if n = 0 then id.length - 1 else id.length := by
  unfold putLast at h
  by_cases hid : id = []
  · simp [hid] at h
  · have hpos : 0 < id.length := List.length_pos.mpr hid
    by_cases hn : n = 0
    · simp only [hid, hn, if_false, if_true, Option.some.injEq] at h
      subst h
      simp [hn, hid]
    · simp only [hid, hn, if_false, Option.some.injEq] at h
      subst h
      simp [hid, hn]
      omega

/-- Each iteration of the inner loop lowers a measure: a rewrite lowers
`256 * strlen(ID[i]) + (256 - n) % 256`, any other iteration raises `j`. -/
theorem dedupInner_fuel (i total fuel j n : Nat) (ws : List GpWaypt) (hn : n < 256)
    (h : ((idAt ws i).length * 256 + (256 - n) % 256) * (total + 1) + (total - j) + 1 ≤ fuel) :
    dedupInner i total fuel j n ws ≠ Outcome.fault Fault.fuel := by
  induction fuel generalizing j n ws with
  | zero => omega
  | succ fuel ih =>
    unfold dedupInner
    split
    · rename_i hj
      split
      · exact ih _ _ _ hn (by omega)
      · split
        · split
          · intro hc; cases hc
          · rename_i s hs
            obtain ⟨hne, hlen⟩ := putLast_length _ _ _ hs
            have hpos : 0 < (idAt ws i).length := List.length_pos.mpr hne
            apply ih _ _ _ (Nat.mod_lt _ (by decide))
            have hle : (idAt (setIdAt ws i s) i).length ≤ s.length := by
              rw [idAt_setIdAt]
              split
              · exact le_refl _
              · rename_i hcond
                have hge : ¬ i < ws.length := fun hlt => hcond ⟨rfl, hlt⟩
                have hnil : idAt ws i = [] := idAt_of_ge ws i (by omega)
                exact absurd hnil hne
            have hP : (idAt (setIdAt ws i s) i).length * 256 + (256 - (n + 1) % 256) % 256 + 1
                ≤ (idAt ws i).length * 256 + (256 - n) % 256 := by
              by_cases hn0 : n = 0
              · subst hn0
                simp only [if_true] at hlen
                omega
              · simp only [hn0, if_false] at hlen
                omega
            have hmul := Nat.mul_le_mul_right (total + 1) hP
            rw [Nat.add_mul, Nat.one_mul] at hmul
            generalize ((idAt (setIdAt ws i s) i).length * 256 + (256 - (n + 1) % 256) % 256)
              * (total + 1) = X at hmul ⊢
            generalize ((idAt ws i).length * 256 + (256 - n) % 256) * (total + 1) = Y at hmul h
            omega
        · exact ih _ _ _ hn (by omega)
    · intro hc; cases hc

theorem dedupInner_len (L i total fuel j n : Nat) (ws W : List GpWaypt)
    (h : dedupInner i total fuel j n ws = Outcome.ok W)
    (hL : ∀ k, (idAt ws k).length ≤ L) : ∀ k, (idAt W k).length ≤ L := by
  induction fuel generalizing j n ws with
  | zero => simp [dedupInner] at h
  | succ fuel ih =>
    unfold dedupInner at h
    split at h
    · split at h
      · exact ih _ _ _ h hL
      · split at h
        · split at h
          · exact Outcome.noConfusion h
          · rename_i s hs
            obtain ⟨_, hlen⟩ := putLast_length _ _ _ hs
            apply ih _ _ _ h
            intro k
            rw [idAt_setIdAt]
            split
            · have := hL i
              split at hlen <;> omega
            · exact hL k
        · exact ih _ _ _ h hL
    · have := Outcome.ok.inj h
      rw [← this]
      exact hL

theorem dedupOuter_fuel (L total : Nat) (is : List Nat) (ws : List GpWaypt)
    (hL : ∀ k, (idAt ws k).length ≤ L) :
    dedupOuter (dedupFuel L total) total is ws ≠ Outcome.fault Fault.fuel := by
  induction is generalizing ws with
  | nil => intro hc; cases hc
  | cons i is ih =>
    unfold dedupOuter
    have hfuel : dedupInner i total (dedupFuel L total) 0 48 ws ≠ Outcome.fault Fault.fuel := by
      apply dedupInner_fuel _ _ _ _ _ _ (by decide)
      have h1 := hL i
      have h2 : ((idAt ws i).length * 256 + (256 - 48) % 256) + 1 ≤ (L + 1) * 256 := by omega
      have hmul := Nat.mul_le_mul_right (total + 1) h2
      rw [Nat.add_mul, Nat.one_mul] at hmul
      unfold dedupFuel
      generalize ((idAt ws i).length * 256 + (256 - 48) % 256) * (total + 1) = X at hmul ⊢
      generalize (L + 1) * 256 * (total + 1) = Y at hmul ⊢
      omega
    split
    · rename_i w1 hw1
      exact ih _ (dedupInner_len L _ _ _ _ _ _ _ hw1 hL)
    · rename_i e he
      intro hc
      have := Outcome.fault.inj hc
      subst this
      exact hfuel he

theorem le_foldl_maxLen (field : GpWaypt → CString) (ws : List GpWaypt) (m : Nat) :
    m ≤ ws.foldl (fun m w => if (field w).length > m then (field w).length else m) m ∧
    ∀ w ∈ ws, (field w).length ≤
      ws.foldl (fun m w => if (field w).length > m then (field w).length else m) m := by
  induction ws generalizing m with
  | nil => exact ⟨le_refl _, fun w hw => absurd hw (List.not_mem_nil w)⟩
  | cons a ws ih =>
    simp only [List.foldl_cons]
    by_cases hc : (field a).length > m
    · simp only [hc, if_true]
      obtain ⟨h1, h2⟩ := ih (field a).length
      refine ⟨by omega, ?_⟩
      intro w hw
      rcases List.mem_cons.mp hw with rfl | hw
      · exact h1
      · exact h2 w hw
    · simp only [hc, if_false]
      obtain ⟨h1, h2⟩ := ih m
      refine ⟨h1, ?_⟩
      intro w hw
      rcases List.mem_cons.mp hw with rfl | hw
      · omega
      · exact h2 w hw

theorem le_maxLen (field : GpWaypt → CString) (ws : List GpWaypt) :
    ∀ w ∈ ws, (field w).length ≤ maxLen field ws :=
  (le_foldl_maxLen field ws 0).2

theorem idAt_mem (ws : List GpWaypt) (k : Nat) : idAt ws k = [] ∨ ∃ w ∈ ws, idAt ws k = w.ID := by
  induction ws generalizing k with
  | nil => exact Or.inl (by cases k <;> rfl)
  | cons w ws ih =>
    cases k with
    | zero => exact Or.inr ⟨w, List.mem_cons_self _ _, rfl⟩
    | succ k =>
      rcases ih k with h | ⟨w1, hw1, h⟩
      · exact Or.inl h
      · exact Or.inr ⟨w1, List.mem_cons_of_mem _ hw1, h⟩

/-- The budget `dedupFuel` always suffices: a run of `gpsMerge` has a result
unless the loop writes before the start of an empty ID. -/
theorem gpsMerge_fuel (A B : GpFile) : gpsMerge A B ≠ Outcome.fault Fault.fuel := by
  have hw : mergeWaypts A B ≠ Outcome.fault Fault.fuel := by
    unfold mergeWaypts
    split
    · apply dedupOuter_fuel
      intro k
      rcases idAt_mem (padWaypts (maxLen GpWaypt.ID (A.waypt ++ B.waypt))
        (maxLen GpWaypt.symbol (A.waypt ++ B.waypt)) (A.waypt ++ B.waypt)) k with h | ⟨w, hw, h⟩
      · rw [h]; exact Nat.zero_le _
      · rw [h]
        simp only [padWaypts, List.mem_map] at hw
        obtain ⟨w0, hw0, rfl⟩ := hw
        have := le_maxLen GpWaypt.ID (A.waypt ++ B.waypt) w0 hw0
        simp only [padTo, List.length_append, List.length_replicate]
        omega
    · intro hc; cases hc
  unfold gpsMerge
  split
  · rename_i e he
    intro hc
    have := Outcome.fault.inj hc
    subst this
    exact hw he
  · intro hc; cases hc

/-! ## gpsMerge: the duplicate-ID loop -/

/-- Claim C9, evaluated on the code. The receiver holds `AAA0` and `AAAA`, the
incoming file holds `AAAA`; IDs are non-empty and pairwise distinct within each
file. The appended `AAAA` collides with waypoint 1 and is rewritten to `AAA0`;
the rescan restarts at index 1 (`j = 0` followed by the loop's `j++`), so the
rewritten ID is never compared with waypoint 0 and the merged file ends with
the ID `AAA0` at positions 0 and 2. -/
theorem gpsMerge_duplicate_with_first :
    (∀ w ∈ [wpt (cstr "AAA0"), wpt (cstr "AAAA"), wpt (cstr "AAAA")], w.ID ≠ []) ∧
    ([wpt (cstr "AAA0"), wpt (cstr "AAAA")].map GpWaypt.ID).Nodup ∧
    ([wpt (cstr "AAAA")].map GpWaypt.ID).Nodup ∧
    gpsMerge (fileOf [wpt (cstr "AAA0"), wpt (cstr "AAAA")] []) (fileOf [wpt (cstr "AAAA")] [])
      = Outcome.ok (fileOf [wpt (cstr "AAA0"), wpt (cstr "AAAA"), wpt (cstr "AAA0")] []) ∧
    ¬ ((fileOf [wpt (cstr "AAA0"), wpt (cstr "AAAA"), wpt (cstr "AAA0")] []).waypt.map
        GpWaypt.ID).Nodup := by
  decide

/-- What the code does when both files hold one waypoint with the same
non-empty ID `s`: the receiver keeps `s`, the incoming ID has its final
character replaced by the byte of `0`, and nothing is compared with waypoint 0
afterwards. The two IDs differ exactly when `s` does not end in `0`. -/
theorem gpsMerge_same_id (s : CString) (hs : s ≠ []) (a b : GpWaypt)
    (ha : a.ID = s) (hb : b.ID = s) :
    ∃ C, gpsMerge (fileOf [a] []) (fileOf [b] []) = Outcome.ok C ∧
      C.waypt.map GpWaypt.ID = [s, s.dropLast ++ [48]] := by
  have hpos : 0 < s.length := List.length_pos.mpr hs
  have hL : maxLen GpWaypt.ID [a, b] = s.length := by
    simp [maxLen, ha, hb, hpos]
  have hpad : padTo s.length s = s := by simp [padTo]
  obtain ⟨k, hk⟩ : ∃ k, dedupFuel s.length 2 = k + 3 := ⟨dedupFuel s.length 2 - 3, by
    unfold dedupFuel; omega⟩
  have hput : putLast s 48 = some (s.dropLast ++ [48]) := by simp [putLast, hs]
  have hw : mergeWaypts (fileOf [a] []) (fileOf [b] []) = Outcome.ok
      [{ a with symbol := padTo (maxLen GpWaypt.symbol [a, b]) a.symbol },
       { b with ID := s.dropLast ++ [48],
                symbol := padTo (maxLen GpWaypt.symbol [a, b]) b.symbol }] := by
    simp only [mergeWaypts, fileOf, GpFile.nwaypts, List.length_cons, List.length_nil,
      List.cons_append, List.nil_append, hL, hk]
    simp [padWaypts, ha, hb, hpad, dedupOuter, dedupInner, idAt, setIdAt, strcmp_self, hput,
      List.range']
  refine ⟨{ fileOf [a] [] with
      route := mergeRoutes (fileOf [a] []) (fileOf [b] [])
      waypt := [{ a with symbol := padTo (maxLen GpWaypt.symbol [a, b]) a.symbol },
        { b with ID := s.dropLast ++ [48],
                 symbol := padTo (maxLen GpWaypt.symbol [a, b]) b.symbol }]
      trkpt := mergeTrkpts (fileOf [a] []) (fileOf [b] []) }, ?_, ?_⟩
  · simp only [gpsMerge, hw]
  · simp [ha]

/-- Claim C10, evaluated on the code. Receiver and incoming file both hold the
single ID `AAA0`: the incoming ID is rewritten to `AAA0` (its final character
replaced by `0`), index 0 is not rescanned, and the merged file holds `AAA0`
twice. With `AAAA` in both files the result is `AAAA`, `AAA0`. -/
theorem gpsMerge_same_id_ending_in_zero :
    gpsMerge (fileOf [wpt (cstr "AAA0")] []) (fileOf [wpt (cstr "AAA0")] [])
      = Outcome.ok (fileOf [wpt (cstr "AAA0"), wpt (cstr "AAA0")] []) ∧
    gpsMerge (fileOf [wpt (cstr "AAAA")] []) (fileOf [wpt (cstr "AAAA")] [])
      = Outcome.ok (fileOf [wpt (cstr "AAAA"), wpt (cstr "AAA0")] []) := by
  decide

/-! ## gpsMerge: renumbering, units and time zones -/

/-- Claim C11 fails as stated. The receiver holds route 3, the incoming file
routes 5 and 900: `b_start` is the least incoming number, 5, already above 3,
so the incoming routes are renumbered 5 and 6, neither above the incoming
file's former maximum 900. -/
theorem gpsMerge_renumber_not_above_incoming :
    gpsMerge (fileOf [] [⟨3, [], []⟩]) (fileOf [] [⟨5, [], []⟩, ⟨900, [], []⟩])
      = Outcome.ok (fileOf [] [⟨3, [], []⟩, ⟨5, [], []⟩, ⟨6, [], []⟩]) ∧
    ¬ (∀ rpC ∈ [(⟨5, [], []⟩ : GpRoute), ⟨6, [], []⟩],
        ∀ rpB ∈ (fileOf [] [⟨5, [], []⟩, ⟨900, [], []⟩]).route, rpB.number < rpC.number) := by
  decide

/-- Claim C11, amended. After `gpsMerge` with an incoming file whose route
numbers are non-negative (one route or more, or none), and as long as no
number that the renumbering computes leaves the range of `int` (`1000` and
every route number of the receiver increased by `199`, plus the number of
incoming routes, are at most `2147483647`), there is a start `b` strictly
above every pre-merge route number of the receiver such that the receiver's
routes are an unchanged prefix and incoming route `i` follows at position
`nroutes + i` with number `b + i` (original order, numbers increasing by one)
and its comment and leg count; `b` is at least the least incoming number
capped at 1000, nothing more is promised about the incoming file's former
numbers. -/
theorem gpsMerge_renumber_above_receiver (A B C : GpFile)
    (hB0 : ∀ rp ∈ B.route, 0 ≤ rp.number)
    (hBn : 1000 + (B.route.length : Int) ≤ 2147483647)
    (hAn : ∀ rp ∈ A.route, rp.number + 199 + (B.route.length : Int) ≤ 2147483647)
    (hm : gpsMerge A B = Outcome.ok C) :
    ∃ b : Int,
      (∀ rp ∈ A.route, rp.number < b) ∧
      bStartMin B.route 1000 ≤ b ∧
      C.route.length = A.route.length + B.route.length ∧
      (∀ (i : Nat) (rp : GpRoute), A.route[i]? = some rp → C.route[i]? = some rp) ∧
      (∀ (i : Nat) (rpB : GpRoute), B.route[i]? = some rpB →
        ∃ rpC, C.route[A.route.length + i]? = some rpC ∧ rpC.number = b + (i : Int) ∧
          rpC.comment = rpB.comment ∧ rpC.leg.length = rpB.leg.length) := by
  obtain ⟨hroute, _⟩ := gpsMerge_ok A B C hm
  rw [mergeRoutes_eq] at hroute
  have hminEq : bStartMin (offsetLegs A.waypt.length B.route) 1000 = bStartMin B.route 1000 := by
    simp only [bStartMin, offsetLegs, List.foldl_map]
  have hmin : 0 ≤ bStartMin (offsetLegs A.waypt.length B.route) 1000 := by
    rw [hminEq]
    exact bStartMin_nonneg _ _ (by decide) hB0
  have hmax := bStartMin_le (offsetLegs A.waypt.length B.route) 1000
  obtain ⟨hge, hle, hgt⟩ := bStartBlock_above A.route _ (2147483647 - (B.route.length : Int))
    hmin (by omega) (by omega) (fun rp hrp => by have := hAn rp hrp; omega)
  refine ⟨_, hgt, by rw [← hminEq]; exact hge, ?_, ?_, ?_⟩
  · rw [hroute]
    simp [renumber_length, offsetLegs]
  · intro i rp hrp
    have hi : i < A.route.length := by
      by_contra hge
      rw [List.getElem?_eq_none (by omega)] at hrp
      exact Option.noConfusion hrp
    rw [hroute, List.getElem?_append_left hi]
    exact hrp
  · intro i rpB hrpB
    have hi : i < B.route.length := by
      by_contra hge
      rw [List.getElem?_eq_none (by omega)] at hrpB
      exact Option.noConfusion hrpB
    refine ⟨{ number := (fun x => castInt (x + 1))^[i]
                (bStartBlock A.route (bStartMin (offsetLegs A.waypt.length B.route) 1000))
              comment := rpB.comment
              leg := rpB.leg.map (fun l => l + A.waypt.length) }, ?_,
      iterate_castInt i _ (by omega) (by omega), rfl, by simp⟩
    rw [hroute, List.getElem?_append_right (by omega)]
    simp [renumber_getElem?, offsetLegs, hrpB]

theorem gpsMerge_renumber_above_receiver_witness :
    (∀ rp ∈ (fileOf [] [⟨5, [], []⟩, ⟨900, [], []⟩]).route, 0 ≤ rp.number) ∧
    1000 + ((fileOf [] [⟨5, [], []⟩, ⟨900, [], []⟩]).route.length : Int) ≤ 2147483647 ∧
    (∀ rp ∈ (fileOf [] [⟨3, [], []⟩, ⟨120, [], []⟩]).route,
      rp.number + 199 + ((fileOf [] [⟨5, [], []⟩, ⟨900, [], []⟩]).route.length : Int)
        ≤ 2147483647) ∧
    gpsMerge (fileOf [] [⟨3, [], []⟩, ⟨120, [], []⟩])
        (fileOf [] [⟨5, [], []⟩, ⟨900, [], []⟩])
      = Outcome.ok (fileOf [] [⟨3, [], []⟩, ⟨120, [], []⟩, ⟨205, [], []⟩, ⟨206, [], []⟩]) ∧
    ∃ b : Int,
      (∀ rp ∈ (fileOf [] [⟨3, [], []⟩, ⟨120, [], []⟩]).route, rp.number < b) ∧
      bStartMin (fileOf [] [⟨5, [], []⟩, ⟨900, [], []⟩]).route 1000 ≤ b :=
  ⟨by decide, by decide, by decide, by decide,
   (gpsMerge_renumber_above_receiver (fileOf [] [⟨3, [], []⟩, ⟨120, [], []⟩])
      (fileOf [] [⟨5, [], []⟩, ⟨900, [], []⟩])
      (fileOf [] [⟨3, [], []⟩, ⟨120, [], []⟩, ⟨205, [], []⟩, ⟨206, [], []⟩])
      (by decide) (by decide) (by decide) (by decide)).imp (fun _ h => ⟨h.1, h.2.1⟩)⟩

theorem factToNm_eq (u : Nat) (x : Rat) : factToNm u x = x * unitInNm u := by
  unfold factToNm unitInNm
  split_ifs <;> ring

theorem factFromNm_eq (u : Nat) (x : Rat) : factFromNm u x = x / unitInNm u := by
  unfold factFromNm unitInNm
  split_ifs <;> field_simp

/-- The trackpoint block in one formula: the incoming points follow the
receiver's, each with its timestamp shifted and its distance and speed
scaled. -/
theorem mergeTrkpts_eq (A B : GpFile) :
    mergeTrkpts A B = A.trkpt ++ B.trkpt.map (fun tp =>
      { tp with
        dateTime := tp.dateTime + castInt (castInt (A.timeZone - B.timeZone) * 3600)
        dist := tp.dist *
          (if B.unitHorz ≠ A.unitHorz then unitInNm B.unitHorz / unitInNm A.unitHorz else 1)
        speed := tp.speed *
          (if B.unitHorz ≠ A.unitHorz then
            unitInNm B.unitHorz / unitInNm A.unitHorz / (if B.unitTime = 72 then 3600 else 1)
              * (if A.unitTime = 72 then 3600 else 1)
           else 1) }) := by
  unfold mergeTrkpts
  by_cases hn : B.ntrkpts > 0
  · have hz : castInt (castInt 0 * 3600) = 0 := by decide
    simp only [hn, if_true, factFromNm_eq, factToNm_eq, one_mul]
    congr 1
    by_cases htz : B.timeZone = A.timeZone <;> by_cases hu : B.unitHorz = A.unitHorz <;>
      by_cases hb : B.unitTime = 72 <;> by_cases ha : A.unitTime = 72 <;>
      simp [htz, hu, hb, ha, hz, List.map_map, Function.comp]
  · have hB : B.trkpt = [] := by
      cases ht : B.trkpt with
      | nil => rfl
      | cons t ts =>
        exfalso
        apply hn
        simp [GpFile.ntrkpts, ht]
    simp [hn, hB]

/-- Claim C12. In the merged file the distances are the receiver's followed
by the incoming ones; when the horizontal units differ every incoming
distance is multiplied by (incoming unit in nm) / (receiver's unit in nm) and
every incoming speed by the same factor, divided by 3600 if the incoming time
unit is hours and multiplied by 3600 if the receiver's is; with equal units
nothing is rescaled. Kilometres and hours into nautical miles and hours
scales both by `1 / 1.852`; metres and seconds into kilometres and hours
scales distance by `1 / 1000` and speed by `3.6`. Arithmetic is exact
(rational). -/
theorem gpsMerge_units (A B C : GpFile) (hm : gpsMerge A B = Outcome.ok C) :
    (B.unitHorz ≠ A.unitHorz →
      C.trkpt.map GpTrkpt.dist = A.trkpt.map GpTrkpt.dist ++
        B.trkpt.map (fun tp => tp.dist * (unitInNm B.unitHorz / unitInNm A.unitHorz)) ∧
      C.trkpt.map GpTrkpt.speed = A.trkpt.map GpTrkpt.speed ++
        B.trkpt.map (fun tp => tp.speed *
          (unitInNm B.unitHorz / unitInNm A.unitHorz / (if B.unitTime = 72 then 3600 else 1)
            * (if A.unitTime = 72 then 3600 else 1)))) ∧
    (B.unitHorz = A.unitHorz →
      C.trkpt.map GpTrkpt.dist = A.trkpt.map GpTrkpt.dist ++ B.trkpt.map GpTrkpt.dist ∧
      C.trkpt.map GpTrkpt.speed = A.trkpt.map GpTrkpt.speed ++ B.trkpt.map GpTrkpt.speed) ∧
    (B.unitHorz = 75 → B.unitTime = 72 → A.unitHorz = 78 → A.unitTime = 72 →
      C.trkpt.map GpTrkpt.dist = A.trkpt.map GpTrkpt.dist ++
        B.trkpt.map (fun tp => tp.dist * (1 / (1852 / 1000))) ∧
      C.trkpt.map GpTrkpt.speed = A.trkpt.map GpTrkpt.speed ++
        B.trkpt.map (fun tp => tp.speed * (1 / (1852 / 1000)))) ∧
    (B.unitHorz = 77 → B.unitTime = 83 → A.unitHorz = 75 → A.unitTime = 72 →
      C.trkpt.map GpTrkpt.dist = A.trkpt.map GpTrkpt.dist ++
        B.trkpt.map (fun tp => tp.dist * (1 / 1000)) ∧
      C.trkpt.map GpTrkpt.speed = A.trkpt.map GpTrkpt.speed ++
        B.trkpt.map (fun tp => tp.speed * (36 / 10))) := by
  obtain ⟨_, _, htrk, _⟩ := gpsMerge_ok A B C hm
  rw [htrk, mergeTrkpts_eq]
  simp only [List.map_append, List.map_map, Function.comp]
  refine ⟨?_, ?_, ?_, ?_⟩
  · intro hu
    simp [hu]
  · intro hu
    simp [hu]
  · intro h1 h2 h3 h4
    simp only [h1, h2, h3, h4, unitInNm]
    norm_num
  · intro h1 h2 h3 h4
    simp only [h1, h2, h3, h4, unitInNm]
    norm_num

theorem gpsMerge_units_witness :
    gpsMerge ⟨[], 0, 78, 72, [], [], [tpt true 0 0 0 0 0]⟩
        ⟨[], 0, 75, 72, [], [], [tpt false 1 1 60 60 (1852 / 1000)]⟩
      = Outcome.ok ⟨[], 0, 78, 72, [], [], [tpt true 0 0 0 0 0, tpt false 1 1 60 60 1]⟩ ∧
    ((75 : Nat) ≠ 78 →
      [tpt true 0 0 0 0 0, tpt false 1 1 60 60 1].map GpTrkpt.dist =
        [tpt true 0 0 0 0 0].map GpTrkpt.dist ++
          [tpt false 1 1 60 60 (1852 / 1000)].map
            (fun tp => tp.dist * (unitInNm 75 / unitInNm 78))) :=
  ⟨by decide!,
   fun h => ((gpsMerge_units ⟨[], 0, 78, 72, [], [], [tpt true 0 0 0 0 0]⟩
      ⟨[], 0, 75, 72, [], [], [tpt false 1 1 60 60 (1852 / 1000)]⟩
      ⟨[], 0, 78, 72, [], [], [tpt true 0 0 0 0 0, tpt false 1 1 60 60 1]⟩
      (by decide!)).1 h).1⟩

/-- The shift of the time zones when the hour difference is at most 596523 in
absolute value: neither the `int` difference nor the `int` product
`dif * 3600` leaves the range of `int`. -/
theorem castInt_shift (d : Int) (h1 : -596523 ≤ d) (h2 : d ≤ 596523) :
    castInt (castInt d * 3600) = 3600 * d := by
  rw [castInt_of_range d (by omega) (by omega), castInt_of_range _ (by omega) (by omega)]
  ring

/-- Timestamps when the time zones differ by at most 596523 hours. In the
merged file the timestamps are the receiver's, unchanged, followed by the
incoming ones, each increased by `3600 * (receiver.timeZone -
incoming.timeZone)`; with equal time zones the incoming timestamps are
appended unchanged; every trackpoint of the receiver is in the result as it
was. The last two parts need no bound. -/
theorem gpsMerge_timestamps_in_range (A B C : GpFile) (hm : gpsMerge A B = Outcome.ok C) :
    (-596523 ≤ A.timeZone - B.timeZone → A.timeZone - B.timeZone ≤ 596523 →
      C.trkpt.map GpTrkpt.dateTime = A.trkpt.map GpTrkpt.dateTime ++
        B.trkpt.map (fun tp => tp.dateTime + 3600 * (A.timeZone - B.timeZone))) ∧
    (A.timeZone = B.timeZone →
      C.trkpt.map GpTrkpt.dateTime =
        A.trkpt.map GpTrkpt.dateTime ++ B.trkpt.map GpTrkpt.dateTime) ∧
    (∀ (i : Nat) (tp : GpTrkpt), A.trkpt[i]? = some tp → C.trkpt[i]? = some tp) := by
  obtain ⟨_, _, htrk, _⟩ := gpsMerge_ok A B C hm
  rw [htrk, mergeTrkpts_eq]
  refine ⟨?_, ?_, ?_⟩
  · intro h1 h2
    simp only [List.map_append, List.map_map, Function.comp]
    congr 1
    apply List.map_congr_left
    intro tp _
    show tp.dateTime + castInt (castInt (A.timeZone - B.timeZone) * 3600) =
      tp.dateTime + 3600 * (A.timeZone - B.timeZone)
    rw [castInt_shift _ h1 h2]
  · intro htz
    have hz : castInt (castInt 0 * 3600) = 0 := by decide
    simp [htz, List.map_map, Function.comp, hz]
  · intro i tp htp
    have hi : i < A.trkpt.length := by
      by_contra hge
      rw [List.getElem?_eq_none (by omega)] at htp
      exact Option.noConfusion htp
    rw [List.getElem?_append_left hi]
    exact htp

theorem gpsMerge_timestamps_in_range_example :
    gpsMerge ⟨[], -5, 75, 72, [], [], [tpt true 0 0 500 0 0]⟩
        ⟨[], 1, 75, 72, [], [], [tpt true 1 1 1000 0 0]⟩
      = Outcome.ok ⟨[], -5, 75, 72, [], [], [tpt true 0 0 500 0 0, tpt true 1 1 (-20600) 0 0]⟩ ∧
    [tpt true 0 0 500 0 0, tpt true 1 1 (-20600) 0 0].map GpTrkpt.dateTime =
      [tpt true 0 0 500 0 0].map GpTrkpt.dateTime ++
        [tpt true 1 1 1000 0 0].map (fun tp => tp.dateTime + 3600 * ((-5 : Int) - 1)) :=
  ⟨by decide!,
   (gpsMerge_timestamps_in_range ⟨[], -5, 75, 72, [], [], [tpt true 0 0 500 0 0]⟩
      ⟨[], 1, 75, 72, [], [], [tpt true 1 1 1000 0 0]⟩
      ⟨[], -5, 75, 72, [], [], [tpt true 0 0 500 0 0, tpt true 1 1 (-20600) 0 0]⟩
      (by decide!)).1 (by decide) (by decide)⟩

/-- Claim C13, evaluated on the code. The line `S TimeZone=600000:00` sets the
time zone of the incoming file to 600000; the receiver has time zone 0. The
`int` difference `dif` is -600000 and the `int` product `dif * 3600` is
-2160000000, below `INT_MIN`; what is added to the timestamp 1000 of the
incoming trackpoint is 2134967296, so that the merged timestamp is 2134968296
and not `1000 + 3600 * (0 - 600000) = -2159999000`. -/
theorem gpsMerge_timestamp_overflow :
    readSetting (cstr "S TimeZone=600000:00") ⟨[], 0, 75, 72, [], [], []⟩
      = Parse.ok ⟨[], 600000, 75, 72, [], [], []⟩ ∧
    gpsMerge ⟨[], 0, 75, 72, [], [], [tpt true 0 0 500 0 0]⟩
        ⟨[], 600000, 75, 72, [], [], [tpt true 1 1 1000 0 0]⟩
      = Outcome.ok
          ⟨[], 0, 75, 72, [], [], [tpt true 0 0 500 0 0, tpt true 1 1 2134968296 0 0]⟩ ∧
    (1000 : Int) + 3600 * (0 - 600000) = -2159999000 ∧
    (2134968296 : Int) ≠ 1000 + 3600 * (0 - 600000) := by
  decide!

/-! ## getGpTracks -/

theorem closeLast_append (U : Nat) (p : GpTrkpt) (NE SW : GpCoord) (done : List GpTrack)
    (o : GpTrack) :
    closeLast U p NE SW (done ++ [o]) = some (done ++ [closeTrack U p NE SW o]) := by
  induction done with
  | nil => rfl
  | cons t ts ih =>
    cases ts with
    | nil => simp [closeLast]
    | cons t1 ts1 =>
      simp only [List.cons_append] at ih ⊢
      simp only [closeLast, ih]
      rfl

/-- Once a track is open, on a sequence that does not end with a segment
start the loop computes `runOpen`. -/
theorem tracksLoop_open (U : Nat) (N : Int) (l : List GpTrkpt) (i : Int) (b : GpTrkpt)
    (done : List GpTrack) (o : GpTrack) (NE SW : GpCoord)
    (hN : i + l.length = N)
    (hlast : (l.getLast?).map GpTrkpt.segFlag = some false) :
    tracksLoop U N l i (some b) (done ++ [o]) NE SW = some (done ++ runOpen U l i b o NE SW) := by
  induction l generalizing i b done o NE SW with
  | nil => simp at hlast
  | cons p ps ih =>
    have hlen : (done ++ [o]).length ≠ 0 := by simp
    have hpos : (done ++ [o]).length > 0 := by simp
    cases ps with
    | nil =>
      have hp : p.segFlag = false := by simpa using hlast
      have hi : i = N - 1 := by simp at hN; omega
      simp [tracksLoop, runOpen, hp, hi, closeLast_append]
    | cons q qs =>
      have hi : ¬ i = N - 1 := by
        simp only [List.length_cons] at hN
        push_cast at hN
        omega
      have hlast1 : ((q :: qs).getLast?).map GpTrkpt.segFlag = some false := by
        simpa [List.getLast?_cons_cons] using hlast
      have hN1 : i + 1 + ((q :: qs).length : Int) = N := by
        simp only [List.length_cons] at hN ⊢
        push_cast at hN ⊢
        omega
      by_cases hp : p.segFlag = true
      · have := ih (i + 1) p (done ++ [closeTrack U b NE SW o]) (openTrack i p) p.coord p.coord
          hN1 hlast1
        rw [tracksLoop, runOpen]
        simp only [hp, hlen, hpos, hi, true_and, or_false, if_true, Bool.true_eq_false,
          false_or, if_false, closeLast_append]
        simpa using this
      · have hpf : p.segFlag = false := by simpa using hp
        have := ih (i + 1) p done o (growBox NE SW p.coord).1 (growBox NE SW p.coord).2
          hN1 hlast1
        rw [tracksLoop, runOpen]
        simp only [hpf, hlen, hi, true_or, if_true, Bool.false_eq_true, false_and, or_self,
          if_false]
        exact this

/-- On a sequence that begins with a segment start and does not end with one,
`getGpTracks` returns `runOpen` of the points after the first. -/
theorem getGpTracks_eq (f : GpFile) (s0 : GpTrkpt) (l : List GpTrkpt)
    (hf : f.trkpt = s0 :: l) (hs0 : s0.segFlag = true)
    (hlast : (f.trkpt.getLast?).map GpTrkpt.segFlag = some false) :
    getGpTracks f = some (runOpen f.unitTime l 1 s0 (openTrack 0 s0) s0.coord s0.coord) := by
  have hl : l ≠ [] := by
    intro h
    rw [hf, h] at hlast
    simp [hs0] at hlast
  obtain ⟨q, qs, rfl⟩ := List.exists_cons_of_ne_nil hl
  have hlast1 : ((q :: qs).getLast?).map GpTrkpt.segFlag = some false := by
    rw [hf] at hlast
    simpa [List.getLast?_cons_cons] using hlast
  have hN : (0 : Int) + 1 + ((q :: qs).length : Int) = f.ntrkpts := by
    simp [GpFile.ntrkpts, hf]
    omega
  have h0 : ¬ ((0 : Int) = f.ntrkpts - 1) := by
    simp only [List.length_cons] at hN
    push_cast at hN
    omega
  have := tracksLoop_open f.unitTime f.ntrkpts (q :: qs) (0 + 1) s0 [] (openTrack 0 s0)
    s0.coord s0.coord hN hlast1
  unfold getGpTracks
  rw [hf, tracksLoop]
  simp only [hs0, List.length_nil, gt_iff_lt, lt_self_iff_false, and_false, false_or, h0,
    if_false, if_true]
  simpa using this

theorem runOpen_length (U : Nat) (l : List GpTrkpt) (i : Int) (b : GpTrkpt) (o : GpTrack)
    (NE SW : GpCoord) :
    (runOpen U l i b o NE SW).length = 1 + l.countP (fun p => p.segFlag) := by
  induction l generalizing i b o NE SW with
  | nil => simp [runOpen]
  | cons p ps ih =>
    by_cases hp : p.segFlag = true
    · simp [runOpen, hp, ih]
      omega
    · simp [runOpen, hp, ih]

theorem closingPoint_cons (b p : GpTrkpt) (ps : List GpTrkpt) :
    closingPoint b (p :: ps) = closingPoint p ps := by
  unfold closingPoint
  cases ps with
  | nil => simp
  | cons q qs =>
    have h : (q :: qs).getLast? = some ((q :: qs).getLast (List.cons_ne_nil q qs)) :=
      List.getLast?_eq_getLast _ _
    simp only [List.getLast?_cons_cons, h, Option.getD_some]

/-- The first track of `runOpen`: the open track, closed at the last point
before the next segment start with the corners grown over the points up to
there. -/
theorem runOpen_head (U : Nat) (plains post : List GpTrkpt) (i : Int) (b : GpTrkpt)
    (o : GpTrack) (NE SW : GpCoord)
    (hpl : ∀ p ∈ plains, p.segFlag = false)
    (hpost : (post.head?).map GpTrkpt.segFlag ≠ some false) :
    (runOpen U (plains ++ post) i b o NE SW)[0]? =
      some (closeTrack U (closingPoint b plains) (boxOver NE SW plains).1
        (boxOver NE SW plains).2 o) := by
  induction plains generalizing i b o NE SW with
  | nil =>
    cases post with
    | nil => simp [runOpen, closingPoint, boxOver]
    | cons q qs =>
      have hq : q.segFlag = true := by
        cases hq : q.segFlag with
        | true => rfl
        | false => simp [hq] at hpost
      simp [runOpen, hq, closingPoint, boxOver]
  | cons p ps ih =>
    have hp : p.segFlag = false := hpl p (List.mem_cons_self _ _)
    have hps : ∀ q ∈ ps, q.segFlag = false := fun q hq => hpl q (List.mem_cons_of_mem _ hq)
    rw [List.cons_append, runOpen, if_neg (by simp [hp]), ih _ _ _ _ _ hps, closingPoint_cons]
    simp [boxOver]

/-- The tracks of `runOpen` after a prefix `pre` and a segment start `s`: the
prefix yields one track for the open one and one per segment start in it. -/
theorem runOpen_skip (U : Nat) (pre : List GpTrkpt) (s : GpTrkpt) (tail : List GpTrkpt)
    (i : Int) (b : GpTrkpt) (o : GpTrack) (NE SW : GpCoord) (hs : s.segFlag = true) :
    ∃ front : List GpTrack,
      front.length = 1 + pre.countP (fun p => p.segFlag) ∧
      runOpen U (pre ++ s :: tail) i b o NE SW =
        front ++ runOpen U tail (i + pre.length + 1) s (openTrack (i + pre.length) s)
          s.coord s.coord := by
  induction pre generalizing i b o NE SW with
  | nil => exact ⟨[closeTrack U b NE SW o], by simp, by simp [runOpen, hs]⟩
  | cons p ps ih =>
    have hidx : i + 1 + (ps.length : Int) = i + ((p :: ps).length : Int) := by
      simp only [List.length_cons]
      push_cast
      ring
    by_cases hp : p.segFlag = true
    · obtain ⟨front, hlen, heq⟩ := ih (i + 1) p (openTrack i p) p.coord p.coord
      refine ⟨closeTrack U b NE SW o :: front, by simp [hlen, hp]; omega, ?_⟩
      rw [List.cons_append, runOpen, if_pos hp, heq, hidx]
      rfl
    · obtain ⟨front, hlen, heq⟩ := ih (i + 1) p o (growBox NE SW p.coord).1
        (growBox NE SW p.coord).2
      refine ⟨front, by simp [hlen, hp], ?_⟩
      rw [List.cons_append, runOpen, if_neg hp, heq, hidx]

/-- The track of one segment. On a sequence that begins with a segment start and
does not end with one, the track of the segment that starts at `s` (after the
points `pre`) is at the index counting the segment starts in `pre`; it has
`seqno` the 1-based position of `s`, is closed at the last point of the
segment, and its corners are those of `s` grown over the other points of the
segment. -/
theorem getGpTracks_segment (f : GpFile) (pre : List GpTrkpt) (s : GpTrkpt)
    (plains post : List GpTrkpt)
    (hfirst : (f.trkpt.head?).map GpTrkpt.segFlag = some true)
    (hlast : (f.trkpt.getLast?).map GpTrkpt.segFlag = some false)
    (hseg : IsSegment f.trkpt pre s plains post) :
    ∃ tracks, getGpTracks f = some tracks ∧
      tracks.length = f.trkpt.countP (fun p => p.segFlag) ∧
      tracks[pre.countP (fun p => p.segFlag)]? =
        some (closeTrack f.unitTime (closingPoint s plains)
          (boxOver s.coord s.coord plains).1 (boxOver s.coord s.coord plains).2
          (openTrack pre.length s)) := by
  obtain ⟨hts, hs, hpl, hpost⟩ := hseg
  cases hf : f.trkpt with
  | nil => rw [hf] at hfirst; simp at hfirst
  | cons s0 l =>
    have hs0 : s0.segFlag = true := by rw [hf] at hfirst; simpa using hfirst
    refine ⟨_, getGpTracks_eq f s0 l hf hs0 hlast, ?_, ?_⟩
    · rw [runOpen_length]
      simp [hs0]
      omega
    · rw [hf] at hts
      cases pre with
      | nil =>
        simp only [List.nil_append, List.cons_append, List.cons.injEq] at hts
        obtain ⟨h1, h2⟩ := hts
        subst h1
        subst h2
        simpa using runOpen_head f.unitTime plains post 1 s0 (openTrack 0 s0) s0.coord s0.coord
          hpl hpost
      | cons p0 ps =>
        simp only [List.cons_append, List.cons.injEq] at hts
        obtain ⟨h1, h2⟩ := hts
        subst h1
        obtain ⟨front, hlen, heq⟩ := runOpen_skip f.unitTime ps s (plains ++ post) 1 s0
          (openTrack 0 s0) s0.coord s0.coord hs
        have hl : l = ps ++ s :: (plains ++ post) := by simpa using h2
        rw [hl, heq]
        have hidx : List.countP (fun p => p.segFlag) (s0 :: ps) = front.length := by
          simp [hlen, hs0]
          omega
        rw [hidx, List.getElem?_append_right (le_refl _)]
        simp only [Nat.sub_self]
        rw [runOpen_head f.unitTime plains post _ s _ _ _ hpl hpost]
        have hi : (1 : Int) + (ps.length : Int) = (((s0 :: ps).length : Nat) : Int) := by
          simp only [List.length_cons]
          push_cast
          ring
        rw [hi]

theorem exists_plain_run (l : List GpTrkpt) :
    ∃ plains post, l = plains ++ post ∧ (∀ p ∈ plains, p.segFlag = false) ∧
      (post.head?).map GpTrkpt.segFlag ≠ some false := by
  induction l with
  | nil => exact ⟨[], [], rfl, by simp, by simp⟩
  | cons q l ih =>
    by_cases hq : q.segFlag = true
    · exact ⟨[], q :: l, rfl, by simp, by simp [hq]⟩
    · obtain ⟨plains, post, hl, hpl, hpost⟩ := ih
      refine ⟨q :: plains, post, by simp [hl], ?_, hpost⟩
      intro p hp
      rcases List.mem_cons.mp hp with rfl | hp
      · simpa using hq
      · exact hpl p hp

/-- Every track index below the number of segment starts is the index of a
segment: the cut at the segment start with that many segment starts before
it. -/
theorem exists_segment (l : List GpTrkpt) (k : Nat)
    (hk : k < l.countP (fun p => p.segFlag)) :
    ∃ pre s plains post, IsSegment l pre s plains post ∧
      pre.countP (fun p => p.segFlag) = k := by
  induction l generalizing k with
  | nil => simp at hk
  | cons p l ih =>
    by_cases hp : p.segFlag = true
    · cases k with
      | zero =>
        obtain ⟨plains, post, hl, hpl, hpost⟩ := exists_plain_run l
        exact ⟨[], p, plains, post, ⟨by simp [hl], hp, hpl, hpost⟩, by simp⟩
      | succ k =>
        have hk1 : k < l.countP (fun p => p.segFlag) := by
          simp [hp] at hk
          exact hk
        obtain ⟨pre, s, plains, post, ⟨hl, hs, hpl, hpost⟩, hc⟩ := ih k hk1
        exact ⟨p :: pre, s, plains, post, ⟨by simp [hl], hs, hpl, hpost⟩, by simp [hp, hc]⟩
    · have hk1 : k < l.countP (fun p => p.segFlag) := by
        simp [hp] at hk
        exact hk
      obtain ⟨pre, s, plains, post, ⟨hl, hs, hpl, hpost⟩, hc⟩ := ih k hk1
      exact ⟨p :: pre, s, plains, post, ⟨by simp [hl], hs, hpl, hpost⟩, by simp [hp, hc]⟩

/-- Claim C15. For a trackpoint sequence whose first point is a segment start
and whose last point is not, `getGpTracks` returns as many tracks as there are
segment starts, every track index belongs to one segment, and the track of
the segment that starts at `s`, after the points `pre`, sits at the index
counting the segment starts before `s` (sequence order), with `seqno` the
1-based position of `s`, start timestamp that of `s`, and end timestamp,
duration and distance those of the last point of the segment: the point just
before the next segment start, or the last point of the sequence. -/
theorem getGpTracks_tracks (f : GpFile)
    (hfirst : (f.trkpt.head?).map GpTrkpt.segFlag = some true)
    (hlast : (f.trkpt.getLast?).map GpTrkpt.segFlag = some false) :
    ∃ tracks, getGpTracks f = some tracks ∧
      tracks.length = f.trkpt.countP (fun p => p.segFlag) ∧
      (∀ k, k < tracks.length → ∃ pre s plains post,
        IsSegment f.trkpt pre s plains post ∧ pre.countP (fun p => p.segFlag) = k) ∧
      ∀ (pre : List GpTrkpt) (s : GpTrkpt) (plains post : List GpTrkpt),
        IsSegment f.trkpt pre s plains post →
        ∃ t, tracks[pre.countP (fun p => p.segFlag)]? = some t ∧
          t.seqno = (pre.length : Int) + 1 ∧
          t.startTrk = s.dateTime ∧
          t.endTrk = some (closingPoint s plains).dateTime ∧
          t.duration = some (closingPoint s plains).duration ∧
          t.dist = some (closingPoint s plains).dist := by
  cases hf : f.trkpt with
  | nil => rw [hf] at hfirst; simp at hfirst
  | cons s0 l =>
    have hs0 : s0.segFlag = true := by rw [hf] at hfirst; simpa using hfirst
    have hget := getGpTracks_eq f s0 l hf hs0 hlast
    have hlen : (runOpen f.unitTime l 1 s0 (openTrack 0 s0) s0.coord s0.coord).length =
        (s0 :: l).countP (fun p => p.segFlag) := by
      rw [runOpen_length]
      simp [hs0]
      omega
    refine ⟨_, hget, hlen, ?_, ?_⟩
    · intro k hk
      rw [hlen] at hk
      exact exists_segment (s0 :: l) k hk
    · intro pre s plains post hseg
      rw [← hf] at hseg
      obtain ⟨tracks, h1, _, h3⟩ := getGpTracks_segment f pre s plains post hfirst hlast hseg
      rw [hget] at h1
      have h1 := Option.some.inj h1
      rw [h1]
      exact ⟨_, h3, rfl, rfl, rfl, rfl, rfl⟩

theorem getGpTracks_tracks_witness :
    ((trackFile [tpt true 1 2 100 0 0, tpt false 3 1 200 50 7, tpt true 5 5 300 0 0,
        tpt false 4 6 400 60 9]).trkpt.head?).map GpTrkpt.segFlag = some true ∧
    ((trackFile [tpt true 1 2 100 0 0, tpt false 3 1 200 50 7, tpt true 5 5 300 0 0,
        tpt false 4 6 400 60 9]).trkpt.getLast?).map GpTrkpt.segFlag = some false ∧
    ∃ tracks, getGpTracks (trackFile [tpt true 1 2 100 0 0, tpt false 3 1 200 50 7,
        tpt true 5 5 300 0 0, tpt false 4 6 400 60 9]) = some tracks ∧
      tracks.length = 2 :=
  ⟨by decide, by decide,
   (getGpTracks_tracks (trackFile [tpt true 1 2 100 0 0, tpt false 3 1 200 50 7,
      tpt true 5 5 300 0 0, tpt false 4 6 400 60 9]) (by decide) (by decide)).imp
     (fun _ h => ⟨h.1, h.2.1⟩)⟩

/-- The witness of the specification for C15: start at `t0`, plain at `t1` with
duration `d1` and distance `k1`, start at `t2`, plain at `t3` gives two
tracks, the first ending with the values at `t1`. -/
theorem getGpTracks_example :
    getGpTracks (trackFile [tpt true 1 2 100 0 0, tpt false 3 1 200 50 7, tpt true 5 5 300 0 0,
        tpt false 4 6 400 60 9])
    = some [⟨1, 100, some 200, some 50, some 7, some 504, some ⟨2, 3 / 2⟩, some ⟨3, 2⟩,
              some ⟨1, 1⟩⟩,
            ⟨3, 300, some 400, some 60, some 9, some 540, some ⟨9 / 2, 11 / 2⟩, some ⟨5, 6⟩,
              some ⟨4, 5⟩⟩] := by
  decide!

theorem growBox_proj (NE SW c : GpCoord) :
    (growBox NE SW c).1.lat = max NE.lat c.lat ∧ (growBox NE SW c).1.lon = max NE.lon c.lon ∧
    (growBox NE SW c).2.lat = min SW.lat c.lat ∧ (growBox NE SW c).2.lon = min SW.lon c.lon := by
  have m1 : (if c.lat > NE.lat then c.lat else NE.lat) = max NE.lat c.lat := by
    by_cases h : c.lat > NE.lat
    · rw [if_pos h, max_eq_right (le_of_lt h)]
    · rw [if_neg h, max_eq_left (not_lt.mp h)]
  have m2 : (if c.lon > NE.lon then c.lon else NE.lon) = max NE.lon c.lon := by
    by_cases h : c.lon > NE.lon
    · rw [if_pos h, max_eq_right (le_of_lt h)]
    · rw [if_neg h, max_eq_left (not_lt.mp h)]
  have m3 : (if c.lat < SW.lat then c.lat else SW.lat) = min SW.lat c.lat := by
    by_cases h : c.lat < SW.lat
    · rw [if_pos h, min_eq_right (le_of_lt h)]
    · rw [if_neg h, min_eq_left (not_lt.mp h)]
  have m4 : (if c.lon < SW.lon then c.lon else SW.lon) = min SW.lon c.lon := by
    by_cases h : c.lon < SW.lon
    · rw [if_pos h, min_eq_right (le_of_lt h)]
    · rw [if_neg h, min_eq_left (not_lt.mp h)]
  unfold growBox
  refine ⟨?_, ?_, ?_, ?_⟩
  · rw [← m1]
    by_cases h1 : c.lat > NE.lat <;> by_cases h2 : c.lon > NE.lon <;> simp [h1, h2]
  · rw [← m2]
    by_cases h1 : c.lat > NE.lat <;> by_cases h2 : c.lon > NE.lon <;> simp [h1, h2]
  · rw [← m3]
    by_cases h1 : c.lat < SW.lat <;> by_cases h2 : c.lon < SW.lon <;> simp [h1, h2]
  · rw [← m4]
    by_cases h1 : c.lat < SW.lat <;> by_cases h2 : c.lon < SW.lon <;> simp [h1, h2]

/-- The corners after a run of points bound every point of the run and the
starting corners, and each of their four values is attained by a point of the
run or by the starting corner. -/
theorem boxOver_spec (NE SW : GpCoord) (pts : List GpTrkpt) :
    (NE.lat ≤ (boxOver NE SW pts).1.lat ∧ NE.lon ≤ (boxOver NE SW pts).1.lon ∧
      (boxOver NE SW pts).2.lat ≤ SW.lat ∧ (boxOver NE SW pts).2.lon ≤ SW.lon) ∧
    (∀ p ∈ pts, p.coord.lat ≤ (boxOver NE SW pts).1.lat ∧
      p.coord.lon ≤ (boxOver NE SW pts).1.lon ∧
      (boxOver NE SW pts).2.lat ≤ p.coord.lat ∧ (boxOver NE SW pts).2.lon ≤ p.coord.lon) ∧
    ((boxOver NE SW pts).1.lat = NE.lat ∨ ∃ p ∈ pts, (boxOver NE SW pts).1.lat = p.coord.lat) ∧
    ((boxOver NE SW pts).1.lon = NE.lon ∨ ∃ p ∈ pts, (boxOver NE SW pts).1.lon = p.coord.lon) ∧
    ((boxOver NE SW pts).2.lat = SW.lat ∨ ∃ p ∈ pts, (boxOver NE SW pts).2.lat = p.coord.lat) ∧
    ((boxOver NE SW pts).2.lon = SW.lon ∨ ∃ p ∈ pts, (boxOver NE SW pts).2.lon = p.coord.lon) := by
  induction pts generalizing NE SW with
  | nil => simp [boxOver]
  | cons q qs ih =>
    have hstep : boxOver NE SW (q :: qs) =
        boxOver (growBox NE SW q.coord).1 (growBox NE SW q.coord).2 qs := by
      simp [boxOver]
    obtain ⟨g1, g2, g3, g4⟩ := growBox_proj NE SW q.coord
    obtain ⟨⟨a1, a2, a3, a4⟩, hall, e1, e2, e3, e4⟩ :=
      ih (growBox NE SW q.coord).1 (growBox NE SW q.coord).2
    rw [hstep]
    rw [g1] at a1 e1
    rw [g2] at a2 e2
    rw [g3] at a3 e3
    rw [g4] at a4 e4
    refine ⟨⟨le_trans (le_max_left _ _) a1, le_trans (le_max_left _ _) a2,
      le_trans a3 (min_le_left _ _), le_trans a4 (min_le_left _ _)⟩, ?_, ?_, ?_, ?_, ?_⟩
    · intro p hp
      rcases List.mem_cons.mp hp with rfl | hp
      · exact ⟨le_trans (le_max_right _ _) a1, le_trans (le_max_right _ _) a2,
          le_trans a3 (min_le_right _ _), le_trans a4 (min_le_right _ _)⟩
      · exact hall p hp
    · rcases e1 with e | ⟨p, hp, e⟩
      · rcases max_choice NE.lat q.coord.lat with h | h
        · exact Or.inl (by rw [e, h])
        · exact Or.inr ⟨q, List.mem_cons_self _ _, by rw [e, h]⟩
      · exact Or.inr ⟨p, List.mem_cons_of_mem _ hp, e⟩
    · rcases e2 with e | ⟨p, hp, e⟩
      · rcases max_choice NE.lon q.coord.lon with h | h
        · exact Or.inl (by rw [e, h])
        · exact Or.inr ⟨q, List.mem_cons_self _ _, by rw [e, h]⟩
      · exact Or.inr ⟨p, List.mem_cons_of_mem _ hp, e⟩
    · rcases e3 with e | ⟨p, hp, e⟩
      · rcases min_choice SW.lat q.coord.lat with h | h
        · exact Or.inl (by rw [e, h])
        · exact Or.inr ⟨q, List.mem_cons_self _ _, by rw [e, h]⟩
      · exact Or.inr ⟨p, List.mem_cons_of_mem _ hp, e⟩
    · rcases e4 with e | ⟨p, hp, e⟩
      · rcases min_choice SW.lon q.coord.lon with h | h
        · exact Or.inl (by rw [e, h])
        · exact Or.inr ⟨q, List.mem_cons_self _ _, by rw [e, h]⟩
      · exact Or.inr ⟨p, List.mem_cons_of_mem _ hp, e⟩

/-- Claim C18. For a trackpoint sequence whose first point is a segment start
and whose last point is not, the track of each segment (start `s`, further
points `plains`) has corners `NE`, `SW` such that every point of the segment
lies between them, the latitude and the longitude of `NE` are each attained
by a point of the segment (the maxima over exactly these points), likewise
those of `SW` (the minima), and the mean coordinate is the midpoint of `NE`
and `SW`. -/
theorem getGpTracks_corners (f : GpFile)
    (hfirst : (f.trkpt.head?).map GpTrkpt.segFlag = some true)
    (hlast : (f.trkpt.getLast?).map GpTrkpt.segFlag = some false) :
    ∃ tracks, getGpTracks f = some tracks ∧
      ∀ (pre : List GpTrkpt) (s : GpTrkpt) (plains post : List GpTrkpt),
        IsSegment f.trkpt pre s plains post →
        ∃ t NE SW, tracks[pre.countP (fun p => p.segFlag)]? = some t ∧
          t.NEcorner = some NE ∧ t.SWcorner = some SW ∧
          t.meanCoord = some ⟨(NE.lat + SW.lat) / 2, (NE.lon + SW.lon) / 2⟩ ∧
          (∀ p ∈ s :: plains, p.coord.lat ≤ NE.lat ∧ p.coord.lon ≤ NE.lon ∧
            SW.lat ≤ p.coord.lat ∧ SW.lon ≤ p.coord.lon) ∧
          (∃ p ∈ s :: plains, NE.lat = p.coord.lat) ∧
          (∃ p ∈ s :: plains, NE.lon = p.coord.lon) ∧
          (∃ p ∈ s :: plains, SW.lat = p.coord.lat) ∧
          (∃ p ∈ s :: plains, SW.lon = p.coord.lon) := by
  cases hf : f.trkpt with
  | nil => rw [hf] at hfirst; simp at hfirst
  | cons s0 l =>
    have hs0 : s0.segFlag = true := by rw [hf] at hfirst; simpa using hfirst
    have hget := getGpTracks_eq f s0 l hf hs0 hlast
    refine ⟨_, hget, ?_⟩
    intro pre s plains post hseg
    rw [← hf] at hseg
    obtain ⟨tracks, h1, _, h3⟩ := getGpTracks_segment f pre s plains post hfirst hlast hseg
    rw [hget] at h1
    have h1 := Option.some.inj h1
    rw [h1]
    obtain ⟨⟨a1, a2, a3, a4⟩, hall, e1, e2, e3, e4⟩ := boxOver_spec s.coord s.coord plains
    refine ⟨_, (boxOver s.coord s.coord plains).1, (boxOver s.coord s.coord plains).2, h3,
      rfl, rfl, rfl, ?_, ?_, ?_, ?_, ?_⟩
    · intro p hp
      rcases List.mem_cons.mp hp with rfl | hp
      · exact ⟨a1, a2, a3, a4⟩
      · exact hall p hp
    · rcases e1 with e | ⟨p, hp, e⟩
      · exact ⟨s, List.mem_cons_self _ _, e⟩
      · exact ⟨p, List.mem_cons_of_mem _ hp, e⟩
    · rcases e2 with e | ⟨p, hp, e⟩
      · exact ⟨s, List.mem_cons_self _ _, e⟩
      · exact ⟨p, List.mem_cons_of_mem _ hp, e⟩
    · rcases e3 with e | ⟨p, hp, e⟩
      · exact ⟨s, List.mem_cons_self _ _, e⟩
      · exact ⟨p, List.mem_cons_of_mem _ hp, e⟩
    · rcases e4 with e | ⟨p, hp, e⟩
      · exact ⟨s, List.mem_cons_self _ _, e⟩
      · exact ⟨p, List.mem_cons_of_mem _ hp, e⟩

theorem getGpTracks_corners_witness :
    ((trackFile [tpt true 1 2 100 0 0, tpt false 3 1 200 50 7, tpt true 5 5 300 0 0,
        tpt false 4 6 400 60 9]).trkpt.head?).map GpTrkpt.segFlag = some true ∧
    ((trackFile [tpt true 1 2 100 0 0, tpt false 3 1 200 50 7, tpt true 5 5 300 0 0,
        tpt false 4 6 400 60 9]).trkpt.getLast?).map GpTrkpt.segFlag = some false ∧
    ∃ tracks, getGpTracks (trackFile [tpt true 1 2 100 0 0, tpt false 3 1 200 50 7,
        tpt true 5 5 300 0 0, tpt false 4 6 400 60 9]) = some tracks :=
  ⟨by decide, by decide,
   (getGpTracks_corners (trackFile [tpt true 1 2 100 0 0, tpt false 3 1 200 50 7,
      tpt true 5 5 300 0 0, tpt false 4 6 400 60 9]) (by decide) (by decide)).imp
     (fun _ h => h.1)⟩

theorem closeLast_closed (U : Nat) (pts : List GpTrkpt) (p : GpTrkpt) (NE SW : GpCoord)
    (tp tp1 : List GpTrack) (h : closeLast U p NE SW tp = some tp1) (hp : p ∈ pts)
    (hall : ∀ t ∈ tp, ClosedAt U pts t) : ∀ t ∈ tp1, ClosedAt U pts t := by
  by_cases hnil : tp = []
  · rw [hnil] at h
    simp [closeLast] at h
  · have hsplit : tp = tp.dropLast ++ [tp.getLast hnil] := (List.dropLast_append_getLast hnil).symm
    rw [hsplit, closeLast_append] at h
    have h := Option.some.inj h
    intro t ht
    rw [← h] at ht
    rcases List.mem_append.mp ht with ht | ht
    · exact hall t (List.dropLast_subset _ ht)
    · have ht : t = closeTrack U p NE SW (tp.getLast hnil) := by simpa using ht
      intro d hd
      rw [ht] at hd ⊢
      simp only [closeTrack, Option.some.injEq] at hd
      exact ⟨p, hp, hd, rfl, rfl, by rw [← hd]; rfl⟩

/-- Every track the loop returns is either still open or closed at a point of
the sequence with the speed formula of the source. -/
theorem tracksLoop_closed (U : Nat) (N : Int) (pts l : List GpTrkpt) (i : Int)
    (before : Option GpTrkpt) (tp : List GpTrack) (NE SW : GpCoord) (res : List GpTrack)
    (h : tracksLoop U N l i before tp NE SW = some res)
    (hb : ∀ b, before = some b → b ∈ pts) (hl : ∀ p ∈ l, p ∈ pts)
    (hall : ∀ t ∈ tp, ClosedAt U pts t) : ∀ t ∈ res, ClosedAt U pts t := by
  induction l generalizing i before tp NE SW with
  | nil =>
    have h := Option.some.inj h
    rw [← h]
    exact hall
  | cons cur rest ih =>
    have hcur : cur ∈ pts := hl cur (List.mem_cons_self _ _)
    have hrest : ∀ p ∈ rest, p ∈ pts := fun p hp => hl p (List.mem_cons_of_mem _ hp)
    have hb1 : ∀ b, some cur = some b → b ∈ pts := by
      intro b hbe
      rw [← Option.some.inj hbe]
      exact hcur
    have hopen : ClosedAt U pts (openTrack i cur) := by
      intro d hd
      simp [openTrack] at hd
    rw [tracksLoop] at h
    split at h
    · exact Option.noConfusion h
    · rename_i tp1 hclosed
      have htp1 : ∀ t ∈ tp1, ClosedAt U pts t := by
        split at hclosed
        · split at hclosed
          · exact Option.noConfusion hclosed
          · rename_i prev hprev
            have hprevmem : prev ∈ pts := by
              split at hprev
              · exact hb prev hprev
              · exact hb1 prev hprev
            exact closeLast_closed U pts prev _ _ tp tp1 hclosed hprevmem hall
        · rw [← Option.some.inj hclosed]
          exact hall
      split at h
      · apply ih _ _ _ _ _ h hb1 hrest
        intro t ht
        rcases List.mem_append.mp ht with ht | ht
        · exact htp1 t ht
        · have ht : t = openTrack i cur := by simpa using ht
          rw [ht]
          exact hopen
      · exact ih _ _ _ _ _ h hb1 hrest htp1

/-- Claim C19. Every track returned by `getGpTracks` that has been closed, with
closing duration `d` not zero, was closed at a point `p` of the sequence with
duration `d`: its end timestamp and distance are those of `p`, and its speed
is the distance of `p` divided by `d`, multiplied by 3600 exactly when the
file's time unit is `H` (hours). -/
theorem getGpTracks_speed (f : GpFile) (tracks : List GpTrack)
    (hm : getGpTracks f = some tracks) :
    ∀ t ∈ tracks, ∀ d : Int, t.duration = some d → d ≠ 0 →
      ∃ p ∈ f.trkpt, p.duration = d ∧ t.endTrk = some p.dateTime ∧ t.dist = some p.dist ∧
        (f.unitTime = 72 → t.speed = some (p.dist / (d : Rat) * 3600)) ∧
        (f.unitTime ≠ 72 → t.speed = some (p.dist / (d : Rat))) := by
  intro t ht d hd _
  have hinv := tracksLoop_closed f.unitTime f.ntrkpts f.trkpt f.trkpt 0 none []
    ⟨-91, -181⟩ ⟨91, 181⟩ tracks hm (fun b hb => Option.noConfusion hb) (fun p hp => hp)
    (fun t ht => absurd ht (List.not_mem_nil t))
  obtain ⟨p, hp, h1, h2, h3, h4⟩ := hinv t ht d hd
  refine ⟨p, hp, h1, h2, h3, ?_, ?_⟩
  · intro hu
    rw [h4, if_pos hu]
  · intro hu
    rw [h4, if_neg hu]

theorem getGpTracks_speed_witness :
    getGpTracks (trackFile [tpt true 1 2 100 0 0, tpt false 3 1 200 50 7])
      = some [⟨1, 100, some 200, some 50, some 7, some 504, some ⟨2, 3 / 2⟩, some ⟨3, 2⟩,
                some ⟨1, 1⟩⟩] ∧
    ∀ t ∈ [(⟨1, 100, some 200, some 50, some 7, some 504, some ⟨2, 3 / 2⟩, some ⟨3, 2⟩,
                some ⟨1, 1⟩⟩ : GpTrack)],
      ∀ d : Int, t.duration = some d → d ≠ 0 →
        ∃ p ∈ (trackFile [tpt true 1 2 100 0 0, tpt false 3 1 200 50 7]).trkpt,
          p.duration = d ∧ t.endTrk = some p.dateTime ∧ t.dist = some p.dist ∧
          ((trackFile [tpt true 1 2 100 0 0, tpt false 3 1 200 50 7]).unitTime = 72 →
            t.speed = some (p.dist / (d : Rat) * 3600)) ∧
          ((trackFile [tpt true 1 2 100 0 0, tpt false 3 1 200 50 7]).unitTime ≠ 72 →
            t.speed = some (p.dist / (d : Rat))) :=
  ⟨by decide!,
   getGpTracks_speed (trackFile [tpt true 1 2 100 0 0, tpt false 3 1 200 50 7]) _ (by decide!)⟩

/-- Claim C16, evaluated on the code. A plain point, a segment start, a plain
point: no track opens at the first point; the only track returned opens at
position 2, where the claim has two tracks, the first from position 1. A
single plain point makes the code write through track index `-1`. -/
theorem getGpTracks_first_point_plain :
    getGpTracks (trackFile [tpt false 3 1 200 50 7, tpt true 5 5 300 0 0,
        tpt false 4 6 400 60 9])
      = some [⟨2, 300, some 400, some 60, some 9, some 540, some ⟨9 / 2, 11 / 2⟩,
                some ⟨5, 6⟩, some ⟨4, 5⟩⟩] ∧
    getGpTracks (trackFile [tpt false 3 1 200 50 7]) = none := by
  decide!

/-- Claim C17, evaluated on the code. Two segment starts: reaching the last
point the code closes the previous track at the point before it and opens the
final track, which is never closed: end timestamp, duration, distance, speed
and corners of the final track are never assigned. -/
theorem getGpTracks_last_point_start :
    getGpTracks (trackFile [tpt true 1 2 100 10 3, tpt true 5 5 300 20 4])
      = some [⟨1, 100, some 100, some 10, some 3, some 1080, some ⟨1, 2⟩, some ⟨1, 2⟩,
                some ⟨1, 2⟩⟩,
              ⟨2, 300, none, none, none, none, none, none, none⟩] := by
  decide!

/-! ## gpsMerge: the width of the IDs -/

/-- More fuel does not change a result other than the exhaustion of the
fuel. -/
theorem dedupInner_succ (i total fuel j n : Nat) (ws : List GpWaypt)
    (r : Outcome (List GpWaypt))
    (h : dedupInner i total fuel j n ws = r) (hr : r ≠ Outcome.fault Fault.fuel) :
    dedupInner i total (fuel + 1) j n ws = r := by
  induction fuel generalizing j n ws with
  | zero =>
    simp only [dedupInner] at h
    exact absurd h.symm hr
  | succ fuel ih =>
    rw [dedupInner] at h
    rw [dedupInner]
    split
    · rename_i hj
      rw [if_pos hj] at h
      split
      · rename_i hij
        rw [if_pos hij] at h
        exact ih _ _ _ h
      · rename_i hij
        rw [if_neg hij] at h
        split
        · rename_i hs
          rw [if_pos hs] at h
          split
          · rename_i hput
            simp only [hput] at h
            exact h
          · rename_i s hput
            simp only [hput] at h
            exact ih _ _ _ h
        · rename_i hs
          rw [if_neg hs] at h
          exact ih _ _ _ h
    · rename_i hj
      rw [if_neg hj] at h
      exact h

theorem dedupInner_mono (i total fuel extra j n : Nat) (ws : List GpWaypt)
    (r : Outcome (List GpWaypt))
    (h : dedupInner i total fuel j n ws = r) (hr : r ≠ Outcome.fault Fault.fuel) :
    dedupInner i total (fuel + extra) j n ws = r := by
  induction extra with
  | zero => exact h
  | succ e ih => exact dedupInner_succ _ _ _ _ _ _ _ ih hr

/-- A run that ends well with some fuel ends the same way with the budget
`fuel`, provided the budget covers the measure of the loop. -/
theorem dedupInner_budget (i total fuel j n : Nat) (ws W : List GpWaypt) (hn : n < 256)
    (hfuel : ((idAt ws i).length * 256 + (256 - n) % 256) * (total + 1) + (total - j) + 1
      ≤ fuel)
    (h : ∃ f0, dedupInner i total f0 j n ws = Outcome.ok W) :
    dedupInner i total fuel j n ws = Outcome.ok W := by
  obtain ⟨f0, hf0⟩ := h
  have hok : Outcome.ok W ≠ Outcome.fault Fault.fuel := fun hc => Outcome.noConfusion hc
  by_cases hle : f0 ≤ fuel
  · have := dedupInner_mono i total f0 (fuel - f0) j n ws _ hf0 hok
    rwa [Nat.add_sub_cancel' hle] at this
  · have hne := dedupInner_fuel i total fuel j n ws hn hfuel
    have := dedupInner_mono i total fuel (f0 - fuel) j n ws _ rfl hne
    rw [Nat.add_sub_cancel' (by omega), hf0] at this
    exact this.symm

theorem run_end (i total j n : Nat) (ws : List GpWaypt) (hj : ¬ j < total) :
    ∃ f0, dedupInner i total f0 j n ws = Outcome.ok ws :=
  ⟨1, by simp [dedupInner, hj]⟩

theorem run_skip (i total j n : Nat) (ws W : List GpWaypt) (hj : j < total)
    (hno : i = j ∨ strcmp (idAt ws i) (idAt ws j) ≠ 0)
    (h : ∃ f0, dedupInner i total f0 (j + 1) n ws = Outcome.ok W) :
    ∃ f0, dedupInner i total f0 j n ws = Outcome.ok W := by
  obtain ⟨f0, hf0⟩ := h
  refine ⟨f0 + 1, ?_⟩
  rw [dedupInner]
  by_cases hij : i = j
  · simp [hj, hij] at hf0 ⊢
    exact hf0
  · have hs : strcmp (idAt ws i) (idAt ws j) ≠ 0 := hno.resolve_left hij
    simp [hj, hij, hs, hf0]

theorem run_hit (i total j n : Nat) (ws W : List GpWaypt) (s : CString) (hj : j < total)
    (hij : i ≠ j) (hs : strcmp (idAt ws i) (idAt ws j) = 0)
    (hput : putLast (idAt ws i) n = some s)
    (h : ∃ f0, dedupInner i total f0 1 ((n + 1) % 256) (setIdAt ws i s) = Outcome.ok W) :
    ∃ f0, dedupInner i total f0 j n ws = Outcome.ok W := by
  obtain ⟨f0, hf0⟩ := h
  refine ⟨f0 + 1, ?_⟩
  rw [dedupInner]
  simp [hj, hij, hs, hput, hf0]

theorem run_scan (i total n : Nat) (ws W : List GpWaypt) (gap j : Nat)
    (hend : j + gap ≤ total)
    (hno : ∀ k, j ≤ k → k < j + gap → (i = k ∨ strcmp (idAt ws i) (idAt ws k) ≠ 0))
    (h : ∃ f0, dedupInner i total f0 (j + gap) n ws = Outcome.ok W) :
    ∃ f0, dedupInner i total f0 j n ws = Outcome.ok W := by
  induction gap generalizing j with
  | zero => exact h
  | succ g ih =>
    apply run_skip i total j n ws W (by omega) (hno j (le_refl _) (by omega))
    apply ih (j + 1) (by omega)
    · intro k hk1 hk2
      exact hno k (by omega) (by omega)
    · have : j + 1 + g = j + (g + 1) := by omega
      rw [this]
      exact h

theorem idAt_append_left (l1 l2 : List GpWaypt) (k : Nat) (hk : k < l1.length) :
    idAt (l1 ++ l2) k = idAt l1 k := by
  induction l1 generalizing k with
  | nil => simp at hk
  | cons w l1 ih =>
    cases k with
    | zero => rfl
    | succ k =>
      simp only [List.cons_append, idAt]
      exact ih k (by simpa using hk)

theorem idAt_append_right (l1 l2 : List GpWaypt) (k : Nat) :
    idAt (l1 ++ l2) (l1.length + k) = idAt l2 k := by
  induction l1 with
  | nil => simp
  | cons w l1 ih =>
    have : (w :: l1).length + k = (l1.length + k) + 1 := by simp; omega
    rw [this]
    simp only [List.cons_append, idAt]
    exact ih

theorem setIdAt_append_right (l1 l2 : List GpWaypt) (k : Nat) (id : CString) :
    setIdAt (l1 ++ l2) (l1.length + k) id = l1 ++ setIdAt l2 k id := by
  induction l1 with
  | nil => simp
  | cons w l1 ih =>
    have : (w :: l1).length + k = (l1.length + k) + 1 := by simp; omega
    rw [this]
    simp only [List.cons_append, setIdAt]
    exact congrArg (List.cons w) ih

theorem idAt_range (a n k : Nat) (hk : k < n) :
    idAt ((List.range' a n).map (fun b => wpt [65, b])) k = [65, a + k] := by
  induction n generalizing a k with
  | zero => omega
  | succ n ih =>
    rw [List.range'_succ]
    cases k with
    | zero => simp [idAt, wpt]
    | succ k =>
      simp only [List.map_cons, idAt]
      rw [ih (a + 1) k (by omega)]
      congr 2
      omega

theorem rcv209_length : rcv209.length = 209 := by
  simp [rcv209]

theorem idAt_rcv209 (c : CString) (k : Nat) (h1 : 1 ≤ k) (h2 : k ≤ 208) :
    idAt (rcv209 ++ [wpt c]) k = [65, 47 + k] := by
  rw [idAt_append_left _ _ _ (by rw [rcv209_length]; omega)]
  obtain ⟨m, rfl⟩ : ∃ m, k = m + 1 := ⟨k - 1, by omega⟩
  simp only [rcv209, idAt]
  rw [idAt_range 48 208 m (by omega)]
  congr 2
  omega

theorem idAt_rcv209_zero (c : CString) : idAt (rcv209 ++ [wpt c]) 0 = [33, 33] := rfl

theorem idAt_rcv209_last (c : CString) : idAt (rcv209 ++ [wpt c]) 209 = c := by
  have := idAt_append_right rcv209 [wpt c] 0
  rw [rcv209_length] at this
  exact this

theorem setIdAt_rcv209 (c s : CString) :
    setIdAt (rcv209 ++ [wpt c]) 209 s = rcv209 ++ [wpt s] := by
  have := setIdAt_append_right rcv209 [wpt c] 0 s
  rw [rcv209_length] at this
  exact this

theorem strcmp_A_ne (v u : Nat) (h : v ≠ u) : strcmp [65, v] [65, u] ≠ 0 := by
  simp only [strcmp, if_true, h, if_false]
  norm_num
  omega

/-- The last scan of the example: the ID `A`, one character long, equals no
ID of the receiver. -/
theorem rcv209_final :
    ∃ f0, dedupInner 209 210 f0 1 1 (rcv209 ++ [wpt [65]]) = Outcome.ok (rcv209 ++ [wpt [65]]) := by
  apply run_scan 209 210 1 _ _ 209 1 (by omega)
  · intro k hk1 hk2
    by_cases hk : k = 209
    · exact Or.inl hk.symm
    · right
      rw [idAt_rcv209_last, idAt_rcv209 _ k hk1 (by omega)]
      simp only [strcmp, if_true]
      norm_num
      omega
  · exact run_end 209 210 (1 + 209) 1 _ (by omega)

/-- The rewrites of the example from the ID `A` followed by byte `255 - m` on:
each collides with the next ID of the receiver, the counter reaches 0 after
byte 255 and the NUL it writes leaves the ID `A`. -/
theorem rcv209_chain (m : Nat) (hm : m ≤ 207) :
    ∃ f0, dedupInner 209 210 f0 1 ((256 - m) % 256) (rcv209 ++ [wpt [65, 255 - m]])
      = Outcome.ok (rcv209 ++ [wpt [65]]) := by
  induction m with
  | zero =>
    apply run_scan 209 210 _ _ _ 207 1 (by omega)
    · intro k hk1 hk2
      right
      rw [idAt_rcv209_last, idAt_rcv209 _ k hk1 (by omega)]
      exact strcmp_A_ne _ _ (by omega)
    · apply run_hit 209 210 (1 + 207) _ _ _ [65] (by omega) (by omega)
      · rw [idAt_rcv209_last, idAt_rcv209 _ (1 + 207) (by omega) (by omega)]
        exact strcmp_self _
      · rw [idAt_rcv209_last]
        rfl
      · rw [setIdAt_rcv209]
        exact rcv209_final
  | succ m ih =>
    have ih := ih (by omega)
    apply run_scan 209 210 _ _ _ (206 - m) 1 (by omega)
    · intro k hk1 hk2
      right
      rw [idAt_rcv209_last, idAt_rcv209 _ k hk1 (by omega)]
      exact strcmp_A_ne _ _ (by omega)
    · apply run_hit 209 210 (1 + (206 - m)) _ _ _ [65, 255 - m] (by omega) (by omega)
      · rw [idAt_rcv209_last, idAt_rcv209 _ (1 + (206 - m)) (by omega) (by omega)]
        have : 47 + (1 + (206 - m)) = 255 - (m + 1) := by omega
        rw [this]
        exact strcmp_self _
      · rw [idAt_rcv209_last]
        have h1 : (256 - (m + 1)) % 256 = 255 - m := by omega
        have h2 : ¬ (255 - m = 0) := by omega
        rw [h1]
        simp [putLast, h2]
      · rw [setIdAt_rcv209]
        have h1 : ((256 - (m + 1)) % 256 + 1) % 256 = (256 - m) % 256 := by omega
        rw [h1]
        exact ih

/-- The whole inner loop of the example: the appended `AA` ends as `A`. -/
theorem rcv209_run :
    ∃ f0, dedupInner 209 210 f0 0 48 (rcv209 ++ [wpt [65, 65]])
      = Outcome.ok (rcv209 ++ [wpt [65]]) := by
  apply run_scan 209 210 _ _ _ 18 0 (by omega)
  · intro k _ hk2
    right
    by_cases hk : k = 0
    · rw [hk, idAt_rcv209_last, idAt_rcv209_zero]
      simp [strcmp]
    · rw [idAt_rcv209_last, idAt_rcv209 _ k (by omega) (by omega)]
      exact strcmp_A_ne _ _ (by omega)
  · apply run_hit 209 210 (0 + 18) _ _ _ [65, 48] (by omega) (by omega)
    · rw [idAt_rcv209_last, idAt_rcv209 _ (0 + 18) (by omega) (by omega)]
      exact strcmp_self _
    · rw [idAt_rcv209_last]
      rfl
    · rw [setIdAt_rcv209]
      exact rcv209_chain 207 (le_refl _)

theorem foldl_maxLen_le (field : GpWaypt → CString) (ws : List GpWaypt) (m n : Nat)
    (hm : m ≤ n) (h : ∀ w ∈ ws, (field w).length ≤ n) :
    ws.foldl (fun m w => if (field w).length > m then (field w).length else m) m ≤ n := by
  induction ws generalizing m with
  | nil => exact hm
  | cons a ws ih =>
    simp only [List.foldl_cons]
    apply ih
    · have := h a (List.mem_cons_self _ _)
      split <;> omega
    · exact fun w hw => h w (List.mem_cons_of_mem _ hw)

theorem maxLen_eq (field : GpWaypt → CString) (ws : List GpWaypt) (n : Nat)
    (hne : ws ≠ []) (h : ∀ w ∈ ws, (field w).length = n) : maxLen field ws = n := by
  apply le_antisymm
  · exact foldl_maxLen_le field ws 0 n (Nat.zero_le _) (fun w hw => le_of_eq (h w hw))
  · obtain ⟨w, l, rfl⟩ := List.exists_cons_of_ne_nil hne
    rw [← h w (List.mem_cons_self _ _)]
    exact le_maxLen field (w :: l) w (List.mem_cons_self _ _)

theorem padWaypts_same (a b : Nat) (ws : List GpWaypt)
    (h : ∀ w ∈ ws, w.ID.length = a ∧ w.symbol.length = b) : padWaypts a b ws = ws := by
  unfold padWaypts
  conv_rhs => rw [← List.map_id ws]
  apply List.map_congr_left
  intro w hw
  obtain ⟨h1, h2⟩ := h w hw
  simp [padTo, h1, h2]

theorem gpsMerge_of_waypts (A B : GpFile) (W : List GpWaypt)
    (h : mergeWaypts A B = Outcome.ok W) :
    gpsMerge A B = Outcome.ok
      { A with route := mergeRoutes A B, waypt := W, trkpt := mergeTrkpts A B } := by
  unfold gpsMerge
  rw [h]

theorem rcv209_fields (c : CString) (hc : c.length = 2) :
    ∀ w ∈ rcv209 ++ [wpt c], w.ID.length = 2 ∧ w.symbol.length = 0 := by
  intro w hw
  simp only [rcv209, List.cons_append, List.mem_cons, List.mem_append, List.mem_map,
    List.mem_singleton] at hw
  rcases hw with rfl | ⟨b, _, rfl⟩ | rfl | hnil
  · exact ⟨rfl, rfl⟩
  · exact ⟨rfl, rfl⟩
  · exact ⟨hc, rfl⟩
  · exact absurd hnil (List.not_mem_nil w)

/-- Claim C14, evaluated on the code. The receiver holds the 209 two-character
IDs of `rcv209`, the incoming file the ID `AA`: every ID of both files has
length 2. The appended ID collides 208 times in a row, the `char` counter
passes 255 and becomes 0, and the NUL written over the last character leaves
the ID `A`, of length 1, as the last waypoint of the merged file. -/
theorem gpsMerge_id_shortened :
    (∀ w ∈ rcv209 ++ [wpt [65, 65]], w.ID.length = 2) ∧
    maxLen GpWaypt.ID (rcv209 ++ [wpt [65, 65]]) = 2 ∧
    ∃ C, gpsMerge (fileOf rcv209 []) (fileOf [wpt [65, 65]] []) = Outcome.ok C ∧
      C.waypt = rcv209 ++ [wpt [65]] ∧ (wpt [65]).ID.length = 1 := by
  have hfields := rcv209_fields [65, 65] rfl
  have hne : rcv209 ++ [wpt [65, 65]] ≠ [] := by simp
  have hmax : maxLen GpWaypt.ID (rcv209 ++ [wpt [65, 65]]) = 2 :=
    maxLen_eq _ _ 2 hne (fun w hw => (hfields w hw).1)
  have hsym : maxLen GpWaypt.symbol (rcv209 ++ [wpt [65, 65]]) = 0 :=
    maxLen_eq _ _ 0 hne (fun w hw => (hfields w hw).2)
  have hpad : padWaypts 2 0 (rcv209 ++ [wpt [65, 65]]) = rcv209 ++ [wpt [65, 65]] :=
    padWaypts_same 2 0 _ hfields
  have hlen : (rcv209 ++ [wpt [65, 65]]).length = 210 := by
    rw [List.length_append, rcv209_length]
    rfl
  have hrun : dedupInner 209 210 (dedupFuel 2 210) 0 48 (rcv209 ++ [wpt [65, 65]])
      = Outcome.ok (rcv209 ++ [wpt [65]]) := by
    apply dedupInner_budget _ _ _ _ _ _ _ (by decide) _ rcv209_run
    rw [idAt_rcv209_last]
    decide
  have hw : mergeWaypts (fileOf rcv209 []) (fileOf [wpt [65, 65]] [])
      = Outcome.ok (rcv209 ++ [wpt [65]]) := by
    have hn : (fileOf [wpt [65, 65]] []).nwaypts > 0 := by decide
    have hA : (fileOf rcv209 []).waypt = rcv209 := rfl
    have hB : (fileOf [wpt [65, 65]] []).waypt = [wpt [65, 65]] := rfl
    unfold mergeWaypts
    rw [if_pos hn]
    simp only [hA, hB, hmax, hsym, hpad, hlen, rcv209_length, List.length_singleton]
    have hr : List.range' 209 1 = [209] := rfl
    rw [hr, dedupOuter, hrun]
    simp only [dedupOuter]
  exact ⟨fun w hw => (hfields w hw).1, hmax, _, gpsMerge_of_waypts _ _ _ hw, rfl, rfl⟩

/-! ## Round trip: the Duration column -/

/-- Claim C20, evaluated on the code. A trackpoint that is not a segment start
and has a duration of 90000 seconds (25 hours, as a `seconds` column yields
it): `writeGpFile` prints the hours modulo 60, so the line carries `25:00:00`,
and the `Duration` decoder of `scanGpTrkpt` rejects 24 hours or more with the
error `VALUE`, which makes `readGpFile` reject the text. A duration below one
day, such as 3725 seconds, is written `01:02:05` and read back. -/
theorem duration_round_trip_fails :
    writeDuration 90000 = cstr "25:00:00" ∧
    scanDuration (writeDuration 90000) = Except.error GpError.VALUE ∧
    writeDuration 3725 = cstr "01:02:05" ∧
    scanDuration (writeDuration 3725) = Except.ok 3725 := by
  decide

/-! ## The reader: tokens -/

/-- The tokens read with a token under way: the token goes on to the next
delimiter, the others are read from the text after that delimiter. -/
theorem strtokAll_cur (delim : CString) (s : CString) :
    ∀ cur : CString, cur ≠ [] →
      strtokAll delim s cur =
        (cur ++ s.take (strcspn s delim)) :: strtokAll delim (s.drop (strcspn s delim)).tail [] := by
  induction s with
  | nil =>
    intro cur hc
    simp [strtokAll, hc, strcspn]
  | cons c cs ih =>
    intro cur hc
    conv_lhs => rw [strtokAll]
    by_cases h : c ∈ delim
    · rw [if_pos h, if_neg hc]
      have : strcspn (c :: cs) delim = 0 := by
        unfold strcspn
        rw [List.takeWhile_cons_of_neg (by simp [h])]
        rfl
      rw [this]
      simp
    · rw [if_neg h, ih (cur ++ [c]) (by simp)]
      have : strcspn (c :: cs) delim = strcspn cs delim + 1 := by
        unfold strcspn
        rw [List.takeWhile_cons_of_pos (by simp [h])]
        rfl
      rw [this]
      simp

/-- The list `strtokAll` is the list of the tokens that successive calls of
`strtok` return. -/
theorem strtokAll_eq_strtok (delim : CString) (s : CString) :
    strtokAll delim s [] =
      match strtok delim s with
      | none => []
      | some (t, r) => t :: strtokAll delim r [] := by
  induction s with
  | nil => simp [strtokAll, strtok, strspn]
  | cons c cs ih =>
    by_cases h : c ∈ delim
    · have e1 : strtok delim (c :: cs) = strtok delim cs := by
        unfold strtok
        have : strspn (c :: cs) delim = strspn cs delim + 1 := by
          unfold strspn
          rw [List.takeWhile_cons_of_pos (by simp [h])]
          rfl
        rw [this]
        rfl
      rw [e1, ← ih]
      conv_lhs => rw [strtokAll]
      rw [if_pos h, if_pos rfl]
    · have e1 : strtok delim (c :: cs) =
          some ((c :: cs).take (strcspn (c :: cs) delim),
            ((c :: cs).drop (strcspn (c :: cs) delim)).tail) := by
        unfold strtok
        have : strspn (c :: cs) delim = 0 := by
          unfold strspn
          rw [List.takeWhile_cons_of_neg (by simp [h])]
          rfl
        rw [this]
        simp
      rw [e1]
      have e2 : strcspn (c :: cs) delim = strcspn cs delim + 1 := by
        unfold strcspn
        rw [List.takeWhile_cons_of_pos (by simp [h])]
        rfl
      simp only []
      rw [e2]
      conv_lhs => rw [strtokAll]
      rw [if_neg h, List.nil_append, strtokAll_cur delim cs [c] (by simp)]
      simp

/-- The comparison with the earlier columns works for every column type but
`ALT`: when a type other than `ALT` occurs twice among the columns, the loop
of `parseGpFieldDef` ends with `FIELD`. -/
theorem parseGpFieldDefLoop_duplicate (ps : List CString) :
    ∀ head : List GpFieldHeader,
      ((head.map GpFieldHeader.type).filter (fun t => decide (t ≠ GpFieldType.ALT))).Nodup →
      ¬ ((head.map GpFieldHeader.type ++ ps.map (fun p => (fieldHeader p).type)).filter
          (fun t => decide (t ≠ GpFieldType.ALT))).Nodup →
      parseGpFieldDefLoop ps head = Parse.err GpError.FIELD := by
  induction ps with
  | nil =>
    intro head h1 h2
    rw [List.map_nil, List.append_nil] at h2
    exact absurd h1 h2
  | cons p ps ih =>
    intro head h1 h2
    rw [parseGpFieldDefLoop]
    have e : head.map GpFieldHeader.type ++ (p :: ps).map (fun p => (fieldHeader p).type) =
        (head ++ [fieldHeader p]).map GpFieldHeader.type ++
          ps.map (fun p => (fieldHeader p).type) := by
      simp
    rw [e] at h2
    by_cases c1 : (fieldHeader p).type = GpFieldType.ALT
    · rw [if_pos c1]
      refine ih _ ?_ h2
      rw [List.map_append, List.filter_append]
      simpa [c1] using h1
    · rw [if_neg c1]
      by_cases c2 : head.any (fun g => decide (g.type = (fieldHeader p).type)) = true
      · rw [if_pos c2]
      · rw [if_neg c2]
        refine ih _ ?_ h2
        rw [List.map_append, List.filter_append, List.nodup_append]
        refine ⟨h1, ?_, ?_⟩
        · simp [c1]
        · intro t ht1 ht2
          simp only [List.map_cons, List.map_nil, List.mem_filter, List.mem_singleton,
            decide_eq_true_eq] at ht2
          rw [List.mem_filter, List.mem_map] at ht1
          obtain ⟨⟨g, hg, hgt⟩, _⟩ := ht1
          apply c2
          rw [List.any_eq_true]
          exact ⟨g, hg, by simp [hgt, ht2.1]⟩

/-- A field-definition line in which a column type other than `ALT` occurs
twice is answered with `FIELD`. -/
theorem parseGpFieldDef_duplicate (fieldDef : CString)
    (h : ¬ (((strtokAll SPACE fieldDef []).tail.map (fun p => (fieldHeader p).type)).filter
        (fun t => decide (t ≠ GpFieldType.ALT))).Nodup) :
    parseGpFieldDef fieldDef = Parse.err GpError.FIELD := by
  unfold parseGpFieldDef
  exact parseGpFieldDefLoop_duplicate _ [] (by simp) (by simpa using h)

/-! ## The reader: column definitions -/

/-- Claim C26, evaluated on the code. The claim asks for an error whenever
two columns have the same recognized type. For the field-definition line
`F ID--- Latitude Longitude Altitude Altitude` the code returns success with
five columns, two of them of type `ALT`: the altitude branch of
`parseGpFieldDef` ends with `continue` and never reaches the comparison with
the earlier columns. -/
theorem parseGpFieldDef_altitude_twice :
    parseGpFieldDef (cstr "F ID--- Latitude Longitude Altitude Altitude") =
      Parse.ok [⟨GpFieldType.ID, 5⟩, ⟨GpFieldType.LAT, 0⟩, ⟨GpFieldType.LON, 0⟩,
        ⟨GpFieldType.ALT, 0⟩, ⟨GpFieldType.ALT, 0⟩] := by
  decide

/-! ## The reader: the columns of a line -/

/-- The field `"%-*.*s"` of width one at a text that starts with `0`. -/
theorem fmtField_zero (s : CString) (h : peek s = 48) : fmtField 1 s = [48] := by
  cases s with
  | nil => simp [peek] at h
  | cons a s =>
    have ha : a = 48 := by simpa [peek] using h
    subst ha
    simp [fmtField]

/-- The first character of the C string at an offset is the byte there. -/
theorem peek_strAt (buf : Buffer) (pos : Nat) : peek (strAt buf pos) = byteAt buf pos := by
  have hb : byteAt buf pos = (buf.drop pos).head?.getD 0 := by
    unfold byteAt
    rw [List.head?_drop, List.getD_eq_getElem?_getD]
  rw [hb]
  unfold strAt peek
  cases buf.drop pos with
  | nil => rfl
  | cons a r =>
    by_cases h0 : a = 0
    · subst h0
      simp
    · rw [List.takeWhile_cons_of_pos (by simpa using h0)]
      rfl

/-- The SegFlag column of `parseGpLine`, with `pos1` the offset of the flag
character after the spaces and tabs that precede it: the flag `1` followed by
a space, a tab or the end of the line returns at once with the C string two
bytes after the flag as the field; the flag `0` followed by one of them gives
the field `0` and goes on right after the flag; every other flag, and a flag
followed by another character, is the error `VALUE`. -/
theorem parseGpLineLoop_segflag (buf : Buffer) (h : GpFieldHeader) (hs : List GpFieldHeader)
    (pos : Nat) (results : List CString)
    (ht : h.type = GpFieldType.SEGFLAG) (hsep : chrset (byteAt buf pos) SPACE = true) :
    (byteAt buf (pos + strspn (strAt buf pos) SPACE) = 49 →
      (byteAt buf (pos + strspn (strAt buf pos) SPACE + 1) = 0 ∨
        chrset (byteAt buf (pos + strspn (strAt buf pos) SPACE + 1)) SPACE = true) →
      parseGpLineLoop buf (h :: hs) pos results =
        Parse.ok (results ++ [strAt buf (pos + strspn (strAt buf pos) SPACE + 2)])) ∧
    (byteAt buf (pos + strspn (strAt buf pos) SPACE) = 48 →
      (byteAt buf (pos + strspn (strAt buf pos) SPACE + 1) = 0 ∨
        chrset (byteAt buf (pos + strspn (strAt buf pos) SPACE + 1)) SPACE = true) →
      parseGpLineLoop buf (h :: hs) pos results =
        parseGpLineLoop buf hs (pos + strspn (strAt buf pos) SPACE + 1) (results ++ [[48]])) ∧
    ((byteAt buf (pos + strspn (strAt buf pos) SPACE) ≠ 49 ∧
        byteAt buf (pos + strspn (strAt buf pos) SPACE) ≠ 48) ∨
      (byteAt buf (pos + strspn (strAt buf pos) SPACE + 1) ≠ 0 ∧
        chrset (byteAt buf (pos + strspn (strAt buf pos) SPACE + 1)) SPACE = false) →
      parseGpLineLoop buf (h :: hs) pos results = Parse.err GpError.VALUE) := by
  have hc : ¬ (h.type ≠ GpFieldType.COMMENT ∧ chrset (byteAt buf pos) SPACE = false) := by
    rw [hsep]; simp
  refine ⟨?_, ?_, ?_⟩
  · intro h1 h2
    have hn : ¬ (byteAt buf (pos + strspn (strAt buf pos) SPACE + 1) ≠ 0 ∧
        chrset (byteAt buf (pos + strspn (strAt buf pos) SPACE + 1)) SPACE = false) := by
      rcases h2 with h2 | h2
      · exact fun hh => hh.1 h2
      · exact fun hh => absurd (h2.symm.trans hh.2) (by decide)
    rw [parseGpLineLoop, if_neg hc]
    simp only []
    rw [if_pos ht, if_neg hn, if_pos h1]
  · intro h1 h2
    have hn : ¬ (byteAt buf (pos + strspn (strAt buf pos) SPACE + 1) ≠ 0 ∧
        chrset (byteAt buf (pos + strspn (strAt buf pos) SPACE + 1)) SPACE = false) := by
      rcases h2 with h2 | h2
      · exact fun hh => hh.1 h2
      · exact fun hh => absurd (h2.symm.trans hh.2) (by decide)
    have h49 : ¬ byteAt buf (pos + strspn (strAt buf pos) SPACE) = 49 := by rw [h1]; decide
    rw [parseGpLineLoop, if_neg hc]
    simp only []
    rw [if_pos ht, if_neg hn, if_neg h49, if_pos h1,
      fmtField_zero _ ((peek_strAt buf _).trans h1)]
  · intro h1
    rw [parseGpLineLoop, if_neg hc]
    simp only []
    rw [if_pos ht]
    by_cases hn : (byteAt buf (pos + strspn (strAt buf pos) SPACE + 1) ≠ 0 ∧
        chrset (byteAt buf (pos + strspn (strAt buf pos) SPACE + 1)) SPACE = false)
    · rw [if_pos hn]
    · rcases h1 with h1 | h1
      · rw [if_neg hn, if_neg h1.1, if_neg h1.2]
      · exact absurd h1 hn

/-- Claim C27, evaluated on the code. The claim gives the field of a flag `1`
as the remainder of the line after the flag and one separator, also for a
flag followed by the end of the line. For the trackpoint line
`T N45.000000 W075.000000 1` that ends with a carriage return and a newline,
under the columns
`F Latitude Longitude S Duration km km/h`, the field of the SegFlag column is
the one-character text made of the newline, not the empty remainder:
`readGpFile` puts the NUL on the carriage return, and `parseGpLine` copies
from `start + 2`, one byte past that NUL, where the newline still stands. The
same line ended by a newline alone gives the empty field. -/
theorem parseGpLine_flag_at_line_end :
    stripEOL (cstr "T N45.000000 W075.000000 1\r") =
      cstr "T N45.000000 W075.000000 1" ++ [0, 10] ∧
    parseGpFieldDef (cstr "F Latitude Longitude S Duration km km/h") =
      Parse.ok [⟨GpFieldType.LAT, 0⟩, ⟨GpFieldType.LON, 0⟩, ⟨GpFieldType.SEGFLAG, 1⟩,
        ⟨GpFieldType.DUR, 0⟩, ⟨GpFieldType.DIST, 0⟩, ⟨GpFieldType.SPEED, 0⟩] ∧
    parseGpLine (stripEOL (cstr "T N45.000000 W075.000000 1\r"))
      [⟨GpFieldType.LAT, 0⟩, ⟨GpFieldType.LON, 0⟩, ⟨GpFieldType.SEGFLAG, 1⟩,
        ⟨GpFieldType.DUR, 0⟩, ⟨GpFieldType.DIST, 0⟩, ⟨GpFieldType.SPEED, 0⟩] =
      Parse.ok [cstr "N45.000000", cstr "W075.000000", [10]] ∧
    parseGpLine (stripEOL (cstr "T N45.000000 W075.000000 1"))
      [⟨GpFieldType.LAT, 0⟩, ⟨GpFieldType.LON, 0⟩, ⟨GpFieldType.SEGFLAG, 1⟩,
        ⟨GpFieldType.DUR, 0⟩, ⟨GpFieldType.DIST, 0⟩, ⟨GpFieldType.SPEED, 0⟩] =
      Parse.ok [cstr "N45.000000", cstr "W075.000000", []] := by
  decide

/-- The loop of `parseGpLine` ends with success, with `FIELD` or with
`VALUE`. -/
theorem parseGpLineLoop_codes (buf : Buffer) (head : List GpFieldHeader) :
    ∀ (pos : Nat) (results : List CString) (e : GpError),
      parseGpLineLoop buf head pos results = Parse.err e →
        e = GpError.FIELD ∨ e = GpError.VALUE := by
  induction head with
  | nil =>
    intro pos results e h
    unfold parseGpLineLoop at h
    split at h
    · left; cases h; rfl
    · cases h
  | cons g gs ih =>
    intro pos results e h
    rw [parseGpLineLoop] at h
    split at h
    · left; cases h; rfl
    · simp only [] at h
      split at h
      · split at h
        · right; cases h; rfl
        · split at h
          · cases h
          · split at h
            · exact ih _ _ e h
            · right; cases h; rfl
      · exact ih _ _ e h

/-- The two tests of `parseGpLine`: a column other than Comment that is not
preceded by a space or tab is the error `FIELD`; when, after the last column
and the spaces and tabs that follow it, the pointer is still before the end of
the line, the error is `FIELD` too; and `parseGpLine` never answers
`BADSEP`. -/
theorem parseGpLine_field_errors (buf : Buffer) (h : GpFieldHeader) (hs : List GpFieldHeader)
    (pos : Nat) (results : List CString) :
    (h.type ≠ GpFieldType.COMMENT → chrset (byteAt buf pos) SPACE = false →
      parseGpLineLoop buf (h :: hs) pos results = Parse.err GpError.FIELD) ∧
    ((strAt buf 0).length > pos + strspn (strAt buf pos) SPACE →
      parseGpLineLoop buf [] pos results = Parse.err GpError.FIELD) ∧
    (∀ (head : List GpFieldHeader), parseGpLine buf head ≠ Parse.err GpError.BADSEP) := by
  refine ⟨?_, ?_, ?_⟩
  · intro h1 h2
    rw [parseGpLineLoop, if_pos ⟨h1, h2⟩]
  · intro h1
    rw [parseGpLineLoop, if_pos h1]
  · intro head hb
    rcases parseGpLineLoop_codes buf head _ _ _ hb with h1 | h1
    · cases h1
    · cases h1

/-- The first test on a line: the latitude column of `W ABN45` is not preceded
by a space, the error is `FIELD`. -/
theorem parseGpLine_field_errors_example :
    parseGpLineLoop (stripEOL (cstr "W ABN45")) [⟨GpFieldType.LAT, 0⟩] 4 [cstr "AB"] =
      Parse.err GpError.FIELD :=
  (parseGpLine_field_errors (stripEOL (cstr "W ABN45")) ⟨GpFieldType.LAT, 0⟩ [] 4
    [cstr "AB"]).1 (by decide) (by decide)

/-- Claim C28, evaluated on the code. A missing separator (`W ABN45`, the ID
column two characters wide) and characters left after the last column
(`W AB N45 x`) are reported with one and the same error kind, `FIELD`, not with
`BADSEP` and `FIELD`: the test under the comment `check for valid field
seperator` returns `FIELD`, where the comment above `parseGpLine` announces
`VALUE` for a line that is not correctly partitioned and `readGpFile` answers
`BADSEP` for a tag that no space follows. -/
theorem parseGpLine_same_error_kind :
    parseGpLine (stripEOL (cstr "W ABN45")) [⟨GpFieldType.ID, 2⟩, ⟨GpFieldType.LAT, 0⟩] =
      Parse.err GpError.FIELD ∧
    parseGpLine (stripEOL (cstr "W AB N45 x")) [⟨GpFieldType.ID, 2⟩, ⟨GpFieldType.LAT, 0⟩] =
      Parse.err GpError.FIELD := by
  decide

/-! ## The reader: coordinates -/

/-- The number written by a decimal numeral is not negative. -/
theorem decimalValue_nonneg (ip fp : CString) : 0 ≤ decimalValue ip fp := by
  unfold decimalValue
  positivity

/-- The hemisphere letter `pos` becomes the sign `+`. -/
theorem hemiSign_pos (pos neg : Nat) (r : CString) : hemiSign pos neg (pos :: r) = [43] ++ r := by
  simp [hemiSign, peek]

/-- The hemisphere letter `neg` becomes the sign `-`. -/
theorem hemiSign_neg (pos neg : Nat) (r : CString) (h : neg ≠ pos) :
    hemiSign pos neg (neg :: r) = [45] ++ r := by
  simp [hemiSign, peek, h]

/-- A text that starts with neither hemisphere letter is left as it is. -/
theorem hemiSign_other (pos neg : Nat) (s : CString) (h1 : peek s ≠ pos) (h2 : peek s ≠ neg) :
    hemiSign pos neg s = s := by
  simp [hemiSign, h1, h2]

/-- What `parseGpCoords` does with the two conversions of `strtod`. -/
theorem parseGpCoords_of_strtod (L : Libc) (lat lon : CString) (a b : Rat)
    (ha : L.strtod (hemiSign 78 83 lat) = (a, [])) (hb : L.strtod (hemiSign 69 87 lon) = (b, [])) :
    parseGpCoords L lat lon =
      if (-90 ≤ a ∧ a ≤ 90) ∧ (-180 ≤ b ∧ b ≤ 180) then Parse.ok ⟨a, b⟩
      else Parse.err GpError.VALUE := by
  unfold parseGpCoords
  rw [ha, hb]
  simp only [peek, List.headD_nil, ne_eq, not_true_eq_false, false_or, gt_iff_lt]
  by_cases h1 : 90 < a ∨ a < -90
  · rw [if_pos h1, if_neg]
    intro h
    rcases h1 with h1 | h1
    · exact absurd h.1.2 (not_le.mpr h1)
    · exact absurd h.1.1 (not_le.mpr h1)
  · rw [if_neg h1]
    have h1a : -90 ≤ a ∧ a ≤ 90 := by
      constructor
      · exact not_lt.mp (fun h => h1 (Or.inr h))
      · exact not_lt.mp (fun h => h1 (Or.inl h))
    by_cases h2 : 180 < b ∨ b < -180
    · rw [if_pos h2, if_neg]
      intro h
      rcases h2 with h2 | h2
      · exact absurd h.2.2 (not_le.mpr h2)
      · exact absurd h.2.1 (not_le.mpr h2)
    · rw [if_neg h2, if_pos]
      refine ⟨h1a, ?_, ?_⟩
      · exact not_lt.mp (fun h => h2 (Or.inr h))
      · exact not_lt.mp (fun h => h2 (Or.inl h))

/-- A text that starts with a decimal digit starts with no hemisphere
letter. -/
theorem peek_digits (ip r : CString) (hip : ip ≠ []) (dip : ∀ c ∈ ip, isDigitByte c = true) :
    48 ≤ peek (ip ++ r) ∧ peek (ip ++ r) ≤ 57 := by
  obtain ⟨d, ip1, rfl⟩ := List.exists_cons_of_ne_nil hip
  have hd := dip d (List.mem_cons_self d ip1)
  unfold isDigitByte at hd
  simp only [Bool.and_eq_true, decide_eq_true_eq] at hd
  simpa [peek] using hd

/-- The conversion to `double` leaves the integers up to `2^53` in absolute
value as they are; here for a literal. -/
theorem toDouble_natCast (L : Libc) (n : Nat) (h : n ≤ 9007199254740992) :
    L.toDouble (n : Rat) = (n : Rat) := by
  have := L.toDouble_int (n : Int) (by omega) (by omega)
  simpa using this

/-- The conversion to `double` of a number that is not negative is not
negative. -/
theorem toDouble_nonneg (L : Libc) (v : Rat) (h : 0 ≤ v) : 0 ≤ L.toDouble v := by
  have h0 : L.toDouble 0 = 0 := by simpa using toDouble_natCast L 0 (by decide)
  have := L.toDouble_mono 0 v h
  rwa [h0] at this

/-- The conversion to `double` of a number up to the natural number `n` is at
most `n`, of a number from `n` on at least `n`. -/
theorem toDouble_bound (L : Libc) (v : Rat) (n : Nat) (hn : n ≤ 9007199254740992) :
    (v ≤ n → L.toDouble v ≤ n) ∧ ((n : Rat) ≤ v → (n : Rat) ≤ L.toDouble v) := by
  constructor
  · intro h
    have := L.toDouble_mono v n h
    rwa [toDouble_natCast L n hn] at this
  · intro h
    have := L.toDouble_mono n v h
    rwa [toDouble_natCast L n hn] at this

/-- The conversion of a complete decimal number by `strtod`, with or without a
sign before it: the whole text is converted, to the `double` of the number;
the number is not negative and starts with a digit. -/
theorem strtod_numeral (L : Libc) (sign r : CString) (v : Rat)
    (hs : sign = [] ∨ sign = [43] ∨ sign = [45]) (h : decimalNumeral r = some v) :
    L.strtod (sign ++ r) = ((if sign = [45] then -1 else 1) * L.toDouble v, []) ∧ 0 ≤ v ∧
      48 ≤ peek r ∧ peek r ≤ 57 := by
  have htd : r.takeWhile isDigitByte ++ r.dropWhile isDigitByte = r :=
    List.takeWhile_append_dropWhile isDigitByte r
  have hall : ∀ c ∈ r.takeWhile isDigitByte, isDigitByte c = true :=
    fun c hc => List.mem_takeWhile_imp hc
  unfold decimalNumeral at h
  split at h
  · rename_i hd
    rw [hd, List.append_nil] at htd
    split at h
    · cases h
    · rename_i hne
      cases h
      rw [htd] at hall
      refine ⟨L.strtod_integer sign r hs hne hall, by positivity, ?_⟩
      have := peek_digits r [] hne hall
      rwa [List.append_nil] at this
  · rename_i fp hd
    rw [hd] at htd
    split at h
    · rename_i hc
      cases h
      have hfp : ∀ c ∈ fp, isDigitByte c = true := by
        intro c hcm
        exact List.all_eq_true.mp hc.2 c hcm
      refine ⟨?_, decimalValue_nonneg _ _, ?_⟩
      · have := L.strtod_decimal sign (r.takeWhile isDigitByte) fp hs hc.1 hall hfp
        rw [List.append_assoc, htd] at this
        exact this
      · have := peek_digits (r.takeWhile isDigitByte) (46 :: fp) hc.1 hall
        rwa [htd] at this
    · cases h
  · cases h

/-- The coordinates of two complete decimal numbers behind hemisphere letters:
the letters give the signs, and the `double` values of the numbers must not
exceed 90 and 180. -/
theorem parseGpCoords_numeral (L : Libc) (ns ew : Nat) (rlat rlon : CString) (v w : Rat)
    (hns : ns = 78 ∨ ns = 83) (hew : ew = 69 ∨ ew = 87)
    (hv : decimalNumeral rlat = some v) (hw : decimalNumeral rlon = some w) :
    parseGpCoords L (ns :: rlat) (ew :: rlon) =
      if L.toDouble v ≤ 90 ∧ L.toDouble w ≤ 180 then
        Parse.ok ⟨(if ns = 83 then -1 else 1) * L.toDouble v,
          (if ew = 87 then -1 else 1) * L.toDouble w⟩
      else Parse.err GpError.VALUE := by
  have ha : L.strtod (hemiSign 78 83 (ns :: rlat)) =
      ((if ns = 83 then -1 else 1) * L.toDouble v, []) := by
    rcases hns with rfl | rfl
    · rw [hemiSign_pos, (strtod_numeral L [43] rlat v (by simp) hv).1]
      simp
    · rw [hemiSign_neg _ _ _ (by decide), (strtod_numeral L [45] rlat v (by simp) hv).1]
      simp
  have hb : L.strtod (hemiSign 69 87 (ew :: rlon)) =
      ((if ew = 87 then -1 else 1) * L.toDouble w, []) := by
    rcases hew with rfl | rfl
    · rw [hemiSign_pos, (strtod_numeral L [43] rlon w (by simp) hw).1]
      simp
    · rw [hemiSign_neg _ _ _ (by decide), (strtod_numeral L [45] rlon w (by simp) hw).1]
      simp
  have hv0 := toDouble_nonneg L v (strtod_numeral L [] rlat v (by simp) hv).2.1
  have hw0 := toDouble_nonneg L w (strtod_numeral L [] rlon w (by simp) hw).2.1
  rw [parseGpCoords_of_strtod L _ _ _ _ ha hb]
  have e1 : (-90 ≤ (if ns = 83 then -1 else 1) * L.toDouble v ∧
      (if ns = 83 then -1 else 1) * L.toDouble v ≤ 90) ↔ L.toDouble v ≤ 90 := by
    rcases hns with rfl | rfl
    · simp only [show ¬ (78 = 83) by decide, if_false, one_mul]
      constructor
      · exact fun h => h.2
      · exact fun h => ⟨by linarith, h⟩
    · simp only [if_true, neg_mul, one_mul]
      constructor
      · intro h; linarith [h.1]
      · intro h; constructor <;> linarith
  have e2 : (-180 ≤ (if ew = 87 then -1 else 1) * L.toDouble w ∧
      (if ew = 87 then -1 else 1) * L.toDouble w ≤ 180) ↔ L.toDouble w ≤ 180 := by
    rcases hew with rfl | rfl
    · simp only [show ¬ (69 = 87) by decide, if_false, one_mul]
      constructor
      · exact fun h => h.2
      · exact fun h => ⟨by linarith, h⟩
    · simp only [if_true, neg_mul, one_mul]
      constructor
      · intro h; linarith [h.1]
      · intro h; constructor <;> linarith
  exact if_congr (and_congr e1 e2) rfl rfl

/-- The five coordinates of whole degrees that the examples use. -/
theorem parseGpCoords_whole (L : Libc) (ns ew : Nat) (rlat rlon : CString) (a b : Nat)
    (hns : ns = 78 ∨ ns = 83) (hew : ew = 69 ∨ ew = 87)
    (hv : decimalNumeral rlat = some (a : Rat)) (hw : decimalNumeral rlon = some (b : Rat))
    (ha : a ≤ 9007199254740992) (hb : b ≤ 9007199254740992) :
    parseGpCoords L (ns :: rlat) (ew :: rlon) =
      if (a : Rat) ≤ 90 ∧ (b : Rat) ≤ 180 then
        Parse.ok ⟨(if ns = 83 then -1 else 1) * (a : Rat), (if ew = 87 then -1 else 1) * (b : Rat)⟩
      else Parse.err GpError.VALUE := by
  rw [parseGpCoords_numeral L ns ew rlat rlon a b hns hew hv hw, toDouble_natCast L a ha,
    toDouble_natCast L b hb]

/-- Claim C29 fails as stated. The latitude `N90.00000000000000001` is a
complete decimal number above 90, out of `[-90, 90]`; the `double` nearest to
it is 90, `strtod` returns 90 (here with the conversion that rounds to the
spacing `2^-46` of the `double` values around 90), and `parseGpCoords`
succeeds with the coordinate `(90, -75)`. -/
theorem parseGpCoords_accepts_above_bound :
    decimalNumeral (cstr "90.00000000000000001") = some (90 + 1 / 10 ^ 17) ∧
    ¬ ((90 : Rat) + 1 / 10 ^ 17 ≤ 90) ∧
    gridLibc.strtod (cstr "+90.00000000000000001") = (90, []) ∧
    parseGpCoords gridLibc (cstr "N90.00000000000000001") (cstr "W075.000000") =
      Parse.ok ⟨90, -75⟩ := by
  decide!

/-- Claim C29, amended. For every C library that meets the contract of
`strtod`: the hemisphere letters `N` and `E` stand for the sign `+`, `S` and
`W` for the sign `-`; when the rest of each text is a complete decimal number
the call succeeds exactly when the `double` that `strtod` converts the
latitude number to is at most 90 and that of the longitude number at most
180, with the signed `double` values as the coordinate, and fails with `VALUE`
otherwise; so it succeeds for every latitude number up to 90 with a longitude
number up to 180, and fails for a latitude number from 91 on and for a
longitude number from 181 on; in general the call succeeds exactly when
`strtod` converts both texts to their end and the latitude is neither above 90
nor below -90, the longitude neither above 180 nor below -180; `N45.000000`,
`W075.000000` decode to `+45`, `-75`; the latitude `N91.000000` and the
longitude `E181.000000` fail with `VALUE`; the bounds 90 and 180 are accepted
on both sides. -/
theorem parseGpCoords_hemisphere (L : Libc) :
    (∀ (ns ew : Nat) (rlat rlon : CString) (v w : Rat), (ns = 78 ∨ ns = 83) →
      (ew = 69 ∨ ew = 87) → decimalNumeral rlat = some v → decimalNumeral rlon = some w →
      parseGpCoords L (ns :: rlat) (ew :: rlon) =
          (if L.toDouble v ≤ 90 ∧ L.toDouble w ≤ 180 then
            Parse.ok ⟨(if ns = 83 then -1 else 1) * L.toDouble v,
              (if ew = 87 then -1 else 1) * L.toDouble w⟩
          else Parse.err GpError.VALUE) ∧
        (v ≤ 90 → w ≤ 180 →
          parseGpCoords L (ns :: rlat) (ew :: rlon) =
            Parse.ok ⟨(if ns = 83 then -1 else 1) * L.toDouble v,
              (if ew = 87 then -1 else 1) * L.toDouble w⟩) ∧
        (91 ≤ v ∨ 181 ≤ w →
          parseGpCoords L (ns :: rlat) (ew :: rlon) = Parse.err GpError.VALUE)) ∧
    (∀ (lat lon : CString),
      parseGpCoords L lat lon =
        if (peek (L.strtod (hemiSign 78 83 lat)).2 = 0 ∧
            ¬ (L.strtod (hemiSign 78 83 lat)).1 > 90 ∧
            ¬ (L.strtod (hemiSign 78 83 lat)).1 < -90) ∧
           (peek (L.strtod (hemiSign 69 87 lon)).2 = 0 ∧
            ¬ (L.strtod (hemiSign 69 87 lon)).1 > 180 ∧
            ¬ (L.strtod (hemiSign 69 87 lon)).1 < -180)
        then Parse.ok ⟨(L.strtod (hemiSign 78 83 lat)).1, (L.strtod (hemiSign 69 87 lon)).1⟩
        else Parse.err GpError.VALUE) ∧
    (∀ r : CString, hemiSign 78 83 (78 :: r) = 43 :: r ∧ hemiSign 78 83 (83 :: r) = 45 :: r ∧
      hemiSign 69 87 (69 :: r) = 43 :: r ∧ hemiSign 69 87 (87 :: r) = 45 :: r) ∧
    parseGpCoords L (cstr "N45.000000") (cstr "W075.000000") = Parse.ok ⟨45, -75⟩ ∧
    parseGpCoords L (cstr "N91.000000") (cstr "W075.000000") = Parse.err GpError.VALUE ∧
    parseGpCoords L (cstr "N45.000000") (cstr "E181.000000") = Parse.err GpError.VALUE ∧
    parseGpCoords L (cstr "N90.000000") (cstr "E180.000000") = Parse.ok ⟨90, 180⟩ ∧
    parseGpCoords L (cstr "S90.000000") (cstr "W180.000000") = Parse.ok ⟨-90, -180⟩ := by
  refine ⟨?_, ?_, ?_, ?_, ?_, ?_, ?_, ?_⟩
  · intro ns ew rlat rlon v w hns hew hv hw
    have hnum := parseGpCoords_numeral L ns ew rlat rlon v w hns hew hv hw
    have bv := toDouble_bound L v 90 (by decide)
    have bw := toDouble_bound L w 180 (by decide)
    have bv1 := toDouble_bound L v 91 (by decide)
    have bw1 := toDouble_bound L w 181 (by decide)
    refine ⟨hnum, ?_, ?_⟩
    · intro h1 h2
      rw [hnum, if_pos ⟨by simpa using bv.1 (by simpa using h1),
        by simpa using bw.1 (by simpa using h2)⟩]
    · intro h
      rw [hnum, if_neg]
      intro hc
      rcases h with h | h
      · have := bv1.2 (by simpa using h)
        have h3 := hc.1
        norm_num at this
        linarith
      · have := bw1.2 (by simpa using h)
        have h3 := hc.2
        norm_num at this
        linarith
  · intro lat lon
    unfold parseGpCoords
    by_cases h1 : peek (L.strtod (hemiSign 78 83 lat)).2 ≠ 0 ∨
        (L.strtod (hemiSign 78 83 lat)).1 > 90 ∨ (L.strtod (hemiSign 78 83 lat)).1 < -90
    · rw [if_pos h1, if_neg]
      intro h
      rcases h1 with h1 | h1 | h1
      · exact h1 h.1.1
      · exact h.1.2.1 h1
      · exact h.1.2.2 h1
    · rw [if_neg h1]
      have h1a : peek (L.strtod (hemiSign 78 83 lat)).2 = 0 ∧
          ¬ (L.strtod (hemiSign 78 83 lat)).1 > 90 ∧
          ¬ (L.strtod (hemiSign 78 83 lat)).1 < -90 := by
        refine ⟨?_, ?_, ?_⟩
        · exact not_not.mp (fun h => h1 (Or.inl h))
        · exact fun h => h1 (Or.inr (Or.inl h))
        · exact fun h => h1 (Or.inr (Or.inr h))
      by_cases h2 : peek (L.strtod (hemiSign 69 87 lon)).2 ≠ 0 ∨
          (L.strtod (hemiSign 69 87 lon)).1 > 180 ∨ (L.strtod (hemiSign 69 87 lon)).1 < -180
      · rw [if_pos h2, if_neg]
        intro h
        rcases h2 with h2 | h2 | h2
        · exact h2 h.2.1
        · exact h.2.2.1 h2
        · exact h.2.2.2 h2
      · rw [if_neg h2, if_pos]
        refine ⟨h1a, ?_, ?_, ?_⟩
        · exact not_not.mp (fun h => h2 (Or.inl h))
        · exact fun h => h2 (Or.inr (Or.inl h))
        · exact fun h => h2 (Or.inr (Or.inr h))
  · intro r
    exact ⟨hemiSign_pos 78 83 r, hemiSign_neg 78 83 r (by decide), hemiSign_pos 69 87 r,
      hemiSign_neg 69 87 r (by decide)⟩
  · have := parseGpCoords_whole L 78 87 (cstr "45.000000") (cstr "075.000000") 45 75
      (by decide) (by decide) (by decide!) (by decide!) (by decide) (by decide)
    rw [show cstr "N45.000000" = 78 :: cstr "45.000000" by decide,
      show cstr "W075.000000" = 87 :: cstr "075.000000" by decide, this]
    norm_num
  · have := parseGpCoords_whole L 78 87 (cstr "91.000000") (cstr "075.000000") 91 75
      (by decide) (by decide) (by decide!) (by decide!) (by decide) (by decide)
    rw [show cstr "N91.000000" = 78 :: cstr "91.000000" by decide,
      show cstr "W075.000000" = 87 :: cstr "075.000000" by decide, this]
    norm_num
  · have := parseGpCoords_whole L 78 69 (cstr "45.000000") (cstr "181.000000") 45 181
      (by decide) (by decide) (by decide!) (by decide!) (by decide) (by decide)
    rw [show cstr "N45.000000" = 78 :: cstr "45.000000" by decide,
      show cstr "E181.000000" = 69 :: cstr "181.000000" by decide, this]
    norm_num
  · have := parseGpCoords_whole L 78 69 (cstr "90.000000") (cstr "180.000000") 90 180
      (by decide) (by decide) (by decide!) (by decide!) (by decide) (by decide)
    rw [show cstr "N90.000000" = 78 :: cstr "90.000000" by decide,
      show cstr "E180.000000" = 69 :: cstr "180.000000" by decide, this]
    norm_num
  · have := parseGpCoords_whole L 83 87 (cstr "90.000000") (cstr "180.000000") 90 180
      (by decide) (by decide) (by decide!) (by decide!) (by decide) (by decide)
    rw [show cstr "S90.000000" = 83 :: cstr "90.000000" by decide,
      show cstr "W180.000000" = 87 :: cstr "180.000000" by decide, this]
    norm_num

/-- Claim C29, amended, with the conversion that rounds to the spacing of the
`double` values around 90: `N45.5`, `W075.25` decode to `45.5`, `-75.25`. -/
theorem parseGpCoords_hemisphere_witness :
    decimalNumeral (cstr "45.5") = some (91 / 2) ∧
    decimalNumeral (cstr "075.25") = some (301 / 4) ∧
    parseGpCoords gridLibc (78 :: cstr "45.5") (87 :: cstr "075.25") =
      Parse.ok ⟨(if 78 = 83 then -1 else 1) * gridLibc.toDouble (91 / 2),
        (if 87 = 87 then -1 else 1) * gridLibc.toDouble (301 / 4)⟩ :=
  ⟨by decide!, by decide!,
   ((parseGpCoords_hemisphere gridLibc).1 78 87 (cstr "45.5") (cstr "075.25") (91 / 2) (301 / 4)
      (Or.inl rfl) (Or.inr rfl) (by decide!) (by decide!)).2.1 (by decide!) (by decide!)⟩

/-- Claim C30, amended: a latitude that does not start with `N` or `S`
and a longitude that does not start with `E` or `W` are handed to `strtod` as
they are; the call fails with `VALUE` exactly when `strtod` leaves part of a
text unconverted or a converted number is above its upper bound or below its
lower bound, and succeeds with the two numbers otherwise. So, for every C
library that meets the contract of `strtod`, two complete decimal numbers
without hemisphere letters are accepted exactly when the `double` values that
`strtod` converts them to do not exceed 90 and 180. -/
theorem parseGpCoords_without_hemisphere (L : Libc) :
    (∀ (lat lon : CString), peek lat ≠ 78 → peek lat ≠ 83 → peek lon ≠ 69 → peek lon ≠ 87 →
      parseGpCoords L lat lon =
        if peek (L.strtod lat).2 ≠ 0 ∨ (L.strtod lat).1 > 90 ∨ (L.strtod lat).1 < -90 ∨
            peek (L.strtod lon).2 ≠ 0 ∨ (L.strtod lon).1 > 180 ∨ (L.strtod lon).1 < -180
        then Parse.err GpError.VALUE
        else Parse.ok ⟨(L.strtod lat).1, (L.strtod lon).1⟩) ∧
    (∀ (rlat rlon : CString) (v w : Rat),
      decimalNumeral rlat = some v → decimalNumeral rlon = some w →
      parseGpCoords L rlat rlon =
        if L.toDouble v ≤ 90 ∧ L.toDouble w ≤ 180 then Parse.ok ⟨L.toDouble v, L.toDouble w⟩
        else Parse.err GpError.VALUE) := by
  constructor
  · intro lat lon h1 h2 h3 h4
    unfold parseGpCoords
    rw [hemiSign_other 78 83 lat h1 h2, hemiSign_other 69 87 lon h3 h4]
    by_cases ha : peek (L.strtod lat).2 ≠ 0 ∨ (L.strtod lat).1 > 90 ∨ (L.strtod lat).1 < -90
    · rw [if_pos ha, if_pos]
      rcases ha with ha | ha | ha
      · exact Or.inl ha
      · exact Or.inr (Or.inl ha)
      · exact Or.inr (Or.inr (Or.inl ha))
    · rw [if_neg ha]
      by_cases hb : peek (L.strtod lon).2 ≠ 0 ∨ (L.strtod lon).1 > 180 ∨ (L.strtod lon).1 < -180
      · rw [if_pos hb, if_pos]
        exact Or.inr (Or.inr (Or.inr hb))
      · rw [if_neg hb, if_neg]
        intro h
        rcases h with h | h | h | h
        · exact ha (Or.inl h)
        · exact ha (Or.inr (Or.inl h))
        · exact ha (Or.inr (Or.inr h))
        · exact hb h
  · intro rlat rlon v w hv hw
    have p1 := strtod_numeral L [] rlat v (by simp) hv
    have p2 := strtod_numeral L [] rlon w (by simp) hw
    have ha : L.strtod (hemiSign 78 83 rlat) = (L.toDouble v, []) := by
      rw [hemiSign_other 78 83 _ (by omega) (by omega)]
      simpa using p1.1
    have hb : L.strtod (hemiSign 69 87 rlon) = (L.toDouble w, []) := by
      rw [hemiSign_other 69 87 _ (by omega) (by omega)]
      simpa using p2.1
    rw [parseGpCoords_of_strtod L _ _ _ _ ha hb]
    have hv0 := toDouble_nonneg L v p1.2.1
    have hw0 := toDouble_nonneg L w p2.2.1
    refine if_congr (and_congr ?_ ?_) rfl rfl
    · constructor
      · exact fun h => h.2
      · exact fun h => ⟨by linarith, h⟩
    · constructor
      · exact fun h => h.2
      · exact fun h => ⟨by linarith, h⟩

/-- Claim C30, amended, with the decimal conversion, on a latitude that
starts with the letter `X`. -/
theorem parseGpCoords_without_hemisphere_witness :
    parseGpCoords decimalLibc (cstr "X45.000000") (cstr "075.000000") =
      if peek (decimalLibc.strtod (cstr "X45.000000")).2 ≠ 0 ∨
          (decimalLibc.strtod (cstr "X45.000000")).1 > 90 ∨
          (decimalLibc.strtod (cstr "X45.000000")).1 < -90 ∨
          peek (decimalLibc.strtod (cstr "075.000000")).2 ≠ 0 ∨
          (decimalLibc.strtod (cstr "075.000000")).1 > 180 ∨
          (decimalLibc.strtod (cstr "075.000000")).1 < -180
      then Parse.err GpError.VALUE
      else Parse.ok ⟨(decimalLibc.strtod (cstr "X45.000000")).1,
                     (decimalLibc.strtod (cstr "075.000000")).1⟩ :=
  (parseGpCoords_without_hemisphere decimalLibc).1 (cstr "X45.000000") (cstr "075.000000")
    (by decide) (by decide) (by decide) (by decide)

/-- Claim C30 fails as stated: the latitude `45.000000` and the longitude
`075.000000` start with no hemisphere letter, and `parseGpCoords` succeeds
with the coordinate `(45, 75)`. -/
theorem parseGpCoords_accepts_plain_numbers :
    parseGpCoords decimalLibc (cstr "45.000000") (cstr "075.000000") = Parse.ok ⟨45, 75⟩ := by
  decide!

/-! ## The reader: the loop of `readGpFile` -/

/-- A setting changes neither the waypoints, nor the routes, nor the
trackpoints. -/
theorem readSetting_data (buf : CString) (f g : GpFile) (h : readSetting buf f = Parse.ok g) :
    g.waypt = f.waypt ∧ g.route = f.route ∧ g.trkpt = f.trkpt := by
  unfold readSetting at h
  split at h
  · cases h
  · split_ifs at h
    · split at h
      · cases h; exact ⟨rfl, rfl, rfl⟩
      · cases h
    · split at h
      · cases h
      · split at h
        · cases h
        · cases h; exact ⟨rfl, rfl, rfl⟩
    · split at h
      · cases h
      · split_ifs at h
        · cases h; exact ⟨rfl, rfl, rfl⟩
        · cases h; exact ⟨rfl, rfl, rfl⟩
        · cases h; exact ⟨rfl, rfl, rfl⟩
    · cases h; exact ⟨rfl, rfl, rfl⟩

/-- What a decoded line does to the waypoints and the routes: nothing; or it
is a W line inside a route and adds the leg that `scanGpLeg` finds among the
waypoints read so far; or it is a W line outside a route and adds a waypoint;
or it is an R line and adds a route whose number is new. -/
theorem readRecord_next (L : Libc) (st st1 : ReadState) (code : Nat) (buf : Buffer)
    (isRoute : Bool) (h : readRecord L st code buf isRoute = LineResult.next st1) :
    (st1.file.waypt = st.file.waypt ∧ st1.file.route = st.file.route) ∨
    (code = 87 ∧ isRoute = true ∧
      ∃ i, scanGpLeg buf st.fieldDef st.file.waypt = Parse.ok i ∧
        st1.file.waypt = st.file.waypt ∧ st1.file.route = addLeg st.file.route i) ∨
    (code = 87 ∧ isRoute = false ∧
      ∃ wp, scanGpWaypt L buf st.fieldDef = Parse.ok wp ∧
        st1.file.waypt = st.file.waypt ++ [wp] ∧ st1.file.route = st.file.route) ∨
    (code = 82 ∧
      ∃ rp, scanGpRoute buf = Parse.ok rp ∧
        (∀ r ∈ st.file.route, r.number ≠ rp.number) ∧
        st1.file.waypt = st.file.waypt ∧ st1.file.route = st.file.route ++ [rp]) := by
  unfold readRecord at h
  by_cases c1 : code = 73
  · rw [if_pos c1] at h
    split at h
    · cases h
    · split at h
      · cases h
      · cases h; exact Or.inl ⟨rfl, rfl⟩
  rw [if_neg c1] at h
  by_cases c2 : code = 77
  · rw [if_pos c2] at h
    split at h
    · cases h
    · cases h; exact Or.inl ⟨rfl, rfl⟩
  rw [if_neg c2] at h
  by_cases c3 : code = 85
  · rw [if_pos c3] at h
    split at h
    · cases h
    · cases h; exact Or.inl ⟨rfl, rfl⟩
  rw [if_neg c3] at h
  by_cases c4 : code = 70
  · rw [if_pos c4] at h
    cases h; exact Or.inl ⟨rfl, rfl⟩
  rw [if_neg c4] at h
  by_cases c5 : code = 83
  · rw [if_pos c5] at h
    split at h
    · cases h
    · cases h
    · rename_i f hf
      cases h
      have := readSetting_data _ _ _ hf
      exact Or.inl ⟨this.1, this.2.1⟩
  rw [if_neg c5] at h
  by_cases c6 : chrset code (cstr "WT") = true ∧ st.fieldDef.length = 0
  · rw [if_pos c6] at h; cases h
  rw [if_neg c6] at h
  by_cases c7 : code = 87 ∧ isRoute = true
  · rw [if_pos c7] at h
    split at h
    · cases h
    · cases h
    · rename_i i hi
      cases h
      exact Or.inr (Or.inl ⟨c7.1, c7.2, i, hi, rfl, rfl⟩)
  rw [if_neg c7] at h
  by_cases c8 : code = 87 ∧ isRoute = false
  · rw [if_pos c8] at h
    split at h
    · cases h
    · cases h
    · rename_i wp hwp
      cases h
      exact Or.inr (Or.inr (Or.inl ⟨c8.1, c8.2, wp, hwp, rfl, rfl⟩))
  rw [if_neg c8] at h
  by_cases c9 : code = 82
  · rw [if_pos c9] at h
    split at h
    · cases h
    · cases h
    · rename_i rp hrp
      split at h
      · cases h
      · rename_i hany
        cases h
        refine Or.inr (Or.inr (Or.inr ⟨c9, rp, hrp, ?_, rfl, rfl⟩))
        intro r hr hn
        apply hany
        rw [List.any_eq_true]
        exact ⟨r, hr, by simpa using hn⟩
  rw [if_neg c9] at h
  by_cases c10 : code = 84
  · rw [if_pos c10] at h
    split at h
    · cases h
    · cases h
    · cases h; exact Or.inl ⟨rfl, rfl⟩
  rw [if_neg c10] at h
  cases h; exact Or.inl ⟨rfl, rfl⟩

/-- A line that lets the loop go on is an ignored line, which leaves the state
as it is, or a line with a space after its tag that `readRecord` accepts. -/
theorem readLine_cases (L : Libc) (st st1 : ReadState) (line : CString)
    (h : readLine L st line = LineResult.next st1) :
    (chrset (peek (line ++ [10])) (cstr "CAH\n\r") = true ∧ st1 = st) ∨
    (chrset (peek (line ++ [10])) (cstr "CAH\n\r") = false ∧
      readRecord L st (peek (line ++ [10])) (stripEOL line)
        (routeFlag st.isRoute (peek (line ++ [10]))) = LineResult.next st1) := by
  unfold readLine at h
  by_cases c1 : chrset (peek (line ++ [10])) (cstr "CAH\n\r") = true
  · rw [if_pos c1] at h
    cases h
    exact Or.inl ⟨c1, rfl⟩
  · rw [if_neg c1] at h
    split at h
    · cases h
    · split at h
      · cases h
      · exact Or.inr ⟨by simpa using c1, h⟩

/-- The lift of `readRecord_next` to the lines. -/
theorem readLine_next (L : Libc) (st st1 : ReadState) (line : CString)
    (h : readLine L st line = LineResult.next st1) :
    (st1.file.waypt = st.file.waypt ∧ st1.file.route = st.file.route) ∨
    (∃ i, scanGpLeg (stripEOL line) st.fieldDef st.file.waypt = Parse.ok i ∧
        st1.file.waypt = st.file.waypt ∧ st1.file.route = addLeg st.file.route i) ∨
    (∃ wp, st1.file.waypt = st.file.waypt ++ [wp] ∧ st1.file.route = st.file.route) ∨
    (∃ rp, scanGpRoute (stripEOL line) = Parse.ok rp ∧
        (∀ r ∈ st.file.route, r.number ≠ rp.number) ∧
        st1.file.waypt = st.file.waypt ∧ st1.file.route = st.file.route ++ [rp]) := by
  rcases readLine_cases L st st1 line h with ⟨_, rfl⟩ | ⟨_, h1⟩
  · exact Or.inl ⟨rfl, rfl⟩
  · rcases readRecord_next L st st1 _ _ _ h1 with h2 | ⟨_, _, i, h2⟩ | ⟨_, _, wp, _, h2⟩ |
      ⟨_, rp, h2⟩
    · exact Or.inl h2
    · exact Or.inr (Or.inl ⟨i, h2⟩)
    · exact Or.inr (Or.inr (Or.inl ⟨wp, h2⟩))
    · exact Or.inr (Or.inr (Or.inr ⟨rp, h2⟩))

/-- A property that the first state has and that every accepted line keeps
holds after the lines. -/
theorem readLines_induct (L : Libc) (P : ReadState → Prop)
    (hstep : ∀ st st1 line, P st → readLine L st line = LineResult.next st1 → P st1) :
    ∀ (lines : List CString) (st st1 : ReadState), P st →
      readLines L lines st = some st1 → P st1 := by
  intro lines
  induction lines with
  | nil =>
    intro st st1 hP h
    unfold readLines at h
    cases h
    exact hP
  | cons line rest ih =>
    intro st st1 hP h
    rw [readLines] at h
    split at h
    · rename_i st2 h2
      exact ih st2 st1 (hstep st st2 line hP h2) h
    · cases h

/-- The lines of an accepted sequence are accepted one after the other. -/
theorem readLines_append (L : Libc) (pre post : List CString) :
    ∀ (st st1 : ReadState), readLines L (pre ++ post) st = some st1 ↔
      ∃ sa, readLines L pre st = some sa ∧ readLines L post sa = some st1 := by
  induction pre with
  | nil =>
    intro st st1
    constructor
    · intro h; exact ⟨st, rfl, h⟩
    · rintro ⟨sa, h1, h2⟩
      rw [readLines] at h1
      cases h1
      exact h2
  | cons line rest ih =>
    intro st st1
    rw [List.cons_append, readLines, readLines]
    cases hl : readLine L st line with
    | next st2 => exact ih st2 st1
    | stop code =>
      constructor
      · intro h; cases h
      · rintro ⟨sa, h1, _⟩; cases h1
    | undef =>
      constructor
      · intro h; cases h
      · rintro ⟨sa, h1, _⟩; cases h1

/-- A successful run of the loop: every line was accepted, the status is `OK`
with the number of the line after the last one, and the file is the model of
the last state. -/
theorem readLoop_some (L : Libc) (lines : List CString) :
    ∀ (k : Int) (st : ReadState) (s : GpStatus) (f : GpFile),
      readLoop L lines k st = ReadResult.done s (some f) →
        ∃ st1, readLines L lines st = some st1 ∧ f = st1.file ∧
          s = ⟨k + lines.length, GpError.OK⟩ := by
  induction lines with
  | nil =>
    intro k st s f h
    rw [readLoop] at h
    cases h
    exact ⟨st, rfl, rfl, by simp⟩
  | cons line rest ih =>
    intro k st s f h
    rw [readLoop] at h
    split at h
    · rename_i st2 h2
      obtain ⟨st1, h3, h4, h5⟩ := ih (k + 1) st2 s f h
      refine ⟨st1, ?_, h4, ?_⟩
      · rw [readLines, h2]; exact h3
      · rw [h5]
        simp only [List.length_cons, Nat.cast_add, Nat.cast_one, GpStatus.mk.injEq, and_true]
        omega
    · cases h
    · cases h

/-- The loop on lines that are all accepted. -/
theorem readLoop_of_readLines (L : Libc) (lines : List CString) :
    ∀ (k : Int) (st st1 : ReadState), readLines L lines st = some st1 →
      readLoop L lines k st = ReadResult.done ⟨k + lines.length, GpError.OK⟩ (some st1.file) := by
  induction lines with
  | nil =>
    intro k st st1 h
    rw [readLines] at h
    cases h
    rw [readLoop]
    simp
  | cons line rest ih =>
    intro k st st1 h
    rw [readLines] at h
    split at h
    · rename_i st2 h2
      rw [readLoop, h2]
      simp only []
      rw [ih (k + 1) st2 st1 h]
      simp only [List.length_cons, Nat.cast_add, Nat.cast_one, ReadResult.done.injEq,
        GpStatus.mk.injEq, and_true]
      omega
    · cases h

/-- The loop on accepted lines followed by a line that stops it. -/
theorem readLoop_stop (L : Libc) (pre : List CString) (line : CString) (post : List CString)
    (e : GpError) :
    ∀ (k : Int) (st sa : ReadState), readLines L pre st = some sa →
      readLine L sa line = LineResult.stop e →
      readLoop L (pre ++ line :: post) k st = ReadResult.done ⟨k + pre.length, e⟩ none := by
  induction pre with
  | nil =>
    intro k st sa h1 h2
    rw [readLines] at h1
    cases h1
    rw [List.nil_append, readLoop, h2]
    simp
  | cons l rest ih =>
    intro k st sa h1 h2
    rw [readLines] at h1
    split at h1
    · rename_i st2 h3
      rw [List.cons_append, readLoop, h3]
      simp only []
      rw [ih (k + 1) st2 sa h1 h2]
      simp only [List.length_cons, Nat.cast_add, Nat.cast_one, ReadResult.done.injEq,
        GpStatus.mk.injEq, and_true]
      omega
    · cases h1

/-- A run of the loop that ends without a file model stopped at one line: the
lines before it were accepted, and the status holds the code of that line and
its position. -/
theorem readLoop_none (L : Libc) (lines : List CString) :
    ∀ (k : Int) (st : ReadState) (s : GpStatus),
      readLoop L lines k st = ReadResult.done s none →
        ∃ (pre : List CString) (line : CString) (post : List CString) (sa : ReadState),
          lines = pre ++ line :: post ∧ readLines L pre st = some sa ∧
          readLine L sa line = LineResult.stop s.code ∧ s.lineno = k + pre.length := by
  induction lines with
  | nil =>
    intro k st s h
    rw [readLoop] at h
    cases h
  | cons l rest ih =>
    intro k st s h
    rw [readLoop] at h
    split at h
    · rename_i st2 h2
      obtain ⟨pre, line, post, sa, e1, e2, e3, e4⟩ := ih (k + 1) st2 s h
      refine ⟨l :: pre, line, post, sa, by rw [e1]; rfl, ?_, e3, ?_⟩
      · rw [readLines, h2]; exact e2
      · rw [e4]
        simp only [List.length_cons, Nat.cast_add, Nat.cast_one]
        omega
    · rename_i code h2
      cases h
      exact ⟨[], l, rest, st, rfl, rfl, h2, by simp⟩
    · cases h

/-- A run of the loop that ends with a code other than `OK` left no file
model. -/
theorem readLoop_error (L : Libc) (lines : List CString) :
    ∀ (k : Int) (st : ReadState) (s : GpStatus) (file : Option GpFile),
      readLoop L lines k st = ReadResult.done s file → s.code ≠ GpError.OK → file = none := by
  induction lines with
  | nil =>
    intro k st s file h he
    rw [readLoop] at h
    cases h
    exact absurd rfl he
  | cons l rest ih =>
    intro k st s file h he
    rw [readLoop] at h
    split at h
    · exact ih _ _ s file h he
    · cases h; rfl
    · cases h

/-- Claim C22. When `readGpFile` ends with a code other than `OK`, no file model is
left, and the line number it reports is the position, counted from 1 over all
the lines of the input, of the line that stopped the loop: the lines before it
were all accepted (reading them alone succeeds, with the same line number as
the number of the line after the last one), and that line, read after them,
is rejected with the reported code. Lines that are empty or start with `C`,
`A`, `H` or a carriage return are accepted in every state, leave it as it is,
and count as lines. -/
theorem readGpFile_line_number (L : Libc) (D : GpDefaults) (lines : List CString)
    (s : GpStatus) (file : Option GpFile)
    (h : readGpFile L D lines = ReadResult.done s file) (he : s.code ≠ GpError.OK) :
    file = none ∧
    (∃ (pre : List CString) (line : CString) (post : List CString) (sa : ReadState),
      lines = pre ++ line :: post ∧ s.lineno = pre.length + 1 ∧
      readGpFile L D pre = ReadResult.done ⟨s.lineno, GpError.OK⟩ (some sa.file) ∧
      readLines L pre (initialState D) = some sa ∧
      readLine L sa line = LineResult.stop s.code ∧
      readGpFile L D (pre ++ [line]) = ReadResult.done s none) ∧
    (∀ (st : ReadState) (l : CString),
      chrset (peek (l ++ [10])) (cstr "CAH\n\r") = true → readLine L st l = LineResult.next st) := by
  have hf : file = none := readLoop_error L lines 1 _ s file h he
  subst hf
  refine ⟨rfl, ?_, ?_⟩
  · obtain ⟨pre, line, post, sa, e1, e2, e3, e4⟩ := readLoop_none L lines 1 _ s h
    refine ⟨pre, line, post, sa, e1, by rw [e4]; omega, ?_, e2, e3, ?_⟩
    · unfold readGpFile
      rw [readLoop_of_readLines L pre 1 _ sa e2, e4]
    · unfold readGpFile
      rw [readLoop_stop L pre line [] s.code 1 _ sa e2 e3, ← e4]
  · intro st l hl
    unfold readLine
    rw [if_pos hl]

/-- Claim C22, on four lines: a header line, an empty line and a comment line are
counted, the line `X bad` is the fourth and is the one reported. -/
theorem readGpFile_line_number_witness :
    (none : Option GpFile) = none ∧
    (∃ (pre : List CString) (line : CString) (post : List CString) (sa : ReadState),
      [cstr "H  header", cstr "", cstr "C note", cstr "X bad"] = pre ++ line :: post ∧
      (⟨4, GpError.UNKREC⟩ : GpStatus).lineno = pre.length + 1 ∧
      readGpFile decimalLibc exampleDefaults pre =
        ReadResult.done ⟨(⟨4, GpError.UNKREC⟩ : GpStatus).lineno, GpError.OK⟩ (some sa.file) ∧
      readLines decimalLibc pre (initialState exampleDefaults) = some sa ∧
      readLine decimalLibc sa line = LineResult.stop (⟨4, GpError.UNKREC⟩ : GpStatus).code ∧
      readGpFile decimalLibc exampleDefaults (pre ++ [line]) =
        ReadResult.done ⟨4, GpError.UNKREC⟩ none) ∧
    (∀ (st : ReadState) (l : CString),
      chrset (peek (l ++ [10])) (cstr "CAH\n\r") = true →
        readLine decimalLibc st l = LineResult.next st) :=
  readGpFile_line_number decimalLibc exampleDefaults
    [cstr "H  header", cstr "", cstr "C note", cstr "X bad"] ⟨4, GpError.UNKREC⟩ none
    (by decide) (by decide)

/-- A route read by `scanGpRoute` has a number that is not negative, and no
leg. -/
theorem scanGpRoute_number (buff : Buffer) (rp : GpRoute)
    (h : scanGpRoute buff = Parse.ok rp) : 0 ≤ rp.number ∧ rp.leg = [] := by
  unfold scanGpRoute at h
  split at h
  · cases h
  · split at h
    · cases h
    · rename_i hn
      split at h
      · cases h
      · cases h
        refine ⟨?_, rfl⟩
        exact not_lt.mp (fun hlt => hn (Or.inl hlt))

/-- A leg added to the last route changes no route number. -/
theorem addLeg_numbers (route : List GpRoute) (i : Nat) :
    (addLeg route i).map GpRoute.number = route.map GpRoute.number := by
  unfold addLeg
  cases hl : route.getLast? with
  | none => rfl
  | some rp =>
    have := List.dropLast_append_getLast? rp hl
    simp only []
    conv_rhs => rw [← this]
    simp

/-- The routes of every state that the loop reaches have pairwise distinct
numbers, none of them negative. -/
theorem readLines_route_numbers (L : Libc) (lines : List CString) (st st1 : ReadState)
    (hst : (st.file.route.map GpRoute.number).Nodup ∧ ∀ n ∈ st.file.route.map GpRoute.number, 0 ≤ n)
    (h : readLines L lines st = some st1) :
    (st1.file.route.map GpRoute.number).Nodup ∧
      ∀ n ∈ st1.file.route.map GpRoute.number, 0 ≤ n := by
  refine readLines_induct L
    (fun st => (st.file.route.map GpRoute.number).Nodup ∧
      ∀ n ∈ st.file.route.map GpRoute.number, 0 ≤ n) ?_ lines st st1 hst h
  intro sa sb line hP hl
  rcases readLine_next L sa sb line hl with ⟨_, h2⟩ | ⟨i, _, _, h2⟩ | ⟨wp, _, h2⟩ |
    ⟨rp, h1, h2, _, h3⟩
  · show (sb.file.route.map GpRoute.number).Nodup ∧ _
    rw [h2]; exact hP
  · show (sb.file.route.map GpRoute.number).Nodup ∧ _
    rw [h2, addLeg_numbers]; exact hP
  · show (sb.file.route.map GpRoute.number).Nodup ∧ _
    rw [h2]; exact hP
  · show (sb.file.route.map GpRoute.number).Nodup ∧ _
    rw [h3, List.map_append, List.map_cons, List.map_nil]
    constructor
    · rw [List.nodup_append]
      refine ⟨hP.1, List.nodup_singleton _, ?_⟩
      intro n hn hn1
      rw [List.mem_singleton] at hn1
      obtain ⟨r, hr, hrn⟩ := List.mem_map.mp hn
      exact h2 r hr (hrn.trans hn1)
    · intro n hn
      rcases List.mem_append.mp hn with hn | hn
      · exact hP.2 n hn
      · rw [List.mem_singleton] at hn
        rw [hn]
        exact (scanGpRoute_number _ _ h1).1

/-- Claim C23. In every file that `readGpFile` parses with success the route numbers
are pairwise distinct and none is negative; and an R line whose number, as
`scanGpRoute` reads it, is the number of a route read before it ends the
parse with `DUPRT` at that line, whatever follows. -/
theorem readGpFile_route_numbers (L : Libc) (D : GpDefaults) :
    (∀ (lines : List CString) (s : GpStatus) (f : GpFile),
      readGpFile L D lines = ReadResult.done s (some f) →
        (f.route.map GpRoute.number).Nodup ∧ ∀ r ∈ f.route, 0 ≤ r.number) ∧
    (∀ (pre : List CString) (line : CString) (post : List CString) (sa : ReadState)
      (rp : GpRoute),
      readLines L pre (initialState D) = some sa →
      peek (line ++ [10]) = 82 → peek ((line ++ [10]).drop 1) = 32 →
      scanGpRoute (stripEOL line) = Parse.ok rp →
      (∃ r ∈ sa.file.route, r.number = rp.number) →
      readGpFile L D (pre ++ line :: post) =
        ReadResult.done ⟨pre.length + 1, GpError.DUPRT⟩ none) := by
  constructor
  · intro lines s f h
    obtain ⟨st1, h1, h2, _⟩ := readLoop_some L lines 1 _ s f h
    have := readLines_route_numbers L lines (initialState D) st1
      ⟨List.nodup_nil, by intro n hn; cases hn⟩ h1
    rw [h2]
    refine ⟨this.1, ?_⟩
    intro r hr
    exact this.2 r.number (List.mem_map_of_mem _ hr)
  · intro pre line post sa rp h1 hR hsp hrp hdup
    have hl : readLine L sa line = LineResult.stop GpError.DUPRT := by
      unfold readLine
      rw [hR, if_neg (by decide), if_neg (by decide), if_neg (by rw [hsp]; decide)]
      unfold readRecord
      rw [if_neg (by decide), if_neg (by decide), if_neg (by decide), if_neg (by decide),
        if_neg (by decide), if_neg (fun h => absurd h.1 (by decide)),
        if_neg (fun h => absurd h.1 (by decide)), if_neg (fun h => absurd h.1 (by decide)),
        if_pos rfl, hrp]
      simp only []
      rw [if_pos]
      rw [List.any_eq_true]
      obtain ⟨r, hr, hn⟩ := hdup
      exact ⟨r, hr, by simpa using hn⟩
    unfold readGpFile
    rw [readLoop_stop L pre line post GpError.DUPRT 1 _ sa h1 hl]
    simp only [ReadResult.done.injEq, GpStatus.mk.injEq, and_true]
    omega

/-- Claim C23, on three R lines: the numbers 1 and 2 are accepted, and the line
`R 01 again` after `R 1 a` ends the parse at line 2 with `DUPRT`. -/
theorem readGpFile_route_numbers_witness :
    (([⟨1, cstr "a", []⟩, ⟨2, cstr "b", []⟩] : List GpRoute).map GpRoute.number).Nodup ∧
    (∀ r ∈ ([⟨1, cstr "a", []⟩, ⟨2, cstr "b", []⟩] : List GpRoute), 0 ≤ r.number) ∧
    readGpFile decimalLibc exampleDefaults ([cstr "R 1 a"] ++ cstr "R 01 again" :: [cstr "R 3 c"]) =
      ReadResult.done ⟨([cstr "R 1 a"] : List CString).length + 1, GpError.DUPRT⟩ none :=
  ⟨((readGpFile_route_numbers decimalLibc exampleDefaults).1 [cstr "R 1 a", cstr "R 2 b"]
      ⟨3, GpError.OK⟩
      ⟨cstr "%d/%m/%Y", 0, 77, 83, [], [⟨1, cstr "a", []⟩, ⟨2, cstr "b", []⟩], []⟩
      (by decide)).1,
   ((readGpFile_route_numbers decimalLibc exampleDefaults).1 [cstr "R 1 a", cstr "R 2 b"]
      ⟨3, GpError.OK⟩
      ⟨cstr "%d/%m/%Y", 0, 77, 83, [], [⟨1, cstr "a", []⟩, ⟨2, cstr "b", []⟩], []⟩
      (by decide)).2,
   (readGpFile_route_numbers decimalLibc exampleDefaults).2 [cstr "R 1 a"] (cstr "R 01 again")
      [cstr "R 3 c"] ⟨[], true, ⟨cstr "%d/%m/%Y", 0, 77, 83, [], [⟨1, cstr "a", []⟩], []⟩⟩
      ⟨1, cstr "again", []⟩ (by decide) (by decide) (by decide) (by decide) (by decide)⟩

/-- Two strings that both compare equal to a third compare equal. -/
theorem strcmp_zero_trans (a b c : CString) (h1 : strcmp a b = 0) (h2 : strcmp b c = 0) :
    strcmp a c = 0 := by
  have f1 := strcmp_flip b a
  have f2 := strcmp_flip c b
  have f3 := strcmp_flip c a
  have t1 := strcmp_trans a b c (by omega) (by omega)
  have t2 := strcmp_trans c b a (by omega) (by omega)
  omega

/-- The index that `findLeg` returns, counted from `i0`: the waypoint there
has an ID that compares equal to `id`, no waypoint before it has. -/
theorem findLeg_some (id : CString) (wp : List GpWaypt) :
    ∀ (i0 i : Nat), findLeg id wp i0 = some i →
      i0 ≤ i ∧ (∃ w, wp[i - i0]? = some w ∧ strcmp w.ID id = 0) ∧
      ∀ (k : Nat) (v : GpWaypt), k < i - i0 → wp[k]? = some v → strcmp v.ID id ≠ 0 := by
  induction wp with
  | nil => intro i0 i h; cases h
  | cons w ws ih =>
    intro i0 i h
    unfold findLeg at h
    split at h
    · rename_i h0
      cases h
      refine ⟨le_refl _, ⟨w, by simp, h0⟩, ?_⟩
      intro k v hk
      omega
    · rename_i h0
      obtain ⟨h1, ⟨u, h2, h3⟩, h4⟩ := ih (i0 + 1) i h
      refine ⟨by omega, ⟨u, ?_, h3⟩, ?_⟩
      · have : i - i0 = (i - (i0 + 1)) + 1 := by omega
        rw [this, List.getElem?_cons_succ]
        exact h2
      · intro k v hk hv
        cases k with
        | zero =>
          simp only [List.getElem?_cons_zero, Option.some.injEq] at hv
          rw [← hv]; exact h0
        | succ k =>
          rw [List.getElem?_cons_succ] at hv
          exact h4 k v (by omega) hv

/-- Without a waypoint whose ID compares equal to `id`, `findLeg` finds
nothing. -/
theorem findLeg_none (id : CString) (wp : List GpWaypt) (h : ∀ w ∈ wp, strcmp w.ID id ≠ 0) :
    ∀ i0 : Nat, findLeg id wp i0 = none := by
  induction wp with
  | nil => intro i0; rfl
  | cons w ws ih =>
    intro i0
    unfold findLeg
    rw [if_neg (h w (List.mem_cons_self w ws))]
    exact ih (fun v hv => h v (List.mem_cons_of_mem w hv)) (i0 + 1)

/-- What `scanGpLeg` returns: the index of the first waypoint whose ID
compares equal to the field of the first ID column of the line. -/
theorem scanGpLeg_ok (buff : Buffer) (fieldDef : CString) (wp : List GpWaypt) (i : Nat)
    (h : scanGpLeg buff fieldDef wp = Parse.ok i) :
    ∃ (head : List GpFieldHeader) (fields : List CString) (id : CString),
      parseGpFieldDef fieldDef = Parse.ok head ∧ parseGpLine buff head = Parse.ok fields ∧
      firstIDField head fields = Parse.ok (some id) ∧
      (∃ w, wp[i]? = some w ∧ strcmp w.ID id = 0) ∧
      ∀ (k : Nat) (v : GpWaypt), k < i → wp[k]? = some v → strcmp v.ID id ≠ 0 := by
  unfold scanGpLeg at h
  split at h
  · cases h
  · split at h
    · cases h
    · cases h
    · rename_i head hhead
      split at h
      · cases h
      · cases h
      · rename_i fields hfields
        split at h
        · cases h
        · cases h
        · cases h
        · rename_i id hid
          split at h
          · rename_i j hj
            cases h
            have := findLeg_some id wp 0 i hj
            exact ⟨head, fields, id, hhead, hfields, hid, this.2.1, this.2.2⟩
          · cases h

/-- The members of the routes after a leg is added: a route that was there, or
a route that was there with the leg added at its end. -/
theorem mem_addLeg (route : List GpRoute) (i : Nat) (rp : GpRoute) (h : rp ∈ addLeg route i) :
    rp ∈ route ∨ ∃ r ∈ route, rp.leg = r.leg ++ [i] := by
  unfold addLeg at h
  cases hl : route.getLast? with
  | none => rw [hl] at h; exact Or.inl h
  | some r =>
    rw [hl] at h
    simp only [] at h
    have hr := List.dropLast_append_getLast? r hl
    rcases List.mem_append.mp h with h1 | h1
    · exact Or.inl (List.dropLast_subset _ h1)
    · rw [List.mem_singleton] at h1
      refine Or.inr ⟨r, ?_, by rw [h1]⟩
      rw [← hr]
      exact List.mem_append_right _ (List.mem_singleton_self r)


/-- Every state that the loop reaches keeps the legs at the first waypoint
with their ID. -/
theorem readLines_legs (L : Libc) (lines : List CString) (st st1 : ReadState)
    (hst : LegsFirst st) (h : readLines L lines st = some st1) : LegsFirst st1 := by
  refine readLines_induct L LegsFirst ?_ lines st st1 hst h
  intro sa sb line hP hl
  rcases readLine_next L sa sb line hl with ⟨h1, h2⟩ | ⟨i, h0, h1, h2⟩ | ⟨wp, h1, h2⟩ |
    ⟨rp, h0, _, h1, h2⟩
  · unfold LegsFirst
    rw [h1, h2]
    exact hP
  · unfold LegsFirst
    rw [h1, h2]
    intro rp hrp l hl
    rcases mem_addLeg _ _ _ hrp with hr | ⟨r, hr, hleg⟩
    · exact hP rp hr l hl
    · rw [hleg] at hl
      rcases List.mem_append.mp hl with hl | hl
      · exact hP r hr l hl
      · rw [List.mem_singleton] at hl
        subst hl
        obtain ⟨head, fields, id, _, _, _, ⟨w0, hw0, hz⟩, hfirst⟩ := scanGpLeg_ok _ _ _ _ h0
        constructor
        · by_contra hge
          rw [List.getElem?_eq_none (not_lt.mp hge)] at hw0
          cases hw0
        · intro k v w hk hv hw hvw
          rw [hw0] at hw
          cases hw
          exact hfirst k v hk hv (strcmp_zero_trans _ _ _ hvw hz)
  · unfold LegsFirst
    rw [h1, h2]
    intro rp hrp l hl
    have := hP rp hrp l hl
    refine ⟨by rw [List.length_append]; omega, ?_⟩
    intro k v w hk hv hw
    rw [List.getElem?_append_left (by omega)] at hv
    rw [List.getElem?_append_left this.1] at hw
    exact this.2 k v w hk hv hw
  · unfold LegsFirst
    rw [h1, h2]
    intro r hr l hl
    rcases List.mem_append.mp hr with hr | hr
    · exact hP r hr l hl
    · rw [List.mem_singleton] at hr
      rw [hr, (scanGpRoute_number _ _ h0).2] at hl
      cases hl

/-- The tag `W` continues a route. -/
theorem routeFlag_W (isRoute : Bool) : routeFlag isRoute 87 = isRoute := by
  unfold routeFlag
  rw [if_neg]
  intro h
  exact absurd h.2 (by decide)

/-- The chain of `readRecord` at a W line. -/
theorem readRecord_W (L : Libc) (st : ReadState) (buf : Buffer) (isRoute : Bool) :
    readRecord L st 87 buf isRoute =
      if st.fieldDef.length = 0 then LineResult.stop GpError.NOFORM
      else if isRoute = true then
        match scanGpLeg buf st.fieldDef st.file.waypt with
        | Parse.undef => LineResult.undef
        | Parse.err e => LineResult.stop e
        | Parse.ok i =>
          LineResult.next
            { st with isRoute := isRoute, file := { st.file with route := addLeg st.file.route i } }
      else
        match scanGpWaypt L buf st.fieldDef with
        | Parse.undef => LineResult.undef
        | Parse.err e => LineResult.stop e
        | Parse.ok wp =>
          LineResult.next
            { st with isRoute := isRoute, file := { st.file with waypt := st.file.waypt ++ [wp] } } := by
  unfold readRecord
  rw [if_neg (by decide), if_neg (by decide), if_neg (by decide), if_neg (by decide),
    if_neg (by decide)]
  by_cases c : st.fieldDef.length = 0
  · rw [if_pos ⟨by decide, c⟩, if_pos c]
  · rw [if_neg (fun h => c h.2), if_neg c]
    by_cases r : isRoute = true
    · rw [if_pos ⟨rfl, r⟩, if_pos r]
    · rw [if_neg (fun h => r h.2), if_neg r, if_pos ⟨rfl, by simpa using r⟩]

/-- A W line that is accepted: inside a route it adds the leg that `scanGpLeg`
finds among the waypoints read so far to the last route, outside a route it
adds the waypoint that `scanGpWaypt` reads. -/
theorem readLine_W (L : Libc) (st st1 : ReadState) (line : CString)
    (hW : peek (line ++ [10]) = 87) (h : readLine L st line = LineResult.next st1) :
    (st.isRoute = true → st1.file.waypt = st.file.waypt ∧
      ∃ i, scanGpLeg (stripEOL line) st.fieldDef st.file.waypt = Parse.ok i ∧
        st1.file.route = addLeg st.file.route i) ∧
    (st.isRoute = false → st1.file.route = st.file.route ∧
      ∃ wp, scanGpWaypt L (stripEOL line) st.fieldDef = Parse.ok wp ∧
        st1.file.waypt = st.file.waypt ++ [wp]) := by
  rcases readLine_cases L st st1 line h with ⟨hc, _⟩ | ⟨_, h1⟩
  · rw [hW] at hc
    exact absurd hc (by decide)
  · rw [hW, routeFlag_W, readRecord_W] at h1
    split at h1
    · cases h1
    · constructor
      · intro hr
        rw [if_pos hr] at h1
        split at h1
        · cases h1
        · cases h1
        · rename_i i hi
          cases h1
          exact ⟨rfl, i, hi, rfl⟩
      · intro hr
        rw [if_neg (by rw [hr]; decide)] at h1
        split at h1
        · cases h1
        · cases h1
        · rename_i wp hwp
          cases h1
          exact ⟨rfl, wp, hwp, rfl⟩

/-- Claim C24. In every file that `readGpFile` parses with success every leg is an
index below the waypoint count, and no waypoint before that index has an ID
that compares equal to the ID at the index. A W line inside a route is decoded
by `scanGpLeg` against the waypoints read before it, and the index
`scanGpLeg` returns is that of the first of them whose ID compares equal
(`strcmp`, padding included) to the field of the ID column of the line. When
no waypoint has such an ID `scanGpLeg` answers `UNKWPT`, and the error of
`scanGpLeg` stops the loop at the line. -/
theorem readGpFile_legs (L : Libc) (D : GpDefaults) :
    (∀ (lines : List CString) (s : GpStatus) (f : GpFile),
      readGpFile L D lines = ReadResult.done s (some f) →
        ∀ rp ∈ f.route, ∀ l ∈ rp.leg, l < f.waypt.length ∧
          ∀ (k : Nat) (v w : GpWaypt), k < l → f.waypt[k]? = some v → f.waypt[l]? = some w →
            strcmp v.ID w.ID ≠ 0) ∧
    (∀ (st st1 : ReadState) (line : CString), peek (line ++ [10]) = 87 → st.isRoute = true →
      readLine L st line = LineResult.next st1 →
        st1.file.waypt = st.file.waypt ∧
        ∃ i, scanGpLeg (stripEOL line) st.fieldDef st.file.waypt = Parse.ok i ∧
          st1.file.route = addLeg st.file.route i) ∧
    (∀ (buff : Buffer) (fieldDef : CString) (wp : List GpWaypt) (i : Nat),
      scanGpLeg buff fieldDef wp = Parse.ok i →
        ∃ (head : List GpFieldHeader) (fields : List CString) (id : CString),
          parseGpFieldDef fieldDef = Parse.ok head ∧ parseGpLine buff head = Parse.ok fields ∧
          firstIDField head fields = Parse.ok (some id) ∧
          (∃ w, wp[i]? = some w ∧ strcmp w.ID id = 0) ∧
          ∀ (k : Nat) (v : GpWaypt), k < i → wp[k]? = some v → strcmp v.ID id ≠ 0) ∧
    (∀ (buff : Buffer) (fieldDef : CString) (wp : List GpWaypt) (head : List GpFieldHeader)
      (fields : List CString) (id : CString),
      strspn (strAt buff 1) SPACE ≠ (strAt buff 1).length →
      parseGpFieldDef fieldDef = Parse.ok head → parseGpLine buff head = Parse.ok fields →
      firstIDField head fields = Parse.ok (some id) → (∀ w ∈ wp, strcmp w.ID id ≠ 0) →
        scanGpLeg buff fieldDef wp = Parse.err GpError.UNKWPT) ∧
    (∀ (st : ReadState) (line : CString) (e : GpError), peek (line ++ [10]) = 87 →
      peek ((line ++ [10]).drop 1) = 32 → st.isRoute = true → st.fieldDef.length ≠ 0 →
      scanGpLeg (stripEOL line) st.fieldDef st.file.waypt = Parse.err e →
        readLine L st line = LineResult.stop e) := by
  refine ⟨?_, ?_, ?_, ?_, ?_⟩
  · intro lines s f h
    obtain ⟨st1, h1, h2, _⟩ := readLoop_some L lines 1 _ s f h
    have hinit : LegsFirst (initialState D) := by
      intro rp hrp
      cases hrp
    have := readLines_legs L lines (initialState D) st1 hinit h1
    rw [h2]
    exact this
  · intro st st1 line hW hr h
    exact (readLine_W L st st1 line hW h).1 hr
  · intro buff fieldDef wp i h
    exact scanGpLeg_ok buff fieldDef wp i h
  · intro buff fieldDef wp head fields id hb h1 h2 h3 h4
    unfold scanGpLeg
    rw [if_neg hb, h1]
    simp only []
    rw [h2]
    simp only []
    rw [h3]
    simp only []
    rw [findLeg_none id wp h4 0]
  · intro st line e hW hsp hr hfd hleg
    unfold readLine
    rw [hW, if_neg (by decide), if_neg (by decide), if_neg (by rw [hsp]; decide), routeFlag_W,
      readRecord_W, if_neg hfd, if_pos hr, hleg]

/-- Claim C24, on a file with two waypoints and a route of one leg: the leg `BBBBB`
is the index 1. -/
theorem readGpFile_legs_witness :
    ∀ rp ∈ ([⟨1, cstr "route", [1]⟩] : List GpRoute), ∀ l ∈ rp.leg,
      l < ([⟨cstr "AAAAA", ⟨45, -75⟩, [], 73, 2, []⟩,
            ⟨cstr "BBBBB", ⟨46, -76⟩, [], 73, 2, []⟩] : List GpWaypt).length ∧
      ∀ (k : Nat) (v w : GpWaypt), k < l →
        ([⟨cstr "AAAAA", ⟨45, -75⟩, [], 73, 2, []⟩,
          ⟨cstr "BBBBB", ⟨46, -76⟩, [], 73, 2, []⟩] : List GpWaypt)[k]? = some v →
        ([⟨cstr "AAAAA", ⟨45, -75⟩, [], 73, 2, []⟩,
          ⟨cstr "BBBBB", ⟨46, -76⟩, [], 73, 2, []⟩] : List GpWaypt)[l]? = some w →
        strcmp v.ID w.ID ≠ 0 :=
  (readGpFile_legs decimalLibc exampleDefaults).1
    [cstr "F ID--- Latitude Longitude", cstr "W AAAAA N45.000000 W075.000000",
     cstr "W BBBBB N46.000000 W076.000000", cstr "R 1 route", cstr "F ID---", cstr "W BBBBB"]
    ⟨7, GpError.OK⟩
    ⟨cstr "%d/%m/%Y", 0, 77, 83,
      [⟨cstr "AAAAA", ⟨45, -75⟩, [], 73, 2, []⟩, ⟨cstr "BBBBB", ⟨46, -76⟩, [], 73, 2, []⟩],
      [⟨1, cstr "route", [1]⟩], []⟩
    (by decide!)

/-- The inside-route flag after a decoded line: an R line sets it, every other
line leaves it as `routeFlag` made it. -/
theorem readRecord_isRoute (L : Libc) (st st1 : ReadState) (code : Nat) (buf : Buffer)
    (isRoute : Bool) (h : readRecord L st code buf isRoute = LineResult.next st1) :
    st1.isRoute = if code = 82 then true else isRoute := by
  unfold readRecord at h
  by_cases c1 : code = 73
  · rw [if_pos c1] at h
    rw [if_neg (by omega)]
    split at h
    · cases h
    · split at h
      · cases h
      · cases h; rfl
  rw [if_neg c1] at h
  by_cases c2 : code = 77
  · rw [if_pos c2] at h
    rw [if_neg (by omega)]
    split at h
    · cases h
    · cases h; rfl
  rw [if_neg c2] at h
  by_cases c3 : code = 85
  · rw [if_pos c3] at h
    rw [if_neg (by omega)]
    split at h
    · cases h
    · cases h; rfl
  rw [if_neg c3] at h
  by_cases c4 : code = 70
  · rw [if_pos c4] at h
    rw [if_neg (by omega)]
    cases h; rfl
  rw [if_neg c4] at h
  by_cases c5 : code = 83
  · rw [if_pos c5] at h
    rw [if_neg (by omega)]
    split at h
    · cases h
    · cases h
    · cases h; rfl
  rw [if_neg c5] at h
  by_cases c6 : chrset code (cstr "WT") = true ∧ st.fieldDef.length = 0
  · rw [if_pos c6] at h; cases h
  rw [if_neg c6] at h
  by_cases c7 : code = 87 ∧ isRoute = true
  · rw [if_pos c7] at h
    rw [if_neg (by omega)]
    split at h
    · cases h
    · cases h
    · cases h; rfl
  rw [if_neg c7] at h
  by_cases c8 : code = 87 ∧ isRoute = false
  · rw [if_pos c8] at h
    rw [if_neg (by omega)]
    split at h
    · cases h
    · cases h
    · cases h; rfl
  rw [if_neg c8] at h
  by_cases c9 : code = 82
  · rw [if_pos c9] at h
    rw [if_pos c9]
    split at h
    · cases h
    · cases h
    · split at h
      · cases h
      · cases h; rfl
  rw [if_neg c9] at h
  rw [if_neg c9]
  by_cases c10 : code = 84
  · rw [if_pos c10] at h
    split at h
    · cases h
    · cases h
    · cases h; rfl
  rw [if_neg c10] at h
  cases h; rfl

/-- The tags that continue a route are `F` and `W`. -/
theorem chrset_FW (code : Nat) : chrset code (cstr "FW") = decide (code = 70 ∨ code = 87) := by
  unfold chrset
  have : cstr "FW" = [70, 87] := by decide
  rw [this]
  simp

/-- The inside-route flag after an accepted line: an R line sets it; an
ignored line and a line with the tag `F` or `W` leave it as it is; every other
line clears it. -/
theorem readLine_isRoute (L : Libc) (st st1 : ReadState) (line : CString)
    (h : readLine L st line = LineResult.next st1) :
    st1.isRoute =
      if chrset (peek (line ++ [10])) (cstr "CAH\n\r") = true then st.isRoute
      else if peek (line ++ [10]) = 82 then true
      else if peek (line ++ [10]) = 70 ∨ peek (line ++ [10]) = 87 then st.isRoute
      else false := by
  rcases readLine_cases L st st1 line h with ⟨hc, rfl⟩ | ⟨hc, h1⟩
  · rw [if_pos hc]
  · rw [if_neg (by rw [hc]; decide), readRecord_isRoute L st st1 _ _ _ h1]
    by_cases c : peek (line ++ [10]) = 82
    · rw [if_pos c, if_pos c]
    · rw [if_neg c, if_neg c]
      unfold routeFlag
      rw [chrset_FW]
      by_cases c2 : peek (line ++ [10]) = 70 ∨ peek (line ++ [10]) = 87
      · rw [if_pos c2, if_neg]
        intro hh
        have := hh.2
        simp only [decide_eq_false_iff_not] at this
        exact this c2
      · rw [if_neg c2]
        cases hr : st.isRoute
        · simp
        · simp [c2]

/-- The inside-route flag after accepted lines that hold no R line: it is set
exactly when it was set before and every line is an ignored line or has the
tag `F` or `W`. -/
theorem readLines_isRoute (L : Libc) (lines : List CString) :
    ∀ (st st1 : ReadState), readLines L lines st = some st1 →
      (∀ l ∈ lines, peek (l ++ [10]) ≠ 82) →
      (st1.isRoute = true ↔ st.isRoute = true ∧
        ∀ l ∈ lines, chrset (peek (l ++ [10])) (cstr "CAH\n\r") = true ∨
          peek (l ++ [10]) = 70 ∨ peek (l ++ [10]) = 87) := by
  induction lines with
  | nil =>
    intro st st1 h _
    rw [readLines] at h
    cases h
    simp
  | cons line rest ih =>
    intro st st1 h hno
    rw [readLines] at h
    split at h
    · rename_i st2 h2
      have hrest := ih st2 st1 h (fun l hl => hno l (List.mem_cons_of_mem line hl))
      have hflag := readLine_isRoute L st st2 line h2
      have hline := hno line (List.mem_cons_self line rest)
      rw [hrest]
      constructor
      · rintro ⟨ha, hb⟩
        rw [hflag] at ha
        by_cases c1 : chrset (peek (line ++ [10])) (cstr "CAH\n\r") = true
        · rw [if_pos c1] at ha
          refine ⟨ha, ?_⟩
          intro l hl
          rcases List.mem_cons.mp hl with rfl | hl
          · exact Or.inl c1
          · exact hb l hl
        · rw [if_neg c1, if_neg hline] at ha
          by_cases c2 : peek (line ++ [10]) = 70 ∨ peek (line ++ [10]) = 87
          · rw [if_pos c2] at ha
            refine ⟨ha, ?_⟩
            intro l hl
            rcases List.mem_cons.mp hl with rfl | hl
            · exact Or.inr c2
            · exact hb l hl
          · rw [if_neg c2] at ha
            cases ha
      · rintro ⟨ha, hb⟩
        refine ⟨?_, fun l hl => hb l (List.mem_cons_of_mem line hl)⟩
        rw [hflag]
        rcases hb line (List.mem_cons_self line rest) with c1 | c2
        · rw [if_pos c1]; exact ha
        · by_cases c1 : chrset (peek (line ++ [10])) (cstr "CAH\n\r") = true
          · rw [if_pos c1]; exact ha
          · rw [if_neg c1, if_neg hline, if_pos c2]; exact ha
    · cases h

/-- Claim C25, amended. After the R line of a route that was accepted,
with accepted lines `between` that hold no further R line, an accepted W line
is decoded as a leg (added to the last route, the waypoints unchanged) when
every line in between is an ignored line (empty, or starting with `C`, `A`,
`H` or a carriage return) or has the tag `F` or `W`; it is decoded as a
waypoint (the routes unchanged) when some line in between is of another kind,
that is, has the tag `I`, `S`, `M`, `U` or `T`. -/
theorem readGpFile_inside_route (L : Libc) (st st1 st2 : ReadState)
    (pre : List CString) (rline : CString) (between : List CString) (line : CString)
    (h1 : readLines L (pre ++ rline :: between) st = some st1)
    (hR : peek (rline ++ [10]) = 82) (hb : ∀ l ∈ between, peek (l ++ [10]) ≠ 82)
    (hW : peek (line ++ [10]) = 87) (h2 : readLine L st1 line = LineResult.next st2) :
    ((∀ l ∈ between, chrset (peek (l ++ [10])) (cstr "CAH\n\r") = true ∨
        peek (l ++ [10]) = 70 ∨ peek (l ++ [10]) = 87) →
      st2.file.waypt = st1.file.waypt ∧
      ∃ i, scanGpLeg (stripEOL line) st1.fieldDef st1.file.waypt = Parse.ok i ∧
        st2.file.route = addLeg st1.file.route i) ∧
    (¬ (∀ l ∈ between, chrset (peek (l ++ [10])) (cstr "CAH\n\r") = true ∨
        peek (l ++ [10]) = 70 ∨ peek (l ++ [10]) = 87) →
      st2.file.route = st1.file.route ∧
      ∃ wp, scanGpWaypt L (stripEOL line) st1.fieldDef = Parse.ok wp ∧
        st2.file.waypt = st1.file.waypt ++ [wp]) := by
  obtain ⟨sa, _, h4⟩ := (readLines_append L pre (rline :: between) st st1).mp h1
  rw [readLines] at h4
  split at h4
  · rename_i sb hsb
    have hflagR : sb.isRoute = true := by
      rw [readLine_isRoute L sa sb rline hsb, hR, if_neg (by decide), if_pos rfl]
    have hiff := readLines_isRoute L between sb st1 h4 hb
    have hw := readLine_W L st1 st2 line hW h2
    constructor
    · intro hall
      exact hw.1 (hiff.mpr ⟨hflagR, hall⟩)
    · intro hnot
      have : st1.isRoute = false := by
        cases hr : st1.isRoute
        · rfl
        · exact absurd (hiff.mp hr).2 hnot
      exact hw.2 this
  · cases h4

/-- Claim C25, on a route whose R line is followed by a header line and an F line:
the W line after them is decoded as a leg. -/
theorem readGpFile_inside_route_witness :
    (⟨cstr "F ID---", true, ⟨cstr "%d/%m/%Y", 0, 77, 83,
        [⟨cstr "AAAAA", ⟨45, -75⟩, [], 73, 2, []⟩], [⟨1, cstr "route", [0]⟩], []⟩⟩ :
        ReadState).file.waypt =
      (⟨cstr "F ID---", true, ⟨cstr "%d/%m/%Y", 0, 77, 83,
        [⟨cstr "AAAAA", ⟨45, -75⟩, [], 73, 2, []⟩], [⟨1, cstr "route", []⟩], []⟩⟩ :
        ReadState).file.waypt ∧
    ∃ i, scanGpLeg (stripEOL (cstr "W AAAAA")) (cstr "F ID---")
        [⟨cstr "AAAAA", ⟨45, -75⟩, [], 73, 2, []⟩] = Parse.ok i ∧
      (⟨cstr "F ID---", true, ⟨cstr "%d/%m/%Y", 0, 77, 83,
        [⟨cstr "AAAAA", ⟨45, -75⟩, [], 73, 2, []⟩], [⟨1, cstr "route", [0]⟩], []⟩⟩ :
        ReadState).file.route = addLeg [⟨1, cstr "route", []⟩] i :=
  (readGpFile_inside_route decimalLibc (initialState exampleDefaults)
    ⟨cstr "F ID---", true, ⟨cstr "%d/%m/%Y", 0, 77, 83,
      [⟨cstr "AAAAA", ⟨45, -75⟩, [], 73, 2, []⟩], [⟨1, cstr "route", []⟩], []⟩⟩
    ⟨cstr "F ID---", true, ⟨cstr "%d/%m/%Y", 0, 77, 83,
      [⟨cstr "AAAAA", ⟨45, -75⟩, [], 73, 2, []⟩], [⟨1, cstr "route", [0]⟩], []⟩⟩
    [cstr "F ID--- Latitude Longitude", cstr "W AAAAA N45.000000 W075.000000"]
    (cstr "R 1 route") [cstr "H comment", cstr "F ID---"] (cstr "W AAAAA")
    (by decide!) (by decide) (by decide) (by decide) (by decide!)).1 (by decide)

/-- Claim C25 fails as stated: between the R line and the last W line stands a
line with the ignored tag `H`, and the W line is decoded as a leg of the route
all the same: the file has one waypoint and a route with the leg 0. -/
theorem readGpFile_ignored_line_keeps_route :
    readGpFile decimalLibc exampleDefaults
      [cstr "F ID--- Latitude Longitude", cstr "W AAAAA N45.000000 W075.000000",
       cstr "R 1 route", cstr "H comment", cstr "F ID---", cstr "W AAAAA"] =
      ReadResult.done ⟨7, GpError.OK⟩
        (some ⟨cstr "%d/%m/%Y", 0, 77, 83, [⟨cstr "AAAAA", ⟨45, -75⟩, [], 73, 2, []⟩],
          [⟨1, cstr "route", [0]⟩], []⟩) := by
  decide!

/-! ## Round trip: the settings block -/

/-- Claim C21, evaluated on the code. The claim asks that the S lines of the
writer give back the dateFormat of the model. The setting
`S DateFormat=mm/dd/yyyy` is read as the pattern `%m/%d/%Y`; for the model with this pattern the writer prints
`S DateFormat=dd/mmm/yyyy`, the first token being fixed in the format string
of `writeGpFile` and the other two chosen by the tests `== 'm'` and `== 'y'`
on the second and third letter of the pattern; read back, the three lines give
the pattern `%d/%b/%Y`. Time zone and unit come back unchanged. -/
theorem writeSettings_date_order_lost :
    readGpFile decimalLibc exampleDefaults [cstr "S DateFormat=mm/dd/yyyy"] =
      ReadResult.done ⟨2, GpError.OK⟩ (some ⟨cstr "%m/%d/%Y", 0, 77, 83, [], [], []⟩) ∧
    writeSettings ⟨cstr "%m/%d/%Y", 0, 77, 83, [], [], []⟩ =
      [cstr "S DateFormat=dd/mmm/yyyy", cstr "S Timezone=+0:00", cstr "S Units=M"] ∧
    readGpFile decimalLibc exampleDefaults
        (writeSettings ⟨cstr "%m/%d/%Y", 0, 77, 83, [], [], []⟩) =
      ReadResult.done ⟨4, GpError.OK⟩ (some ⟨cstr "%d/%b/%Y", 0, 77, 83, [], [], []⟩) := by
  decide

/-! ## gpsSort and gpsMerge: what the commands leave as it was -/

theorem renumber_map (rs : List GpRoute) (b : Int) :
    (renumber rs b).map (fun r => (r.comment, r.leg)) = rs.map (fun r => (r.comment, r.leg)) := by
  induction rs generalizing b with
  | nil => rfl
  | cons r rs ih => simp [renumber, ih]

theorem setIdAt_getElem? (ws : List GpWaypt) (i k : Nat) (s : CString) (h : k ≠ i) :
    (setIdAt ws i s)[k]? = ws[k]? := by
  induction ws generalizing i k with
  | nil => rfl
  | cons w ws ih =>
    cases i with
    | zero =>
      cases k with
      | zero => exact absurd rfl h
      | succ k => simp [setIdAt]
    | succ i =>
      cases k with
      | zero => simp [setIdAt]
      | succ k =>
        simp only [setIdAt, List.getElem?_cons_succ]
        exact ih i k (fun e => h (by rw [e]))

theorem dedupInner_getElem? (i total fuel j n : Nat) (ws W : List GpWaypt)
    (h : dedupInner i total fuel j n ws = Outcome.ok W) (k : Nat) (hk : k ≠ i) :
    W[k]? = ws[k]? := by
  induction fuel generalizing j n ws with
  | zero => simp [dedupInner] at h
  | succ fuel ih =>
    unfold dedupInner at h
    split at h
    · split at h
      · exact ih _ _ _ h
      · split at h
        · split at h
          · exact Outcome.noConfusion h
          · rw [ih _ _ _ h, setIdAt_getElem? _ _ _ _ hk]
        · exact ih _ _ _ h
    · have := Outcome.ok.inj h
      rw [this]

theorem dedupOuter_getElem? (fuel total : Nat) (is : List Nat) (ws W : List GpWaypt)
    (h : dedupOuter fuel total is ws = Outcome.ok W) (k : Nat) (hk : k ∉ is) :
    W[k]? = ws[k]? := by
  induction is generalizing ws with
  | nil =>
    have := Outcome.ok.inj h
    rw [this]
  | cons i is ih =>
    unfold dedupOuter at h
    split at h
    · rename_i w1 hw1
      rw [ih _ h (fun hm => hk (List.mem_cons_of_mem _ hm)),
        dedupInner_getElem? _ _ _ _ _ _ _ hw1 k
          (fun e => hk (by rw [e]; exact List.mem_cons_self _ _))]
    · exact Outcome.noConfusion h

theorem padWaypts_zero (ws : List GpWaypt) : padWaypts 0 0 ws = ws := by
  induction ws with
  | nil => rfl
  | cons w ws ih =>
    have := ih
    simp only [padWaypts, List.map_cons] at this ⊢
    rw [this]
    simp [padTo]

theorem mergeWaypts_receiver (A B : GpFile) (W : List GpWaypt)
    (h : mergeWaypts A B = Outcome.ok W) :
    ∃ a b, W.take A.waypt.length = padWaypts a b A.waypt := by
  unfold mergeWaypts at h
  split at h
  · refine ⟨maxLen GpWaypt.ID (A.waypt ++ B.waypt), maxLen GpWaypt.symbol (A.waypt ++ B.waypt), ?_⟩
    apply List.ext_getElem?
    intro k
    by_cases hk : k < A.waypt.length
    · rw [List.getElem?_take_of_lt hk,
        dedupOuter_getElem? _ _ _ _ _ h k (by simp [List.mem_range']; omega)]
      simp only [padWaypts, List.map_append]
      rw [List.getElem?_append_left (by simpa using hk)]
    · have h1 : (List.take A.waypt.length W)[k]? = none := by
        apply List.getElem?_eq_none
        simp only [List.length_take]
        omega
      have h2 : (padWaypts (maxLen GpWaypt.ID (A.waypt ++ B.waypt))
          (maxLen GpWaypt.symbol (A.waypt ++ B.waypt)) A.waypt)[k]? = none := by
        apply List.getElem?_eq_none
        simp only [padWaypts, List.length_map]
        omega
      rw [h1, h2]
  · have := Outcome.ok.inj h
    refine ⟨0, 0, ?_⟩
    rw [padWaypts_zero, ← this]
    simp

/-- Claim C37. `gpsSort` returns success for every `qsort` and every file; the
waypoints after the sort are a permutation of those before, so each is there
once with all its fields and the count is the same; the routes are as many,
each with its number, comment and number of legs; the trackpoints, dateFormat,
timeZone and both units are unchanged. -/
theorem gpsSort_frame (q : Qsort) (f : GpFile) :
    ((gpsSort q f).file.waypt).Perm f.waypt ∧
    (gpsSort q f).file.waypt.length = f.waypt.length ∧
    (gpsSort q f).file.route.length = f.route.length ∧
    (gpsSort q f).file.route.map (fun r => (r.number, r.comment, r.leg.length)) =
      f.route.map (fun r => (r.number, r.comment, r.leg.length)) ∧
    (gpsSort q f).file.trkpt = f.trkpt ∧
    (gpsSort q f).file.dateFormat = f.dateFormat ∧
    (gpsSort q f).file.timeZone = f.timeZone ∧
    (gpsSort q f).file.unitHorz = f.unitHorz ∧
    (gpsSort q f).file.unitTime = f.unitTime ∧
    (gpsSort q f).status = EXIT_SUCCESS := by
  refine ⟨?_, ?_, ?_, ?_, rfl, rfl, rfl, rfl, rfl, rfl⟩
  · rw [gpsSort_waypt]
    exact q.perm _ _
  · rw [gpsSort_waypt]
    exact (q.perm _ _).length_eq
  · rw [gpsSort_route]
    simp
  · rw [gpsSort_route]
    simp [Function.comp]

/-- What a run of `gpsMerge` that ends leaves behind: both files, appended. -/
theorem gpsMerge_appends_of_ok (A B C : GpFile) (h : gpsMerge A B = Outcome.ok C) :
    C.waypt.length = A.waypt.length + B.waypt.length ∧
    C.route.length = A.route.length + B.route.length ∧
    C.trkpt.length = A.trkpt.length + B.trkpt.length ∧
    C.route.take A.route.length = A.route ∧
    C.trkpt.take A.trkpt.length = A.trkpt ∧
    (∃ a b, C.waypt.take A.waypt.length = padWaypts a b A.waypt) ∧
    (C.waypt.drop A.waypt.length).map GpWaypt.payload = B.waypt.map GpWaypt.payload ∧
    (C.route.drop A.route.length).map (fun r => (r.comment, r.leg)) =
      B.route.map (fun r => (r.comment, r.leg.map (fun l => l + A.waypt.length))) ∧
    (C.trkpt.drop A.trkpt.length).map (fun t => (t.coord, t.segFlag, t.duration, t.comment)) =
      B.trkpt.map (fun t => (t.coord, t.segFlag, t.duration, t.comment)) ∧
    C.dateFormat = A.dateFormat ∧ C.timeZone = A.timeZone ∧
    C.unitHorz = A.unitHorz ∧ C.unitTime = A.unitTime := by
  obtain ⟨hr, hw, ht, h1, h2, h3, h4⟩ := gpsMerge_ok A B C h
  have hpay := mergeWaypts_payload A B C.waypt hw
  have hR : C.route = A.route ++ renumber (offsetLegs A.waypt.length B.route)
      (bStartBlock A.route (bStartMin (offsetLegs A.waypt.length B.route) 1000)) := by
    rw [hr, mergeRoutes_eq]
  have hT := ht.trans (mergeTrkpts_eq A B)
  refine ⟨mergeWaypts_length A B C.waypt hw, ?_, ?_, ?_, ?_, mergeWaypts_receiver A B C.waypt hw,
    ?_, ?_, ?_, h1, h2, h3, h4⟩
  · rw [hR]
    simp [renumber_length, offsetLegs]
  · rw [hT]
    simp
  · rw [hR]
    simp
  · rw [hT]
    simp
  · have := congrArg (List.drop A.waypt.length) hpay
    rw [← List.map_drop, ← List.map_drop] at this
    rw [this]
    simp
  · rw [hR]
    simp only [List.drop_left, renumber_map]
    simp [offsetLegs, Function.comp]
  · rw [hT]
    simp [Function.comp]

/-- Claim C38. A run of `gpsMerge` ends, unless its duplicate-ID loop writes
to an empty ID (undefined in C). When it ends, the three counts are the sums of
the counts of the two files; the routes and trackpoints of the receiver are an
unchanged prefix of the combined sequences and its waypoints a prefix that
differs only by padding of ID and symbol; the waypoints, routes and
trackpoints of the incoming file follow in their order (the waypoints with
their coordinate, text settings and comment, the routes with their comment and
their legs moved behind the waypoints of the receiver, the trackpoints with
their position, flag, duration and comment); dateFormat, timeZone, unitHorz
and unitTime are those of the receiver. -/
theorem gpsMerge_appends (A B : GpFile) :
    gpsMerge A B = Outcome.fault Fault.emptyID ∨
    ∃ C, gpsMerge A B = Outcome.ok C ∧
      C.waypt.length = A.waypt.length + B.waypt.length ∧
      C.route.length = A.route.length + B.route.length ∧
      C.trkpt.length = A.trkpt.length + B.trkpt.length ∧
      C.route.take A.route.length = A.route ∧
      C.trkpt.take A.trkpt.length = A.trkpt ∧
      (∃ a b, C.waypt.take A.waypt.length = padWaypts a b A.waypt) ∧
      (C.waypt.drop A.waypt.length).map GpWaypt.payload = B.waypt.map GpWaypt.payload ∧
      (C.route.drop A.route.length).map (fun r => (r.comment, r.leg)) =
        B.route.map (fun r => (r.comment, r.leg.map (fun l => l + A.waypt.length))) ∧
      (C.trkpt.drop A.trkpt.length).map
          (fun t => (t.coord, t.segFlag, t.duration, t.comment)) =
        B.trkpt.map (fun t => (t.coord, t.segFlag, t.duration, t.comment)) ∧
      C.dateFormat = A.dateFormat ∧ C.timeZone = A.timeZone ∧
      C.unitHorz = A.unitHorz ∧ C.unitTime = A.unitTime := by
  cases h : gpsMerge A B with
  | ok C => exact Or.inr ⟨C, rfl, gpsMerge_appends_of_ok A B C h⟩
  | fault e =>
    cases e with
    | emptyID => exact Or.inl rfl
    | fuel => exact absurd h (gpsMerge_fuel A B)

/-- Claim C38, on an incoming file with two waypoints, one route and two
trackpoints merged into a receiver with one of each: the run ends with three
waypoints, two routes and three trackpoints. -/
theorem gpsMerge_appends_witness :
    ∃ C, gpsMerge mergeA mergeB = Outcome.ok C ∧
      C.waypt.length = mergeA.waypt.length + mergeB.waypt.length ∧
      C.route.length = mergeA.route.length + mergeB.route.length ∧
      C.trkpt.length = mergeA.trkpt.length + mergeB.trkpt.length :=
  match (gpsMerge_appends mergeA mergeB).resolve_left (by decide!) with
  | ⟨C, hC, h1, h2, h3, _⟩ => ⟨C, hC, h1, h2, h3⟩

/-! ## getGpTracks: accesses before the first track -/

theorem closeLast_ne_nil (U : Nat) (p : GpTrkpt) (NE SW : GpCoord) (tp : List GpTrack)
    (h : tp ≠ []) : ∃ tp1, closeLast U p NE SW tp = some tp1 ∧ tp1 ≠ [] := by
  rcases List.eq_nil_or_concat tp with h0 | ⟨done, o, rfl⟩
  · exact absurd h0 h
  · refine ⟨done ++ [closeTrack U p NE SW o], ?_, by simp⟩
    rw [List.concat_eq_append, closeLast_append]

/-- With a track open and a point before the current one, the loop of
`getGpTracks` stays inside its arrays. -/
theorem tracksLoop_some (U : Nat) (N : Int) (l : List GpTrkpt) (i : Int) (b : GpTrkpt)
    (tp : List GpTrack) (NE SW : GpCoord) (h : tp ≠ []) :
    ∃ res, tracksLoop U N l i (some b) tp NE SW = some res := by
  induction l generalizing i b tp NE SW with
  | nil => exact ⟨tp, rfl⟩
  | cons cur rest ih =>
    unfold tracksLoop
    simp only []
    by_cases hc : (cur.segFlag = true ∧ tp.length > 0) ∨ i = N - 1
    · rw [if_pos hc]
      by_cases hs : cur.segFlag = true
      · rw [if_pos hs]
        obtain ⟨tp1, h1, h2⟩ := closeLast_ne_nil U b
          (if cur.segFlag = false ∨ tp.length = 0 then growBox NE SW cur.coord else (NE, SW)).1
          (if cur.segFlag = false ∨ tp.length = 0 then growBox NE SW cur.coord else (NE, SW)).2
          tp h
        simp only [h1]
        rw [if_pos hs]
        exact ih _ _ _ _ _ (by simp)
      · rw [if_neg hs]
        obtain ⟨tp1, h1, h2⟩ := closeLast_ne_nil U cur
          (if cur.segFlag = false ∨ tp.length = 0 then growBox NE SW cur.coord else (NE, SW)).1
          (if cur.segFlag = false ∨ tp.length = 0 then growBox NE SW cur.coord else (NE, SW)).2
          tp h
        simp only [h1]
        rw [if_neg hs]
        exact ih _ _ _ _ _ h2
    · rw [if_neg hc]
      simp only []
      by_cases hs : cur.segFlag = true
      · rw [if_pos hs]
        exact ih _ _ _ _ _ (by simp)
      · rw [if_neg hs]
        exact ih _ _ _ _ _ h

/-- With no track open, the loop of `getGpTracks` reaches an access at index
`-1` exactly when points remain and none before the last starts a segment. -/
theorem tracksLoop_none_iff (U : Nat) (N : Int) (l : List GpTrkpt) (i : Int)
    (before : Option GpTrkpt) (NE SW : GpCoord) (hN : i + l.length = N) :
    tracksLoop U N l i before [] NE SW = none ↔
      l ≠ [] ∧ ∀ p ∈ l.dropLast, p.segFlag = false := by
  induction l generalizing i before NE SW with
  | nil => simp [tracksLoop]
  | cons cur rest ih =>
    unfold tracksLoop
    simp only []
    by_cases hr : rest = []
    · subst hr
      have hi : i = N - 1 := by
        simp at hN
        omega
      rw [if_pos (Or.inr hi)]
      have hnone : ∀ (a b : GpCoord) (p : GpTrkpt), closeLast U p a b [] = none :=
        fun _ _ _ => rfl
      cases (if cur.segFlag = true then before else some cur) with
      | none => simp
      | some p => simp [hnone]
    · have hi : ¬ ((cur.segFlag = true ∧ ([] : List GpTrack).length > 0) ∨ i = N - 1) := by
        have : 0 < rest.length := List.length_pos.mpr hr
        simp only [List.length_cons, Nat.cast_add, Nat.cast_one] at hN
        simp only [List.length_nil, gt_iff_lt, lt_self_iff_false, and_false, false_or]
        omega
      rw [if_neg hi]
      simp only []
      have hdl : (cur :: rest).dropLast = cur :: rest.dropLast := by
        obtain ⟨a, t, rfl⟩ := List.exists_cons_of_ne_nil hr
        rfl
      by_cases hs : cur.segFlag = true
      · rw [if_pos hs]
        obtain ⟨res, hres⟩ := tracksLoop_some U N rest (i + 1) cur
          ([] ++ [openTrack i cur]) cur.coord cur.coord (by simp)
        rw [hres]
        constructor
        · intro h
          exact Option.noConfusion h
        · intro h
          have := h.2 cur (by rw [hdl]; exact List.mem_cons_self _ _)
          rw [hs] at this
          exact Bool.noConfusion this
      · rw [if_neg hs]
        rw [ih (i + 1) (some cur) _ _ (by simp at hN ⊢; omega), hdl]
        have hsf : cur.segFlag = false := by simpa using hs
        constructor
        · intro h
          refine ⟨by simp, ?_⟩
          intro p hp
          rcases List.mem_cons.mp hp with rfl | hp
          · exact hsf
          · exact h.2 p hp
        · intro h
          exact ⟨hr, fun p hp => h.2 p (List.mem_cons_of_mem _ hp)⟩

/-- Claim C34, evaluated on the code. A single point that is not a segment
start, a single segment start, and two plain points followed by a segment
start: in each case the `end of segment` block runs at the last index with no
track open and writes through track index `-1`; on the segment starts it also
reads trackpoint index `-1`. In general the code stays inside its arrays
exactly when the sequence is empty or a segment starts before its last
point. -/
theorem getGpTracks_index_minus_one :
    getGpTracks (trackFile [tpt false 3 1 200 50 7]) = none ∧
    getGpTracks (trackFile [tpt true 1 2 100 0 0]) = none ∧
    getGpTracks (trackFile [tpt false 3 1 200 50 7, tpt false 4 6 400 60 9,
      tpt true 1 2 500 0 0]) = none ∧
    ∀ f : GpFile, getGpTracks f = none ↔
      f.trkpt ≠ [] ∧ ∀ p ∈ f.trkpt.dropLast, p.segFlag = false := by
  refine ⟨by decide!, by decide!, by decide!, ?_⟩
  intro f
  unfold getGpTracks
  exact tracksLoop_none_iff _ _ _ _ _ _ _ (by simp [GpFile.ntrkpts])

/-! ## The Duration column: a day and more, and text after the seconds -/

theorem fmt02d_two : ∀ v : Nat, v < 60 → fmt02d (v : Int) = [48 + v / 10, 48 + v % 10] := by
  decide

theorem scanD_two (a b : Nat) (ha : a < 10) (hb : b < 10) (rest : CString)
    (hrest : ∀ x r, rest = x :: r → isDigitByte x = false) :
    scanD ([48 + a, 48 + b] ++ rest) = some (((10 * a + b : Nat) : Int), rest) := by
  have hsa : isSpaceByte (48 + a) = false := by
    simp [isSpaceByte]; omega
  have hda : isDigitByte (48 + a) = true := by
    simp [isDigitByte]; omega
  have hdb : isDigitByte (48 + b) = true := by
    simp [isDigitByte]; omega
  have htw : (rest.takeWhile isDigitByte = []) ∧ rest.dropWhile isDigitByte = rest := by
    cases rest with
    | nil => simp
    | cons x r =>
      have := hrest x r rfl
      simp [List.takeWhile, List.dropWhile, this]
  have hdw : List.dropWhile isSpaceByte ((48 + a) :: (48 + b) :: rest) =
      (48 + a) :: (48 + b) :: rest := List.dropWhile_cons_of_neg (by simp [hsa])
  have h1 : ¬ (((48 + a) :: (48 + b) :: rest).head? = some 45 ∨
      ((48 + a) :: (48 + b) :: rest).head? = some 43) := by
    simp; omega
  have h2 : ¬ (((48 + a) :: (48 + b) :: rest).head? = some 45) := fun h => h1 (Or.inl h)
  have htk : List.takeWhile isDigitByte ((48 + a) :: (48 + b) :: rest) = [48 + a, 48 + b] := by
    rw [List.takeWhile_cons_of_pos hda, List.takeWhile_cons_of_pos hdb, htw.1]
  have hdr : List.dropWhile isDigitByte ((48 + a) :: (48 + b) :: rest) = rest := by
    rw [List.dropWhile_cons_of_pos hda, List.dropWhile_cons_of_pos hdb, htw.2]
  unfold scanD
  simp only [List.cons_append, List.nil_append, hdw, if_neg h1, htk, hdr]
  have hne : ¬ (48 + a = 45) := by omega
  have hv : castInt (max (-9223372036854775808)
      (min (10 * (a : Int) + (b : Int)) 9223372036854775807)) = 10 * (a : Int) + (b : Int) := by
    rw [min_eq_left (by omega), max_eq_right (by omega)]
    exact castInt_of_range _ (by omega) (by omega)
  simp [h2, hne, hv]

/-- A duration below one day is written by `writeGpFile` and read back by the
`Duration` branch of `scanGpTrkpt`. -/
theorem scanDuration_writeDuration (d : Int) (h0 : 0 ≤ d) (h1 : d < 86400) :
    scanDuration (writeDuration d) = Except.ok d := by
  obtain ⟨n, rfl⟩ := Int.eq_ofNat_of_zero_le h0
  have hn : n < 86400 := by omega
  have hc : castInt (n : Int) = (n : Int) := by
    unfold castInt
    omega
  have e1 : Int.tmod (Int.tdiv (n : Int) 3600) 60 = ((n / 3600 : Nat) : Int) := by
    rw [Int.tdiv_eq_ediv (by omega) (by omega), Int.tmod_eq_emod (by omega) (by omega)]
    omega
  have e2 : Int.tmod (Int.tdiv (n : Int) 60) 60 = ((n / 60 % 60 : Nat) : Int) := by
    rw [Int.tdiv_eq_ediv (by omega) (by omega), Int.tmod_eq_emod (by omega) (by omega)]
    omega
  have e3 : Int.tmod (n : Int) 60 = ((n % 60 : Nat) : Int) := by
    rw [Int.tmod_eq_emod (by omega) (by omega)]
    omega
  unfold writeDuration
  rw [hc, e1, e2, e3, fmt02d_two _ (by omega), fmt02d_two _ (by omega), fmt02d_two _ (by omega)]
  unfold scanDuration sscanfHMS
  simp only [List.append_assoc]
  rw [scanD_two _ _ (by omega) (Nat.mod_lt _ (by decide)) _ (by
    intro x r h
    simp only [List.singleton_append, List.cons.injEq] at h
    rw [← h.1]
    rfl)]
  simp only [List.singleton_append]
  rw [scanD_two _ _ (by omega) (Nat.mod_lt _ (by decide)) _ (by
    intro x r h
    simp only [List.cons_append, List.cons.injEq] at h
    rw [← h.1]
    rfl)]
  simp only [List.cons_append]
  have := scanD_two (n % 60 / 10) (n % 60 % 10) (by omega) (Nat.mod_lt _ (by decide)) []
    (fun x r h => List.noConfusion h)
  rw [List.append_nil] at this
  rw [this]
  simp only []
  have q : ∀ x : Nat, 10 * (x / 10) + x % 10 = x := fun x => Nat.div_add_mod x 10
  simp only [q]
  have c1 : ¬ (((n / 3600 : Nat) : Int) ≥ 24 ∨ ((n / 3600 : Nat) : Int) < 0) := by omega
  have c2 : ¬ (((n / 60 % 60 : Nat) : Int) ≥ 60 ∨ ((n / 60 % 60 : Nat) : Int) < 0) := by omega
  have c3 : ¬ (((n % 60 : Nat) : Int) ≥ 60 ∨ ((n % 60 : Nat) : Int) < 0) := by omega
  rw [if_neg c1, if_neg c2, if_neg c3]
  have e : ((n / 3600 : Nat) : Int) * 60 * 60 + ((n / 60 % 60 : Nat) : Int) * 60 +
      ((n % 60 : Nat) : Int) = (n : Int) := by
    omega
  rw [e]

/-- Claim C36, evaluated on the code. A duration of one day, 86400 seconds, is
written `24:00:00`, which the `Duration` decoder rejects with the error
`VALUE`; a duration of sixty hours, 216000 seconds, is written `00:00:00` and
decodes to 0. The hours are printed modulo 60 and decoded below 24 only. -/
theorem writeDuration_from_one_day :
    writeDuration 86400 = cstr "24:00:00" ∧
    scanDuration (writeDuration 86400) = Except.error GpError.VALUE ∧
    writeDuration 216000 = cstr "00:00:00" ∧
    scanDuration (writeDuration 216000) = Except.ok 0 := by
  decide

/-- Claim C32, evaluated on the code. The `Duration` field `00:01:00x` is not
three integers separated by colons, yet `sscanf` returns 3 on it and the field
decodes to 60; so does `1:2:3:4`, to 3723. A field of the form `H:M:S` decodes
as the claim says, and 24 hours or a missing third number give the error
`VALUE`. The `seconds` field `90000` decodes to its value and `12x` gives the
error `VALUE`. -/
theorem scanDuration_trailing_text :
    scanDuration (cstr "00:01:00x") = Except.ok 60 ∧
    scanDuration (cstr "1:2:3:4") = Except.ok 3723 ∧
    scanDuration (cstr "01:02:03") = Except.ok 3723 ∧
    scanDuration (cstr "24:00:00") = Except.error GpError.VALUE ∧
    scanDuration (cstr "1:2") = Except.error GpError.VALUE ∧
    (∀ L : Libc, scanGpTrkptLoop L (cstr "%d/%m/%Y") [⟨GpFieldType.DUR, 0⟩] [cstr "00:01:00x"]
        trkptVars0
      = Parse.ok { trkptVars0 with validFields := 1,
                                   tp := { trkptVars0.tp with duration := 60 } }) ∧
    (∀ L : Libc, scanGpTrkptLoop L (cstr "%d/%m/%Y") [⟨GpFieldType.SECONDS, 0⟩] [cstr "90000"]
        trkptVars0
      = Parse.ok { trkptVars0 with validFields := 1,
                                   tp := { trkptVars0.tp with duration := 90000 } }) ∧
    (∀ L : Libc, scanGpTrkptLoop L (cstr "%d/%m/%Y") [⟨GpFieldType.SECONDS, 0⟩] [cstr "12x"]
        trkptVars0
      = Parse.err GpError.VALUE) := by
  refine ⟨by decide, by decide, by decide, by decide, by decide, fun L => rfl, fun L => rfl,
    fun L => rfl⟩

/-! ## The reader: trackpoint lines -/

/-- Claim C33, evaluated on the code. A trackpoint line with the flag `1` and
the comment `0`: `parseGpLine` stores the comment in the field of the flag
column, and `scanGpTrkpt` compares that field with `0`, so the record is taken
for a point that starts no segment: no comment is kept and the line is
refused for its missing fields. With a column after the flag the decoder goes
on to a field that was never written. The comment `x` after the same flag
makes a segment start with that comment. -/
theorem scanGpTrkpt_comment_zero :
    parseGpLine (stripEOL (cstr "T N45.000000 W075.000000 1 0"))
        [⟨GpFieldType.LAT, 0⟩, ⟨GpFieldType.LON, 0⟩, ⟨GpFieldType.SEGFLAG, 1⟩]
      = Parse.ok [cstr "N45.000000", cstr "W075.000000", cstr "0"] ∧
    (∀ L : Libc, scanGpTrkptLoop L (cstr "%d/%m/%Y")
        [⟨GpFieldType.LAT, 0⟩, ⟨GpFieldType.LON, 0⟩, ⟨GpFieldType.SEGFLAG, 1⟩]
        [cstr "N45.000000", cstr "W075.000000", cstr "0"] trkptVars0
      = Parse.ok { trkptVars0 with lat := some (cstr "N45.000000"),
                                   lon := some (cstr "W075.000000"), validFields := 3 }) ∧
    (∀ L : Libc, scanGpTrkpt L (stripEOL (cstr "T N45.000000 W075.000000 1 0"))
        (cstr "F Latitude Longitude S") (cstr "%d/%m/%Y") = Parse.err GpError.FIELD) ∧
    (∀ L : Libc, scanGpTrkpt L (stripEOL (cstr "T N45.000000 W075.000000 1 0"))
        (cstr "F Latitude Longitude S Duration") (cstr "%d/%m/%Y") = Parse.undef) ∧
    (∀ L : Libc, scanGpTrkptLoop L (cstr "%d/%m/%Y")
        [⟨GpFieldType.LAT, 0⟩, ⟨GpFieldType.LON, 0⟩, ⟨GpFieldType.SEGFLAG, 1⟩]
        [cstr "N45.000000", cstr "W075.000000", cstr "x"] trkptVars0
      = Parse.ok { trkptVars0 with lat := some (cstr "N45.000000"),
                                   lon := some (cstr "W075.000000"), validFields := 2,
                                   comment := some (cstr "x"),
                                   tp := { trkptVars0.tp with segFlag := true } }) := by
  refine ⟨by decide, fun L => rfl, fun L => rfl, fun L => rfl, fun L => rfl⟩

theorem scanGpTrkptLoop_count (L : Libc) (dateFormat : CString) (hs : List GpFieldHeader) :
    ∀ (fs : List CString) (v v1 : TrkptVars),
      scanGpTrkptLoop L dateFormat hs fs v = Parse.ok v1 → v1.tp.segFlag = false →
        v1.validFields = v.validFields + countedColumns hs := by
  induction hs with
  | nil =>
    intro fs v v1 h _
    have h2 : Parse.ok v = Parse.ok v1 := h
    rw [← Parse.ok.inj h2]
    simp [countedColumns]
  | cons h0 hs ih =>
    intro fs v v1 h hflag
    obtain ⟨ty, len⟩ := h0
    have hyes : ∀ t, countsAsField t = true →
        countedColumns (⟨t, len⟩ :: hs) = countedColumns hs + 1 := by
      intro t ht
      simp [countedColumns, List.filter_cons, ht]
    have hno : ∀ t, countsAsField t = false →
        countedColumns (⟨t, len⟩ :: hs) = countedColumns hs := by
      intro t ht
      simp [countedColumns, List.filter_cons, ht]
    cases fs with
    | nil =>
      cases ty
      case ALT =>
        have h2 : scanGpTrkptLoop L dateFormat hs [] v = Parse.ok v1 := h
        rw [ih _ _ _ h2 hflag, hno _ (by decide)]
      all_goals first
        | (have h2 : (Parse.undef : Parse TrkptVars) = Parse.ok v1 := h
           exact Parse.noConfusion h2)
        | (have h2 : (Parse.err GpError.FIELD : Parse TrkptVars) = Parse.ok v1 := h
           exact Parse.noConfusion h2)
    | cons f fs1 =>
      cases ty
      case ALT =>
        have h2 : scanGpTrkptLoop L dateFormat hs fs1 v = Parse.ok v1 := h
        rw [ih _ _ _ h2 hflag, hno _ (by decide)]
      case LAT =>
        have h2 : scanGpTrkptLoop L dateFormat hs fs1
            { v with lat := some f, validFields := v.validFields + 1 } = Parse.ok v1 := h
        rw [ih _ _ _ h2 hflag, hyes _ (by decide)]
        simp only [Nat.cast_add, Nat.cast_one]
        omega
      case LON =>
        have h2 : scanGpTrkptLoop L dateFormat hs fs1
            { v with lon := some f, validFields := v.validFields + 1 } = Parse.ok v1 := h
        rw [ih _ _ _ h2 hflag, hyes _ (by decide)]
        simp only [Nat.cast_add, Nat.cast_one]
        omega
      case DATE =>
        have h2 : scanGpTrkptLoop L dateFormat hs fs1
            { v with dateBuf := v.dateBuf ++ f, dateFormBuf := v.dateFormBuf ++ dateFormat,
                     validFields := v.validFields + 1 } = Parse.ok v1 := h
        rw [ih _ _ _ h2 hflag, hyes _ (by decide)]
        simp only [Nat.cast_add, Nat.cast_one]
        omega
      case TIME =>
        have h2 : scanGpTrkptLoop L dateFormat hs fs1
            { v with dateBuf := v.dateBuf ++ f,
                     dateFormBuf := v.dateFormBuf ++ cstr " %H:%M:%S ",
                     validFields := v.validFields + 1 } = Parse.ok v1 := h
        rw [ih _ _ _ h2 hflag, hyes _ (by decide)]
        simp only [Nat.cast_add, Nat.cast_one]
        omega
      case SEGFLAG =>
        have h2 : (if strcmp f (cstr "0") = 0 then
            scanGpTrkptLoop L dateFormat hs fs1
              { v with tp := { v.tp with segFlag := false }, validFields := v.validFields + 1 }
          else Parse.ok { v with comment := some f, tp := { v.tp with segFlag := true } })
            = Parse.ok v1 := h
        split at h2
        · rw [ih _ _ _ h2 hflag, hyes _ (by decide)]
          simp only [Nat.cast_add, Nat.cast_one]
          omega
        · have h3 := Parse.ok.inj h2
          rw [← h3] at hflag
          exact Bool.noConfusion hflag
      case SECONDS =>
        have h2 : (if peek (strtol f).2 ≠ 0 then Parse.err GpError.VALUE
          else
            scanGpTrkptLoop L dateFormat hs fs1
              { v with tp := { v.tp with duration := (strtol f).1 },
                       validFields := v.validFields + 1 }) = Parse.ok v1 := h
        split at h2
        · exact Parse.noConfusion h2
        · rw [ih _ _ _ h2 hflag, hyes _ (by decide)]
          simp only [Nat.cast_add, Nat.cast_one]
          omega
      case DUR =>
        have h2 : (match scanDuration f with
          | Except.error e => Parse.err e
          | Except.ok d =>
            scanGpTrkptLoop L dateFormat hs fs1
              { v with tp := { v.tp with duration := d }, validFields := v.validFields + 1 })
            = Parse.ok v1 := h
        split at h2
        · exact Parse.noConfusion h2
        · rw [ih _ _ _ h2 hflag, hyes _ (by decide)]
          simp only [Nat.cast_add, Nat.cast_one]
          omega
      case DIST =>
        have h2 : (if peek (L.strtod f).2 ≠ 0 then Parse.err GpError.VALUE
          else
            scanGpTrkptLoop L dateFormat hs fs1
              { v with tp := { v.tp with dist := (L.strtod f).1 },
                       validFields := v.validFields + 1 }) = Parse.ok v1 := h
        split at h2
        · exact Parse.noConfusion h2
        · rw [ih _ _ _ h2 hflag, hyes _ (by decide)]
          simp only [Nat.cast_add, Nat.cast_one]
          omega
      case SPEED =>
        have h2 : (if peek (L.strtod f).2 ≠ 0 then Parse.err GpError.VALUE
          else
            scanGpTrkptLoop L dateFormat hs fs1
              { v with tp := { v.tp with speed := (L.strtod f).1 },
                       validFields := v.validFields + 1 }) = Parse.ok v1 := h
        split at h2
        · exact Parse.noConfusion h2
        · rw [ih _ _ _ h2 hflag, hyes _ (by decide)]
          simp only [Nat.cast_add, Nat.cast_one]
          omega
      all_goals
        have h2 : (Parse.err GpError.FIELD : Parse TrkptVars) = Parse.ok v1 := h
        exact Parse.noConfusion h2

/-- Claim C31 fails as stated. The schema `Latitude Longitude Altitude Date
Time S Duration km` has eight recognized columns, the altitude among them; a
line that fills every column and starts no segment leaves the loop of
`scanGpTrkpt` with seven valid fields, the altitude being passed over with
`continue`, and `scanGpTrkpt` returns the error `FIELD`. -/
theorem scanGpTrkpt_altitude_not_counted :
    parseGpFieldDef (cstr "F Latitude Longitude Altitude Date Time S Duration km") =
      Parse.ok [⟨GpFieldType.LAT, 0⟩, ⟨GpFieldType.LON, 0⟩, ⟨GpFieldType.ALT, 0⟩,
        ⟨GpFieldType.DATE, 0⟩, ⟨GpFieldType.TIME, 0⟩, ⟨GpFieldType.SEGFLAG, 1⟩,
        ⟨GpFieldType.DUR, 0⟩, ⟨GpFieldType.DIST, 0⟩] ∧
    parseGpLine
        (stripEOL (cstr "T N45.000000 W075.000000 100 25/12/2009 13:45:00 0 00:01:00 1.5"))
        [⟨GpFieldType.LAT, 0⟩, ⟨GpFieldType.LON, 0⟩, ⟨GpFieldType.ALT, 0⟩,
          ⟨GpFieldType.DATE, 0⟩, ⟨GpFieldType.TIME, 0⟩, ⟨GpFieldType.SEGFLAG, 1⟩,
          ⟨GpFieldType.DUR, 0⟩, ⟨GpFieldType.DIST, 0⟩] =
      Parse.ok [cstr "N45.000000", cstr "W075.000000", cstr "100", cstr "25/12/2009",
        cstr "13:45:00", cstr "0", cstr "00:01:00", cstr "1.5"] ∧
    scanGpTrkptLoop decimalLibc (cstr "%d/%m/%Y")
        [⟨GpFieldType.LAT, 0⟩, ⟨GpFieldType.LON, 0⟩, ⟨GpFieldType.ALT, 0⟩,
          ⟨GpFieldType.DATE, 0⟩, ⟨GpFieldType.TIME, 0⟩, ⟨GpFieldType.SEGFLAG, 1⟩,
          ⟨GpFieldType.DUR, 0⟩, ⟨GpFieldType.DIST, 0⟩]
        [cstr "N45.000000", cstr "W075.000000", cstr "100", cstr "25/12/2009",
          cstr "13:45:00", cstr "0", cstr "00:01:00", cstr "1.5"] trkptVars0 =
      Parse.ok ⟨some (cstr "N45.000000"), some (cstr "W075.000000"), none,
        cstr "25/12/200913:45:00", cstr "%d/%m/%Y %H:%M:%S ", 7,
        ⟨⟨0, 0⟩, 0, false, 60, 3 / 2, 0, none⟩⟩ ∧
    scanGpTrkpt decimalLibc
        (stripEOL (cstr "T N45.000000 W075.000000 100 25/12/2009 13:45:00 0 00:01:00 1.5"))
        (cstr "F Latitude Longitude Altitude Date Time S Duration km") (cstr "%d/%m/%Y") =
      Parse.err GpError.FIELD := by
  refine ⟨by decide, by decide, by decide!, by decide!⟩

/-- Claim C31, amended. When the columns of a trackpoint line decode, the
line decides the flag: for a line that starts no segment `scanGpTrkpt` returns
the error `FIELD` if fewer than 8 columns of the schema count as valid fields,
and does not return it if 8 or more do, where Latitude, Longitude, Date, Time,
SegFlag, Duration, seconds, distance and speed count and Altitude does not;
for a line that starts a segment the count is not tested and `FIELD` is not
returned. -/
theorem scanGpTrkpt_column_count (L : Libc) (buff : Buffer) (fieldDef dateFormat : CString)
    (head : List GpFieldHeader) (fields : List CString) (v : TrkptVars)
    (hhead : parseGpFieldDef fieldDef = Parse.ok head)
    (hfields : parseGpLine buff head = Parse.ok fields)
    (hloop : scanGpTrkptLoop L dateFormat head fields trkptVars0 = Parse.ok v) :
    (v.tp.segFlag = false → countedColumns head < 8 →
      scanGpTrkpt L buff fieldDef dateFormat = Parse.err GpError.FIELD) ∧
    (v.tp.segFlag = false → 8 ≤ countedColumns head →
      scanGpTrkpt L buff fieldDef dateFormat ≠ Parse.err GpError.FIELD) ∧
    (v.tp.segFlag = true →
      scanGpTrkpt L buff fieldDef dateFormat ≠ Parse.err GpError.FIELD) := by
  have hloop1 : scanGpTrkptLoop L dateFormat head fields
      ⟨none, none, none, [], [], 0, ⟨⟨0, 0⟩, 0, false, 0, 0, 0, none⟩⟩ = Parse.ok v := hloop
  have hcount : v.tp.segFlag = false → v.validFields = (countedColumns head : Int) := by
    intro hflag
    have := scanGpTrkptLoop_count L dateFormat head fields trkptVars0 v hloop hflag
    rw [this]
    simp [trkptVars0]
  have hrest : ¬ (v.tp.segFlag = false ∧ v.validFields < 8) →
      scanGpTrkpt L buff fieldDef dateFormat ≠ Parse.err GpError.FIELD := by
    intro hc hF
    unfold scanGpTrkpt at hF
    rw [hhead] at hF
    simp only [] at hF
    rw [hfields] at hF
    simp only [] at hF
    rw [hloop1] at hF
    simp only [] at hF
    rw [if_neg hc] at hF
    split at hF
    · exact GpError.noConfusion (Parse.err.inj hF)
    · exact Parse.noConfusion hF
    · split at hF
      · exact GpError.noConfusion (Parse.err.inj hF)
      · split at hF
        · exact GpError.noConfusion (Parse.err.inj hF)
        · split at hF
          · exact GpError.noConfusion (Parse.err.inj hF)
          · exact Parse.noConfusion hF
  refine ⟨?_, ?_, ?_⟩
  · intro hflag hlt
    have hc : v.tp.segFlag = false ∧ v.validFields < 8 := by
      refine ⟨hflag, ?_⟩
      rw [hcount hflag]
      omega
    unfold scanGpTrkpt
    rw [hhead]
    simp only []
    rw [hfields]
    simp only []
    rw [hloop1]
    simp only []
    rw [if_pos hc]
  · intro hflag hge
    apply hrest
    intro hc
    have := hc.2
    rw [hcount hflag] at this
    omega
  · intro hflag
    apply hrest
    intro hc
    rw [hflag] at hc
    exact Bool.noConfusion hc.1

/-- Claim C31, amended, on the schema `Latitude Longitude Date Time S Duration
km km/h` and a line that starts no segment: eight columns count and the error
`FIELD` is not returned; on the schema `Latitude Longitude S` and a line that
starts a segment the count is not tested. -/
theorem scanGpTrkpt_column_count_witness :
    countedColumns [⟨GpFieldType.LAT, 0⟩, ⟨GpFieldType.LON, 0⟩, ⟨GpFieldType.DATE, 0⟩,
      ⟨GpFieldType.TIME, 0⟩, ⟨GpFieldType.SEGFLAG, 1⟩, ⟨GpFieldType.DUR, 0⟩,
      ⟨GpFieldType.DIST, 0⟩, ⟨GpFieldType.SPEED, 0⟩] = 8 ∧
    scanGpTrkpt decimalLibc
        (stripEOL (cstr "T N45.000000 W075.000000 25/12/2009 13:45:00 0 00:01:00 1.5 90"))
        (cstr "F Latitude Longitude Date Time S Duration km km/h") (cstr "%d/%m/%Y") ≠
      Parse.err GpError.FIELD :=
  ⟨by decide,
   (scanGpTrkpt_column_count decimalLibc
      (stripEOL (cstr "T N45.000000 W075.000000 25/12/2009 13:45:00 0 00:01:00 1.5 90"))
      (cstr "F Latitude Longitude Date Time S Duration km km/h") (cstr "%d/%m/%Y")
      [⟨GpFieldType.LAT, 0⟩, ⟨GpFieldType.LON, 0⟩, ⟨GpFieldType.DATE, 0⟩,
        ⟨GpFieldType.TIME, 0⟩, ⟨GpFieldType.SEGFLAG, 1⟩, ⟨GpFieldType.DUR, 0⟩,
        ⟨GpFieldType.DIST, 0⟩, ⟨GpFieldType.SPEED, 0⟩]
      [cstr "N45.000000", cstr "W075.000000", cstr "25/12/2009", cstr "13:45:00", cstr "0",
        cstr "00:01:00", cstr "1.5", cstr "90"]
      ⟨some (cstr "N45.000000"), some (cstr "W075.000000"), none,
        cstr "25/12/200913:45:00", cstr "%d/%m/%Y %H:%M:%S ", 8,
        ⟨⟨0, 0⟩, 0, false, 60, 3 / 2, 90, none⟩⟩
      (by decide) (by decide) (by decide!)).2.1 (by decide) (by decide)⟩

/-! ## The reader: the length of the waypoint IDs -/

theorem parseGpFieldDefLoop_ok (ps : List CString) :
    ∀ head0 head : List GpFieldHeader, parseGpFieldDefLoop ps head0 = Parse.ok head →
      head = head0 ++ ps.map fieldHeader := by
  induction ps with
  | nil =>
    intro head0 head h
    have := Parse.ok.inj h
    simp [this]
  | cons p ps ih =>
    intro head0 head h
    unfold parseGpFieldDefLoop at h
    split at h
    · rw [ih _ _ h]
      simp
    · split at h
      · exact Parse.noConfusion h
      · rw [ih _ _ h]
        simp

theorem fmtField_length (len : Nat) (s : CString) : (fmtField len s).length = len := by
  unfold fmtField
  simp only [List.length_append, List.length_replicate, List.length_take]
  omega

theorem idWidths_nil (hs : List GpFieldHeader) : idWidths hs [] := by
  cases hs <;> simp [idWidths]

theorem parseGpLineLoop_widths (buf : Buffer) (hs : List GpFieldHeader) :
    ∀ (pos : Nat) (results fields : List CString),
      parseGpLineLoop buf hs pos results = Parse.ok fields →
        ∃ fs, fields = results ++ fs ∧ idWidths hs fs := by
  induction hs with
  | nil =>
    intro pos results fields h
    unfold parseGpLineLoop at h
    split at h
    · exact Parse.noConfusion h
    · exact ⟨[], by simp [Parse.ok.inj h], trivial⟩
  | cons h0 hs ih =>
    intro pos results fields h
    unfold parseGpLineLoop at h
    split at h
    · exact Parse.noConfusion h
    · simp only [] at h
      split at h
      · rename_i hseg
        split at h
        · exact Parse.noConfusion h
        · split at h
          · refine ⟨[strAt buf (pos + strspn (strAt buf pos) SPACE + 2)], (Parse.ok.inj h).symm, ?_⟩
            exact ⟨fun hne => absurd hseg hne, idWidths_nil hs⟩
          · split at h
            · obtain ⟨fs, hfs, hw⟩ := ih _ _ _ h
              refine ⟨fmtField 1 (strAt buf (pos + strspn (strAt buf pos) SPACE)) :: fs,
                by rw [hfs]; simp, ?_⟩
              exact ⟨fun hne => absurd hseg hne, hw⟩
            · exact Parse.noConfusion h
      · rename_i hseg
        obtain ⟨fs, hfs, hw⟩ := ih _ _ _ h
        refine ⟨fmtField
            (if h0.len = 0 then strcspn (strAt buf (pos + strspn (strAt buf pos) SPACE)) SPACE
            else if h0.len = -1 then List.length (strAt buf (pos + strspn (strAt buf pos) SPACE))
            else h0.len.toNat)
            (strAt buf (pos + strspn (strAt buf pos) SPACE)) :: fs, by rw [hfs]; simp, ?_⟩
        refine ⟨fun _ hpos => ?_, hw⟩
        rw [fmtField_length]
        have h1 : ¬ (h0.len = 0) := by omega
        have h2 : ¬ (h0.len = -1) := by omega
        rw [if_neg h1, if_neg h2]
        omega

theorem scanGpWayptLoop_id (hs : List GpFieldHeader) :
    ∀ (fs : List CString) (v v1 : WayptVars), scanGpWayptLoop hs fs v = Parse.ok v1 →
      idWidths hs fs → ∀ id, v1.id = some id →
        v.id = some id ∨
        ∃ h ∈ hs, h.type = GpFieldType.ID ∧ (0 < h.len → (id.length : Int) = h.len) := by
  induction hs with
  | nil =>
    intro fs v v1 h _ id hid
    have h2 : Parse.ok v = Parse.ok v1 := h
    rw [Parse.ok.inj h2]
    exact Or.inl hid
  | cons h0 hs ih =>
    intro fs v v1 h hw id hid
    have lift : ∀ w : WayptVars, w.id = v.id →
        (w.id = some id ∨
          ∃ h ∈ hs, h.type = GpFieldType.ID ∧ (0 < h.len → (id.length : Int) = h.len)) →
        (v.id = some id ∨
          ∃ h ∈ h0 :: hs, h.type = GpFieldType.ID ∧ (0 < h.len → (id.length : Int) = h.len)) := by
      intro w hwv hor
      rcases hor with h1 | ⟨g, hg, hg1, hg2⟩
      · exact Or.inl (hwv ▸ h1)
      · exact Or.inr ⟨g, List.mem_cons_of_mem _ hg, hg1, hg2⟩
    obtain ⟨ty, len⟩ := h0
    cases fs with
    | nil =>
      cases ty
      case ALT => exact lift v rfl (ih _ _ _ h (idWidths_nil hs) id hid)
      all_goals first
        | (have h2 : (Parse.undef : Parse WayptVars) = Parse.ok v1 := h
           exact Parse.noConfusion h2)
        | (have h2 : (Parse.err GpError.FIELD : Parse WayptVars) = Parse.ok v1 := h
           exact Parse.noConfusion h2)
    | cons f fs1 =>
      have hw1 : idWidths hs fs1 := hw.2
      cases ty
      case ID =>
        have h2 : scanGpWayptLoop hs fs1 { v with id := some f } = Parse.ok v1 := h
        rcases ih _ _ _ h2 hw1 id hid with h1 | ⟨g, hg, hg1, hg2⟩
        · right
          refine ⟨⟨GpFieldType.ID, len⟩, List.mem_cons_self _ _, rfl, fun hpos => ?_⟩
          have hf : f = id := by
            simpa using h1
          rw [← hf]
          exact hw.1 (fun hc => GpFieldType.noConfusion hc) hpos
        · exact Or.inr ⟨g, List.mem_cons_of_mem _ hg, hg1, hg2⟩
      case ALT => exact lift v rfl (ih _ _ _ h hw1 id hid)
      case LAT =>
        have h2 : scanGpWayptLoop hs fs1 { v with lat := some f } = Parse.ok v1 := h
        exact lift _ rfl (ih _ _ _ h2 hw1 id hid)
      case LON =>
        have h2 : scanGpWayptLoop hs fs1 { v with lon := some f } = Parse.ok v1 := h
        exact lift _ rfl (ih _ _ _ h2 hw1 id hid)
      case SYM =>
        have h2 : scanGpWayptLoop hs fs1 { v with symbol := some f } = Parse.ok v1 := h
        exact lift _ rfl (ih _ _ _ h2 hw1 id hid)
      case COMMENT =>
        have h2 : scanGpWayptLoop hs fs1 { v with comment := some f } = Parse.ok v1 := h
        exact lift _ rfl (ih _ _ _ h2 hw1 id hid)
      case TXCHO =>
        have h2 : (if chrset (peek f) (cstr "-IC&+^") = true then
            scanGpWayptLoop hs fs1 { v with textChoice := peek f }
          else Parse.err GpError.VALUE) = Parse.ok v1 := h
        split at h2
        · exact lift _ rfl (ih _ _ _ h2 hw1 id hid)
        · exact Parse.noConfusion h2
      case TXPLA =>
        have h2 : (match textPlaceNames.findIdx? (fun name => decide (strcmp name f = 0)) with
          | none => Parse.err GpError.VALUE
          | some j => scanGpWayptLoop hs fs1 { v with textPlace := (j : Int) }) = Parse.ok v1 := h
        split at h2
        · exact Parse.noConfusion h2
        · exact lift _ rfl (ih _ _ _ h2 hw1 id hid)
      all_goals
        have h2 : (Parse.err GpError.FIELD : Parse WayptVars) = Parse.ok v1 := h
        exact Parse.noConfusion h2

theorem strbeg_ic_length (p q : CString) (h : strbeg_ic p q = true) : q.length ≤ p.length := by
  unfold strbeg_ic at h
  split at h
  · exact Bool.noConfusion h
  · omega

theorem ite_type_ne (c : Prop) [Decidable c] (a b : GpFieldHeader)
    (ha : a.type ≠ GpFieldType.ID) (hb : b.type ≠ GpFieldType.ID) :
    (if c then a else b).type ≠ GpFieldType.ID := by
  split <;> assumption

theorem fieldHeader_ID (p : CString) (h : (fieldHeader p).type = GpFieldType.ID) :
    strbeg_ic p (cstr "ID") = true ∧ (fieldHeader p).len = p.length := by
  unfold fieldHeader at h ⊢
  by_cases h1 : strbeg_ic p (cstr "ID") = true
  · rw [if_pos h1]
    exact ⟨h1, rfl⟩
  · rw [if_neg h1] at h
    refine absurd h ?_
    repeat' (first | exact (fun hc => GpFieldType.noConfusion hc) | apply ite_type_ne)

/-- The ID of a waypoint that `scanGpWaypt` returns has the length of a token
of the F line that begins with `ID`, two characters at least. -/
theorem scanGpWaypt_id (L : Libc) (buff : Buffer) (fieldDef : CString) (w : GpWaypt)
    (h : scanGpWaypt L buff fieldDef = Parse.ok w) :
    ∃ tok ∈ (strtokAll SPACE fieldDef []).tail,
      strbeg_ic tok (cstr "ID") = true ∧ w.ID.length = tok.length ∧ 2 ≤ w.ID.length := by
  unfold scanGpWaypt at h
  split at h
  · exact Parse.noConfusion h
  · split at h
    · exact Parse.noConfusion h
    · exact Parse.noConfusion h
    · rename_i head hhead
      split at h
      · exact Parse.noConfusion h
      · exact Parse.noConfusion h
      · rename_i fields hfields
        split at h
        · exact Parse.noConfusion h
        · exact Parse.noConfusion h
        · rename_i v hv
          split at h
          · rename_i id lat lon hid hlat hlon
            split at h
            · rename_i coord hcoord
              have hw := Parse.ok.inj h
              have hhead1 := parseGpFieldDefLoop_ok _ _ _ hhead
              rw [List.nil_append] at hhead1
              obtain ⟨fs, hfs, hwid⟩ := parseGpLineLoop_widths buff head 1 [] fields hfields
              rw [List.nil_append] at hfs
              subst hfs
              rcases scanGpWayptLoop_id head fields _ v hv hwid id hid with h0 | ⟨g, hg, hg1, hg2⟩
              · exact Option.noConfusion h0
              · rw [hhead1] at hg
                obtain ⟨tok, htok, rfl⟩ := List.mem_map.mp hg
                obtain ⟨hbeg, hlen⟩ := fieldHeader_ID tok hg1
                have h2 : 2 ≤ tok.length := strbeg_ic_length tok (cstr "ID") hbeg
                have hidlen : (id.length : Int) = (tok.length : Int) := by
                  rw [← hlen]
                  exact hg2 (by rw [hlen]; omega)
                have hID : w.ID = id := by rw [← hw]
                refine ⟨tok, htok, hbeg, ?_, ?_⟩
                · rw [hID]
                  omega
                · rw [hID]
                  omega
            · exact Parse.noConfusion h
            · exact Parse.noConfusion h
          · exact Parse.noConfusion h

/-- Every waypoint of the state of `readGpFile` has an ID of two characters
at least. -/
theorem readLines_ids (L : Libc) (lines : List CString) (st st1 : ReadState)
    (hst : ∀ w ∈ st.file.waypt, 2 ≤ w.ID.length) (h : readLines L lines st = some st1) :
    ∀ w ∈ st1.file.waypt, 2 ≤ w.ID.length := by
  refine readLines_induct L (fun s => ∀ w ∈ s.file.waypt, 2 ≤ w.ID.length) ?_ lines st st1 hst h
  intro s s1 line hs hline
  rcases readLine_cases L s s1 line hline with ⟨_, rfl⟩ | ⟨_, hrec⟩
  · exact hs
  · rcases readRecord_next L s s1 _ _ _ hrec with ⟨hw, _⟩ | ⟨_, _, _, _, hw, _⟩ |
      ⟨_, _, wp, hwp, hw, _⟩ | ⟨_, _, _, _, hw, _⟩
    · rw [hw]; exact hs
    · rw [hw]; exact hs
    · rw [hw]
      intro w hmem
      rcases List.mem_append.mp hmem with hm | hm
      · exact hs w hm
      · rw [List.mem_singleton.mp hm]
        obtain ⟨_, _, _, _, h2⟩ := scanGpWaypt_id L _ _ wp hwp
        exact h2
    · rw [hw]; exact hs

/-! ## gpsMerge: an ID left empty -/

theorem reach_skip (i total j n : Nat) (ws : List GpWaypt) (r : Outcome (List GpWaypt))
    (hj : j < total) (hno : i = j ∨ strcmp (idAt ws i) (idAt ws j) ≠ 0)
    (h : ∃ f0, dedupInner i total f0 (j + 1) n ws = r) :
    ∃ f0, dedupInner i total f0 j n ws = r := by
  obtain ⟨f0, hf0⟩ := h
  refine ⟨f0 + 1, ?_⟩
  rw [dedupInner]
  by_cases hij : i = j
  · simp [hj, hij] at hf0 ⊢
    exact hf0
  · have hs : strcmp (idAt ws i) (idAt ws j) ≠ 0 := hno.resolve_left hij
    simp [hj, hij, hs, hf0]

theorem reach_hit (i total j n : Nat) (ws : List GpWaypt) (r : Outcome (List GpWaypt))
    (s : CString) (hj : j < total) (hij : i ≠ j) (hs : strcmp (idAt ws i) (idAt ws j) = 0)
    (hput : putLast (idAt ws i) n = some s)
    (h : ∃ f0, dedupInner i total f0 1 ((n + 1) % 256) (setIdAt ws i s) = r) :
    ∃ f0, dedupInner i total f0 j n ws = r := by
  obtain ⟨f0, hf0⟩ := h
  refine ⟨f0 + 1, ?_⟩
  rw [dedupInner]
  simp [hj, hij, hs, hput, hf0]

theorem reach_fault (i total j n : Nat) (ws : List GpWaypt) (hj : j < total) (hij : i ≠ j)
    (hs : strcmp (idAt ws i) (idAt ws j) = 0) (hput : putLast (idAt ws i) n = none) :
    ∃ f0, dedupInner i total f0 j n ws = Outcome.fault Fault.emptyID := by
  refine ⟨1, ?_⟩
  rw [dedupInner]
  simp [hj, hij, hs, hput]

theorem reach_scan (i total n : Nat) (ws : List GpWaypt) (r : Outcome (List GpWaypt))
    (gap j : Nat) (hend : j + gap ≤ total)
    (hno : ∀ k, j ≤ k → k < j + gap → (i = k ∨ strcmp (idAt ws i) (idAt ws k) ≠ 0))
    (h : ∃ f0, dedupInner i total f0 (j + gap) n ws = r) :
    ∃ f0, dedupInner i total f0 j n ws = r := by
  induction gap generalizing j with
  | zero => exact h
  | succ g ih =>
    apply reach_skip i total j n ws r (by omega) (hno j (le_refl _) (by omega))
    apply ih (j + 1) (by omega)
    · intro k hk1 hk2
      exact hno k (by omega) (by omega)
    · have : j + 1 + g = j + (g + 1) := by omega
      rw [this]
      exact h

/-- A run that ends, well or at the write to an empty ID, with some fuel ends
the same way with the budget `fuel`, provided the budget covers the measure of
the loop. -/
theorem dedupInner_reach (i total fuel j n : Nat) (ws : List GpWaypt)
    (r : Outcome (List GpWaypt)) (hr : r ≠ Outcome.fault Fault.fuel) (hn : n < 256)
    (hfuel : ((idAt ws i).length * 256 + (256 - n) % 256) * (total + 1) + (total - j) + 1
      ≤ fuel)
    (h : ∃ f0, dedupInner i total f0 j n ws = r) :
    dedupInner i total fuel j n ws = r := by
  obtain ⟨f0, hf0⟩ := h
  by_cases hle : f0 ≤ fuel
  · have := dedupInner_mono i total f0 (fuel - f0) j n ws _ hf0 hr
    rwa [Nat.add_sub_cancel' hle] at this
  · have hne := dedupInner_fuel i total fuel j n ws hn hfuel
    have := dedupInner_mono i total fuel (f0 - fuel) j n ws _ rfl hne
    rw [Nat.add_sub_cancel' (by omega), hf0] at this
    exact this.symm

theorem idAt_middle (P Q : List GpWaypt) (c : CString) :
    idAt (P ++ wpt c :: Q) P.length = c := by
  have := idAt_append_right P (wpt c :: Q) 0
  rw [Nat.add_zero] at this
  rw [this]
  rfl

theorem idAt_after (P Q : List GpWaypt) (c : CString) (k : Nat) :
    idAt (P ++ wpt c :: Q) (P.length + 1 + k) = idAt Q k := by
  have := idAt_append_right P (wpt c :: Q) (k + 1)
  rw [show P.length + 1 + k = P.length + (k + 1) by omega, this]
  rfl

theorem setIdAt_middle (P Q : List GpWaypt) (c s : CString) :
    setIdAt (P ++ wpt c :: Q) P.length s = P ++ wpt s :: Q := by
  have := setIdAt_append_right P (wpt c :: Q) 0 s
  rw [Nat.add_zero] at this
  rw [this]
  rfl

/-- The scan from `j0` meets the first equal ID at `q`, before the current
waypoint, and rewrites the ID `c` of the current waypoint to `s`. -/
theorem reach_partner (P Q : List GpWaypt) (c s : CString) (n j0 q : Nat)
    (r : Outcome (List GpWaypt)) (hq : q < P.length) (hj0 : j0 ≤ q)
    (hno : ∀ k, j0 ≤ k → k < q → strcmp c (idAt P k) ≠ 0)
    (hhit : strcmp c (idAt P q) = 0) (hput : putLast c n = some s)
    (h : ∃ f0, dedupInner P.length (P.length + 1 + Q.length) f0 1 ((n + 1) % 256)
      (P ++ wpt s :: Q) = r) :
    ∃ f0, dedupInner P.length (P.length + 1 + Q.length) f0 j0 n (P ++ wpt c :: Q) = r := by
  obtain ⟨g, rfl⟩ : ∃ g, q = j0 + g := ⟨q - j0, by omega⟩
  apply reach_scan _ _ _ _ _ g j0 (by omega)
  · intro k hk1 hk2
    right
    rw [idAt_middle, idAt_append_left _ _ _ (by omega)]
    exact hno k hk1 hk2
  · apply reach_hit _ _ _ _ _ _ s (by omega) (by omega)
    · rw [idAt_middle, idAt_append_left _ _ _ hq]
      exact hhit
    · rw [idAt_middle]
      exact hput
    · rw [setIdAt_middle]
      exact h

/-- The scan from `j0` meets the first equal ID at `q` while the ID of the
current waypoint is empty. -/
theorem reach_partner_fault (P Q : List GpWaypt) (c : CString) (n j0 q : Nat)
    (hq : q < P.length) (hj0 : j0 ≤ q)
    (hno : ∀ k, j0 ≤ k → k < q → strcmp c (idAt P k) ≠ 0)
    (hhit : strcmp c (idAt P q) = 0) (hput : putLast c n = none) :
    ∃ f0, dedupInner P.length (P.length + 1 + Q.length) f0 j0 n (P ++ wpt c :: Q) =
      Outcome.fault Fault.emptyID := by
  obtain ⟨g, rfl⟩ : ∃ g, q = j0 + g := ⟨q - j0, by omega⟩
  apply reach_scan _ _ _ _ _ g j0 (by omega)
  · intro k hk1 hk2
    right
    rw [idAt_middle, idAt_append_left _ _ _ (by omega)]
    exact hno k hk1 hk2
  · apply reach_fault _ _ _ _ _ (by omega) (by omega)
    · rw [idAt_middle, idAt_append_left _ _ _ hq]
      exact hhit
    · rw [idAt_middle]
      exact hput

/-- The scan from `j0` meets no equal ID and the loop ends. -/
theorem reach_end (P Q : List GpWaypt) (c : CString) (n j0 : Nat) (hj0 : j0 ≤ P.length)
    (hnoP : ∀ k, j0 ≤ k → k < P.length → strcmp c (idAt P k) ≠ 0)
    (hnoQ : ∀ k, k < Q.length → strcmp c (idAt Q k) ≠ 0) :
    ∃ f0, dedupInner P.length (P.length + 1 + Q.length) f0 j0 n (P ++ wpt c :: Q) =
      Outcome.ok (P ++ wpt c :: Q) := by
  obtain ⟨g, hg⟩ : ∃ g, P.length + 1 + Q.length = j0 + g :=
    ⟨P.length + 1 + Q.length - j0, by omega⟩
  apply reach_scan _ _ _ _ _ g j0 (by omega)
  · intro k hk1 hk2
    by_cases h1 : k < P.length
    · right
      rw [idAt_middle, idAt_append_left _ _ _ h1]
      exact hnoP k hk1 h1
    · by_cases h2 : k = P.length
      · exact Or.inl h2.symm
      · right
        obtain ⟨w, rfl⟩ : ∃ w, k = P.length + 1 + w := ⟨k - P.length - 1, by omega⟩
        rw [idAt_middle, idAt_after]
        exact hnoQ w (by omega)
  · refine ⟨1, ?_⟩
    rw [dedupInner]
    simp [← hg]

theorem strcmp_ne_of_ne (s t : CString) (hs : nulFree s) (ht : nulFree t) (h : s ≠ t) :
    strcmp s t ≠ 0 := fun h0 => h (strcmp_eq_zero s t hs ht h0)

theorem stageID_nulFree (t : Nat) : nulFree (stageID t) := by
  intro b hb
  unfold stageID at hb
  split_ifs at hb <;> simp at hb <;> omega

theorem finalID_nulFree (k : Nat) : nulFree (finalID k) := by
  intro b hb
  unfold finalID at hb
  split_ifs at hb <;> simp at hb <;> omega

theorem stageID_length (t : Nat) : (stageID t).length ≤ 1 := by
  unfold stageID
  split_ifs <;> simp

theorem finalID_partnerOf (t : Nat) (ht : t ≤ 256) : finalID (partnerOf t) = stageID t := by
  unfold finalID partnerOf stageID
  split_ifs <;> first | rfl | omega | (congr 1; omega)

theorem finalID_before_partner (t u : Nat) (ht : t ≤ 256) (hu : u < partnerOf t) :
    finalID u ≠ stageID t := by
  unfold partnerOf at hu
  unfold finalID stageID
  split_ifs at hu ⊢ <;> simp <;> omega

theorem partnerOf_lt (k t : Nat) (hk : k ≤ 256) (ht : t < stopStage k) : partnerOf t < k := by
  unfold stopStage at ht
  unfold partnerOf
  split_ifs at ht ⊢ <;> omega

theorem finalID_eq_stage (k : Nat) (hk : k ≤ 255) : finalID k = stageID (stopStage k) := by
  unfold finalID stageID stopStage
  split_ifs <;> first | rfl | omega | (congr 1; omega)

theorem finalID_ne_stop (k u : Nat) (hk : k ≤ 255) (hu : u < k) :
    finalID u ≠ stageID (stopStage k) := by
  unfold finalID stageID stopStage
  split_ifs <;> simp <;> omega

theorem putLast_stageID (t : Nat) (ht : t ≤ 255) :
    putLast (stageID t) ((t + 1) % 256) = some (stageID (t + 1)) := by
  unfold putLast stageID
  by_cases h0 : t = 0
  · subst h0
    rfl
  · by_cases h255 : t = 255
    · subst h255
      rfl
    · have h1 : (t + 1) % 256 = t + 1 := Nat.mod_eq_of_lt (by omega)
      rw [h1]
      simp [h0]
      split_ifs <;> (try simp) <;> omega

theorem idAt_getElem (ws : List GpWaypt) (u : Nat) (h : u < ws.length) :
    idAt ws u = (ws.get ⟨u, h⟩).ID := by
  induction ws generalizing u with
  | nil => simp at h
  | cons w ws ih =>
    cases u with
    | zero => rfl
    | succ u =>
      simp only [idAt]
      exact ih u (by simpa using h)

theorem dupFinals_length (k : Nat) : (dupFinals k).length = k := by
  simp [dupFinals]

theorem dupP_length (k : Nat) : (rcv209 ++ dupFinals k).length = 209 + k := by
  rw [List.length_append, rcv209_length, dupFinals_length]

theorem idAt_dupP_zero (k : Nat) : idAt (rcv209 ++ dupFinals k) 0 = [33, 33] := rfl

theorem idAt_dupP_rcv (k j : Nat) (h1 : 1 ≤ j) (h2 : j ≤ 208) :
    idAt (rcv209 ++ dupFinals k) j = [65, 47 + j] := by
  rw [idAt_append_left _ _ _ (by rw [rcv209_length]; omega)]
  obtain ⟨m, rfl⟩ : ∃ m, j = m + 1 := ⟨j - 1, by omega⟩
  simp only [rcv209, idAt]
  rw [idAt_range 48 208 m (by omega)]
  congr 2
  omega

theorem idAt_dupP_final (k u : Nat) (hu : u < k) :
    idAt (rcv209 ++ dupFinals k) (209 + u) = finalID u := by
  have := idAt_append_right rcv209 (dupFinals k) u
  rw [rcv209_length] at this
  rw [this, idAt_getElem _ _ (by rw [dupFinals_length]; exact hu)]
  simp [dupFinals, wpt]

theorem idAt_dupQ (m w : Nat) (hw : w < m) :
    idAt (List.replicate m (wpt [65, 48])) w = [65, 48] := by
  rw [idAt_getElem _ _ (by simpa using hw)]
  simp [wpt]

theorem dupTotal (k : Nat) (hk : k ≤ 256) :
    (rcv209 ++ dupFinals k).length + 1 + (List.replicate (256 - k) (wpt [65, 48])).length
      = 466 := by
  rw [dupP_length, List.length_replicate]
  omega

theorem dup_partner (k : Nat) (hk : k ≤ 256) (c s : CString) (n j0 q : Nat)
    (r : Outcome (List GpWaypt)) (hq : q < 209 + k) (hj0 : j0 ≤ q)
    (hno : ∀ j, j0 ≤ j → j < q → strcmp c (idAt (rcv209 ++ dupFinals k) j) ≠ 0)
    (hhit : strcmp c (idAt (rcv209 ++ dupFinals k) q) = 0) (hput : putLast c n = some s)
    (h : ∃ f0, dedupInner (209 + k) 466 f0 1 ((n + 1) % 256) (dupState k s) = r) :
    ∃ f0, dedupInner (209 + k) 466 f0 j0 n (dupState k c) = r := by
  have key := reach_partner (rcv209 ++ dupFinals k) (List.replicate (256 - k) (wpt [65, 48]))
    c s n j0 q r (by rw [dupP_length]; exact hq) hj0 hno hhit hput
  rw [dupTotal k hk, dupP_length] at key
  exact key h

theorem dup_partner_fault (k : Nat) (hk : k ≤ 256) (c : CString) (n j0 q : Nat)
    (hq : q < 209 + k) (hj0 : j0 ≤ q)
    (hno : ∀ j, j0 ≤ j → j < q → strcmp c (idAt (rcv209 ++ dupFinals k) j) ≠ 0)
    (hhit : strcmp c (idAt (rcv209 ++ dupFinals k) q) = 0) (hput : putLast c n = none) :
    ∃ f0, dedupInner (209 + k) 466 f0 j0 n (dupState k c) = Outcome.fault Fault.emptyID := by
  have key := reach_partner_fault (rcv209 ++ dupFinals k)
    (List.replicate (256 - k) (wpt [65, 48])) c n j0 q (by rw [dupP_length]; exact hq) hj0
    hno hhit hput
  rw [dupTotal k hk, dupP_length] at key
  exact key

theorem dup_end (k : Nat) (hk : k ≤ 256) (c : CString) (n j0 : Nat) (hj0 : j0 ≤ 209 + k)
    (hnoP : ∀ j, j0 ≤ j → j < 209 + k → strcmp c (idAt (rcv209 ++ dupFinals k) j) ≠ 0)
    (hnoQ : strcmp c [65, 48] ≠ 0) :
    ∃ f0, dedupInner (209 + k) 466 f0 j0 n (dupState k c) = Outcome.ok (dupState k c) := by
  have key := reach_end (rcv209 ++ dupFinals k) (List.replicate (256 - k) (wpt [65, 48]))
    c n j0 (by rw [dupP_length]; exact hj0)
    (by rw [dupP_length]; exact hnoP)
    (by
      intro w hw
      rw [idAt_dupQ _ _ (by simpa using hw)]
      exact hnoQ)
  rw [dupTotal k hk, dupP_length] at key
  exact key

/-- The first stage of the example for the `k`-th appended waypoint, from the
ID `A` followed by byte `255 - m` on: each ID collides with the next ID of the
receiver, the counter reaches 0 after byte 255 and the NUL it writes leaves
the ID `A`. -/
theorem dup_stage1 (k : Nat) (hk : k ≤ 256) (r : Outcome (List GpWaypt))
    (h : ∃ f0, dedupInner (209 + k) 466 f0 1 1 (dupState k (stageID 0)) = r) (m : Nat)
    (hm : m ≤ 207) :
    ∃ f0, dedupInner (209 + k) 466 f0 1 ((256 - m) % 256) (dupState k [65, 255 - m]) = r := by
  induction m with
  | zero =>
    apply dup_partner k hk _ [65] _ 1 208 r (by omega) (by omega)
    · intro j hj1 hj2
      rw [idAt_dupP_rcv k j hj1 (by omega)]
      exact strcmp_A_ne _ _ (by omega)
    · rw [idAt_dupP_rcv k 208 (by omega) (by omega)]
      exact strcmp_self _
    · rfl
    · exact h
  | succ m ih =>
    have ih := ih (by omega)
    apply dup_partner k hk _ [65, 255 - m] _ 1 (207 - m) r (by omega) (by omega)
    · intro j hj1 hj2
      rw [idAt_dupP_rcv k j hj1 (by omega)]
      exact strcmp_A_ne _ _ (by omega)
    · rw [idAt_dupP_rcv k (207 - m) (by omega) (by omega)]
      have : 47 + (207 - m) = 255 - (m + 1) := by omega
      rw [this]
      exact strcmp_self _
    · have h1 : (256 - (m + 1)) % 256 = 255 - m := by omega
      have h2 : ¬ (255 - m = 0) := by omega
      rw [h1]
      simp [putLast, h2]
    · have h1 : ((256 - (m + 1)) % 256 + 1) % 256 = (256 - m) % 256 := by omega
      rw [h1]
      exact ih

/-- The start of the inner loop of the example: the ID `A0` of the appended
waypoint equals the second ID of the receiver and is rewritten to itself. -/
theorem dup_start (k : Nat) (hk : k ≤ 256) (r : Outcome (List GpWaypt))
    (h : ∃ f0, dedupInner (209 + k) 466 f0 1 1 (dupState k (stageID 0)) = r) :
    ∃ f0, dedupInner (209 + k) 466 f0 0 48 (dupState k [65, 48]) = r := by
  apply dup_partner k hk _ [65, 48] _ 0 1 r (by omega) (by omega)
  · intro j _ hj2
    have : j = 0 := by omega
    subst this
    rw [idAt_dupP_zero]
    decide
  · rw [idAt_dupP_rcv k 1 (by omega) (by omega)]
    exact strcmp_self _
  · rfl
  · exact dup_stage1 k hk r h 207 (le_refl _)

theorem strcmp_stage_rcv (t j : Nat) (h1 : 1 ≤ j) :
    strcmp (stageID t) [65, 47 + j] ≠ 0 := by
  apply strcmp_ne_of_ne _ _ (stageID_nulFree t)
  · intro b hb
    simp at hb
    omega
  · intro h
    have := congrArg List.length h
    have := stageID_length t
    simp at *
    omega

/-- The second stage of the example for the `k`-th appended waypoint: the
one-character ID `stageID t` equals the final ID of an earlier appended
waypoint and is rewritten to `stageID (t + 1)`. -/
theorem dup_stage2 (k : Nat) (hk : k ≤ 256) (r : Outcome (List GpWaypt))
    (h : ∃ f0, dedupInner (209 + k) 466 f0 1 ((stopStage k + 1) % 256)
      (dupState k (stageID (stopStage k))) = r) (d : Nat) (hd : d ≤ stopStage k) :
    ∃ f0, dedupInner (209 + k) 466 f0 1 ((stopStage k - d + 1) % 256)
      (dupState k (stageID (stopStage k - d))) = r := by
  have hstop : stopStage k ≤ 256 := by
    unfold stopStage
    split_ifs <;> omega
  induction d with
  | zero => exact h
  | succ d ih =>
    have ih := ih (by omega)
    have ht : stopStage k - (d + 1) < stopStage k := by omega
    have hp := partnerOf_lt k _ hk ht
    apply dup_partner k hk _ (stageID (stopStage k - (d + 1) + 1)) _ 1
      (209 + partnerOf (stopStage k - (d + 1))) r (by omega) (by omega)
    · intro j hj1 hj2
      by_cases hj : j ≤ 208
      · rw [idAt_dupP_rcv k j hj1 hj]
        exact strcmp_stage_rcv _ j hj1
      · obtain ⟨u, rfl⟩ : ∃ u, j = 209 + u := ⟨j - 209, by omega⟩
        rw [idAt_dupP_final k u (by omega)]
        exact strcmp_ne_of_ne _ _ (stageID_nulFree _) (finalID_nulFree _)
          (fun e => finalID_before_partner _ u (by omega) (by omega) e.symm)
    · rw [idAt_dupP_final k _ hp, finalID_partnerOf _ (by omega)]
      exact strcmp_self _
    · exact putLast_stageID _ (by omega)
    · have e1 : stopStage k - (d + 1) + 1 = stopStage k - d := by omega
      have e2 : ((stopStage k - d) % 256 + 1) % 256 = (stopStage k - d + 1) % 256 := by
        omega
      rw [e1, e2]
      exact ih

/-- The inner loop of the example for the `k`-th appended waypoint ends as the
scan of its last one-character ID does. -/
theorem dup_inner (k : Nat) (hk : k ≤ 256) (r : Outcome (List GpWaypt))
    (h : ∃ f0, dedupInner (209 + k) 466 f0 1 ((stopStage k + 1) % 256)
      (dupState k (stageID (stopStage k))) = r) :
    ∃ f0, dedupInner (209 + k) 466 f0 0 48 (dupState k [65, 48]) = r := by
  apply dup_start k hk r
  have := dup_stage2 k hk r h (stopStage k) (le_refl _)
  rw [Nat.sub_self] at this
  exact this

theorem idAt_dup_self (k : Nat) (c : CString) : idAt (dupState k c) (209 + k) = c := by
  have := idAt_middle (rcv209 ++ dupFinals k) (List.replicate (256 - k) (wpt [65, 48])) c
  rw [dupP_length] at this
  exact this

theorem dupState_next (k : Nat) (hk : k ≤ 255) :
    dupState k (finalID k) = dupState (k + 1) [65, 48] := by
  have h1 : dupFinals (k + 1) = dupFinals k ++ [wpt (finalID k)] := by
    simp [dupFinals, List.range_succ]
  have h2 : 256 - k = (256 - (k + 1)) + 1 := by omega
  unfold dupState
  rw [h1, h2, List.replicate_succ]
  simp

/-- The inner loop of the example for one of the first 256 appended
waypoints: its ID ends as `finalID k`. -/
theorem dup_ok (k : Nat) (hk : k ≤ 255) :
    ∃ f0, dedupInner (209 + k) 466 f0 0 48 (dupState k [65, 48])
      = Outcome.ok (dupState (k + 1) [65, 48]) := by
  rw [← dupState_next k hk, finalID_eq_stage k hk]
  apply dup_inner k (by omega)
  apply dup_end k (by omega) _ _ 1 (by omega)
  · intro j hj1 hj2
    by_cases hj : j ≤ 208
    · rw [idAt_dupP_rcv k j hj1 hj]
      exact strcmp_stage_rcv _ j hj1
    · obtain ⟨u, rfl⟩ : ∃ u, j = 209 + u := ⟨j - 209, by omega⟩
      rw [idAt_dupP_final k u (by omega)]
      exact strcmp_ne_of_ne _ _ (stageID_nulFree _) (finalID_nulFree _)
        (fun e => finalID_ne_stop k u hk (by omega) e.symm)
  · exact strcmp_stage_rcv _ 1 (le_refl _)

/-- The inner loop of the example for the last appended waypoint: its ID
becomes empty and equals the empty ID of the waypoint before it. -/
theorem dup_fault :
    ∃ f0, dedupInner (209 + 256) 466 f0 0 48 (dupState 256 [65, 48])
      = Outcome.fault Fault.emptyID := by
  apply dup_inner 256 (le_refl _)
  have hs : stopStage 256 = 256 := by decide
  rw [hs]
  apply dup_partner_fault 256 (le_refl _) _ _ 1 (209 + 255) (by omega) (by omega)
  · intro j hj1 hj2
    by_cases hj : j ≤ 208
    · rw [idAt_dupP_rcv 256 j hj1 hj]
      exact strcmp_stage_rcv _ j hj1
    · obtain ⟨u, rfl⟩ : ∃ u, j = 209 + u := ⟨j - 209, by omega⟩
      rw [idAt_dupP_final 256 u (by omega)]
      exact strcmp_ne_of_ne _ _ (stageID_nulFree _) (finalID_nulFree _)
        (fun e => finalID_before_partner 256 u (le_refl _)
          (by have : partnerOf 256 = 255 := by decide
              omega) e.symm)
  · rw [idAt_dupP_final 256 255 (by omega)]
    decide
  · decide

/-- The outer loop of the example from the `k`-th appended waypoint on ends at
the write to an empty ID. -/
theorem dup_outer (d : Nat) : ∀ k, k + d = 256 →
    dedupOuter (dedupFuel 2 466) 466 (List.range' (209 + k) (d + 1)) (dupState k [65, 48])
      = Outcome.fault Fault.emptyID := by
  have hbudget : ∀ k, ((idAt (dupState k [65, 48]) (209 + k)).length * 256 + (256 - 48) % 256)
      * (466 + 1) + (466 - 0) + 1 ≤ dedupFuel 2 466 := by
    intro k
    rw [idAt_dup_self]
    decide
  induction d with
  | zero =>
    intro k hk
    have hk256 : k = 256 := by omega
    subst hk256
    have hrun := dedupInner_reach (209 + 256) 466 (dedupFuel 2 466) 0 48 _ _
      (by decide) (by decide) (hbudget 256) dup_fault
    rw [show List.range' (209 + 256) (0 + 1) = [209 + 256] from rfl, dedupOuter, hrun]
  | succ d ih =>
    intro k hk
    have hrun := dedupInner_reach (209 + k) 466 (dedupFuel 2 466) 0 48 _ _
      (fun hc => Outcome.noConfusion hc) (by decide) (hbudget k) (dup_ok k (by omega))
    rw [List.range'_succ, dedupOuter, hrun]
    simp only []
    have := ih (k + 1) (by omega)
    rw [show 209 + (k + 1) = 209 + k + 1 by omega] at this
    exact this

theorem dupState_zero : dupState 0 [65, 48] = rcv209 ++ inc257 := by
  have h : List.replicate 257 (wpt [65, 48]) = wpt [65, 48] :: List.replicate 256 (wpt [65, 48]) :=
    List.replicate_succ _ 256
  unfold dupState inc257 dupFinals
  rw [h, List.range_zero, List.map_nil, List.append_nil]

theorem dup_fields : ∀ w ∈ rcv209 ++ inc257, w.ID.length = 2 ∧ w.symbol.length = 0 := by
  intro w hw
  simp only [rcv209, inc257, List.cons_append, List.mem_cons, List.mem_append, List.mem_map,
    List.mem_replicate] at hw
  rcases hw with rfl | ⟨b, _, rfl⟩ | ⟨_, rfl⟩
  · exact ⟨rfl, rfl⟩
  · exact ⟨rfl, rfl⟩
  · exact ⟨rfl, rfl⟩

/-- The example in `mergeWaypts`: the duplicate-ID loop reaches the write to
an empty ID. -/
theorem dup_mergeWaypts :
    mergeWaypts (fileOf rcv209 []) (fileOf inc257 []) = Outcome.fault Fault.emptyID := by
  have hne : rcv209 ++ inc257 ≠ [] := by simp [rcv209]
  have hmax : maxLen GpWaypt.ID (rcv209 ++ inc257) = 2 :=
    maxLen_eq _ _ 2 hne (fun w hw => (dup_fields w hw).1)
  have hsym : maxLen GpWaypt.symbol (rcv209 ++ inc257) = 0 :=
    maxLen_eq _ _ 0 hne (fun w hw => (dup_fields w hw).2)
  have hpad : padWaypts 2 0 (rcv209 ++ inc257) = rcv209 ++ inc257 :=
    padWaypts_same 2 0 _ dup_fields
  have hinc : inc257.length = 257 := List.length_replicate _ _
  have hlen : (rcv209 ++ inc257).length = 466 := by
    rw [List.length_append, rcv209_length, hinc]
  have hn : (fileOf inc257 []).nwaypts > 0 := by
    simp [GpFile.nwaypts, fileOf, hinc]
  have hA : (fileOf rcv209 []).waypt = rcv209 := rfl
  have hB : (fileOf inc257 []).waypt = inc257 := rfl
  unfold mergeWaypts
  rw [if_pos hn]
  simp only [hA, hB, hmax, hsym, hpad, hlen, rcv209_length, hinc]
  have := dup_outer 256 0 (by omega)
  rw [dupState_zero] at this
  exact this

theorem gpsMerge_of_fault (A B : GpFile) (e : Fault)
    (h : mergeWaypts A B = Outcome.fault e) : gpsMerge A B = Outcome.fault e := by
  unfold gpsMerge
  rw [h]

/-- Claim C39, evaluated on the code. The receiver holds the 209
two-character IDs of `rcv209`, the incoming file 257 waypoints with the ID
`A0`; every ID is non-empty. Each appended waypoint collides 208 times in a
row, the `char` counter passes 255 and the NUL it writes leaves the ID `A`;
the counter goes on from 1 and the one-character IDs collide with those of the
waypoints appended before. The 256th appended waypoint makes the counter wrap
a second time and its ID is left empty; the 257th reaches the empty ID as
well, collides with it, and the loop writes to `ID[strlen(ID) - 1]` of an
empty ID: there is no final character to rewrite, the write falls outside the
ID and the scan never completes. -/
theorem gpsMerge_rewrites_empty_id :
    (∀ w ∈ rcv209 ++ inc257, w.ID ≠ []) ∧
    gpsMerge (fileOf rcv209 []) (fileOf inc257 []) = Outcome.fault Fault.emptyID := by
  refine ⟨fun w hw h0 => ?_, gpsMerge_of_fault (fileOf rcv209 []) (fileOf inc257 []) _
    dup_mergeWaypts⟩
  have h2 : w.ID.length = 2 := (dup_fields w hw).1
  rw [h0] at h2
  exact Nat.noConfusion h2


/-- Claim C35, evaluated on the code. The first part of the claim holds: a
waypoint that `scanGpWaypt` returns has an ID as long as a token of the F line
in force that begins with `ID`, so every ID of a file that `readGpFile`
returns has two characters at least. Its conclusion fails: the IDs of
`rcv209` and `inc257` all have the length of the token `ID`, as `readGpFile`
yields them under a column named `ID`, and the duplicate-ID loop of `gpsMerge`
shortens two of them to the empty ID and then rewrites the final character of
an empty ID. -/
theorem readGpFile_id_length :
    (∀ (L : Libc) (st st1 : ReadState) (line : CString), peek (line ++ [10]) = 87 →
      st.isRoute = false → readLine L st line = LineResult.next st1 →
        ∃ wp tok, st1.file.waypt = st.file.waypt ++ [wp] ∧
          tok ∈ (strtokAll SPACE st.fieldDef []).tail ∧ strbeg_ic tok (cstr "ID") = true ∧
          wp.ID.length = tok.length ∧ 2 ≤ wp.ID.length) ∧
    (∀ (L : Libc) (D : GpDefaults) (lines : List CString) (s : GpStatus) (f : GpFile),
      readGpFile L D lines = ReadResult.done s (some f) → ∀ w ∈ f.waypt, 2 ≤ w.ID.length) ∧
    (∀ w ∈ rcv209 ++ inc257, w.ID.length = (cstr "ID").length) ∧
    mergeWaypts (fileOf rcv209 []) (fileOf inc257 []) = Outcome.fault Fault.emptyID := by
  refine ⟨?_, ?_, fun w hw => (dup_fields w hw).1, dup_mergeWaypts⟩
  · intro L st st1 line hW hroute hline
    obtain ⟨_, wp, hwp, hw⟩ := (readLine_W L st st1 line hW hline).2 hroute
    obtain ⟨tok, htok, hbeg, hlen, h2⟩ := scanGpWaypt_id L _ _ wp hwp
    exact ⟨wp, tok, hw, htok, hbeg, hlen, h2⟩
  · intro L D lines s f h
    obtain ⟨st1, hst1, hf, _⟩ := readLoop_some L lines 1 (initialState D) s f h
    rw [hf]
    exact readLines_ids L lines (initialState D) st1
      (fun w hw => absurd hw (List.not_mem_nil w)) hst1

end XGps
